import Mathlib

/-!
# pygillstream, c_mrt_parser: a shallow embedding of the MRT / BGP decoder

The definitions below follow `src/c_mrt_parser/file_buffer.c`, `mrt_entry.c`,
`mrt_entry.h`, `file_buffer.h` and `common.h` function by function.

Conventions of the embedding.

* A `u_char*` is a `List Nat`; `buffer + k` is `buffer.drop k`.  A byte read
  is taken modulo 256 and a read past the end of the list gives 0 (the C code
  reads before it checks the length, so such reads happen in the source too).
* C strings (`char[N]` fields) are `List Char`, the text up to the first NUL.
* `uintN_t` values are `Nat`, reduced modulo `2^N` where the C code can wrap.
* A function that returns `0` for failure and `1` for success returns an
  `Option`; the decoded record is the value carried by `some`.
* The fixed arrays `pfxNLRI` and `pfxWithdraw` together with their counters
  `nbNLRI` and `nbWithdraw` are lists: the counter is the length of the list and
  slot `i` of the array is element `i`.
* `while` loops are recursive functions over a fuel argument that is at least
  the number of iterations the C loop can make; `for` loops over a counter.
-/

namespace MrtParser

/-! ## Constants -/

/-- `MAX_NB_PREFIXES` of `mrt_entry.h`. -/
def MAX_NB_PREFIXES : Nat := 2048

/-- `MAX_ATTR` of `mrt_entry.h`. -/
def MAX_ATTR : Nat := 4096

/-- `MAX_SEND_BUFF` of `common.h`. -/
def MAX_SEND_BUFF : Nat := 2048

/-- Modelled from the spec: `bgp_macros.h` is not among the sources; MRT type
code BGP4MP = 16 (spec section 6). -/
def MRT_TYPE_BGP4MP : Nat := 16

/-- Modelled from the spec: `bgp_macros.h` is not among the sources; MRT type
code BGP4MP_ET = 17 (spec section 6). -/
def MRT_TYPE_BGP4MP_ET : Nat := 17

/-- Modelled from the spec: `bgp_macros.h` is not among the sources; MRT type
code TABLE_DUMP_V2 = 13 (spec section 6). -/
def MRT_TYPE_TABLE_DUMP_V2 : Nat := 13

/-- Modelled from the spec: `bgp_macros.h` is not among the sources; BGP4MP
subtype STATE_CHANGE = 0 (spec section 6). -/
def MRT_SUBTYPE_BGP4MP_STATE_CHANGE : Nat := 0

/-- Modelled from the spec: `bgp_macros.h` is not among the sources; BGP4MP
subtype MESSAGE = 1 (spec section 6). -/
def MRT_SUBTYPE_BGP4MP_MESSAGE : Nat := 1

/-- Modelled from the spec: `bgp_macros.h` is not among the sources; BGP4MP
subtype MESSAGE_AS4 = 4 (spec section 6). -/
def MRT_SUBTYPE_BGP4MP_MESSAGE_AS4 : Nat := 4

/-- Modelled from the spec: `bgp_macros.h` is not among the sources; BGP4MP
subtype STATE_CHANGE_AS4 = 5 (spec section 6). -/
def MRT_SUBTYPE_BGP4MP_STATE_CHANGE_AS4 : Nat := 5

/-- Modelled from the spec: `bgp_macros.h` is not among the sources; BGP4MP
subtype MESSAGE_LOCAL = 6 (spec section 6). -/
def MRT_SUBTYPE_BGP4MP_MESSAGE_LOCAL : Nat := 6

/-- Modelled from the spec: `bgp_macros.h` is not among the sources; BGP4MP
subtype MESSAGE_AS4_LOCAL = 7 (spec section 6). -/
def MRT_SUBTYPE_BGP4MP_MESSAGE_AS4_LOCAL : Nat := 7

/-- Modelled from the spec: `bgp_macros.h` is not among the sources;
TABLE_DUMP_V2 subtype PEER_INDEX_TABLE = 1 (spec section 6). -/
def BGP_SUBTYPE_PEER_INDEX_TABLE : Nat := 1

/-- Modelled from the spec: `bgp_macros.h` is not among the sources;
TABLE_DUMP_V2 subtype RIB_IPV4_UNICAST = 2 (spec section 6). -/
def BGP_SUBTYPE_RIB_IPV4_UNICAST : Nat := 2

/-- Modelled from the spec: `bgp_macros.h` is not among the sources;
TABLE_DUMP_V2 subtype RIB_IPV6_UNICAST = 4 (spec section 6). -/
def BGP_SUBTYPE_RIB_IPV6_UNICAST : Nat := 4

/-- Modelled from the spec: `bgp_macros.h` is not among the sources; BGP
message type UPDATE = 2 (spec section 6). -/
def BGP_TYPE_UPDATE : Nat := 2

/-- Modelled from the spec: `bgp_macros.h` is not among the sources; the
synthetic message type that marks a state change.  The spec names it without a
number; no definition below depends on the number chosen here. -/
def BGP_TYPE_STATE_CHANGE : Nat := 5

/-- Modelled from the spec: `bgp_macros.h` is not among the sources; address
family identifier of IPv4 in the BGP4MP peer block (scenario A of the spec
carries `00 01` in front of an IPv4 peer). -/
def BGP_IPV4_AFI : Nat := 1

/-- Modelled from the spec: `bgp_macros.h` is not among the sources; address
family identifier of IPv6 in the BGP4MP peer block (the IANA value, the spec
gives no number). -/
def BGP_IPV6_AFI : Nat := 2

/-- Modelled from the spec: `bgp_macros.h` is not among the sources; attribute
type ORIGIN = 1 (spec section 6). -/
def BGP_UPDATE_ATTR_ORIGIN : Nat := 1

/-- Modelled from the spec: `bgp_macros.h` is not among the sources; attribute
type AS_PATH = 2 (spec section 6). -/
def BGP_UPDATE_ATTR_AS_PATH : Nat := 2

/-- Modelled from the spec: `bgp_macros.h` is not among the sources; attribute
type NEXT_HOP = 3 (spec section 6). -/
def BGP_UPDATE_ATTR_NEXT_HOP : Nat := 3

/-- Modelled from the spec: `bgp_macros.h` is not among the sources; attribute
type COMMUNITIES = 8 (spec section 6). -/
def BGP_UPDATE_NLRI_COMMUNITIES : Nat := 8

/-- Modelled from the spec: `bgp_macros.h` is not among the sources; attribute
type MP_REACH_NLRI = 14 (spec section 6). -/
def BGP_UPDATE_ATTR_NLRI : Nat := 14

/-- Modelled from the spec: `bgp_macros.h` is not among the sources; attribute
type MP_UNREACH_NLRI = 15 (spec section 6). -/
def BGP_UPDATE_NLRI_UNREACH : Nat := 15

/-- Modelled from the spec: `bgp_macros.h` is not among the sources; origin
code IGP = 0 (scenario B of the spec encodes ORIGIN(IGP) as `40 01 01 00`). -/
def BGP_UPDATE_ORIGIN_IGP : Nat := 0

/-- Modelled from the spec: `bgp_macros.h` is not among the sources; origin
code EGP (the RFC 4271 value, the spec gives no number). -/
def BGP_UPDATE_ORIGIN_EGP : Nat := 1

/-- Modelled from the spec: `bgp_macros.h` is not among the sources; origin
code INCOMPLETE (the RFC 4271 value, the spec gives no number). -/
def BGP_UPDATE_ORIGIN_INCOMPLETE : Nat := 2

/-- Modelled from the spec: `bgp_macros.h` is not among the sources; AS_PATH
segment type AS_SET (the RFC 4271 value, the spec gives no number). -/
def BGP_UPDATE_AS_PATH_SET : Nat := 1

/-- Modelled from the spec: `bgp_macros.h` is not among the sources; AS_PATH
segment type AS_SEQUENCE = 2 (scenario B of the spec encodes the sequence
`65000 65001` as `02 02 00 00 FD E8 00 00 FD E9`). -/
def BGP_UPDATE_AS_PATH_SEQ : Nat := 2

/-! ## Byte readers (`file_buffer.c`, lines 35-63) -/

/-- `get_buf_char`: the first byte of the buffer.  A buffer is the list of
the bytes from a position to the end of the memory block; a read at the end of
the list gives 0 here, where the C code reads the memory that follows the
block.  The embedding says what the code does only for reads inside the
list. -/
def get_buf_char (buf : List Nat) : Nat := buf.getD 0 0 % 256

/-- `get_buf_short`: `256 * buf[0] + buf[1]`, stored in a `uint16_t`. -/
def get_buf_short (buf : List Nat) : Nat :=
  (256 * get_buf_char buf + get_buf_char (buf.drop 1)) % 65536

/-- `get_buf_int`: the four first bytes, most significant first, stored in a
`uint32_t`. -/
def get_buf_int (buf : List Nat) : Nat :=
  (256 * 256 * 256 * get_buf_char buf + 256 * 256 * get_buf_char (buf.drop 1)
    + 256 * get_buf_char (buf.drop 2) + get_buf_char (buf.drop 3)) % 4294967296

/-- `get_buf_n`: the `n` first bytes of the buffer, in order. -/
def get_buf_n : List Nat → Nat → List Nat
  | _, 0 => []
  | buf, n + 1 => get_buf_char buf :: get_buf_n (buf.drop 1) n

/-! ## C library functions used by the decoder -/

/-- The address families the decoder passes to `inet_ntop`. -/
inductive AddrFamily where
  | AF_INET
  | AF_INET6
  deriving DecidableEq, Repr

/-- The text `printf` writes for `%u` (and for `%d` on a non-negative value). -/
def fmt_u (n : Nat) : List Char := Nat.toDigits 10 n

/-- The text `printf` writes for `%x`. -/
def fmt_x (n : Nat) : List Char := Nat.toDigits 16 n

/-- `snprintf (dst + off, size, ...)` where the formatted text is `s`: the
buffer keeps its first `off` characters, receives at most `size - 1`
characters of `s` and a terminating NUL; the value returned is the length of
`s`. -/
def snprintf (dst : List Char) (off size : Nat) (s : List Char) : List Char × Nat :=
  (if size = 0 then dst else dst.take off ++ s.take (size - 1), s.length)

/-- libc `inet_ntop (AF_INET, src, ...)`: the dotted quad of the four first
bytes. -/
def inet_ntop4 (src : List Nat) : List Char :=
  fmt_u (get_buf_char src) ++ '.' :: fmt_u (get_buf_char (src.drop 1))
    ++ '.' :: fmt_u (get_buf_char (src.drop 2)) ++ '.' :: fmt_u (get_buf_char (src.drop 3))

/-- The eight 16-bit words of an IPv6 address (`inet_ntop6` of libc). -/
def ntop6_words : List Nat → Nat → List Nat
  | _, 0 => []
  | src, n + 1 => (256 * get_buf_char src + get_buf_char (src.drop 1)) :: ntop6_words (src.drop 2) n

/-- The better of two runs of zero words, each given as (base, length): the
current run replaces the best one only when it is strictly longer. -/
def ntop6_better (best cur : Option (Nat × Nat)) : Option (Nat × Nat) :=
  match cur with
  | none => best
  | some c =>
    match best with
    | none => some c
    | some b => if c.2 > b.2 then some c else some b

/-- The scan of `inet_ntop6` for the longest run of zero words, from word `i`
on. -/
def ntop6_scan : List Nat → Nat → Option (Nat × Nat) → Option (Nat × Nat) → Option (Nat × Nat)
  | [], _, cur, best => ntop6_better best cur
  | w :: ws, i, cur, best =>
    if w = 0 then
      match cur with
      | none => ntop6_scan ws (i + 1) (some (i, 1)) best
      | some c => ntop6_scan ws (i + 1) (some (c.1, c.2 + 1)) best
    else ntop6_scan ws (i + 1) none (ntop6_better best cur)

/-- The run `inet_ntop6` abbreviates as `::`: the longest run of zero words
when it has at least two words. -/
def ntop6_best (words : List Nat) : Option (Nat × Nat) :=
  match ntop6_scan words 0 none none with
  | none => none
  | some b => if b.2 < 2 then none else some b

/-- The formatting loop of `inet_ntop6` over the words `i, i+1, ...` (`n` of
them are left). -/
def ntop6_emit (src words : List Nat) (best : Option (Nat × Nat)) : Nat → Nat → List Char
  | 0, _ => []
  | n + 1, i =>
    match best with
    | some b =>
      if b.1 ≤ i ∧ i < b.1 + b.2 then
        (if i = b.1 then [':'] else []) ++ ntop6_emit src words best n (i + 1)
      else
        (if i ≠ 0 then [':'] else []) ++
          (if i = 6 ∧ b.1 = 0 ∧ (b.2 = 6 ∨ (b.2 = 5 ∧ words.getD 5 0 = 65535)) then
            inet_ntop4 (src.drop 12)
          else fmt_x (words.getD i 0) ++ ntop6_emit src words best n (i + 1))
    | none =>
      (if i ≠ 0 then [':'] else []) ++ fmt_x (words.getD i 0) ++ ntop6_emit src words best n (i + 1)

/-- libc `inet_ntop (AF_INET6, src, ...)`: the sixteen first bytes as
colon-separated lower-case hexadecimal words, the longest run of two or more
zero words written `::`, an IPv4-compatible or IPv4-mapped address ending in a
dotted quad. -/
def inet_ntop6 (src : List Nat) : List Char :=
  let words := ntop6_words src 8
  let best := ntop6_best words
  ntop6_emit src words best 8 0 ++
    (match best with
     | some b => if b.1 + b.2 = 8 then [':'] else []
     | none => [])

/-- libc `inet_ntop`.  It returns NULL for an unsupported family or a
destination that is too small; the decoder only passes `AF_INET` or `AF_INET6`
and a destination of 52 or 64 bytes, which holds every address text, so the
call always succeeds. -/
def inet_ntop (af : AddrFamily) (src : List Nat) : Option (List Char) :=
  match af with
  | AddrFamily.AF_INET => some (inet_ntop4 src)
  | AddrFamily.AF_INET6 => some (inet_ntop6 src)

/-! ## `process_prefix` (`file_buffer.c`, lines 67-97) -/

/-- `process_prefix`: `none` is the return value -1; `some (text, n)` is the
return value `n` with `text` written to `string`. -/
def process_prefix (buffer : List Nat) (afi : AddrFamily) : Option (List Char × Nat) :=
  let pfxLen := get_buf_char buffer
  if pfxLen > 128 then none
  else
    let nbBytesPfx := (pfxLen + 7) / 8
    let peer_ip := get_buf_n (buffer.drop 1) nbBytesPfx ++ List.replicate (16 - nbBytesPfx) 0
    match inet_ntop afi peer_ip with
    | none => none
    | some tmp_str =>
      some ((snprintf [] 0 64 (tmp_str ++ '/' :: fmt_u pfxLen)).1, 1 + nbBytesPfx)

/-! ## Records (`mrt_entry.h`, `file_buffer.h`) -/

/-- `rib_peer_index_t`: one entry of the peer directory. -/
structure rib_peer_index_t where
  afi : Nat
  idx : Nat
  addr : List Char
  asn : Nat
  deriving DecidableEq, Repr

/-- `MRTentry`.  `pfxNLRI` and `pfxWithdraw` hold the `nbNLRI` and `nbWithdraw`
first slots of the C arrays; `dumper` is passed to the functions that use it and
the `next` / `prev` links are the list a decoder returns beside the record. -/
structure MRTentry where
  entryType : Nat
  entrySubType : Nat
  entryLength : Nat
  bgpType : Nat
  peer_asn : Nat
  afi : Nat
  peerAddr : List Char
  time : Nat
  time_ms : Nat
  pfxWithdraw : List (List Char)
  pfxNLRI : List (List Char)
  nextHop : List Char
  asPath : List Char
  communities : List Char
  origin : List Char
  deriving DecidableEq, Repr

/-- `MRTentry_new` (`mrt_entry.c`, lines 16-21): a record from `calloc`, all
fields zero. -/
def MRTentry_new : MRTentry :=
  { entryType := 0, entrySubType := 0, entryLength := 0, bgpType := 0, peer_asn := 0,
    afi := 0, peerAddr := [], time := 0, time_ms := 0, pfxWithdraw := [], pfxNLRI := [],
    nextHop := [], asPath := [], communities := [], origin := [] }

/-- `MRTentry_copy_for_ribs` (`mrt_entry.c`, lines 24-42): a new record that
takes the header fields and the announced prefixes of `entry`. -/
def MRTentry_copy_for_ribs (entry : MRTentry) : MRTentry :=
  { MRTentry_new with
    time := entry.time, time_ms := entry.time_ms, entryType := entry.entryType,
    entrySubType := entry.entrySubType, entryLength := entry.entryLength,
    pfxNLRI := entry.pfxNLRI }

/-! ## `process_bgp_attributes` (`file_buffer.c`, lines 747-1129) -/

/-- What a piece of a C function body does: it falls through to the next
statement with a new state, or executes `return code` (the record as it is at
that point is kept beside the code). -/
inductive Flow (σ : Type) where
  | next (s : σ)
  | ret (code : Int) (e : MRTentry)

/-- The local variables of `process_bgp_attributes` that live across the
attributes, and the record being filled. -/
structure AttrState where
  actOff : Nat
  actAllAttrLen : Nat
  aspActStrLen : Nat
  comActStrlen : Nat
  entry : MRTentry

/-- Lines 854-865 and 908-919: one ASN of an AS_PATH segment, two bytes wide
for the subtypes BGP4MP_MESSAGE and BGP4MP_MESSAGE_LOCAL and four bytes wide
otherwise.  `none` is `return 0` of `UPDATE_AND_CHECK_LEN`; otherwise the ASN,
the new `actOff` and the new `parsedLen`. -/
def read_asn (buffer : List Nat) (entrySubType allAttrLen actOff parsedLen : Nat) :
    Option (Nat × Nat × Nat) :=
  if entrySubType = MRT_SUBTYPE_BGP4MP_MESSAGE ∨ entrySubType = MRT_SUBTYPE_BGP4MP_MESSAGE_LOCAL then
    if actOff + 2 > allAttrLen then none
    else some (get_buf_short (buffer.drop actOff), actOff + 2, parsedLen + 2)
  else
    if actOff + 4 > allAttrLen then none
    else some (get_buf_int (buffer.drop actOff), actOff + 4, parsedLen + 4)

/-- The statements `ret = snprintf (entry->asPath + aspActStrLen, size, ...);
aspActStrLen += ret;` where the formatted text is `s`. -/
def write_as_path (st : AttrState) (size : Nat) (s : List Char) : AttrState :=
  { st with
    aspActStrLen := st.aspActStrLen + (snprintf st.entry.asPath st.aspActStrLen size s).2,
    entry := { st.entry with asPath := (snprintf st.entry.asPath st.aspActStrLen size s).1 } }

/-- Lines 868-876: the text written for one ASN of an AS_SEQUENCE, without the
space when the ASN ends the attribute. -/
def seq_text (asn parsedLen attrLen : Nat) : List Char :=
  if parsedLen = attrLen then fmt_u asn else fmt_u asn ++ [' ']

/-- Lines 851-888: the `for` loop over the ASNs of an AS_SEQUENCE segment, `n`
iterations left.  The result carries the new `parsedLen`. -/
def as_path_seq (buffer : List Nat) (allAttrLen attrLen : Nat) :
    Nat → Nat → AttrState → Flow (Nat × AttrState)
  | 0, parsedLen, st => Flow.next (parsedLen, st)
  | n + 1, parsedLen, st =>
    match read_asn buffer st.entry.entrySubType allAttrLen st.actOff parsedLen with
    | none => Flow.ret 0 st.entry
    | some (asn, actOff, parsedLen1) =>
      let st1 := write_as_path { st with actOff := actOff } (MAX_ATTR - st.aspActStrLen)
        (seq_text asn parsedLen1 attrLen)
      if st1.aspActStrLen ≥ MAX_SEND_BUFF then Flow.ret 0 st1.entry
      else as_path_seq buffer allAttrLen attrLen n parsedLen1 st1

/-- Lines 906-947: the `for` loop over the ASNs of an AS_SET segment, at index
`i` with `n` iterations left. -/
def as_path_set (buffer : List Nat) (allAttrLen segLen : Nat) :
    Nat → Nat → Nat → AttrState → Flow (Nat × AttrState)
  | 0, _, parsedLen, st => Flow.next (parsedLen, st)
  | n + 1, i, parsedLen, st =>
    match read_asn buffer st.entry.entrySubType allAttrLen st.actOff parsedLen with
    | none => Flow.ret 0 st.entry
    | some (asn, actOff, parsedLen1) =>
      let st1 := write_as_path { st with actOff := actOff } (MAX_SEND_BUFF - st.aspActStrLen)
        (fmt_u asn)
      if st1.aspActStrLen ≥ MAX_SEND_BUFF then Flow.ret 0 st1.entry
      else if i + 1 < segLen then
        let st2 := write_as_path st1 (MAX_SEND_BUFF - st1.aspActStrLen) [',']
        if st2.aspActStrLen ≥ MAX_SEND_BUFF then Flow.ret 0 st2.entry
        else as_path_set buffer allAttrLen segLen n (i + 1) parsedLen1 st2
      else as_path_set buffer allAttrLen segLen n (i + 1) parsedLen1 st1

/-- Lines 833-967: the `while (parsedLen < attrLen)` loop over the segments of
an AS_PATH.  Every iteration adds at least 2 to `parsedLen`, so a fuel of
`attrLen` is never used up. -/
def as_path_loop (buffer : List Nat) (allAttrLen attrLen : Nat) :
    Nat → Nat → AttrState → Flow AttrState
  | 0, parsedLen, st => if parsedLen < attrLen then Flow.ret 0 st.entry else Flow.next st
  | fuel + 1, parsedLen, st =>
    if parsedLen < attrLen then
      let segType := get_buf_char (buffer.drop st.actOff)
      if st.actOff + 1 > allAttrLen then Flow.ret 0 st.entry
      else
        let segLen := get_buf_char (buffer.drop (st.actOff + 1))
        if st.actOff + 1 + 1 > allAttrLen then Flow.ret 0 st.entry
        else
          let st0 := { st with actOff := st.actOff + 1 + 1 }
          if segType = BGP_UPDATE_AS_PATH_SEQ then
            match as_path_seq buffer allAttrLen attrLen segLen (parsedLen + 2) st0 with
            | Flow.ret c e => Flow.ret c e
            | Flow.next (parsedLen1, st1) => as_path_loop buffer allAttrLen attrLen fuel parsedLen1 st1
          else if segType = BGP_UPDATE_AS_PATH_SET then
            let st1 := write_as_path st0 (MAX_ATTR - st0.aspActStrLen) ['{']
            if st1.aspActStrLen ≥ MAX_SEND_BUFF then Flow.ret 0 st1.entry
            else
              match as_path_set buffer allAttrLen segLen segLen 0 (parsedLen + 2) st1 with
              | Flow.ret c e => Flow.ret c e
              | Flow.next (parsedLen1, st2) =>
                let st3 := write_as_path st2 (MAX_SEND_BUFF - st2.aspActStrLen) ['}']
                if st3.aspActStrLen ≥ MAX_SEND_BUFF then Flow.ret 0 st3.entry
                else as_path_loop buffer allAttrLen attrLen fuel parsedLen1 st3
          else as_path_loop buffer allAttrLen attrLen fuel (parsedLen + 2) st0
    else Flow.next st

/-- Lines 985-993: the text written for one community, without the space when
the community ends the attribute. -/
def community_text (asn com parsedLen attrLen : Nat) : List Char :=
  if parsedLen = attrLen then fmt_u asn ++ ':' :: fmt_u com
  else fmt_u asn ++ ':' :: fmt_u com ++ [' ']

/-- Lines 973-1005: the `while (parsedLen < attrLen)` loop over the
communities.  Every iteration adds 4 to `parsedLen`, so a fuel of `attrLen` is
never used up. -/
def communities_loop (buffer : List Nat) (allAttrLen attrLen : Nat) :
    Nat → Nat → AttrState → Flow AttrState
  | 0, parsedLen, st => if parsedLen < attrLen then Flow.ret 0 st.entry else Flow.next st
  | fuel + 1, parsedLen, st =>
    if parsedLen < attrLen then
      let asn := get_buf_short (buffer.drop st.actOff)
      if st.actOff + 2 > allAttrLen then Flow.ret 0 st.entry
      else
        let com := get_buf_short (buffer.drop (st.actOff + 2))
        if st.actOff + 2 + 2 > allAttrLen then Flow.ret 0 st.entry
        else
          let w := snprintf st.entry.communities st.comActStrlen (MAX_ATTR - st.comActStrlen)
            (community_text asn com (parsedLen + 2 + 2) attrLen)
          let st1 := { st with
            actOff := st.actOff + 2 + 2,
            comActStrlen := st.comActStrlen + w.2,
            entry := { st.entry with communities := w.1 } }
          if st1.comActStrlen ≥ MAX_ATTR then Flow.ret (-1) st1.entry
          else communities_loop buffer allAttrLen attrLen fuel (parsedLen + 2 + 2) st1
    else Flow.next st

/-- Lines 1075-1088: the `while (parsedLen < attrLen)` loop over the IPv6
prefixes of MP_REACH_NLRI.  Every iteration adds at least 1 to `parsedLen`, so
a fuel of `attrLen` is never used up.  The C loop writes slot `nbNLRI` of
`pfxNLRI` without comparing `nbNLRI` to `MAX_NB_PREFIXES`: `pfxNLRI` is an
array of `MAX_NB_PREFIXES` texts and a write beyond it lands in the fields
that follow it in the record.  The list of the embedding has no bound, so it
says what the code does only while the list has at most `MAX_NB_PREFIXES`
texts. -/
def mp_reach_loop (buffer : List Nat) (allAttrLen attrLen : Nat) :
    Nat → Nat → AttrState → Flow AttrState
  | 0, parsedLen, st => if parsedLen < attrLen then Flow.ret 0 st.entry else Flow.next st
  | fuel + 1, parsedLen, st =>
    if parsedLen < attrLen then
      match process_prefix (buffer.drop st.actOff) AddrFamily.AF_INET6 with
      | none => Flow.ret 0 st.entry
      | some (text, ret) =>
        if st.actOff + ret > allAttrLen then Flow.ret 0 st.entry
        else
          mp_reach_loop buffer allAttrLen attrLen fuel (parsedLen + ret)
            { st with
              actOff := st.actOff + ret,
              entry := { st.entry with pfxNLRI := st.entry.pfxNLRI ++ [text] } }
    else Flow.next st

/-- Lines 1103-1116: the `while (parsedLen < attrLen)` loop over the IPv6
prefixes of MP_UNREACH_NLRI; as `mp_reach_loop`, on `pfxWithdraw`: the C
loop writes slot `nbWithdraw` of the array `pfxWithdraw` without comparing
`nbWithdraw` to `MAX_NB_PREFIXES`, and the list of the embedding says what the
code does only while it has at most `MAX_NB_PREFIXES` texts. -/
def mp_unreach_loop (buffer : List Nat) (allAttrLen attrLen : Nat) :
    Nat → Nat → AttrState → Flow AttrState
  | 0, parsedLen, st => if parsedLen < attrLen then Flow.ret 0 st.entry else Flow.next st
  | fuel + 1, parsedLen, st =>
    if parsedLen < attrLen then
      match process_prefix (buffer.drop st.actOff) AddrFamily.AF_INET6 with
      | none => Flow.ret 0 st.entry
      | some (text, ret) =>
        if st.actOff + ret > allAttrLen then Flow.ret 0 st.entry
        else
          mp_unreach_loop buffer allAttrLen attrLen fuel (parsedLen + ret)
            { st with
              actOff := st.actOff + ret,
              entry := { st.entry with pfxWithdraw := st.entry.pfxWithdraw ++ [text] } }
    else Flow.next st

/-- Lines 807-822: the text of an origin code. -/
def origin_text (val : Nat) : List Char :=
  if val = BGP_UPDATE_ORIGIN_IGP then "IGP".toList
  else if val = BGP_UPDATE_ORIGIN_EGP then "EGP".toList
  else if val = BGP_UPDATE_ORIGIN_INCOMPLETE then "INCOMPLETE".toList
  else "UNKNOWN".toList

/-- Lines 802-824: the ORIGIN arm of the `switch`. -/
def attr_origin (buffer : List Nat) (allAttrLen attrLen : Nat) (st : AttrState) :
    Flow AttrState :=
  let val := get_buf_char (buffer.drop st.actOff)
  if st.actOff + attrLen > allAttrLen then Flow.ret 0 st.entry
  else
    Flow.next { st with
      actOff := st.actOff + attrLen,
      entry := { st.entry with origin := (snprintf st.entry.origin 0 16 (origin_text val)).1 } }

/-- Lines 1009-1025: the NEXT_HOP arm of the `switch`. -/
def attr_next_hop (buffer : List Nat) (allAttrLen attrLen : Nat) (st : AttrState) :
    Flow AttrState :=
  if attrLen ≠ 4 then Flow.ret 0 st.entry
  else
    match inet_ntop AddrFamily.AF_INET (buffer.drop st.actOff) with
    | none => Flow.ret 0 st.entry
    | some text =>
      if st.actOff + attrLen > allAttrLen then Flow.ret 0 { st.entry with nextHop := text }
      else
        Flow.next { st with
          actOff := st.actOff + attrLen, entry := { st.entry with nextHop := text } }

/-- Lines 1051-1089: MP_REACH_NLRI from the next hop length on; `actOff1` is
the offset of the next hop length.  `inet_ntop` reads the 16 bytes that start
at the next hop position before any length is checked; where fewer than 16
bytes are left in the list the embedding reads 0 for the missing ones, and the
C code the memory that follows the block. -/
def mp_reach_tail (buffer : List Nat) (allAttrLen attrLen : Nat) (isMRTcompressed : Bool)
    (actOff1 : Nat) (st : AttrState) : Flow AttrState :=
  let nextHopLen := get_buf_char (buffer.drop actOff1)
  if actOff1 + 1 > allAttrLen then Flow.ret 0 st.entry
  else
    match inet_ntop AddrFamily.AF_INET6 (buffer.drop (actOff1 + 1)) with
    | none => Flow.ret 0 st.entry
    | some text =>
      if actOff1 + 1 + nextHopLen > allAttrLen then Flow.ret 0 { st.entry with nextHop := text }
      else if isMRTcompressed = true then
        mp_reach_loop buffer allAttrLen attrLen attrLen (1 + nextHopLen)
          { st with actOff := actOff1 + 1 + nextHopLen, entry := { st.entry with nextHop := text } }
      else if actOff1 + 1 + nextHopLen + 1 > allAttrLen then
        Flow.ret 0 { st.entry with nextHop := text }
      else
        mp_reach_loop buffer allAttrLen attrLen attrLen (5 + nextHopLen)
          { st with
            actOff := actOff1 + 1 + nextHopLen + 1, entry := { st.entry with nextHop := text } }

/-- Lines 1028-1089: the MP_REACH_NLRI arm of the `switch`; the attribute is
in the shortened form of MRT when its first byte is not 0. -/
def attr_mp_reach (buffer : List Nat) (allAttrLen attrLen : Nat) (st : AttrState) :
    Flow AttrState :=
  if get_buf_char (buffer.drop st.actOff) ≠ 0 then
    mp_reach_tail buffer allAttrLen attrLen true st.actOff st
  else if st.actOff + 2 > allAttrLen then Flow.ret 0 st.entry
  else if st.actOff + 2 + 1 > allAttrLen then Flow.ret 0 st.entry
  else mp_reach_tail buffer allAttrLen attrLen false (st.actOff + 2 + 1) st

/-- Lines 1092-1118: the MP_UNREACH_NLRI arm of the `switch`. -/
def attr_mp_unreach (buffer : List Nat) (allAttrLen attrLen : Nat) (st : AttrState) :
    Flow AttrState :=
  if st.actOff + 2 > allAttrLen then Flow.ret 0 st.entry
  else if st.actOff + 2 + 1 > allAttrLen then Flow.ret 0 st.entry
  else
    mp_unreach_loop buffer allAttrLen attrLen attrLen 3 { st with actOff := st.actOff + 2 + 1 }

/-- Lines 800-1123: the `switch (attrType)`. -/
def attr_switch (buffer : List Nat) (allAttrLen attrType attrLen : Nat) (st : AttrState) :
    Flow AttrState :=
  if attrType = BGP_UPDATE_ATTR_ORIGIN then attr_origin buffer allAttrLen attrLen st
  else if attrType = BGP_UPDATE_ATTR_AS_PATH then
    as_path_loop buffer allAttrLen attrLen attrLen 0 st
  else if attrType = BGP_UPDATE_NLRI_COMMUNITIES then
    communities_loop buffer allAttrLen attrLen attrLen 0 st
  else if attrType = BGP_UPDATE_ATTR_NEXT_HOP then attr_next_hop buffer allAttrLen attrLen st
  else if attrType = BGP_UPDATE_ATTR_NLRI then attr_mp_reach buffer allAttrLen attrLen st
  else if attrType = BGP_UPDATE_NLRI_UNREACH then attr_mp_unreach buffer allAttrLen attrLen st
  else if st.actOff + attrLen > allAttrLen then Flow.ret 0 st.entry
  else Flow.next { st with actOff := st.actOff + attrLen }

/-- Lines 793-1125: the length check, the `switch` and the update of
`actAllAttrLen` (a `uint16_t`) for an attribute whose header has been read. -/
def attr_value (buffer : List Nat) (allAttrLen attrType attrLen : Nat) (st : AttrState) :
    Flow AttrState :=
  if attrLen > 4096 then Flow.ret 0 st.entry
  else
    match attr_switch buffer allAttrLen attrType attrLen st with
    | Flow.ret c e => Flow.ret c e
    | Flow.next st1 =>
      Flow.next { st1 with actAllAttrLen := (st1.actAllAttrLen + attrLen) % 65536 }

/-- Lines 767-1125: the body of the `while (actAllAttrLen < allAttrLen)` loop,
one attribute: flags, type, a length of two bytes when bit `0x10` of the flags
is set and of one byte otherwise, then the value. -/
def attr_body (buffer : List Nat) (allAttrLen : Nat) (st : AttrState) : Flow AttrState :=
  let attrFlags := get_buf_char (buffer.drop st.actOff)
  if st.actOff + 1 > allAttrLen then Flow.ret 0 st.entry
  else
    let attrType := get_buf_char (buffer.drop (st.actOff + 1))
    if st.actOff + 1 + 1 > allAttrLen then Flow.ret 0 st.entry
    else if attrFlags &&& 16 ≠ 0 then
      if st.actOff + 1 + 1 + 2 > allAttrLen then Flow.ret 0 st.entry
      else
        attr_value buffer allAttrLen attrType (get_buf_short (buffer.drop (st.actOff + 1 + 1)))
          { st with
            actOff := st.actOff + 1 + 1 + 2,
            actAllAttrLen := (((st.actAllAttrLen + 1) % 65536 + 1) % 65536 + 2) % 65536 }
    else
      if st.actOff + 1 + 1 + 1 > allAttrLen then Flow.ret 0 st.entry
      else
        attr_value buffer allAttrLen attrType (get_buf_char (buffer.drop (st.actOff + 1 + 1)))
          { st with
            actOff := st.actOff + 1 + 1 + 1,
            actAllAttrLen := (((st.actAllAttrLen + 1) % 65536 + 1) % 65536 + 1) % 65536 }

/-- Lines 765-1126: the `while (actAllAttrLen < allAttrLen)` loop.  Every
iteration that does not return adds at least 3 to `actOff` and leaves it at
most `allAttrLen`, so a fuel of `allAttrLen` is never used up. -/
def attr_loop (buffer : List Nat) (allAttrLen : Nat) : Nat → AttrState → Flow AttrState
  | 0, st => if st.actAllAttrLen < allAttrLen then Flow.ret 0 st.entry else Flow.next st
  | fuel + 1, st =>
    if st.actAllAttrLen < allAttrLen then
      match attr_body buffer allAttrLen st with
      | Flow.ret c e => Flow.ret c e
      | Flow.next st1 => attr_loop buffer allAttrLen fuel st1
    else Flow.next st

/-- `process_bgp_attributes`: the value returned and the record after the
call. -/
def process_bgp_attributes (buffer : List Nat) (entry : MRTentry) (allAttrLen : Nat) :
    Int × MRTentry :=
  match attr_loop buffer allAttrLen allAttrLen
      { actOff := 0, actAllAttrLen := 0, aspActStrLen := 0, comActStrlen := 0, entry := entry } with
  | Flow.ret c e => (c, e)
  | Flow.next st => ((st.actOff : Int), st.entry)

/-! ## `process_bgp_update` (`file_buffer.c`, lines 425-511) -/

/-- Lines 439-468: the `while (actWithLen < withdrawLen)` loop.  `none` is
`return 0`; otherwise the new `actOff` and the record.  Every iteration that
does not return adds at least 1 to `actOff` and leaves it at most `max_len`, so
a fuel of `max_len` is never used up.  `actWithLen` is a `uint16_t`; the
branch taken once `nbWithdraw` has reached `MAX_NB_PREFIXES` does not change
it. -/
def withdraw_loop (buffer : List Nat) (max_len withdrawLen : Nat) :
    Nat → Nat → Nat → MRTentry → Option (Nat × MRTentry)
  | 0, actOff, actWithLen, entry =>
    if actWithLen < withdrawLen then none else some (actOff, entry)
  | fuel + 1, actOff, actWithLen, entry =>
    if actWithLen < withdrawLen then
      if entry.pfxWithdraw.length ≥ MAX_NB_PREFIXES then
        let parsedLen := get_buf_char (buffer.drop actOff)
        if parsedLen > 128 then none
        else if actOff + ((parsedLen + 7) / 8 + 1) > max_len then none
        else withdraw_loop buffer max_len withdrawLen fuel (actOff + ((parsedLen + 7) / 8 + 1))
          actWithLen entry
      else
        match process_prefix (buffer.drop actOff) AddrFamily.AF_INET with
        | none => none
        | some (text, parsedLen) =>
          if actOff + parsedLen > max_len then none
          else withdraw_loop buffer max_len withdrawLen fuel (actOff + parsedLen)
            ((actWithLen + parsedLen) % 65536)
            { entry with pfxWithdraw := entry.pfxWithdraw ++ [text] }
    else some (actOff, entry)

/-- Lines 483-508: the `while (actOff < max_len)` loop over the IPv4 NLRI.
`none` is `return 0`.  Every iteration adds at least 1 to `actOff`, so a fuel
of `max_len` is never used up. -/
def nlri_loop (buffer : List Nat) (max_len : Nat) : Nat → Nat → MRTentry → Option MRTentry
  | 0, actOff, entry => if actOff < max_len then none else some entry
  | fuel + 1, actOff, entry =>
    if actOff < max_len then
      if entry.pfxNLRI.length ≥ MAX_NB_PREFIXES then
        let parsedLen := get_buf_char (buffer.drop actOff)
        if parsedLen > 128 then none
        else if actOff + ((parsedLen + 7) / 8 + 1) > max_len then none
        else nlri_loop buffer max_len fuel (actOff + ((parsedLen + 7) / 8 + 1)) entry
      else
        match process_prefix (buffer.drop actOff) AddrFamily.AF_INET with
        | none => none
        | some (text, ret) =>
          if actOff + ret > max_len then none
          else nlri_loop buffer max_len fuel (actOff + ret)
            { entry with pfxNLRI := entry.pfxNLRI ++ [text] }
    else some entry

/-- `process_bgp_update`: `none` is the return value 0, `some e` the return
value 1 with the record `e`. -/
def process_bgp_update (buffer : List Nat) (entry : MRTentry) (max_len : Nat) :
    Option MRTentry :=
  let withdrawLen := get_buf_short buffer
  if 0 + 2 > max_len then none
  else
    match withdraw_loop buffer max_len withdrawLen max_len 2 0 entry with
    | none => none
    | some (actOff, entry1) =>
      let allAttrLen := get_buf_short (buffer.drop actOff)
      if actOff + 2 > max_len then none
      else
        let r := process_bgp_attributes (buffer.drop (actOff + 2)) entry1 allAttrLen
        if r.1 ≠ (allAttrLen : Int) then none
        else nlri_loop buffer max_len max_len (actOff + 2 + allAttrLen) r.2

/-! ## `process_classic_message` (`file_buffer.c`, lines 286-422) -/

/-- Lines 299-326: the peer ASN, two or four bytes wide after the subtype, and
the destination ASN skipped.  `none` is `return 0`; otherwise the new `actOff`
and the record. -/
def classic_peer_asn (buffer : List Nat) (entry : MRTentry) (max_len : Nat) :
    Option (Nat × MRTentry) :=
  if entry.entrySubType = MRT_SUBTYPE_BGP4MP_MESSAGE ∨
      entry.entrySubType = MRT_SUBTYPE_BGP4MP_MESSAGE_LOCAL ∨
      entry.entrySubType = MRT_SUBTYPE_BGP4MP_STATE_CHANGE then
    if 0 + 2 > max_len then none
    else if 0 + 2 + 2 > max_len then none
    else some (0 + 2 + 2, { entry with peer_asn := get_buf_short buffer })
  else if entry.entrySubType = MRT_SUBTYPE_BGP4MP_MESSAGE_AS4 ∨
      entry.entrySubType = MRT_SUBTYPE_BGP4MP_MESSAGE_AS4_LOCAL ∨
      entry.entrySubType = MRT_SUBTYPE_BGP4MP_STATE_CHANGE_AS4 then
    if 0 + 4 > max_len then none
    else if 0 + 4 + 4 > max_len then none
    else some (0 + 4 + 4, { entry with peer_asn := get_buf_int buffer })
  else none

/-- Lines 328-369: interface id skipped, AFI read, prefix counters reset, peer
address rendered and destination address skipped.  `none` is `return 0`. -/
def classic_peer_addr (buffer : List Nat) (entry : MRTentry) (max_len actOff : Nat) :
    Option (Nat × MRTentry) :=
  if actOff + 2 > max_len then none
  else
    let afi := get_buf_short (buffer.drop (actOff + 2))
    if actOff + 2 + 2 > max_len then none
    else
      let e := { entry with afi := afi, pfxNLRI := [], pfxWithdraw := [] }
      if afi = BGP_IPV4_AFI then
        let peer_ip := get_buf_n (buffer.drop (actOff + 2 + 2)) 4
        if actOff + 2 + 2 + 4 > max_len then none
        else if actOff + 2 + 2 + 4 + 4 > max_len then none
        else
          match inet_ntop AddrFamily.AF_INET peer_ip with
          | none => none
          | some text => some (actOff + 2 + 2 + 4 + 4, { e with peerAddr := text })
      else if afi = BGP_IPV6_AFI then
        let peer_ip := get_buf_n (buffer.drop (actOff + 2 + 2)) 16
        if actOff + 2 + 2 + 16 > max_len then none
        else if actOff + 2 + 2 + 16 + 16 > max_len then none
        else
          match inet_ntop AddrFamily.AF_INET6 peer_ip with
          | none => none
          | some text => some (actOff + 2 + 2 + 16 + 16, { e with peerAddr := text })
      else none

/-- Lines 371-421: the state change subtypes, and for the message subtypes the
marker, the BGP length, the BGP type and the dispatch to `process_bgp_update`.
`msgSize + actOff - 18` is computed on `int`; `actOff` is at least 18 there.
`msgSize - 19` is at least 0 where `process_bgp_update` is called, since
`msgSize + actOff - 18 = max_len` and `actOff + 1 <= max_len` hold there. -/
def classic_message_body (buffer : List Nat) (entry : MRTentry) (max_len actOff : Nat) :
    Option MRTentry :=
  if entry.entrySubType = MRT_SUBTYPE_BGP4MP_STATE_CHANGE ∨
      entry.entrySubType = MRT_SUBTYPE_BGP4MP_STATE_CHANGE_AS4 then
    if actOff + 2 > max_len then none
    else if actOff + 2 + 2 > max_len then none
    else some { entry with bgpType := BGP_TYPE_STATE_CHANGE }
  else
    let marker := get_buf_n (buffer.drop actOff) 16
    if actOff + 16 > max_len then none
    else if marker ≠ List.replicate 16 255 then none
    else
      let msgSize := get_buf_short (buffer.drop (actOff + 16))
      if actOff + 16 + 2 > max_len then none
      else if msgSize + (actOff + 16 + 2) - 18 ≠ max_len then none
      else
        let msgType := get_buf_char (buffer.drop (actOff + 16 + 2))
        if actOff + 16 + 2 + 1 > max_len then none
        else if msgType = BGP_TYPE_UPDATE then
          process_bgp_update (buffer.drop (actOff + 16 + 2 + 1))
            { entry with bgpType := BGP_TYPE_UPDATE } (msgSize - 19)
        else some { entry with bgpType := msgType }

/-- `process_classic_message`: `none` is the return value 0, `some e` the
return value 1 with the record `e`. -/
def process_classic_message (buffer : List Nat) (entry : MRTentry) (max_len : Nat) :
    Option MRTentry :=
  match classic_peer_asn buffer entry max_len with
  | none => none
  | some (actOff, e1) =>
    match classic_peer_addr buffer e1 max_len actOff with
    | none => none
    | some (actOff1, e2) => classic_message_body buffer e2 max_len actOff1

/-! ## The peer directory and the TABLE_DUMP_V2 decoders
(`file_buffer.c`, lines 515-743) -/

/-- `File_buf_t`.  `f` is what is left to read of the file; `index` is the
array of 256 directory entries, used at indices below 256 only; `actEntry` is
the record returned last together with the records linked after it by `next`.
`actPeerIdx`, `parsed` and `parsed_ok` are C `int`s, taken without overflow. -/
structure File_buf_t where
  f : List Nat
  eof : Nat
  parsed : Nat
  parsed_ok : Nat
  index : Nat → rib_peer_index_t
  actPeerIdx : Nat
  actEntry : Option (MRTentry × List MRTentry)

/-- A directory entry as `calloc` leaves it. -/
def rib_peer_index_zero : rib_peer_index_t := { afi := 0, idx := 0, addr := [], asn := 0 }

/-- `File_buf_create` (lines 100-117) on a file whose content is `bytes`. -/
def File_buf_create (bytes : List Nat) : File_buf_t :=
  { f := bytes, eof := 0, parsed := 0, parsed_ok := 0, index := fun _ => rib_peer_index_zero,
    actPeerIdx := 0, actEntry := none }

/-- The array `index` with slot `i` replaced. -/
def set_index (index : Nat → rib_peer_index_t) (i : Nat) (v : rib_peer_index_t) :
    Nat → rib_peer_index_t :=
  fun j => if j = i then v else index j

/-- The address family of a peer: IPv6 when bit `0x01` of the peer type is
set (lines 574 and 610). -/
def peer_family (peerType : Nat) : AddrFamily :=
  if peerType &&& 1 ≠ 0 then AddrFamily.AF_INET6 else AddrFamily.AF_INET

/-- The number of bytes of a peer address (lines 581, 590, 613, 618). -/
def peer_addr_len (peerType : Nat) : Nat := if peerType &&& 1 ≠ 0 then 16 else 4

/-- The number of bytes of a peer ASN: 4 when bit `0x02` of the peer type is
set (lines 593-604 and 621-630). -/
def peer_asn_len (peerType : Nat) : Nat := if peerType &&& 2 ≠ 0 then 4 else 2

/-- The peer ASN read at the head of `buf` (lines 596 and 602). -/
def peer_asn_value (peerType : Nat) (buf : List Nat) : Nat :=
  if peerType &&& 2 ≠ 0 then get_buf_int buf else get_buf_short buf

/-- Lines 558-632: the `for` loop over the peers of a PEER_INDEX_TABLE, `n`
iterations left.  The boolean is the value returned (`false` for `return 0`);
the directory is given back in both cases, as the C code leaves it. -/
def rib_index_loop (buffer : List Nat) (max_len : Nat) :
    Nat → Nat → File_buf_t → Bool × File_buf_t
  | 0, _, dumper => (true, dumper)
  | n + 1, actOff, dumper =>
    let peerType := get_buf_char (buffer.drop actOff)
    if actOff + 1 > max_len then (false, dumper)
    else if actOff + 1 + 4 > max_len then (false, dumper)
    else
      let peerIdx := dumper.actPeerIdx
      let d1 := { dumper with actPeerIdx := dumper.actPeerIdx + 1 }
      if peerIdx < 256 then
        let d2 := { d1 with
          index := set_index d1.index peerIdx
            { d1.index peerIdx with afi := peerType, idx := peerIdx } }
        match inet_ntop (peer_family peerType) (buffer.drop (actOff + 1 + 4)) with
        | none => (false, d2)
        | some text =>
          let d3 := { d2 with
            index := set_index d2.index peerIdx { d2.index peerIdx with addr := text } }
          if actOff + 1 + 4 + peer_addr_len peerType > max_len then (false, d3)
          else
            let d4 := { d3 with
              index := set_index d3.index peerIdx
                { d3.index peerIdx with
                  asn := peer_asn_value peerType
                    (buffer.drop (actOff + 1 + 4 + peer_addr_len peerType)) } }
            if actOff + 1 + 4 + peer_addr_len peerType + peer_asn_len peerType > max_len then
              (false, d4)
            else
              rib_index_loop buffer max_len n
                (actOff + 1 + 4 + peer_addr_len peerType + peer_asn_len peerType) d4
      else
        if actOff + 1 + 4 + peer_addr_len peerType > max_len then (false, d1)
        else if actOff + 1 + 4 + peer_addr_len peerType + peer_asn_len peerType > max_len then
          (false, d1)
        else
          rib_index_loop buffer max_len n
            (actOff + 1 + 4 + peer_addr_len peerType + peer_asn_len peerType) d1

/-- `process_bgp_rib_index` (lines 536-635).  The boolean is the value
returned; `dumper` is `entry->dumper`. -/
def process_bgp_rib_index (buffer : List Nat) (dumper : File_buf_t) (max_len : Nat) :
    Bool × File_buf_t :=
  if 0 + 4 > max_len then (false, dumper)
  else
    let viewLen := get_buf_short (buffer.drop 4)
    if 4 + 2 > max_len then (false, dumper)
    else if 4 + 2 + viewLen > max_len then (false, dumper)
    else
      let peerCount := get_buf_short (buffer.drop (4 + 2 + viewLen))
      if 4 + 2 + viewLen + 2 > max_len then (false, dumper)
      else rib_index_loop buffer max_len peerCount (4 + 2 + viewLen + 2) dumper

/-- Lines 669-697 and, for a sibling, lines 709-737 of
`process_bgp_rib_entry`: one per-peer entry decoded into the record `e`.
`none` is `return 0`; otherwise the new `actOff` and the record. -/
def rib_peer_entry (buffer : List Nat) (dumper : File_buf_t) (max_len actOff : Nat)
    (e : MRTentry) : Option (Nat × MRTentry) :=
  let peerIdx := get_buf_short (buffer.drop actOff)
  if actOff + 2 > max_len then none
  else if peerIdx ≥ 256 then none
  else
    let e1 := { e with
      peer_asn := (dumper.index peerIdx).asn,
      peerAddr := (dumper.index peerIdx).addr.take 32 }
    if actOff + 2 + 4 > max_len then none
    else
      let attrLen := get_buf_short (buffer.drop (actOff + 2 + 4))
      if actOff + 2 + 4 + 2 > max_len then none
      else
        let r := process_bgp_attributes (buffer.drop (actOff + 2 + 4 + 2)) e1 attrLen
        if r.1 ≠ (attrLen : Int) then none
        else if actOff + 2 + 4 + 2 + attrLen > max_len then none
        else some (actOff + 2 + 4 + 2 + attrLen, r.2)

/-- Lines 702-740: the `for` loop over the per-peer entries after the first,
`n` iterations left; `chain` holds the siblings linked so far, in the order of
the `next` pointers. -/
def rib_sibling_loop (buffer : List Nat) (dumper : File_buf_t) (max_len : Nat)
    (entry : MRTentry) : Nat → Nat → List MRTentry → Option (List MRTentry)
  | 0, _, chain => some chain
  | n + 1, actOff, chain =>
    match rib_peer_entry buffer dumper max_len actOff (MRTentry_copy_for_ribs entry) with
    | none => none
    | some (actOff1, tmpEntry) =>
      rib_sibling_loop buffer dumper max_len entry n actOff1 (chain ++ [tmpEntry])

/-- Lines 649-656: the family of the prefix of a RIB entry. -/
def rib_family (entrySubType : Nat) : AddrFamily :=
  if entrySubType = BGP_SUBTYPE_RIB_IPV4_UNICAST then AddrFamily.AF_INET
  else AddrFamily.AF_INET6

/-- `process_bgp_rib_entry` (lines 637-743).  `none` is the return value 0;
otherwise the record and the siblings linked after it.  `memcpy (peerAddr,
addr, 32)` into a record that comes zeroed from `calloc` leaves the 32 first
characters of the address text. -/
def process_bgp_rib_entry (buffer : List Nat) (dumper : File_buf_t) (entry : MRTentry)
    (max_len : Nat) : Option (MRTentry × List MRTentry) :=
  if 0 + 4 > max_len then none
  else
    match process_prefix (buffer.drop 4) (rib_family entry.entrySubType) with
    | none => none
    | some (text, ret) =>
      let e1 := { entry with pfxNLRI := entry.pfxNLRI ++ [text] }
      if 4 + ret > max_len then none
      else
        let nbEntries := get_buf_short (buffer.drop (4 + ret))
        if 4 + ret + 2 > max_len then none
        else
          match rib_peer_entry buffer dumper max_len (4 + ret + 2) e1 with
          | none => none
          | some (actOff, e2) =>
            match rib_sibling_loop buffer dumper max_len e2 (nbEntries - 1) actOff [] with
            | none => none
            | some chain => some (e2, chain)

/-- `process_bgp_rib` (lines 515-529): the decoded record with its siblings
(`none` for the return value 0) and the file buffer after the call. -/
def process_bgp_rib (buffer : List Nat) (dumper : File_buf_t) (entry : MRTentry)
    (max_len : Nat) : Option (MRTentry × List MRTentry) × File_buf_t :=
  if entry.entrySubType = BGP_SUBTYPE_PEER_INDEX_TABLE then
    let r := process_bgp_rib_index buffer dumper max_len
    (if r.1 then some (entry, []) else none, r.2)
  else if entry.entrySubType = BGP_SUBTYPE_RIB_IPV4_UNICAST ∨
      entry.entrySubType = BGP_SUBTYPE_RIB_IPV6_UNICAST then
    (process_bgp_rib_entry buffer dumper entry max_len, dumper)
  else (none, dumper)

/-! ## `Read_next_mrt_entry` (`file_buffer.c`, lines 137-282) -/

/-- The byte source: `cfr_read_n (f, dst, n)` delivers the `n` next bytes of
the file, fewer when the file ends before; the bytes delivered and the rest of
the file. -/
def cfr_read_n (f : List Nat) (n : Nat) : List Nat × List Nat := (f.take n, f.drop n)

/-- Lines 219-281: the body of a record whose header has been read into
`entry`.  `malloc` is taken to succeed.  `max_len` is an `int`: a length of
`2^31` or more is negative there, and each decoder then returns 0 at its first
length check.  The `default` arm of the `switch` on the type only prints a
message: `ok` keeps the value 1 it has had since the header was read, so a
record of another type is counted in `parsed_ok` and returned as it is after
the header.  The decoders receive the list of the `entryLength` bytes of the
body: a decoder that reads past the body reads 0 here, and in C the heap after
the block that `malloc` returned. -/
def read_record_body (dump : File_buf_t) (entry : MRTentry) : Option MRTentry × File_buf_t :=
  let dump1 := { dump with parsed := dump.parsed + 1 }
  if entry.entryLength = 0 then (none, { dump1 with eof := 1, actEntry := none })
  else
    let r := cfr_read_n dump1.f entry.entryLength
    let dump2 := { dump1 with f := r.2 }
    if r.1.length ≠ entry.entryLength then (none, { dump2 with eof := 1, actEntry := none })
    else
      let ok : Option (MRTentry × List MRTentry) × File_buf_t :=
        if entry.entryType = MRT_TYPE_BGP4MP ∨ entry.entryType = MRT_TYPE_BGP4MP_ET then
          if entry.entryLength ≥ 2147483648 then (none, dump2)
          else
            ((process_classic_message r.1 entry entry.entryLength).map (fun e => (e, [])), dump2)
        else if entry.entryType = MRT_TYPE_TABLE_DUMP_V2 then
          if entry.entryLength ≥ 2147483648 then (none, dump2)
          else process_bgp_rib r.1 dump2 entry entry.entryLength
        else (some (entry, []), dump2)
      match ok.1 with
      | some (e, chain) =>
        (some e, { ok.2 with parsed_ok := ok.2.parsed_ok + 1, actEntry := some (e, chain) })
      | none => (none, { ok.2 with actEntry := none })

/-- `Read_next_mrt_entry`: the record returned (`none` for NULL) and the file
buffer after the call.  The header fields are converted from network byte
order, that is read most significant byte first. -/
def Read_next_mrt_entry (dump : File_buf_t) : Option MRTentry × File_buf_t :=
  match dump.actEntry with
  | some (_, nxt :: rest) => (some nxt, { dump with actEntry := some (nxt, rest) })
  | _ =>
    let r1 := cfr_read_n dump.f 4
    let r2 := cfr_read_n r1.2 2
    let r3 := cfr_read_n r2.2 2
    let r4 := cfr_read_n r3.2 4
    let bytes_read := r1.1.length + r2.1.length + r3.1.length + r4.1.length
    let entry := { MRTentry_new with
      time := get_buf_int r1.1, entryType := get_buf_short r2.1,
      entrySubType := get_buf_short r3.1, entryLength := get_buf_int r4.1 }
    if bytes_read = 12 then
      if entry.entryType = MRT_TYPE_BGP4MP_ET then
        let r5 := cfr_read_n r4.2 4
        if bytes_read + r5.1.length = 16 then
          read_record_body { dump with f := r5.2 }
            { entry with
              time_ms := get_buf_int r5.1,
              entryLength := (entry.entryLength + 4294967296 - 4) % 4294967296 }
        else (none, { dump with f := r5.2, eof := 1, actEntry := none })
      else read_record_body { dump with f := r4.2 } { entry with time_ms := 0 }
    else (none, { dump with f := r4.2, eof := 1, actEntry := none })

/-! ## Predicates used to state the properties -/

/-- The fields of a record that `process_bgp_attributes` never writes. -/
def hdr (e : MRTentry) : Nat × Nat × Nat × Nat × Nat × Nat × List Char × Nat × Nat :=
  (e.entryType, e.entrySubType, e.entryLength, e.bgpType, e.peer_asn, e.afi, e.peerAddr,
    e.time, e.time_ms)

/-- The record `e1` comes from `e` by attribute decoding: same header fields,
prefixes only appended. -/
def keeps (e e1 : MRTentry) : Prop :=
  hdr e1 = hdr e ∧ e.pfxNLRI <+: e1.pfxNLRI ∧ e.pfxWithdraw <+: e1.pfxWithdraw

/-- A property of the state a piece of code falls through with. -/
def Flow.sat {σ : Type} (P : σ → Prop) : Flow σ → Prop
  | Flow.next s => P s
  | Flow.ret _ _ => True

/-! ## Layout of the BGP4MP peer block -/

/-- The number of bytes the two ASNs take at the head of a BGP4MP body: 2
bytes each for the subtypes with 16-bit ASNs, 4 bytes each otherwise. -/
def peer_asns_len (entrySubType : Nat) : Nat :=
  if entrySubType = MRT_SUBTYPE_BGP4MP_MESSAGE ∨
    entrySubType = MRT_SUBTYPE_BGP4MP_MESSAGE_LOCAL ∨
    entrySubType = MRT_SUBTYPE_BGP4MP_STATE_CHANGE then 4 else 8

/-- The length of the peer block at the head of a BGP4MP body, which is the
offset of the BGP marker in a message record: the two ASNs, the interface index
and the address family (2 bytes each) and the two addresses (4 bytes each for
IPv4, 16 bytes each otherwise). -/
def peer_block_len (buffer : List Nat) (entrySubType : Nat) : Nat :=
  peer_asns_len entrySubType + 4 +
    (if get_buf_short (buffer.drop (peer_asns_len entrySubType + 2)) = BGP_IPV4_AFI then 8
     else 32)

/-! ## The peer directory along a stream -/

/-- The directory `r` comes from the directory `d` by decoding: the counter
has not decreased, the entries below the old counter are unchanged, the entries
from the new counter on are unchanged, and every entry in between that lies in
the array has received its address text. -/
def dir_le (d r : File_buf_t) : Prop :=
  d.actPeerIdx ≤ r.actPeerIdx ∧
  (∀ i, i < d.actPeerIdx → r.index i = d.index i) ∧
  (∀ i, r.actPeerIdx ≤ i → r.index i = d.index i) ∧
  (∀ i, d.actPeerIdx ≤ i → i < r.actPeerIdx → i < 256 → (r.index i).addr ≠ [])

/-- The record at the head of the unread part of the file is a
PEER_INDEX_TABLE: its type field (offset 4) is TABLE_DUMP_V2 and its subtype
field (offset 6) is PEER_INDEX_TABLE. -/
def next_is_peer_index (dump : File_buf_t) : Prop :=
  get_buf_short (dump.f.drop 4) = MRT_TYPE_TABLE_DUMP_V2 ∧
  get_buf_short (dump.f.drop 6) = BGP_SUBTYPE_PEER_INDEX_TABLE

/-- The file buffer after `n` calls of `Read_next_mrt_entry`. -/
def read_records : Nat → File_buf_t → File_buf_t
  | 0, dump => dump
  | n + 1, dump => (Read_next_mrt_entry (read_records n dump)).2

/-- The populated entries of the directory (those that hold an address text)
are the entries below `actPeerIdx`, as far as the array goes. -/
def dir_inv (d : File_buf_t) : Prop :=
  ∀ i, i < 256 → ((d.index i).addr ≠ [] ↔ i < d.actPeerIdx)

/-- A PEER_INDEX_TABLE record: the MRT header (time 1, type 13, subtype 1,
length 19) and a table with an empty view name and one peer, of type 0 (IPv4
address, 16-bit ASN), address 10.0.0.2 and ASN 65001. -/
def one_peer_table_record : List Nat :=
  [0, 0, 0, 1, 0, 13, 0, 1, 0, 0, 0, 19,
   192, 0, 2, 1, 0, 0, 0, 1, 0, 10, 0, 0, 2, 10, 0, 0, 2, 0xFD, 0xE9]

/-! ## Layout of a RIB entry body, and sample inputs -/

/-- The number of bytes of the encoded prefix of a RIB entry body: the mask
length byte (offset 4, after the sequence number) and the prefix bytes. -/
def rib_prefix_len (buffer : List Nat) : Nat := 1 + (get_buf_char (buffer.drop 4) + 7) / 8

/-- The `rib_entries_count` field of a RIB entry body, after the prefix. -/
def rib_entries_count (buffer : List Nat) : Nat :=
  get_buf_short (buffer.drop (4 + rib_prefix_len buffer))

/-- Offsets of consecutive per-peer entries, the first one at `start`: each
one is a peer index (2 bytes), a timestamp (4 bytes), an attribute length (2
bytes) and that many bytes of attributes. -/
def entry_offset_from (buffer : List Nat) (start : Nat) : Nat → Nat
  | 0 => start
  | k + 1 => entry_offset_from buffer start k + 2 + 4 + 2
      + get_buf_short (buffer.drop (entry_offset_from buffer start k + 2 + 4))

/-- The offset of the `k`-th per-peer entry of a RIB entry body, counted from
0: the first one follows the entry count. -/
def rib_entry_offset (buffer : List Nat) (k : Nat) : Nat :=
  entry_offset_from buffer (4 + rib_prefix_len buffer + 2) k

/-- The peer index of the `k`-th per-peer entry of a RIB entry body. -/
def rib_peer_index (buffer : List Nat) (k : Nat) : Nat :=
  get_buf_short (buffer.drop (rib_entry_offset buffer k))

/-- Scenario D of the spec, the body of the PEER_INDEX_TABLE: peer 0 is IPv6
with a 32-bit ASN (`::1`, 65000), peer 1 is IPv4 with a 16-bit ASN (10.0.0.2,
65001). -/
def scenario_d_table_body : List Nat :=
  [192, 0, 2, 1, 0, 0, 0, 2,
   3, 10, 0, 0, 1, 0, 0, 0, 0, 0, 0, 0, 0, 0, 0, 0, 0, 0, 0, 0, 1, 0, 0, 0xFD, 0xE8,
   0, 10, 0, 0, 2, 10, 0, 0, 2, 0xFD, 0xE9]

/-- Scenario D of the spec, the body of the RIB_IPV6_UNICAST record: prefix
2001:db8::/32 and two per-peer entries, for peer 0 (with ORIGIN IGP) and for
peer 1 (without attributes). -/
def scenario_d_rib_body : List Nat :=
  [0, 0, 0, 0, 32, 0x20, 0x01, 0x0d, 0xb8, 0, 2,
   0, 0, 0, 0, 0, 0, 0, 4, 0x40, 1, 1, 0,
   0, 1, 0, 0, 0, 0, 0, 0]

/-- The file buffer after the PEER_INDEX_TABLE of scenario D. -/
def scenario_d_dumper : File_buf_t :=
  (process_bgp_rib_index scenario_d_table_body (File_buf_create []) 44).2

/-- The record `Read_next_mrt_entry` passes for the RIB record of scenario D. -/
def scenario_d_entry : MRTentry :=
  { MRTentry_new with entryType := 13, entrySubType := 4, entryLength := 31, time := 1 }

/-- The parent record expected for scenario D. -/
def scenario_d_parent : MRTentry :=
  { scenario_d_entry with
    peer_asn := 65000, peerAddr := "::1".toList, pfxNLRI := ["2001:db8::/32".toList],
    origin := "IGP".toList }

/-- The sibling record expected for scenario D. -/
def scenario_d_sibling : MRTentry :=
  { scenario_d_entry with
    peer_asn := 65001, peerAddr := "10.0.0.2".toList, pfxNLRI := ["2001:db8::/32".toList] }

/-- A file of two records: a PEER_INDEX_TABLE (length 33) that declares one
peer of type 3 (IPv6 address, 32-bit ASN), address
1111:2222:3333:4444:5555:6666:7777:8888 and ASN 65000, and a RIB_IPV6_UNICAST
record (length 19) with the prefix 2001:db8::/32 and one per-peer entry, for
peer index 0, without attributes. -/
def long_address_file : List Nat :=
  [0, 0, 0, 1, 0, 13, 0, 1, 0, 0, 0, 33,
   192, 0, 2, 1, 0, 0, 0, 1,
   3, 10, 0, 0, 1, 0x11, 0x11, 0x22, 0x22, 0x33, 0x33, 0x44, 0x44, 0x55, 0x55, 0x66, 0x66,
   0x77, 0x77, 0x88, 0x88, 0, 0, 0xFD, 0xE8,
   0, 0, 0, 2, 0, 13, 0, 4, 0, 0, 0, 19,
   0, 0, 0, 0, 32, 0x20, 0x01, 0x0d, 0xb8, 0, 1,
   0, 0, 0, 0, 0, 0, 0, 0]

/-! ## Sample BGP4MP bodies -/

/-- Scenario A of the spec, the body of the BGP4MP_MESSAGE_AS4 record: peer
ASN 65000, destination ASN 1, interface 0, IPv4, peer 10.0.0.1, destination
10.0.0.2, marker, BGP length 19, type KEEPALIVE.  The body has 39 bytes. -/
def scenario_a_body : List Nat :=
  [0, 0, 0xFD, 0xE8, 0, 0, 0, 1, 0, 0, 0, 1, 10, 0, 0, 1, 10, 0, 0, 2,
   255, 255, 255, 255, 255, 255, 255, 255, 255, 255, 255, 255, 255, 255, 255, 255,
   0, 19, 4]

/-- The record `Read_next_mrt_entry` passes for scenario A. -/
def scenario_a_entry : MRTentry :=
  { MRTentry_new with entryType := 16, entrySubType := 4, entryLength := 39, time := 1 }

/-- The record expected for scenario A. -/
def scenario_a_record : MRTentry :=
  { scenario_a_entry with
    peer_asn := 65000, afi := 1, peerAddr := "10.0.0.1".toList, bgpType := 4 }

/-- Scenario F of the spec, the body of the BGP4MP_STATE_CHANGE_AS4 record:
the peer block of scenario A, old state 2 and new state 6.  The body has 24
bytes. -/
def scenario_f_body : List Nat :=
  [0, 0, 0xFD, 0xE8, 0, 0, 0, 1, 0, 0, 0, 1, 10, 0, 0, 1, 10, 0, 0, 2, 0, 2, 0, 6]

/-- The record `Read_next_mrt_entry` passes for scenario F. -/
def scenario_f_entry : MRTentry :=
  { MRTentry_new with entryType := 16, entrySubType := 5, entryLength := 24, time := 1 }

/-! ## Wire encodings and texts of attributes -/

/-- The two bytes of a 16-bit value, most significant first. -/
def enc16 (v : Nat) : List Nat := [v / 256, v % 256]

/-- The four bytes of a 32-bit value, most significant first. -/
def enc32 (v : Nat) : List Nat := [v / 16777216, v / 65536 % 256, v / 256 % 256, v % 256]

/-- The header of a path attribute: flags, type and length, the length on two
bytes when bit `0x10` (extended length) of the flags is set and on one byte
otherwise. -/
def attr_header (flags type len : Nat) : List Nat :=
  if flags &&& 16 ≠ 0 then [flags, type] ++ enc16 len else [flags, type, len]

/-- The value of a COMMUNITIES attribute: each community is two 16-bit values. -/
def encode_communities : List (Nat × Nat) → List Nat
  | [] => []
  | p :: rest => enc16 p.1 ++ enc16 p.2 ++ encode_communities rest

/-- The text of a list of communities: `ASN:VALUE` in decimal, joined by single
spaces. -/
def communities_text (pairs : List (Nat × Nat)) : List Char :=
  List.intercalate [' '] (pairs.map fun p => fmt_u p.1 ++ ':' :: fmt_u p.2)

/-- The state after the text `text` has been written to `communities` at the
current end and `actOff` has moved. -/
def communities_written (st : AttrState) (actOff : Nat) (text : List Char) : AttrState :=
  { st with
    actOff := actOff,
    comActStrlen := st.comActStrlen + text.length,
    entry := { st.entry with
      communities := st.entry.communities.take st.comActStrlen ++ text } }

/-! ## AS_PATH attributes: encodings and texts -/

/-- The number of bytes of an ASN in an AS_PATH: 2 when the MRT subtype is
BGP4MP_MESSAGE or BGP4MP_MESSAGE_LOCAL, 4 for every other subtype. -/
def asn_width (entrySubType : Nat) : Nat :=
  if entrySubType = MRT_SUBTYPE_BGP4MP_MESSAGE ∨
    entrySubType = MRT_SUBTYPE_BGP4MP_MESSAGE_LOCAL then 2 else 4

/-- The bytes of one ASN of an AS_PATH, most significant first. -/
def encode_asn (entrySubType asn : Nat) : List Nat :=
  if entrySubType = MRT_SUBTYPE_BGP4MP_MESSAGE ∨
    entrySubType = MRT_SUBTYPE_BGP4MP_MESSAGE_LOCAL then enc16 asn else enc32 asn

/-- An ASN that its encoding can hold. -/
def asn_fits (entrySubType asn : Nat) : Prop :=
  if entrySubType = MRT_SUBTYPE_BGP4MP_MESSAGE ∨
    entrySubType = MRT_SUBTYPE_BGP4MP_MESSAGE_LOCAL then asn < 65536 else asn < 4294967296

/-- The bytes of the ASNs of a segment. -/
def encode_asns (entrySubType : Nat) : List Nat → List Nat
  | [] => []
  | a :: rest => encode_asn entrySubType a ++ encode_asns entrySubType rest

/-- The bytes of an AS_PATH segment (type, ASNs): type, count, ASNs. -/
def encode_segment (entrySubType : Nat) (seg : Nat × List Nat) : List Nat :=
  [seg.1, seg.2.length] ++ encode_asns entrySubType seg.2

/-- The value of an AS_PATH attribute: its segments one after the other. -/
def encode_as_path (entrySubType : Nat) : List (Nat × List Nat) → List Nat
  | [] => []
  | seg :: rest => encode_segment entrySubType seg ++ encode_as_path entrySubType rest

/-- The text of the ASNs of an AS_SEQUENCE segment as the decoder writes it:
each ASN in decimal followed by a space, except that the last one has no space
when `last` holds (the segment ends the attribute). -/
def seq_chunks : List Nat → Bool → List Char
  | [], _ => []
  | [a], last => if last = true then fmt_u a else fmt_u a ++ [' ']
  | a :: b :: rest, last => fmt_u a ++ [' '] ++ seq_chunks (b :: rest) last

/-- The ASNs of an AS_SET segment in decimal, joined by commas. -/
def set_items : List Nat → List Char
  | [] => []
  | [a] => fmt_u a
  | a :: b :: rest => fmt_u a ++ [','] ++ set_items (b :: rest)

/-- The text of one segment as the decoder writes it. -/
def segment_text (seg : Nat × List Nat) (last : Bool) : List Char :=
  if seg.1 = BGP_UPDATE_AS_PATH_SEQ then seq_chunks seg.2 last
  else ['{'] ++ set_items seg.2 ++ ['}']

/-- The text of an AS_PATH as the decoder writes it: the texts of the segments
one after the other, without separator. -/
def as_path_text : List (Nat × List Nat) → List Char
  | [] => []
  | seg :: rest => segment_text seg rest.isEmpty ++ as_path_text rest

/-- The number of bytes of the encoding of a list of segments. -/
def as_path_bytes (entrySubType : Nat) : List (Nat × List Nat) → Nat
  | [] => 0
  | seg :: rest => 2 + asn_width entrySubType * seg.2.length + as_path_bytes entrySubType rest

/-- The state after the text `text` has been written to `asPath` at the
current end and `actOff` has moved; nothing is written for an empty text. -/
def as_path_written (st : AttrState) (actOff : Nat) (text : List Char) : AttrState :=
  if text = [] then { st with actOff := actOff }
  else
    { st with
      actOff := actOff,
      aspActStrLen := st.aspActStrLen + text.length,
      entry := { st.entry with asPath := st.entry.asPath.take st.aspActStrLen ++ text } }

/-- A segment the decoder renders: an AS_SEQUENCE or an AS_SET of at most 255
ASNs that fit their encoding. -/
def segment_ok (entrySubType : Nat) (seg : Nat × List Nat) : Prop :=
  (seg.1 = BGP_UPDATE_AS_PATH_SEQ ∨ seg.1 = BGP_UPDATE_AS_PATH_SET) ∧ seg.2.length < 256 ∧
    ∀ a ∈ seg.2, asn_fits entrySubType a

instance asn_fits_decidable (entrySubType asn : Nat) : Decidable (asn_fits entrySubType asn) :=
  inferInstanceAs (Decidable (if entrySubType = MRT_SUBTYPE_BGP4MP_MESSAGE ∨
    entrySubType = MRT_SUBTYPE_BGP4MP_MESSAGE_LOCAL then asn < 65536 else asn < 4294967296))

instance segment_ok_decidable (entrySubType : Nat) (seg : Nat × List Nat) :
    Decidable (segment_ok entrySubType seg) :=
  inferInstanceAs (Decidable ((seg.1 = BGP_UPDATE_AS_PATH_SEQ ∨ seg.1 = BGP_UPDATE_AS_PATH_SET) ∧
    seg.2.length < 256 ∧ ∀ a ∈ seg.2, asn_fits entrySubType a))

/-- The attribute block made of one AS_PATH attribute (type 2) that holds the
segments `segs`. -/
def as_path_block (flags entrySubType : Nat) (segs : List (Nat × List Nat)) : List Nat :=
  attr_header flags 2 (as_path_bytes entrySubType segs) ++ encode_as_path entrySubType segs

/-- The text the specification gives for a single AS_SEQUENCE segment: the
ASNs in unsigned decimal joined by single spaces. -/
def seq_path_text (asns : List Nat) : List Char :=
  List.intercalate [' '] (asns.map fun a => Nat.toDigits 10 a)

/-- The text the specification gives for a single AS_SET segment: the ASNs
in unsigned decimal joined by commas, between braces. -/
def set_path_text (asns : List Nat) : List Char :=
  '{' :: (List.intercalate [','] (asns.map fun a => Nat.toDigits 10 a) ++ ['}'])

/-- An AS_PATH of two segments: the AS_SEQUENCE `65000 65001` and the AS_SET
`{64512,64513}`. -/
def as_path_example : List (Nat × List Nat) :=
  [(BGP_UPDATE_AS_PATH_SEQ, [65000, 65001]), (BGP_UPDATE_AS_PATH_SET, [64512, 64513])]

/-- An AS_PATH of one AS_SEQUENCE segment of 200 four-byte ASNs, all
`4294967295`: 802 bytes of attribute value, 2199 characters of text. -/
def long_as_path : List (Nat × List Nat) :=
  [(BGP_UPDATE_AS_PATH_SEQ, List.replicate 200 4294967295)]

/-! ## Layout of MRT records -/

/-- The fields of a file buffer that the TABLE_DUMP_V2 decoders never write:
they only touch the peer directory and its counter. -/
def stream_fields (d : File_buf_t) :
    List Nat × Nat × Nat × Nat × Option (MRTentry × List MRTentry) :=
  (d.f, d.eof, d.parsed, d.parsed_ok, d.actEntry)

/-- The bytes of an MRT header for a body of `len` bytes: time, type, subtype
and length, and for the type BGP4MP_ET the microsecond field, which the length
field counts. -/
def mrt_header (time entryType entrySubType time_ms len : Nat) : List Nat :=
  if entryType = MRT_TYPE_BGP4MP_ET then
    enc32 time ++ (enc16 entryType ++ (enc16 entrySubType ++ (enc32 (len + 4) ++ enc32 time_ms)))
  else
    enc32 time ++ (enc16 entryType ++ (enc16 entrySubType ++ enc32 len))

/-- The bytes of an MRT record: header and body. -/
def mrt_record (time entryType entrySubType time_ms : Nat) (body : List Nat) : List Nat :=
  mrt_header time entryType entrySubType time_ms body.length ++ body

/-- The record `Read_next_mrt_entry` hands to the body decoder after it has
read the header `mrt_header`. -/
def record_entry (time entryType entrySubType time_ms len : Nat) : MRTentry :=
  { MRTentry_new with
    time := time, entryType := entryType, entrySubType := entrySubType, entryLength := len,
    time_ms := if entryType = MRT_TYPE_BGP4MP_ET then time_ms else 0 }

/-- No record is waiting in the chain of the record returned last. -/
def no_pending (dump : File_buf_t) : Prop :=
  ∀ e l, dump.actEntry = some (e, l) → l = []

/-- An MRT file of two records: a record of the unsupported type 99 with a
body of two bytes, then the BGP4MP_STATE_CHANGE_AS4 record of scenario F
(time 1, body of 24 bytes). -/
def unsupported_then_good_file : List Nat :=
  mrt_record 1 99 0 0 [7, 7] ++ mrt_record 1 16 5 0 scenario_f_body

/-- An MRT file of two records: a header of the unsupported type 99 that
declares a body of length 0, then the record of scenario F. -/
def unsupported_empty_file : List Nat :=
  mrt_record 1 99 0 0 [] ++ mrt_record 1 16 5 0 scenario_f_body

/-! ## `MRTentry_print` (`mrt_entry.c`, lines 72-172) and the scenarios of the spec -/

/-- Modelled from the spec: `bgp_macros.h` is not among the sources; BGP
message type OPEN = 1 (spec section 6). -/
def BGP_TYPE_OPEN : Nat := 1

/-- Modelled from the spec: `bgp_macros.h` is not among the sources; BGP
message type NOTIFICATION = 3 (spec section 6). -/
def BGP_TYPE_NOTIFICATION : Nat := 3

/-- Modelled from the spec: `bgp_macros.h` is not among the sources; BGP
message type KEEPALIVE = 4 (spec section 6). -/
def BGP_TYPE_KEEPALIVE : Nat := 4

/-- `MAX_BUFF_LEN` (`mrt_entry.c`, line 13): the size of the line buffer of
`MRTentry_print`. -/
def MAX_BUFF_LEN : Nat := 4096 * 8

/-- The text `printf` writes for `%d` when the argument is a 32-bit unsigned
field: values from `2^31` on are shown as negative numbers. -/
def fmt_d (n : Nat) : List Char :=
  if n < 2147483648 then Nat.toDigits 10 n else '-' :: Nat.toDigits 10 (4294967296 - n)

/-- The statements `ret = snprintf (buffer + actOff, MAX_BUFF_LEN - actOff,
...); actOff += ret;` of `MRTentry_print`, where the formatted text is `s`.
The state is the buffer and `actOff`.  Once `actOff` has passed
`MAX_BUFF_LEN` the size handed to `snprintf` is negative and the call writes
outside the buffer: the result `none` stands for that undefined behaviour. -/
def print_step (st : Option (List Char × Nat)) (s : List Char) : Option (List Char × Nat) :=
  match st with
  | none => none
  | some (buffer, actOff) =>
    if actOff > MAX_BUFF_LEN then none
    else some ((snprintf buffer actOff (MAX_BUFF_LEN - actOff) s).1, actOff + s.length)

/-- Lines 79-113 of `mrt_entry.c`: the texts written for the tag.  A BGP4MP
record whose `bgpType` is none of the five cases of the `switch` gets no
tag. -/
def print_tag (entry : MRTentry) : List (List Char) :=
  if entry.entryType = MRT_TYPE_BGP4MP ∨ entry.entryType = MRT_TYPE_BGP4MP_ET then
    if entry.bgpType = BGP_TYPE_OPEN then ["O|".toList]
    else if entry.bgpType = BGP_TYPE_UPDATE then ["U|".toList]
    else if entry.bgpType = BGP_TYPE_NOTIFICATION then ["N|".toList]
    else if entry.bgpType = BGP_TYPE_KEEPALIVE then ["K|".toList]
    else if entry.bgpType = BGP_TYPE_STATE_CHANGE then ["S|".toList]
    else []
  else ["R|".toList]

/-- Lines 118-130 and 136-148 of `mrt_entry.c`: the texts written for a list of
prefixes, each one followed by a comma except the last. -/
def print_list : List (List Char) → List (List Char)
  | [] => []
  | [p] => [p]
  | p :: q :: rest => (p ++ [',']) :: print_list (q :: rest)

/-- The texts `MRTentry_print` formats, one per call of `snprintf`, in
order. -/
def print_pieces (entry : MRTentry) : List (List Char) :=
  print_tag entry ++ [fmt_d entry.time ++ ['|']] ++ print_list entry.pfxNLRI ++ [['|']] ++
    print_list entry.pfxWithdraw ++ [['|']] ++
    [entry.origin ++ ['|'], entry.nextHop ++ ['|'], entry.asPath ++ ['|'],
     entry.communities ++ ['|'], fmt_d entry.peer_asn ++ ['|'], entry.peerAddr ++ ['\n']]

/-- `MRTentry_print` (`mrt_entry.c`, lines 72-172): the text sent to the
standard output, `none` when a call of `snprintf` gets a negative size. -/
def MRTentry_print (entry : MRTentry) : Option (List Char) :=
  ((print_pieces entry).foldl print_step (some ([], 0))).map Prod.fst

/-- The file of scenario A as the spec gives it: the header declares a body
of `0x23` = 35 bytes, the body that follows has 39 bytes. -/
def scenario_a_file : List Nat :=
  [0, 0, 0, 1, 0, 16, 0, 4, 0, 0, 0, 0x23] ++ scenario_a_body

/-- The file of scenario A with the length of its body, `0x27` = 39, in the
header. -/
def scenario_a_file_39 : List Nat :=
  [0, 0, 0, 1, 0, 16, 0, 4, 0, 0, 0, 0x27] ++ scenario_a_body

/-- The attributes of scenario B: ORIGIN IGP, AS_PATH `65000 65001`, NEXT_HOP
10.0.0.1; 24 bytes. -/
def scenario_b_attributes : List Nat :=
  [0x40, 1, 1, 0] ++ [0x40, 2, 10, 2, 2, 0, 0, 0xFD, 0xE8, 0, 0, 0xFD, 0xE9] ++
    [0x40, 3, 4, 10, 0, 0, 1]

/-- The UPDATE body of scenario B as the spec gives it: no withdrawn prefix,
an attribute length of `0x14` = 20 in front of 24 bytes of attributes, and the
NLRI 192.0.2.0/24. -/
def scenario_b_update : List Nat :=
  [0, 0] ++ [0, 0x14] ++ scenario_b_attributes ++ [0x18, 0xC0, 0, 2]

/-- The UPDATE body of scenario B with the length of its attributes, `0x18` =
24. -/
def scenario_b_update_24 : List Nat :=
  [0, 0] ++ [0, 0x18] ++ scenario_b_attributes ++ [0x18, 0xC0, 0, 2]

/-- The body of a BGP4MP_MESSAGE_AS4 record that carries the UPDATE `update`
from peer AS 65000 at 10.0.0.1: the peer block of scenario A, the marker, the
BGP length and the type UPDATE. -/
def as4_update_body (update : List Nat) : List Nat :=
  scenario_a_body.take 36 ++ enc16 (19 + update.length) ++ [2] ++ update

/-- The file of scenario B as the spec gives it, under the header of a
BGP4MP_MESSAGE_AS4 record of time 1 (body of 71 bytes). -/
def scenario_b_file : List Nat :=
  [0, 0, 0, 1, 0, 16, 0, 4, 0, 0, 0, 71] ++ as4_update_body scenario_b_update

/-- The file of scenario B with the attribute length 24. -/
def scenario_b_file_24 : List Nat :=
  [0, 0, 0, 1, 0, 16, 0, 4, 0, 0, 0, 71] ++ as4_update_body scenario_b_update_24

/-- The record expected for scenario B. -/
def scenario_b_record : MRTentry :=
  { MRTentry_new with
    entryType := 16, entrySubType := 4, entryLength := 71, time := 1, bgpType := 2,
    peer_asn := 65000, afi := 1, peerAddr := "10.0.0.1".toList,
    pfxNLRI := ["192.0.2.0/24".toList], origin := "IGP".toList,
    nextHop := "10.0.0.1".toList, asPath := "65000 65001".toList }

/-- The file of scenario A with the BGP message type 6 in place of
KEEPALIVE. -/
def type_6_file : List Nat :=
  [0, 0, 0, 1, 0, 16, 0, 4, 0, 0, 0, 0x27] ++ scenario_a_body.take 38 ++ [6]

/-- The file of scenario A with the BGP message type 0 in place of
KEEPALIVE. -/
def type_0_file : List Nat :=
  [0, 0, 0, 1, 0, 16, 0, 4, 0, 0, 0, 0x27] ++ scenario_a_body.take 38 ++ [0]

/-- The line of the specification:
`TAG|timestamp|announced_csv|withdrawn_csv|origin|next_hop|as_path|communities|peer_asn|peer_address`
and the end of line, the two lists joined by commas. -/
def print_line (tag : List Char) (entry : MRTentry) : List Char :=
  tag ++ '|' :: fmt_d entry.time ++ '|' :: List.intercalate [','] entry.pfxNLRI ++
    '|' :: List.intercalate [','] entry.pfxWithdraw ++ '|' :: entry.origin ++
    '|' :: entry.nextHop ++ '|' :: entry.asPath ++ '|' :: entry.communities ++
    '|' :: fmt_d entry.peer_asn ++ '|' :: entry.peerAddr ++ ['\n']

/-- The tag of the specification for a record: `R` outside BGP4MP, otherwise
after the BGP message type. -/
def tag_matches (entry : MRTentry) (tag : Char) : Prop :=
  (¬(entry.entryType = MRT_TYPE_BGP4MP ∨ entry.entryType = MRT_TYPE_BGP4MP_ET) ∧ tag = 'R') ∨
  ((entry.entryType = MRT_TYPE_BGP4MP ∨ entry.entryType = MRT_TYPE_BGP4MP_ET) ∧
    ((entry.bgpType = BGP_TYPE_OPEN ∧ tag = 'O') ∨
     (entry.bgpType = BGP_TYPE_UPDATE ∧ tag = 'U') ∨
     (entry.bgpType = BGP_TYPE_NOTIFICATION ∧ tag = 'N') ∨
     (entry.bgpType = BGP_TYPE_KEEPALIVE ∧ tag = 'K') ∨
     (entry.bgpType = BGP_TYPE_STATE_CHANGE ∧ tag = 'S')))

/-! ## Encoded prefixes and MP_REACH_NLRI values -/

/-- An encoded prefix: the mask length and the prefix bytes. -/
def encode_pfx (p : Nat × List Nat) : List Nat := p.1 :: p.2

/-- The encoding of a list of prefixes, one after the other. -/
def encode_prefixes : List (Nat × List Nat) → List Nat
  | [] => []
  | p :: rest => encode_pfx p ++ encode_prefixes rest

/-- A well-formed encoded prefix for a mask length of at most `maxLen`: the
mask length `m` is followed by `(m + 7) / 8` bytes. -/
def prefix_ok (maxLen : Nat) (p : Nat × List Nat) : Prop :=
  p.1 ≤ maxLen ∧ p.2.length = (p.1 + 7) / 8 ∧ ∀ b ∈ p.2, b < 256

/-- The text of a prefix: the address made of the prefix bytes padded with
zeros, `/`, and the mask length in decimal. -/
def prefix_text (af : AddrFamily) (p : Nat × List Nat) : List Char :=
  (match af with
   | AddrFamily.AF_INET => inet_ntop4 (p.2 ++ List.replicate (16 - p.2.length) 0)
   | AddrFamily.AF_INET6 => inet_ntop6 (p.2 ++ List.replicate (16 - p.2.length) 0))
    ++ '/' :: fmt_u p.1

/-- The value of an MP_REACH_NLRI attribute in the shortened form of MRT: the
next hop length, the next hop bytes `nh` and the encoded prefixes. -/
def mp_reach_short (nh : List Nat) (ps : List (Nat × List Nat)) : List Nat :=
  nh.length :: (nh ++ encode_prefixes ps)

/-- The next hop 2001:db8::1. -/
def sample_next_hop : List Nat := [0x20, 0x01, 0x0d, 0xb8, 0, 0, 0, 0, 0, 0, 0, 0, 0, 0, 0, 1]

instance prefix_ok_decidable (maxLen : Nat) (p : Nat × List Nat) :
    Decidable (prefix_ok maxLen p) :=
  inferInstanceAs (Decidable (p.1 ≤ maxLen ∧ p.2.length = (p.1 + 7) / 8 ∧ ∀ b ∈ p.2, b < 256))

/-! ## Records under another MRT type -/

/-- The record `e` under another MRT type and microsecond field. -/
def retag (ty ms : Nat) (e : MRTentry) : MRTentry := { e with entryType := ty, time_ms := ms }

/-- The attribute decoder state whose record is retagged. -/
def retag_state (ty ms : Nat) (st : AttrState) : AttrState :=
  { st with entry := retag ty ms st.entry }

/-- The outcome of a piece of the attribute decoder with the record retagged. -/
def retag_flow (ty ms : Nat) : Flow AttrState → Flow AttrState
  | Flow.next st => Flow.next (retag_state ty ms st)
  | Flow.ret c e => Flow.ret c (retag ty ms e)

/-- As `retag_flow`, for the loops that also give back `parsedLen`. -/
def retag_flow2 (ty ms : Nat) : Flow (Nat × AttrState) → Flow (Nat × AttrState)
  | Flow.next (p, st) => Flow.next (p, retag_state ty ms st)
  | Flow.ret c e => Flow.ret c (retag ty ms e)

/-- The outcome of `Read_next_mrt_entry` with the record returned, which is
also the head of `actEntry`, retagged. -/
def retag_result (ty ms : Nat) (r : Option MRTentry × File_buf_t) : Option MRTentry × File_buf_t :=
  (r.1.map (retag ty ms),
    { r.2 with actEntry := r.2.actEntry.map (fun c => (retag ty ms c.1, c.2)) })

/-- A file buffer after the head of the chain of scenario D has been
returned: the sibling is pending. -/
def chain_dump : File_buf_t :=
  { File_buf_create [] with actEntry := some (scenario_d_parent, [scenario_d_sibling]) }

/-! ## Accounting of the attribute block -/

/-- What a piece of the attribute decoder that falls through has done to the
counters, when `d` bytes were still declared for it: `actAllAttrLen` is
untouched, `actOff` has advanced by at least `d` and has stayed within the
block. -/
def advanced (allAttrLen d : Nat) (st st1 : AttrState) : Prop :=
  st1.actAllAttrLen = st.actAllAttrLen ∧ st.actOff + d ≤ st1.actOff ∧ st1.actOff ≤ allAttrLen

/-- The type of the attribute that starts at offset `off` of the block. -/
def attr_type_at (buffer : List Nat) (off : Nat) : Nat := get_buf_char (buffer.drop (off + 1))

/-- The length of the header of the attribute that starts at offset `off`: 4
bytes when bit `0x10` of its flags is set (two length bytes), 3 otherwise. -/
def attr_header_at (buffer : List Nat) (off : Nat) : Nat :=
  if get_buf_char (buffer.drop off) &&& 16 ≠ 0 then 4 else 3

/-- The declared length of the attribute that starts at offset `off`. -/
def attr_len_at (buffer : List Nat) (off : Nat) : Nat :=
  if get_buf_char (buffer.drop off) &&& 16 ≠ 0 then get_buf_short (buffer.drop (off + 1 + 1))
  else get_buf_char (buffer.drop (off + 1 + 1))

/-- The attributes `attr_loop` decodes: for each iteration of its loop that
falls through, the state at the start of the iteration and the state at its
end. -/
def attr_steps (buffer : List Nat) (allAttrLen : Nat) : Nat → AttrState → List (AttrState × AttrState)
  | 0, _ => []
  | fuel + 1, st =>
    if st.actAllAttrLen < allAttrLen then
      match attr_body buffer allAttrLen st with
      | Flow.ret _ _ => []
      | Flow.next st1 => (st, st1) :: attr_steps buffer allAttrLen fuel st1
    else []

/-- An attribute was consumed exactly: the decoder started it with `actOff`
equal to `actAllAttrLen` and ended it header length plus declared length
further; and a COMMUNITIES attribute (type 8) has a declared length that is a
multiple of 4. -/
def step_exact (buffer : List Nat) (s : AttrState × AttrState) : Prop :=
  s.1.actOff = s.1.actAllAttrLen ∧
  s.2.actOff = s.1.actOff + attr_header_at buffer s.1.actOff + attr_len_at buffer s.1.actOff ∧
  (attr_type_at buffer s.1.actOff = 8 → attr_len_at buffer s.1.actOff % 4 = 0)

/-! ## UPDATE bodies -/

/-- An UPDATE body of 8 bytes: no withdrawn prefix, an attribute length of 4
and an ORIGIN attribute with the origin code `code`. -/
def short_update (code : Nat) : List Nat := [0, 0, 0, 4, 0x40, 1, 1, code]

/-- An UPDATE body made of a withdrawn section, an attribute block and the
announced prefixes, with the two lengths that go with them. -/
def update_body (ws : List (Nat × List Nat)) (attrs : List Nat) (ns : List (Nat × List Nat)) :
    List Nat :=
  enc16 (encode_prefixes ws).length ++
    (encode_prefixes ws ++ (enc16 attrs.length ++ (attrs ++ encode_prefixes ns)))

/-- The prefix 0.0.0.0/0 (or ::/0), encoded on one byte. -/
def default_route : Nat × List Nat := (0, [])

/-! ## Addresses of prefixes -/

/-- The largest mask length of an address family. -/
def max_mask (af : AddrFamily) : Nat :=
  match af with
  | AddrFamily.AF_INET => 32
  | AddrFamily.AF_INET6 => 128

/-- The prefix bytes `b` zero-padded to the 4 bytes of an IPv4 address or to
the 16 bytes of an IPv6 address. -/
def address_bytes (af : AddrFamily) (b : List Nat) : List Nat :=
  match af with
  | AddrFamily.AF_INET => b ++ List.replicate (4 - b.length) 0
  | AddrFamily.AF_INET6 => b ++ List.replicate (16 - b.length) 0

/-- The text of an address given by its 4 or 16 bytes. -/
def address_text (af : AddrFamily) (bytes : List Nat) : List Char :=
  match af with
  | AddrFamily.AF_INET => inet_ntop4 bytes
  | AddrFamily.AF_INET6 => inet_ntop6 bytes

/-! ## The final read offset of the body decoders -/

/-- The value of `actOff` when the loop over the IPv4 NLRI (lines 483-508)
ends; `none` is `return 0`.  The branches are those of `nlri_loop`. -/
def nlri_loop_end (buffer : List Nat) (max_len : Nat) : Nat → Nat → MRTentry → Option Nat
  | 0, actOff, _ => if actOff < max_len then none else some actOff
  | fuel + 1, actOff, entry =>
    if actOff < max_len then
      if entry.pfxNLRI.length ≥ MAX_NB_PREFIXES then
        let parsedLen := get_buf_char (buffer.drop actOff)
        if parsedLen > 128 then none
        else if actOff + ((parsedLen + 7) / 8 + 1) > max_len then none
        else nlri_loop_end buffer max_len fuel (actOff + ((parsedLen + 7) / 8 + 1)) entry
      else
        match process_prefix (buffer.drop actOff) AddrFamily.AF_INET with
        | none => none
        | some (text, ret) =>
          if actOff + ret > max_len then none
          else nlri_loop_end buffer max_len fuel (actOff + ret)
            { entry with pfxNLRI := entry.pfxNLRI ++ [text] }
    else some actOff

/-- The value of `actOff` when `process_bgp_update` returns 1 (line 510);
`none` is the return value 0. -/
def process_bgp_update_end (buffer : List Nat) (entry : MRTentry) (max_len : Nat) :
    Option Nat :=
  let withdrawLen := get_buf_short buffer
  if 0 + 2 > max_len then none
  else
    match withdraw_loop buffer max_len withdrawLen max_len 2 0 entry with
    | none => none
    | some (actOff, entry1) =>
      let allAttrLen := get_buf_short (buffer.drop actOff)
      if actOff + 2 > max_len then none
      else
        let r := process_bgp_attributes (buffer.drop (actOff + 2)) entry1 allAttrLen
        if r.1 ≠ (allAttrLen : Int) then none
        else nlri_loop_end buffer max_len max_len (actOff + 2 + allAttrLen) r.2

/-- The offset in the body of the last byte consumed, plus one, when
`process_classic_message` returns 1 from line 388, from `process_bgp_update`
(line 414) or from line 418; the branches are those of
`classic_message_body`. -/
def classic_message_body_end (buffer : List Nat) (entry : MRTentry) (max_len actOff : Nat) :
    Option Nat :=
  if entry.entrySubType = MRT_SUBTYPE_BGP4MP_STATE_CHANGE ∨
      entry.entrySubType = MRT_SUBTYPE_BGP4MP_STATE_CHANGE_AS4 then
    if actOff + 2 > max_len then none
    else if actOff + 2 + 2 > max_len then none
    else some (actOff + 2 + 2)
  else
    let marker := get_buf_n (buffer.drop actOff) 16
    if actOff + 16 > max_len then none
    else if marker ≠ List.replicate 16 255 then none
    else
      let msgSize := get_buf_short (buffer.drop (actOff + 16))
      if actOff + 16 + 2 > max_len then none
      else if msgSize + (actOff + 16 + 2) - 18 ≠ max_len then none
      else
        let msgType := get_buf_char (buffer.drop (actOff + 16 + 2))
        if actOff + 16 + 2 + 1 > max_len then none
        else if msgType = BGP_TYPE_UPDATE then
          (process_bgp_update_end (buffer.drop (actOff + 16 + 2 + 1))
            { entry with bgpType := BGP_TYPE_UPDATE } (msgSize - 19)).map
            (fun o => actOff + 16 + 2 + 1 + o)
        else some (actOff + 16 + 2 + 1)

/-- The final read offset of `process_classic_message`; `none` is the return
value 0. -/
def process_classic_message_end (buffer : List Nat) (entry : MRTentry) (max_len : Nat) :
    Option Nat :=
  match classic_peer_asn buffer entry max_len with
  | none => none
  | some (actOff, e1) =>
    match classic_peer_addr buffer e1 max_len actOff with
    | none => none
    | some (actOff1, e2) => classic_message_body_end buffer e2 max_len actOff1

/-- The value of `actOff` after the `for` loop of lines 702-740, `n`
iterations left. -/
def rib_sibling_loop_end (buffer : List Nat) (dumper : File_buf_t) (max_len : Nat)
    (entry : MRTentry) : Nat → Nat → Option Nat
  | 0, actOff => some actOff
  | n + 1, actOff =>
    match rib_peer_entry buffer dumper max_len actOff (MRTentry_copy_for_ribs entry) with
    | none => none
    | some (actOff1, _) => rib_sibling_loop_end buffer dumper max_len entry n actOff1

/-- The value of `actOff` when `process_bgp_rib_entry` returns 1 (line 742);
`none` is the return value 0. -/
def process_bgp_rib_entry_end (buffer : List Nat) (dumper : File_buf_t) (entry : MRTentry)
    (max_len : Nat) : Option Nat :=
  if 0 + 4 > max_len then none
  else
    match process_prefix (buffer.drop 4) (rib_family entry.entrySubType) with
    | none => none
    | some (text, ret) =>
      let e1 := { entry with pfxNLRI := entry.pfxNLRI ++ [text] }
      if 4 + ret > max_len then none
      else
        let nbEntries := get_buf_short (buffer.drop (4 + ret))
        if 4 + ret + 2 > max_len then none
        else
          match rib_peer_entry buffer dumper max_len (4 + ret + 2) e1 with
          | none => none
          | some (actOff, e2) =>
            rib_sibling_loop_end buffer dumper max_len e2 (nbEntries - 1) actOff

/-- The body of a BGP4MP_MESSAGE_AS4 record that carries an OPEN message of
29 bytes: the peer block of scenario A, the marker, the BGP length 29, the
type 1, then version 4, AS 65000, hold time 180, identifier 10.0.0.1 and no
optional parameter.  The body has 49 bytes. -/
def open_message_body : List Nat :=
  [0, 0, 0xFD, 0xE8, 0, 0, 0, 1, 0, 0, 0, 1, 10, 0, 0, 1, 10, 0, 0, 2,
   255, 255, 255, 255, 255, 255, 255, 255, 255, 255, 255, 255, 255, 255, 255, 255,
   0, 29, 1, 4, 0xFD, 0xE8, 0, 180, 10, 0, 0, 1, 0]

/-! ## Files whose first record is not decoded -/

/-- An MRT file of two records: a BGP4MP record of the unknown subtype 9 with
a body of one byte, which `process_classic_message` rejects, then the
BGP4MP_STATE_CHANGE_AS4 record of scenario F. -/
def bad_then_good_file : List Nat :=
  mrt_record 1 16 9 0 [0] ++ mrt_record 1 16 5 0 scenario_f_body

/-- An MRT file of two records: a BGP4MP header that declares a body of length
0, then the BGP4MP_STATE_CHANGE_AS4 record of scenario F. -/
def empty_then_good_file : List Nat :=
  mrt_record 1 16 5 0 [] ++ mrt_record 1 16 5 0 scenario_f_body

/-- The record decoded from scenario F. -/
def scenario_f_record : MRTentry :=
  { scenario_f_entry with
    peer_asn := 65000, afi := 1, peerAddr := "10.0.0.1".toList, bgpType := 5 }

/-! ## Segments of an AS_PATH and signed fields -/

/-- The rendering of one segment taken alone, as the specification gives it
for an AS_PATH of a single segment. -/
def segment_alone (seg : Nat × List Nat) : List Char :=
  if seg.1 = BGP_UPDATE_AS_PATH_SEQ then seq_path_text seg.2 else set_path_text seg.2

/-- What stands between the rendering of a segment and the rendering of the
segment that follows it: a space after an AS_SEQUENCE that holds at least one
ASN, nothing otherwise. -/
def segment_gap (seg : Nat × List Nat) : List Char :=
  if seg.1 = BGP_UPDATE_AS_PATH_SEQ ∧ seg.2 ≠ [] then [' '] else []

/-- The renderings of the segments one after the other, each segment but the
last followed by its gap. -/
def joined_segments : List (Nat × List Nat) → List Char
  | [] => []
  | [seg] => segment_alone seg
  | seg :: next :: rest => segment_alone seg ++ segment_gap seg ++ joined_segments (next :: rest)

/-- The AS_PATH of the example of the specification: the AS_SEQUENCE `1 2`
followed by the AS_SET `{3,4}`. -/
def seq_then_set : List (Nat × List Nat) :=
  [(BGP_UPDATE_AS_PATH_SEQ, [1, 2]), (BGP_UPDATE_AS_PATH_SET, [3, 4])]

/-- The value of a 32-bit field read as a signed integer. -/
def to_int32 (n : Nat) : Int := if n < 2147483648 then (n : Int) else (n : Int) - 4294967296

/-- The decimal text of an integer, with a minus sign when it is negative. -/
def int_decimal (z : Int) : List Char :=
  if z < 0 then '-' :: Nat.toDigits 10 z.natAbs else Nat.toDigits 10 z.toNat

/-! ## An UPDATE whose withdrawn section runs past its length -/

/-- An UPDATE body of 8 bytes whose withdrawn length is 1 and whose withdrawn
section starts with the prefix 192.0.2.0/24, which takes 4 bytes; the
attribute length 0 follows that prefix. -/
def overlong_withdraw_update : List Nat := [0, 1, 0x18, 0xC0, 0, 2, 0, 0]

/-! ## More RIB entry bodies -/

/-- The body of a RIB_IPV6_UNICAST record with the prefix 2001:db8::/32 and
one per-peer entry, for the peer index 5, without attributes. -/
def undeclared_peer_body : List Nat :=
  [0, 0, 0, 0, 32, 0x20, 0x01, 0x0d, 0xb8, 0, 1, 0, 5, 0, 0, 0, 0, 0, 0]

/-! ## The loops of the UPDATE and attribute decoders, turn by turn -/

/-- One turn of a `while` loop: the loop is left with a result (by its
condition or by a `return` in its body), or the body has run to its end and the
loop goes on from a new state. -/
inductive Turn (σ ρ : Type) where
  | done : ρ → Turn σ ρ
  | again : σ → Turn σ ρ
  deriving DecidableEq

/-- A `while` loop run for at most `n` turns: `none` when the loop has not
been left after `n` turns. -/
def run_loop {σ ρ : Type} (turn : σ → Turn σ ρ) : Nat → σ → Option ρ
  | 0, _ => none
  | n + 1, s =>
    match turn s with
    | Turn.done r => some r
    | Turn.again s1 => run_loop turn n s1

/-- Lines 439-468: one turn of the loop over the withdrawn section; the state
is `actOff`, `actWithLen` and the record. -/
def withdraw_turn (buffer : List Nat) (max_len withdrawLen : Nat)
    (s : Nat × Nat × MRTentry) : Turn (Nat × Nat × MRTentry) (Option (Nat × MRTentry)) :=
  if s.2.1 < withdrawLen then
    if s.2.2.pfxWithdraw.length ≥ MAX_NB_PREFIXES then
      let parsedLen := get_buf_char (buffer.drop s.1)
      if parsedLen > 128 then Turn.done none
      else if s.1 + ((parsedLen + 7) / 8 + 1) > max_len then Turn.done none
      else Turn.again (s.1 + ((parsedLen + 7) / 8 + 1), s.2.1, s.2.2)
    else
      match process_prefix (buffer.drop s.1) AddrFamily.AF_INET with
      | none => Turn.done none
      | some (text, parsedLen) =>
        if s.1 + parsedLen > max_len then Turn.done none
        else Turn.again (s.1 + parsedLen, (s.2.1 + parsedLen) % 65536,
          { s.2.2 with pfxWithdraw := s.2.2.pfxWithdraw ++ [text] })
  else Turn.done (some (s.1, s.2.2))

/-- Lines 483-508: one turn of the loop over the IPv4 NLRI; the state is
`actOff` and the record. -/
def nlri_turn (buffer : List Nat) (max_len : Nat) (s : Nat × MRTentry) :
    Turn (Nat × MRTentry) (Option MRTentry) :=
  if s.1 < max_len then
    if s.2.pfxNLRI.length ≥ MAX_NB_PREFIXES then
      let parsedLen := get_buf_char (buffer.drop s.1)
      if parsedLen > 128 then Turn.done none
      else if s.1 + ((parsedLen + 7) / 8 + 1) > max_len then Turn.done none
      else Turn.again (s.1 + ((parsedLen + 7) / 8 + 1), s.2)
    else
      match process_prefix (buffer.drop s.1) AddrFamily.AF_INET with
      | none => Turn.done none
      | some (text, ret) =>
        if s.1 + ret > max_len then Turn.done none
        else Turn.again (s.1 + ret, { s.2 with pfxNLRI := s.2.pfxNLRI ++ [text] })
  else Turn.done (some s.2)

/-- Lines 765-1126: one turn of the loop over the attributes. -/
def attr_turn (buffer : List Nat) (allAttrLen : Nat) (st : AttrState) :
    Turn AttrState (Flow AttrState) :=
  if st.actAllAttrLen < allAttrLen then
    match attr_body buffer allAttrLen st with
    | Flow.ret c e => Turn.done (Flow.ret c e)
    | Flow.next st1 => Turn.again st1
  else Turn.done (Flow.next st)

/-- Lines 833-967: one turn of the loop over the segments of an AS_PATH; the
state is `parsedLen` and the state of the attribute decoder. -/
def as_path_turn (buffer : List Nat) (allAttrLen attrLen : Nat) (s : Nat × AttrState) :
    Turn (Nat × AttrState) (Flow AttrState) :=
  if s.1 < attrLen then
    let segType := get_buf_char (buffer.drop s.2.actOff)
    if s.2.actOff + 1 > allAttrLen then Turn.done (Flow.ret 0 s.2.entry)
    else
      let segLen := get_buf_char (buffer.drop (s.2.actOff + 1))
      if s.2.actOff + 1 + 1 > allAttrLen then Turn.done (Flow.ret 0 s.2.entry)
      else
        let st0 := { s.2 with actOff := s.2.actOff + 1 + 1 }
        if segType = BGP_UPDATE_AS_PATH_SEQ then
          match as_path_seq buffer allAttrLen attrLen segLen (s.1 + 2) st0 with
          | Flow.ret c e => Turn.done (Flow.ret c e)
          | Flow.next (parsedLen1, st1) => Turn.again (parsedLen1, st1)
        else if segType = BGP_UPDATE_AS_PATH_SET then
          let st1 := write_as_path st0 (MAX_ATTR - st0.aspActStrLen) ['{']
          if st1.aspActStrLen ≥ MAX_SEND_BUFF then Turn.done (Flow.ret 0 st1.entry)
          else
            match as_path_set buffer allAttrLen segLen segLen 0 (s.1 + 2) st1 with
            | Flow.ret c e => Turn.done (Flow.ret c e)
            | Flow.next (parsedLen1, st2) =>
              let st3 := write_as_path st2 (MAX_SEND_BUFF - st2.aspActStrLen) ['}']
              if st3.aspActStrLen ≥ MAX_SEND_BUFF then Turn.done (Flow.ret 0 st3.entry)
              else Turn.again (parsedLen1, st3)
        else Turn.again (s.1 + 2, st0)
  else Turn.done (Flow.next s.2)

/-- Lines 973-1005: one turn of the loop over the communities. -/
def communities_turn (buffer : List Nat) (allAttrLen attrLen : Nat) (s : Nat × AttrState) :
    Turn (Nat × AttrState) (Flow AttrState) :=
  if s.1 < attrLen then
    let asn := get_buf_short (buffer.drop s.2.actOff)
    if s.2.actOff + 2 > allAttrLen then Turn.done (Flow.ret 0 s.2.entry)
    else
      let com := get_buf_short (buffer.drop (s.2.actOff + 2))
      if s.2.actOff + 2 + 2 > allAttrLen then Turn.done (Flow.ret 0 s.2.entry)
      else
        let w := snprintf s.2.entry.communities s.2.comActStrlen (MAX_ATTR - s.2.comActStrlen)
          (community_text asn com (s.1 + 2 + 2) attrLen)
        let st1 := { s.2 with
          actOff := s.2.actOff + 2 + 2,
          comActStrlen := s.2.comActStrlen + w.2,
          entry := { s.2.entry with communities := w.1 } }
        if st1.comActStrlen ≥ MAX_ATTR then Turn.done (Flow.ret (-1) st1.entry)
        else Turn.again (s.1 + 2 + 2, st1)
  else Turn.done (Flow.next s.2)

/-- Lines 1075-1088: one turn of the loop over the prefixes of
MP_REACH_NLRI. -/
def mp_reach_turn (buffer : List Nat) (allAttrLen attrLen : Nat) (s : Nat × AttrState) :
    Turn (Nat × AttrState) (Flow AttrState) :=
  if s.1 < attrLen then
    match process_prefix (buffer.drop s.2.actOff) AddrFamily.AF_INET6 with
    | none => Turn.done (Flow.ret 0 s.2.entry)
    | some (text, ret) =>
      if s.2.actOff + ret > allAttrLen then Turn.done (Flow.ret 0 s.2.entry)
      else
        Turn.again (s.1 + ret,
          { s.2 with
            actOff := s.2.actOff + ret,
            entry := { s.2.entry with pfxNLRI := s.2.entry.pfxNLRI ++ [text] } })
  else Turn.done (Flow.next s.2)

/-- Lines 1103-1116: one turn of the loop over the prefixes of
MP_UNREACH_NLRI. -/
def mp_unreach_turn (buffer : List Nat) (allAttrLen attrLen : Nat) (s : Nat × AttrState) :
    Turn (Nat × AttrState) (Flow AttrState) :=
  if s.1 < attrLen then
    match process_prefix (buffer.drop s.2.actOff) AddrFamily.AF_INET6 with
    | none => Turn.done (Flow.ret 0 s.2.entry)
    | some (text, ret) =>
      if s.2.actOff + ret > allAttrLen then Turn.done (Flow.ret 0 s.2.entry)
      else
        Turn.again (s.1 + ret,
          { s.2 with
            actOff := s.2.actOff + ret,
            entry := { s.2.entry with pfxWithdraw := s.2.entry.pfxWithdraw ++ [text] } })
  else Turn.done (Flow.next s.2)

/-! ## The end of the attribute block and the final read offset of `process_bgp_rib` -/

/-- The value of `actOff` when `process_bgp_update` has added the declared
attribute length to it (line 480), before the loop over the IPv4 NLRI; `none`
when the function returns 0 before.  The branches are those of
`process_bgp_update`. -/
def process_bgp_update_attr_end (buffer : List Nat) (entry : MRTentry) (max_len : Nat) :
    Option Nat :=
  let withdrawLen := get_buf_short buffer
  if 0 + 2 > max_len then none
  else
    match withdraw_loop buffer max_len withdrawLen max_len 2 0 entry with
    | none => none
    | some (actOff, entry1) =>
      let allAttrLen := get_buf_short (buffer.drop actOff)
      if actOff + 2 > max_len then none
      else
        let r := process_bgp_attributes (buffer.drop (actOff + 2)) entry1 allAttrLen
        if r.1 ≠ (allAttrLen : Int) then none
        else some (actOff + 2 + allAttrLen)

/-- The offset in the record body at which the declared attribute block of an
UPDATE ends; `none` when the body holds no UPDATE or the decoder returns 0
before.  The branches are those of `classic_message_body`. -/
def classic_message_body_attr_end (buffer : List Nat) (entry : MRTentry)
    (max_len actOff : Nat) : Option Nat :=
  if entry.entrySubType = MRT_SUBTYPE_BGP4MP_STATE_CHANGE ∨
      entry.entrySubType = MRT_SUBTYPE_BGP4MP_STATE_CHANGE_AS4 then none
  else
    let marker := get_buf_n (buffer.drop actOff) 16
    if actOff + 16 > max_len then none
    else if marker ≠ List.replicate 16 255 then none
    else
      let msgSize := get_buf_short (buffer.drop (actOff + 16))
      if actOff + 16 + 2 > max_len then none
      else if msgSize + (actOff + 16 + 2) - 18 ≠ max_len then none
      else
        let msgType := get_buf_char (buffer.drop (actOff + 16 + 2))
        if actOff + 16 + 2 + 1 > max_len then none
        else if msgType = BGP_TYPE_UPDATE then
          (process_bgp_update_attr_end (buffer.drop (actOff + 16 + 2 + 1))
            { entry with bgpType := BGP_TYPE_UPDATE } (msgSize - 19)).map
            (fun o => actOff + 16 + 2 + 1 + o)
        else none

/-- The offset in the record body at which the declared attribute block of the
UPDATE that `process_classic_message` decodes ends. -/
def process_classic_message_attr_end (buffer : List Nat) (entry : MRTentry) (max_len : Nat) :
    Option Nat :=
  match classic_peer_asn buffer entry max_len with
  | none => none
  | some (actOff, e1) =>
    match classic_peer_addr buffer e1 max_len actOff with
    | none => none
    | some (actOff1, e2) => classic_message_body_attr_end buffer e2 max_len actOff1

/-- The value of `actOff` after the `for` loop of lines 558-632, `n`
iterations left; `none` is `return 0`.  The branches are those of
`rib_index_loop`. -/
def rib_index_loop_end (buffer : List Nat) (max_len : Nat) :
    Nat → Nat → File_buf_t → Option Nat
  | 0, actOff, _ => some actOff
  | n + 1, actOff, dumper =>
    let peerType := get_buf_char (buffer.drop actOff)
    if actOff + 1 > max_len then none
    else if actOff + 1 + 4 > max_len then none
    else
      let peerIdx := dumper.actPeerIdx
      let d1 := { dumper with actPeerIdx := dumper.actPeerIdx + 1 }
      if peerIdx < 256 then
        let d2 := { d1 with
          index := set_index d1.index peerIdx
            { d1.index peerIdx with afi := peerType, idx := peerIdx } }
        match inet_ntop (peer_family peerType) (buffer.drop (actOff + 1 + 4)) with
        | none => none
        | some text =>
          let d3 := { d2 with
            index := set_index d2.index peerIdx { d2.index peerIdx with addr := text } }
          if actOff + 1 + 4 + peer_addr_len peerType > max_len then none
          else
            let d4 := { d3 with
              index := set_index d3.index peerIdx
                { d3.index peerIdx with
                  asn := peer_asn_value peerType
                    (buffer.drop (actOff + 1 + 4 + peer_addr_len peerType)) } }
            if actOff + 1 + 4 + peer_addr_len peerType + peer_asn_len peerType > max_len then
              none
            else
              rib_index_loop_end buffer max_len n
                (actOff + 1 + 4 + peer_addr_len peerType + peer_asn_len peerType) d4
      else
        if actOff + 1 + 4 + peer_addr_len peerType > max_len then none
        else if actOff + 1 + 4 + peer_addr_len peerType + peer_asn_len peerType > max_len then
          none
        else
          rib_index_loop_end buffer max_len n
            (actOff + 1 + 4 + peer_addr_len peerType + peer_asn_len peerType) d1

/-- The value of `actOff` when `process_bgp_rib_index` returns 1 (line 634);
`none` is the return value 0. -/
def process_bgp_rib_index_end (buffer : List Nat) (dumper : File_buf_t) (max_len : Nat) :
    Option Nat :=
  if 0 + 4 > max_len then none
  else
    let viewLen := get_buf_short (buffer.drop 4)
    if 4 + 2 > max_len then none
    else if 4 + 2 + viewLen > max_len then none
    else
      let peerCount := get_buf_short (buffer.drop (4 + 2 + viewLen))
      if 4 + 2 + viewLen + 2 > max_len then none
      else rib_index_loop_end buffer max_len peerCount (4 + 2 + viewLen + 2) dumper

/-- The final read offset of the decoder `process_bgp_rib` dispatches to;
`none` is the return value 0. -/
def process_bgp_rib_end (buffer : List Nat) (dumper : File_buf_t) (entry : MRTentry)
    (max_len : Nat) : Option Nat :=
  if entry.entrySubType = BGP_SUBTYPE_PEER_INDEX_TABLE then
    process_bgp_rib_index_end buffer dumper max_len
  else if entry.entrySubType = BGP_SUBTYPE_RIB_IPV4_UNICAST ∨
      entry.entrySubType = BGP_SUBTYPE_RIB_IPV6_UNICAST then
    process_bgp_rib_entry_end buffer dumper entry max_len
  else none

/-- The record `Read_next_mrt_entry` passes for a PEER_INDEX_TABLE record of
time 1. -/
def table_entry : MRTentry :=
  { MRTentry_new with entryType := 13, entrySubType := 1, time := 1 }

/-! ## A PEER_INDEX_TABLE without peer -/

theorem keeps_refl (e : MRTentry) : keeps e e :=
  ⟨rfl, List.prefix_refl _, List.prefix_refl _⟩

theorem keeps_trans {a b c : MRTentry} (h1 : keeps a b) (h2 : keeps b c) : keeps a c :=
  ⟨h2.1.trans h1.1, h1.2.1.trans h2.2.1, h1.2.2.trans h2.2.2⟩

theorem keeps_step {a b c : MRTentry} (h2 : keeps b c) (h1 : hdr b = hdr a)
    (hn : a.pfxNLRI <+: b.pfxNLRI) (hw : a.pfxWithdraw <+: b.pfxWithdraw) : keeps a c :=
  keeps_trans ⟨h1, hn, hw⟩ h2

theorem keeps_write_as_path (st : AttrState) (size : Nat) (s : List Char) :
    keeps st.entry (write_as_path st size s).entry :=
  ⟨rfl, List.prefix_refl _, List.prefix_refl _⟩

theorem as_path_seq_keeps (buffer : List Nat) (allAttrLen attrLen : Nat) :
    ∀ (n parsedLen : Nat) (st : AttrState) (r : Nat × AttrState),
      as_path_seq buffer allAttrLen attrLen n parsedLen st = Flow.next r →
        keeps st.entry r.2.entry := by
  intro n
  induction n with
  | zero =>
    intro p st r h
    rw [as_path_seq] at h
    cases h
    exact keeps_refl _
  | succ n ih =>
    intro p st r h
    rw [as_path_seq] at h
    split at h
    · cases h
    · dsimp only at h
      split_ifs at h
      all_goals first
        | cases h
        | exact keeps_step (ih _ _ _ h) rfl (List.prefix_refl _) (List.prefix_refl _)

theorem as_path_set_keeps (buffer : List Nat) (allAttrLen segLen : Nat) :
    ∀ (n i parsedLen : Nat) (st : AttrState) (r : Nat × AttrState),
      as_path_set buffer allAttrLen segLen n i parsedLen st = Flow.next r →
        keeps st.entry r.2.entry := by
  intro n
  induction n with
  | zero =>
    intro i p st r h
    rw [as_path_set] at h
    cases h
    exact keeps_refl _
  | succ n ih =>
    intro i p st r h
    rw [as_path_set] at h
    split at h
    · cases h
    · dsimp only at h
      split_ifs at h
      all_goals first
        | cases h
        | exact keeps_step (ih _ _ _ _ h) rfl (List.prefix_refl _) (List.prefix_refl _)

theorem as_path_loop_keeps (buffer : List Nat) (allAttrLen attrLen : Nat) :
    ∀ (fuel parsedLen : Nat) (st st1 : AttrState),
      as_path_loop buffer allAttrLen attrLen fuel parsedLen st = Flow.next st1 →
        keeps st.entry st1.entry := by
  intro fuel
  induction fuel with
  | zero =>
    intro p st st1 h
    rw [as_path_loop] at h
    split_ifs at h
    cases h
    exact keeps_refl _
  | succ fuel ih =>
    intro p st st1 h
    rw [as_path_loop] at h
    dsimp only at h
    split_ifs at h
    · split at h
      · cases h
      · rename_i p1 st2 hseq
        exact keeps_step (keeps_trans (as_path_seq_keeps _ _ _ _ _ _ _ hseq) (ih _ _ _ h))
          rfl (List.prefix_refl _) (List.prefix_refl _)
    · split at h
      · cases h
      · rename_i p1 st2 hset
        split_ifs at h
        exact keeps_step
          (keeps_trans (as_path_set_keeps _ _ _ _ _ _ _ _ hset)
            (keeps_step (ih _ _ _ h) rfl (List.prefix_refl _) (List.prefix_refl _)))
          rfl (List.prefix_refl _) (List.prefix_refl _)
    · exact keeps_step (ih _ _ _ h) rfl (List.prefix_refl _) (List.prefix_refl _)
    · cases h
      exact keeps_refl _

theorem communities_loop_keeps (buffer : List Nat) (allAttrLen attrLen : Nat) :
    ∀ (fuel parsedLen : Nat) (st st1 : AttrState),
      communities_loop buffer allAttrLen attrLen fuel parsedLen st = Flow.next st1 →
        keeps st.entry st1.entry := by
  intro fuel
  induction fuel with
  | zero =>
    intro p st st1 h
    rw [communities_loop] at h
    split_ifs at h
    cases h
    exact keeps_refl _
  | succ fuel ih =>
    intro p st st1 h
    rw [communities_loop] at h
    dsimp only at h
    split_ifs at h
    all_goals first
      | (cases h; exact keeps_refl _)
      | exact keeps_step (ih _ _ _ h) rfl (List.prefix_refl _) (List.prefix_refl _)

theorem mp_reach_loop_keeps (buffer : List Nat) (allAttrLen attrLen : Nat) :
    ∀ (fuel parsedLen : Nat) (st st1 : AttrState),
      mp_reach_loop buffer allAttrLen attrLen fuel parsedLen st = Flow.next st1 →
        keeps st.entry st1.entry := by
  intro fuel
  induction fuel with
  | zero =>
    intro p st st1 h
    rw [mp_reach_loop] at h
    split_ifs at h
    cases h
    exact keeps_refl _
  | succ fuel ih =>
    intro p st st1 h
    rw [mp_reach_loop] at h
    split_ifs at h
    · split at h
      · cases h
      · split_ifs at h
        exact keeps_step (ih _ _ _ h) rfl (List.prefix_append _ _) (List.prefix_refl _)
    · cases h
      exact keeps_refl _

theorem mp_unreach_loop_keeps (buffer : List Nat) (allAttrLen attrLen : Nat) :
    ∀ (fuel parsedLen : Nat) (st st1 : AttrState),
      mp_unreach_loop buffer allAttrLen attrLen fuel parsedLen st = Flow.next st1 →
        keeps st.entry st1.entry := by
  intro fuel
  induction fuel with
  | zero =>
    intro p st st1 h
    rw [mp_unreach_loop] at h
    split_ifs at h
    cases h
    exact keeps_refl _
  | succ fuel ih =>
    intro p st st1 h
    rw [mp_unreach_loop] at h
    split_ifs at h
    · split at h
      · cases h
      · split_ifs at h
        exact keeps_step (ih _ _ _ h) rfl (List.prefix_refl _) (List.prefix_append _ _)
    · cases h
      exact keeps_refl _

theorem mp_reach_tail_keeps (buffer : List Nat) (allAttrLen attrLen : Nat) (c : Bool)
    (actOff1 : Nat) (st st1 : AttrState)
    (h : mp_reach_tail buffer allAttrLen attrLen c actOff1 st = Flow.next st1) :
    keeps st.entry st1.entry := by
  unfold mp_reach_tail at h
  simp only [inet_ntop] at h
  split_ifs at h
  all_goals first
    | cases h
    | exact keeps_step (mp_reach_loop_keeps _ _ _ _ _ _ _ h) rfl (List.prefix_refl _)
        (List.prefix_refl _)

theorem attr_switch_keeps (buffer : List Nat) (allAttrLen attrType attrLen : Nat)
    (st st1 : AttrState)
    (h : attr_switch buffer allAttrLen attrType attrLen st = Flow.next st1) :
    keeps st.entry st1.entry := by
  unfold attr_switch attr_origin attr_next_hop attr_mp_reach attr_mp_unreach at h
  simp only [inet_ntop] at h
  split_ifs at h
  all_goals first
    | (cases h <;> exact ⟨rfl, List.prefix_refl _, List.prefix_refl _⟩)
    | exact as_path_loop_keeps _ _ _ _ _ _ _ h
    | exact communities_loop_keeps _ _ _ _ _ _ _ h
    | exact mp_reach_tail_keeps _ _ _ _ _ _ _ h
    | exact keeps_step (mp_unreach_loop_keeps _ _ _ _ _ _ _ h) rfl (List.prefix_refl _)
        (List.prefix_refl _)

theorem attr_value_keeps (buffer : List Nat) (allAttrLen attrType attrLen : Nat)
    (st st1 : AttrState)
    (h : attr_value buffer allAttrLen attrType attrLen st = Flow.next st1) :
    keeps st.entry st1.entry := by
  unfold attr_value at h
  split_ifs at h
  split at h
  · cases h
  · rename_i st2 hsw
    cases h
    exact keeps_step (attr_switch_keeps _ _ _ _ _ st2 hsw) rfl (List.prefix_refl _)
      (List.prefix_refl _)

theorem attr_body_keeps (buffer : List Nat) (allAttrLen : Nat) (st st1 : AttrState)
    (h : attr_body buffer allAttrLen st = Flow.next st1) : keeps st.entry st1.entry := by
  unfold attr_body at h
  dsimp only at h
  split_ifs at h
  all_goals first
    | cases h
    | exact keeps_step (attr_value_keeps _ _ _ _ _ _ h) rfl (List.prefix_refl _)
        (List.prefix_refl _)

theorem attr_loop_keeps (buffer : List Nat) (allAttrLen : Nat) :
    ∀ (fuel : Nat) (st st1 : AttrState),
      attr_loop buffer allAttrLen fuel st = Flow.next st1 → keeps st.entry st1.entry := by
  intro fuel
  induction fuel with
  | zero =>
    intro st st1 h
    rw [attr_loop] at h
    split_ifs at h
    cases h
    exact keeps_refl _
  | succ fuel ih =>
    intro st st1 h
    rw [attr_loop] at h
    split_ifs at h
    · split at h
      · cases h
      · exact keeps_trans (attr_body_keeps _ _ _ _ (by assumption)) (ih _ _ h)
    · cases h
      exact keeps_refl _

/-! ## The values `process_bgp_attributes` returns on failure -/

theorem as_path_seq_code (buffer : List Nat) (allAttrLen attrLen : Nat) :
    ∀ (n parsedLen : Nat) (st : AttrState) (c : Int) (e : MRTentry),
      as_path_seq buffer allAttrLen attrLen n parsedLen st = Flow.ret c e → c = 0 := by
  intro n
  induction n with
  | zero =>
    intro p st c e h
    rw [as_path_seq] at h
    cases h
  | succ n ih =>
    intro p st c e h
    rw [as_path_seq] at h
    split at h
    · cases h; rfl
    · dsimp only at h
      split_ifs at h
      all_goals first
        | (cases h; rfl)
        | exact ih _ _ _ _ h

theorem as_path_set_code (buffer : List Nat) (allAttrLen segLen : Nat) :
    ∀ (n i parsedLen : Nat) (st : AttrState) (c : Int) (e : MRTentry),
      as_path_set buffer allAttrLen segLen n i parsedLen st = Flow.ret c e → c = 0 := by
  intro n
  induction n with
  | zero =>
    intro i p st c e h
    rw [as_path_set] at h
    cases h
  | succ n ih =>
    intro i p st c e h
    rw [as_path_set] at h
    split at h
    · cases h; rfl
    · dsimp only at h
      split_ifs at h
      all_goals first
        | (cases h; rfl)
        | exact ih _ _ _ _ _ h

theorem as_path_loop_code (buffer : List Nat) (allAttrLen attrLen : Nat) :
    ∀ (fuel parsedLen : Nat) (st : AttrState) (c : Int) (e : MRTentry),
      as_path_loop buffer allAttrLen attrLen fuel parsedLen st = Flow.ret c e → c = 0 := by
  intro fuel
  induction fuel with
  | zero =>
    intro p st c e h
    rw [as_path_loop] at h
    split_ifs at h
    cases h; rfl
  | succ fuel ih =>
    intro p st c e h
    rw [as_path_loop] at h
    dsimp only at h
    split_ifs at h
    · cases h; rfl
    · cases h; rfl
    · split at h
      · cases h
        exact as_path_seq_code _ _ _ _ _ _ _ _ (by assumption)
      · exact ih _ _ _ _ h
    · cases h; rfl
    · split at h
      · cases h
        exact as_path_set_code _ _ _ _ _ _ _ _ _ (by assumption)
      · split_ifs at h
        · cases h; rfl
        · exact ih _ _ _ _ h
    · exact ih _ _ _ _ h

theorem communities_loop_code (buffer : List Nat) (allAttrLen attrLen : Nat) :
    ∀ (fuel parsedLen : Nat) (st : AttrState) (c : Int) (e : MRTentry),
      communities_loop buffer allAttrLen attrLen fuel parsedLen st = Flow.ret c e →
        c = 0 ∨ c = -1 := by
  intro fuel
  induction fuel with
  | zero =>
    intro p st c e h
    rw [communities_loop] at h
    split_ifs at h
    cases h; exact Or.inl rfl
  | succ fuel ih =>
    intro p st c e h
    rw [communities_loop] at h
    dsimp only at h
    split_ifs at h
    all_goals first
      | (cases h; exact Or.inl rfl)
      | (cases h; exact Or.inr rfl)
      | exact ih _ _ _ _ h

theorem mp_reach_loop_code (buffer : List Nat) (allAttrLen attrLen : Nat) :
    ∀ (fuel parsedLen : Nat) (st : AttrState) (c : Int) (e : MRTentry),
      mp_reach_loop buffer allAttrLen attrLen fuel parsedLen st = Flow.ret c e → c = 0 := by
  intro fuel
  induction fuel with
  | zero =>
    intro p st c e h
    rw [mp_reach_loop] at h
    split_ifs at h
    cases h; rfl
  | succ fuel ih =>
    intro p st c e h
    rw [mp_reach_loop] at h
    split_ifs at h
    split at h
    · cases h; rfl
    · split_ifs at h
      · cases h; rfl
      · exact ih _ _ _ _ h

theorem mp_unreach_loop_code (buffer : List Nat) (allAttrLen attrLen : Nat) :
    ∀ (fuel parsedLen : Nat) (st : AttrState) (c : Int) (e : MRTentry),
      mp_unreach_loop buffer allAttrLen attrLen fuel parsedLen st = Flow.ret c e → c = 0 := by
  intro fuel
  induction fuel with
  | zero =>
    intro p st c e h
    rw [mp_unreach_loop] at h
    split_ifs at h
    cases h; rfl
  | succ fuel ih =>
    intro p st c e h
    rw [mp_unreach_loop] at h
    split_ifs at h
    split at h
    · cases h; rfl
    · split_ifs at h
      · cases h; rfl
      · exact ih _ _ _ _ h

theorem mp_reach_tail_code (buffer : List Nat) (allAttrLen attrLen : Nat) (b : Bool)
    (actOff1 : Nat) (st : AttrState) (c : Int) (e : MRTentry)
    (h : mp_reach_tail buffer allAttrLen attrLen b actOff1 st = Flow.ret c e) : c = 0 := by
  unfold mp_reach_tail at h
  simp only [inet_ntop] at h
  split_ifs at h
  all_goals first
    | (cases h; rfl)
    | exact mp_reach_loop_code _ _ _ _ _ _ _ _ h

theorem attr_switch_code (buffer : List Nat) (allAttrLen attrType attrLen : Nat)
    (st : AttrState) (c : Int) (e : MRTentry)
    (h : attr_switch buffer allAttrLen attrType attrLen st = Flow.ret c e) :
    c = 0 ∨ c = -1 := by
  unfold attr_switch attr_origin attr_next_hop attr_mp_reach attr_mp_unreach at h
  simp only [inet_ntop] at h
  split_ifs at h
  all_goals first
    | (cases h; exact Or.inl rfl)
    | exact Or.inl (as_path_loop_code _ _ _ _ _ _ _ _ h)
    | exact communities_loop_code _ _ _ _ _ _ _ _ h
    | exact Or.inl (mp_reach_tail_code _ _ _ _ _ _ _ _ h)
    | exact Or.inl (mp_unreach_loop_code _ _ _ _ _ _ _ _ h)

theorem attr_body_code (buffer : List Nat) (allAttrLen : Nat) (st : AttrState) (c : Int)
    (e : MRTentry) (h : attr_body buffer allAttrLen st = Flow.ret c e) : c = 0 ∨ c = -1 := by
  unfold attr_body attr_value at h
  dsimp only at h
  split_ifs at h
  all_goals first
    | (cases h; exact Or.inl rfl)
    | (split at h
       · cases h
         exact attr_switch_code _ _ _ _ _ _ _ (by assumption)
       · cases h)

theorem attr_loop_code (buffer : List Nat) (allAttrLen : Nat) :
    ∀ (fuel : Nat) (st : AttrState) (c : Int) (e : MRTentry),
      attr_loop buffer allAttrLen fuel st = Flow.ret c e → c = 0 ∨ c = -1 := by
  intro fuel
  induction fuel with
  | zero =>
    intro st c e h
    rw [attr_loop] at h
    split_ifs at h
    cases h; exact Or.inl rfl
  | succ fuel ih =>
    intro st c e h
    rw [attr_loop] at h
    split_ifs at h
    split at h
    · cases h
      exact attr_body_code _ _ _ _ _ (by assumption)
    · exact ih _ _ _ h

/-- When `process_bgp_attributes` returns `allAttrLen`, its loop ran to the
end: the caller's test `ret != allAttrLen` lets no failure through. -/
theorem attributes_success (buffer : List Nat) (entry : MRTentry) (allAttrLen : Nat)
    (h : (process_bgp_attributes buffer entry allAttrLen).1 = (allAttrLen : Int)) :
    ∃ st, attr_loop buffer allAttrLen allAttrLen
        { actOff := 0, actAllAttrLen := 0, aspActStrLen := 0, comActStrlen := 0, entry := entry }
        = Flow.next st ∧ st.actOff = allAttrLen ∧
      (process_bgp_attributes buffer entry allAttrLen).2 = st.entry := by
  unfold process_bgp_attributes at h ⊢
  cases hl : attr_loop buffer allAttrLen allAttrLen
      { actOff := 0, actAllAttrLen := 0, aspActStrLen := 0, comActStrlen := 0, entry := entry } with
  | next st =>
    rw [hl] at h
    dsimp only at h
    exact ⟨st, rfl, by exact_mod_cast h, rfl⟩
  | ret c e =>
    rw [hl] at h
    exfalso
    have hc := attr_loop_code _ _ _ _ _ _ hl
    dsimp only at h
    cases allAttrLen with
    | zero => rw [attr_loop] at hl; simp at hl
    | succ n => rcases hc with hc | hc <;> omega

theorem attributes_keeps (buffer : List Nat) (entry : MRTentry) (allAttrLen : Nat)
    (h : (process_bgp_attributes buffer entry allAttrLen).1 = (allAttrLen : Int)) :
    keeps entry (process_bgp_attributes buffer entry allAttrLen).2 := by
  obtain ⟨st, h1, _, h3⟩ := attributes_success buffer entry allAttrLen h
  rw [h3]
  exact attr_loop_keeps _ _ _ _ _ h1

/-! ## `process_bgp_update` and `process_classic_message` -/

theorem get_buf_char_lt (buf : List Nat) : get_buf_char buf < 256 :=
  Nat.mod_lt _ (by decide)

theorem get_buf_short_eq (buf : List Nat) :
    get_buf_short buf = 256 * get_buf_char buf + get_buf_char (buf.drop 1) := by
  have h0 := get_buf_char_lt buf
  have h1 := get_buf_char_lt (buf.drop 1)
  unfold get_buf_short
  omega

theorem get_buf_int_eq (buf : List Nat) :
    get_buf_int buf = 16777216 * get_buf_char buf + 65536 * get_buf_char (buf.drop 1)
      + 256 * get_buf_char (buf.drop 2) + get_buf_char (buf.drop 3) := by
  have h0 := get_buf_char_lt buf
  have h1 := get_buf_char_lt (buf.drop 1)
  have h2 := get_buf_char_lt (buf.drop 2)
  have h3 := get_buf_char_lt (buf.drop 3)
  unfold get_buf_int
  omega

theorem withdraw_loop_keeps (buffer : List Nat) (max_len withdrawLen : Nat) :
    ∀ (fuel actOff actWithLen : Nat) (entry : MRTentry) (r : Nat × MRTentry),
      withdraw_loop buffer max_len withdrawLen fuel actOff actWithLen entry = some r →
        keeps entry r.2 := by
  intro fuel
  induction fuel with
  | zero =>
    intro o w e r h
    rw [withdraw_loop] at h
    split_ifs at h
    cases h
    exact keeps_refl _
  | succ fuel ih =>
    intro o w e r h
    rw [withdraw_loop] at h
    dsimp only at h
    split_ifs at h
    · exact ih _ _ _ _ h
    · split at h
      · cases h
      · split_ifs at h
        exact keeps_step (ih _ _ _ _ h) rfl (List.prefix_refl _) (List.prefix_append _ _)
    · cases h
      exact keeps_refl _

theorem nlri_loop_keeps (buffer : List Nat) (max_len : Nat) :
    ∀ (fuel actOff : Nat) (entry e1 : MRTentry),
      nlri_loop buffer max_len fuel actOff entry = some e1 → keeps entry e1 := by
  intro fuel
  induction fuel with
  | zero =>
    intro o e r h
    rw [nlri_loop] at h
    split_ifs at h
    cases h
    exact keeps_refl _
  | succ fuel ih =>
    intro o e r h
    rw [nlri_loop] at h
    dsimp only at h
    split_ifs at h
    · exact ih _ _ _ h
    · split at h
      · cases h
      · split_ifs at h
        exact keeps_step (ih _ _ _ h) rfl (List.prefix_append _ _) (List.prefix_refl _)
    · cases h
      exact keeps_refl _

theorem update_keeps (buffer : List Nat) (entry e1 : MRTentry) (max_len : Nat)
    (h : process_bgp_update buffer entry max_len = some e1) : keeps entry e1 := by
  unfold process_bgp_update at h
  dsimp only at h
  split_ifs at h
  split at h
  · cases h
  · rename_i actOff entry1 hw
    split_ifs at h
    rename_i hlen hret
    exact keeps_trans (withdraw_loop_keeps _ _ _ _ _ _ _ _ hw)
      (keeps_trans (attributes_keeps _ _ _ (not_not.mp hret)) (nlri_loop_keeps _ _ _ _ _ _ h))


theorem hdr_eq_iff (e e1 : MRTentry) :
    hdr e1 = hdr e ↔
      e1.entryType = e.entryType ∧ e1.entrySubType = e.entrySubType ∧
      e1.entryLength = e.entryLength ∧ e1.bgpType = e.bgpType ∧ e1.peer_asn = e.peer_asn ∧
      e1.afi = e.afi ∧ e1.peerAddr = e.peerAddr ∧ e1.time = e.time ∧ e1.time_ms = e.time_ms := by
  simp only [hdr, Prod.mk.injEq]

theorem classic_peer_asn_spec (buffer : List Nat) (entry : MRTentry) (max_len : Nat)
    (r : Nat × MRTentry) (h : classic_peer_asn buffer entry max_len = some r) :
    (r.1 = 4 ∧ r.2 = { entry with peer_asn := get_buf_short buffer } ∧
      (entry.entrySubType = 1 ∨ entry.entrySubType = 6 ∨ entry.entrySubType = 0)) ∨
    (r.1 = 8 ∧ r.2 = { entry with peer_asn := get_buf_int buffer } ∧
      (entry.entrySubType = 4 ∨ entry.entrySubType = 7 ∨ entry.entrySubType = 5)) := by
  unfold classic_peer_asn at h
  split_ifs at h with h1 h2 h3 h4 h5 h6
  · cases h
    exact Or.inl ⟨rfl, rfl, h1⟩
  · cases h
    exact Or.inr ⟨rfl, rfl, h4⟩

theorem classic_peer_addr_spec (buffer : List Nat) (entry : MRTentry) (max_len actOff : Nat)
    (r : Nat × MRTentry) (h : classic_peer_addr buffer entry max_len actOff = some r) :
    ∃ text, r.2 = { entry with
        afi := get_buf_short (buffer.drop (actOff + 2)), pfxNLRI := [], pfxWithdraw := [],
        peerAddr := text } ∧
      r.1 = actOff + 4 + (if get_buf_short (buffer.drop (actOff + 2)) = BGP_IPV4_AFI then 8 else 32) ∧
      r.1 ≤ max_len ∧
      (get_buf_short (buffer.drop (actOff + 2)) = BGP_IPV4_AFI ∨
        get_buf_short (buffer.drop (actOff + 2)) = BGP_IPV6_AFI) := by
  unfold classic_peer_addr at h
  simp only [inet_ntop] at h
  split_ifs at h with h1 h2 h3 h4 h5 h6 h7 h8
  · cases h
    refine ⟨_, rfl, ?_, ?_, Or.inl h3⟩
    · simp only [h3, if_true]
    · simp only; omega
  · cases h
    refine ⟨_, rfl, ?_, ?_, Or.inr h6⟩
    · simp only [h3, if_false]
    · simp only; omega

theorem classic_message_body_fields (buffer : List Nat) (entry e1 : MRTentry)
    (max_len actOff : Nat) (h : classic_message_body buffer entry max_len actOff = some e1) :
    e1.peer_asn = entry.peer_asn ∧ e1.afi = entry.afi ∧ e1.peerAddr = entry.peerAddr := by
  unfold classic_message_body at h
  dsimp only at h
  split_ifs at h
  · cases h; exact ⟨rfl, rfl, rfl⟩
  · have hk := ((hdr_eq_iff _ _).mp (update_keeps _ _ _ _ h).1)
    exact ⟨hk.2.2.2.2.1, hk.2.2.2.2.2.1, hk.2.2.2.2.2.2.1⟩
  · cases h; exact ⟨rfl, rfl, rfl⟩

/-- C16.  `process_classic_message` reads the peer ASN at offset 0, as two bytes
(most significant first) for the subtypes 0, 1 and 6 and as four bytes for the
subtypes 4, 5 and 7; the destination ASN of the same width and the interface
index are skipped, so the address family is the 16-bit value at offset 6,
respectively 10; every other subtype is rejected. -/
theorem classic_message_peer_asn (buffer : List Nat) (entry : MRTentry) (max_len : Nat) :
    ((entry.entrySubType = 0 ∨ entry.entrySubType = 1 ∨ entry.entrySubType = 6) →
      ∀ e, process_classic_message buffer entry max_len = some e →
        e.peer_asn = 256 * get_buf_char buffer + get_buf_char (buffer.drop 1) ∧
        e.afi = get_buf_short (buffer.drop 6)) ∧
    ((entry.entrySubType = 4 ∨ entry.entrySubType = 5 ∨ entry.entrySubType = 7) →
      ∀ e, process_classic_message buffer entry max_len = some e →
        e.peer_asn = 16777216 * get_buf_char buffer + 65536 * get_buf_char (buffer.drop 1)
          + 256 * get_buf_char (buffer.drop 2) + get_buf_char (buffer.drop 3) ∧
        e.afi = get_buf_short (buffer.drop 10)) ∧
    ((entry.entrySubType ≠ 0 ∧ entry.entrySubType ≠ 1 ∧ entry.entrySubType ≠ 6 ∧
        entry.entrySubType ≠ 4 ∧ entry.entrySubType ≠ 5 ∧ entry.entrySubType ≠ 7) →
      process_classic_message buffer entry max_len = none) := by
  have key : ∀ e, process_classic_message buffer entry max_len = some e →
      ∃ r, classic_peer_asn buffer entry max_len = some r ∧
        e.peer_asn = r.2.peer_asn ∧ e.afi = get_buf_short (buffer.drop (r.1 + 2)) := by
    intro e h
    unfold process_classic_message at h
    split at h
    · cases h
    · rename_i actOff e1 h1
      split at h
      · cases h
      · rename_i actOff1 e2 h2
        obtain ⟨text, he2, -, -, -⟩ := classic_peer_addr_spec _ _ _ _ _ h2
        have hb := classic_message_body_fields _ _ _ _ _ h
        refine ⟨_, h1, ?_, ?_⟩
        · rw [hb.1]; simp only at he2; rw [he2]
        · rw [hb.2.1]; simp only at he2; rw [he2]
  refine ⟨?_, ?_, ?_⟩
  · intro hs e h
    obtain ⟨r, hr, h1, h2⟩ := key e h
    rcases classic_peer_asn_spec _ _ _ _ hr with ⟨a, b, c⟩ | ⟨a, b, c⟩
    · rw [h1, h2, a, b]
      exact ⟨get_buf_short_eq _, rfl⟩
    · omega
  · intro hs e h
    obtain ⟨r, hr, h1, h2⟩ := key e h
    rcases classic_peer_asn_spec _ _ _ _ hr with ⟨a, b, c⟩ | ⟨a, b, c⟩
    · omega
    · rw [h1, h2, a, b]
      exact ⟨get_buf_int_eq _, rfl⟩
  · intro hs
    unfold process_classic_message classic_peer_asn
    simp only [MRT_SUBTYPE_BGP4MP_MESSAGE, MRT_SUBTYPE_BGP4MP_MESSAGE_LOCAL,
      MRT_SUBTYPE_BGP4MP_STATE_CHANGE, MRT_SUBTYPE_BGP4MP_MESSAGE_AS4,
      MRT_SUBTYPE_BGP4MP_MESSAGE_AS4_LOCAL, MRT_SUBTYPE_BGP4MP_STATE_CHANGE_AS4]
    rw [if_neg (by omega), if_neg (by omega)]


theorem get_buf_n_getElem (n : Nat) : ∀ (buf : List Nat) (k : Nat), k < n →
    (get_buf_n buf n).getD k 0 = get_buf_char (buf.drop k) := by
  induction n with
  | zero => intro buf k hk; omega
  | succ n ih =>
    intro buf k hk
    rw [get_buf_n]
    cases k with
    | zero => simp
    | succ k =>
      rw [List.getD_cons_succ, ih _ _ (by omega), List.drop_drop]
      congr 2
      omega

theorem classic_prefix_spec (buffer : List Nat) (entry e : MRTentry) (max_len : Nat)
    (h : process_classic_message buffer entry max_len = some e) :
    ∃ asn text,
      classic_message_body buffer
        { entry with
          peer_asn := asn, afi := get_buf_short (buffer.drop (peer_asns_len entry.entrySubType + 2)),
          pfxNLRI := [], pfxWithdraw := [], peerAddr := text }
        max_len (peer_block_len buffer entry.entrySubType) = some e ∧
      peer_block_len buffer entry.entrySubType ≤ max_len := by
  unfold process_classic_message at h
  split at h
  · cases h
  · rename_i actOff e1 h1
    split at h
    · cases h
    · rename_i actOff1 e2 h2
      obtain ⟨text, he2, ho, hle, -⟩ := classic_peer_addr_spec _ _ _ _ _ h2
      simp only at he2 ho hle
      have hs : actOff = peer_asns_len entry.entrySubType ∧
          ∃ asn, e1 = { entry with peer_asn := asn } := by
        rcases classic_peer_asn_spec _ _ _ _ h1 with ⟨a, b, c⟩ | ⟨a, b, c⟩
        · simp only at a b
          refine ⟨?_, _, b⟩
          unfold peer_asns_len
          simp only [MRT_SUBTYPE_BGP4MP_MESSAGE, MRT_SUBTYPE_BGP4MP_MESSAGE_LOCAL,
            MRT_SUBTYPE_BGP4MP_STATE_CHANGE]
          rw [if_pos c, a]
        · simp only at a b
          refine ⟨?_, _, b⟩
          unfold peer_asns_len
          simp only [MRT_SUBTYPE_BGP4MP_MESSAGE, MRT_SUBTYPE_BGP4MP_MESSAGE_LOCAL,
            MRT_SUBTYPE_BGP4MP_STATE_CHANGE]
          rw [if_neg (by omega), a]
      obtain ⟨ha, asn, he1⟩ := hs
      subst ha
      subst he1
      refine ⟨asn, text, ?_, ?_⟩
      · unfold peer_block_len
        rw [← ho, ← he2]
        exact h
      · unfold peer_block_len
        rw [← ho]
        exact hle

/-- C15.  For the four message subtypes 1, 4, 6 and 7, a body that
`process_classic_message` accepts has sixteen bytes `0xFF` at the marker's
offset `peer_block_len`, and the 2-byte BGP length that follows them is `max_len` minus the
marker's offset, the number of body bytes from the first marker byte to the end
of the body. -/
theorem classic_message_marker_and_length (buffer : List Nat) (entry e : MRTentry)
    (max_len : Nat)
    (hsub : entry.entrySubType = 1 ∨ entry.entrySubType = 4 ∨ entry.entrySubType = 6 ∨
      entry.entrySubType = 7)
    (h : process_classic_message buffer entry max_len = some e) :
    (∀ k, k < 16 →
      get_buf_char (buffer.drop (peer_block_len buffer entry.entrySubType + k)) = 255) ∧
    peer_block_len buffer entry.entrySubType ≤ max_len ∧
    get_buf_short (buffer.drop (peer_block_len buffer entry.entrySubType + 16))
      = max_len - peer_block_len buffer entry.entrySubType := by
  obtain ⟨asn, text, hb, hle⟩ := classic_prefix_spec buffer entry e max_len h
  unfold classic_message_body at hb
  simp only [MRT_SUBTYPE_BGP4MP_STATE_CHANGE, MRT_SUBTYPE_BGP4MP_STATE_CHANGE_AS4] at hb
  rw [if_neg (by omega)] at hb
  split_ifs at hb with h1 h2 h3 h4 h5 h6
  all_goals
    refine ⟨?_, hle, by omega⟩
    intro k hk
    have hm := congrArg (fun l => l.getD k 0) (not_not.mp h2)
    simp only at hm
    rw [get_buf_n_getElem 16 _ k hk, List.drop_drop] at hm
    rw [hm]
    interval_cases k <;> rfl

/-- C17.  For the subtypes STATE_CHANGE (0) and STATE_CHANGE_AS4 (5), a body
whose address family is IPv4 or IPv6 and that holds the peer block and four
bytes more is accepted whatever those four bytes (old and new state) and the
rest of the body are: no marker is looked at.  The record returned has
`bgpType = BGP_TYPE_STATE_CHANGE` and no announced or withdrawn prefix, and its
attribute strings are those of the record passed in, which are empty in the
zeroed record `Read_next_mrt_entry` passes. -/
theorem state_change_accepted (buffer : List Nat) (entry : MRTentry) (max_len : Nat)
    (hsub : entry.entrySubType = 0 ∨ entry.entrySubType = 5)
    (hafi : get_buf_short (buffer.drop (peer_asns_len entry.entrySubType + 2)) = 1 ∨
      get_buf_short (buffer.drop (peer_asns_len entry.entrySubType + 2)) = 2)
    (hlen : peer_block_len buffer entry.entrySubType + 4 ≤ max_len) :
    ∃ e, process_classic_message buffer entry max_len = some e ∧
      e.bgpType = BGP_TYPE_STATE_CHANGE ∧ e.pfxNLRI = [] ∧ e.pfxWithdraw = [] ∧
      e.asPath = entry.asPath ∧ e.communities = entry.communities ∧
      e.origin = entry.origin ∧ e.nextHop = entry.nextHop := by
  unfold peer_block_len at hlen
  unfold peer_asns_len at hlen hafi
  unfold process_classic_message classic_peer_asn classic_peer_addr classic_message_body
  simp only [MRT_SUBTYPE_BGP4MP_MESSAGE, MRT_SUBTYPE_BGP4MP_MESSAGE_LOCAL,
    MRT_SUBTYPE_BGP4MP_STATE_CHANGE, MRT_SUBTYPE_BGP4MP_MESSAGE_AS4,
    MRT_SUBTYPE_BGP4MP_MESSAGE_AS4_LOCAL, MRT_SUBTYPE_BGP4MP_STATE_CHANGE_AS4,
    BGP_IPV4_AFI, BGP_IPV6_AFI, inet_ntop] at hlen hafi ⊢
  rcases hsub with hs | hs <;> rcases hafi with ha | ha
  all_goals
    simp only [hs] at ha hlen ⊢
    norm_num at ha hlen ⊢
    simp only [ha] at hlen ⊢
    norm_num at hlen ⊢
    have hge : ∀ k, k ≤ max_len → (max_len < k ↔ False) :=
      fun k hk => iff_false_intro (by omega)
    first
      | simp [ha, hge _ (show 2 ≤ max_len by omega), hge _ (show 4 ≤ max_len by omega),
          hge _ (show 6 ≤ max_len by omega), hge _ (show 8 ≤ max_len by omega),
          hge _ (show 10 ≤ max_len by omega), hge _ (show 12 ≤ max_len by omega),
          hge _ (show 16 ≤ max_len by omega), hge _ (show 18 ≤ max_len by omega),
          hge _ (show 20 ≤ max_len by omega), hge _ (show 22 ≤ max_len by omega),
          hge _ (show 24 ≤ max_len by omega), hge _ (show 28 ≤ max_len by omega),
          hge _ (show 40 ≤ max_len by omega), hge _ (show 42 ≤ max_len by omega),
          hge _ (show 44 ≤ max_len by omega), hge _ (show 46 ≤ max_len by omega),
          hge _ (show 48 ≤ max_len by omega)]
      | simp [ha, hge _ (show 2 ≤ max_len by omega), hge _ (show 4 ≤ max_len by omega),
          hge _ (show 6 ≤ max_len by omega), hge _ (show 8 ≤ max_len by omega),
          hge _ (show 10 ≤ max_len by omega), hge _ (show 12 ≤ max_len by omega),
          hge _ (show 16 ≤ max_len by omega), hge _ (show 18 ≤ max_len by omega),
          hge _ (show 20 ≤ max_len by omega), hge _ (show 22 ≤ max_len by omega),
          hge _ (show 24 ≤ max_len by omega), hge _ (show 28 ≤ max_len by omega),
          hge _ (show 40 ≤ max_len by omega), hge _ (show 42 ≤ max_len by omega),
          hge _ (show 44 ≤ max_len by omega)]
      | simp [ha, hge _ (show 2 ≤ max_len by omega), hge _ (show 4 ≤ max_len by omega),
          hge _ (show 6 ≤ max_len by omega), hge _ (show 8 ≤ max_len by omega),
          hge _ (show 10 ≤ max_len by omega), hge _ (show 12 ≤ max_len by omega),
          hge _ (show 16 ≤ max_len by omega), hge _ (show 18 ≤ max_len by omega),
          hge _ (show 20 ≤ max_len by omega), hge _ (show 22 ≤ max_len by omega),
          hge _ (show 24 ≤ max_len by omega)]
      | simp [ha, hge _ (show 2 ≤ max_len by omega), hge _ (show 4 ≤ max_len by omega),
          hge _ (show 6 ≤ max_len by omega), hge _ (show 8 ≤ max_len by omega),
          hge _ (show 10 ≤ max_len by omega), hge _ (show 12 ≤ max_len by omega),
          hge _ (show 16 ≤ max_len by omega), hge _ (show 18 ≤ max_len by omega),
          hge _ (show 20 ≤ max_len by omega)]

/-! ## The peer directory -/

theorem toDigitsCore_ne_nil (b : Nat) : ∀ (f n : Nat) (ds : List Char),
    (0 < f ∨ ds ≠ []) → Nat.toDigitsCore b f n ds ≠ [] := by
  intro f
  induction f with
  | zero =>
    intro n ds h
    rcases h with h | h
    · omega
    · simpa [Nat.toDigitsCore] using h
  | succ f ih =>
    intro n ds _
    rw [Nat.toDigitsCore]
    split_ifs
    · exact List.cons_ne_nil _ _
    · exact ih _ _ (Or.inr (List.cons_ne_nil _ _))

theorem fmt_u_ne_nil (n : Nat) : fmt_u n ≠ [] :=
  toDigitsCore_ne_nil 10 _ _ _ (Or.inl (Nat.succ_pos _))

theorem fmt_x_ne_nil (n : Nat) : fmt_x n ≠ [] :=
  toDigitsCore_ne_nil 16 _ _ _ (Or.inl (Nat.succ_pos _))

theorem inet_ntop4_ne_nil (src : List Nat) : inet_ntop4 src ≠ [] := by
  unfold inet_ntop4
  intro h
  have := congrArg List.length h
  simp at this

theorem ntop6_emit_ne_nil (src words : List Nat) (best : Option (Nat × Nat)) (n : Nat) :
    ntop6_emit src words best (n + 1) 0 ≠ [] := by
  intro h1
  cases best with
  | none =>
    rw [ntop6_emit] at h1
    simp only [List.append_eq_nil] at h1
    exact fmt_x_ne_nil _ h1.1.2
  | some b =>
    rw [ntop6_emit] at h1
    split_ifs at h1 with c1 c2 c3 c4
    all_goals first
      | omega
      | (simp only [List.append_eq_nil] at h1
         first
           | exact fmt_x_ne_nil _ h1.2.1
           | exact inet_ntop4_ne_nil _ h1.2
           | exact List.cons_ne_nil _ _ h1.1)

theorem inet_ntop6_ne_nil (src : List Nat) : inet_ntop6 src ≠ [] := by
  unfold inet_ntop6
  dsimp only
  intro h
  rw [List.append_eq_nil] at h
  exact ntop6_emit_ne_nil src _ _ 7 h.1

theorem inet_ntop_ne_nil (af : AddrFamily) (src : List Nat) (text : List Char)
    (h : inet_ntop af src = some text) : text ≠ [] := by
  cases af <;> simp only [inet_ntop, Option.some.injEq] at h <;> subst h
  · exact inet_ntop4_ne_nil _
  · exact inet_ntop6_ne_nil _

theorem dir_le_of_eq (d r : File_buf_t) (h1 : r.actPeerIdx = d.actPeerIdx)
    (h2 : r.index = d.index) : dir_le d r := by
  refine ⟨by omega, fun i _ => by rw [h2], fun i _ => by rw [h2], fun i a b => by omega⟩

theorem dir_le_trans {a b c : File_buf_t} (h1 : dir_le a b) (h2 : dir_le b c) : dir_le a c := by
  obtain ⟨a1, a2, a3, a4⟩ := h1
  obtain ⟨b1, b2, b3, b4⟩ := h2
  refine ⟨by omega, ?_, ?_, ?_⟩
  · intro i hi
    rw [b2 i (by omega), a2 i hi]
  · intro i hi
    rw [b3 i hi, a3 i (by omega)]
  · intro i h1 h2 h3
    by_cases hb : i < b.actPeerIdx
    · rw [b2 i hb]
      exact a4 i h1 hb h3
    · exact b4 i (by omega) h2 h3

theorem dir_le_step {d r c : File_buf_t} (h2 : dir_le r c)
    (hact : r.actPeerIdx = d.actPeerIdx + 1)
    (hidx : ∀ i, i ≠ d.actPeerIdx → r.index i = d.index i)
    (hpop : d.actPeerIdx < 256 → (r.index d.actPeerIdx).addr ≠ []) : dir_le d c := by
  refine dir_le_trans ⟨by omega, fun i hi => hidx i (by omega), fun i hi => hidx i (by omega), ?_⟩ h2
  intro i a b c
  have : i = d.actPeerIdx := by omega
  subst this
  exact hpop c

theorem dir_le_refl (d : File_buf_t) : dir_le d d := dir_le_of_eq _ _ rfl rfl

theorem inet_ntop_some (af : AddrFamily) (src : List Nat) :
    ∃ text, inet_ntop af src = some text ∧ text ≠ [] := by
  cases af
  · exact ⟨_, rfl, inet_ntop4_ne_nil _⟩
  · exact ⟨_, rfl, inet_ntop6_ne_nil _⟩

theorem rib_index_loop_le (buffer : List Nat) (max_len : Nat) :
    ∀ (n actOff : Nat) (d : File_buf_t), dir_le d (rib_index_loop buffer max_len n actOff d).2 := by
  intro n
  induction n with
  | zero =>
    intro actOff d
    rw [rib_index_loop]
    exact dir_le_refl _
  | succ n ih =>
    intro actOff d
    rw [rib_index_loop]
    dsimp only
    obtain ⟨text, ht, hne⟩ := inet_ntop_some (peer_family (get_buf_char (List.drop actOff buffer)))
      (List.drop (actOff + 1 + 4) buffer)
    simp only [ht]
    split_ifs
    all_goals first
      | exact dir_le_refl _
      | exact dir_le_step (dir_le_refl _) rfl (fun i hi => by simp [set_index, hi])
          (fun h => by first | omega | simpa [set_index] using hne)
      | exact dir_le_step (ih _ _) rfl (fun i hi => by simp [set_index, hi])
          (fun h => by first | omega | simpa [set_index] using hne)

theorem process_bgp_rib_index_le (buffer : List Nat) (d : File_buf_t) (max_len : Nat) :
    dir_le d (process_bgp_rib_index buffer d max_len).2 := by
  unfold process_bgp_rib_index
  dsimp only
  split_ifs
  all_goals first
    | exact dir_le_refl _
    | exact rib_index_loop_le _ _ _ _ _

theorem process_bgp_rib_le (buffer : List Nat) (d : File_buf_t) (entry : MRTentry)
    (max_len : Nat) :
    dir_le d (process_bgp_rib buffer d entry max_len).2 ∧
    (entry.entrySubType ≠ BGP_SUBTYPE_PEER_INDEX_TABLE →
      (process_bgp_rib buffer d entry max_len).2 = d) := by
  unfold process_bgp_rib
  split_ifs with h1 h2
  · exact ⟨process_bgp_rib_index_le _ _ _, fun h => absurd h1 h⟩
  · exact ⟨dir_le_refl _, fun _ => rfl⟩
  · exact ⟨dir_le_refl _, fun _ => rfl⟩

theorem read_record_body_le (dump : File_buf_t) (entry : MRTentry) :
    dir_le dump (read_record_body dump entry).2 ∧
    (¬ (entry.entryType = MRT_TYPE_TABLE_DUMP_V2 ∧
        entry.entrySubType = BGP_SUBTYPE_PEER_INDEX_TABLE) →
      (read_record_body dump entry).2.index = dump.index ∧
      (read_record_body dump entry).2.actPeerIdx = dump.actPeerIdx) := by
  unfold read_record_body
  dsimp only
  have hr := process_bgp_rib_le (cfr_read_n dump.f entry.entryLength).1
    { dump with parsed := dump.parsed + 1, f := (cfr_read_n dump.f entry.entryLength).2 }
    entry entry.entryLength
  split_ifs
  all_goals first
    | exact ⟨dir_le_refl _, fun _ => ⟨rfl, rfl⟩⟩
    | (split <;> exact ⟨dir_le_refl _, fun _ => ⟨rfl, rfl⟩⟩)
    | (split
       · refine ⟨dir_le_trans (c := _) (dir_le_of_eq dump _ rfl rfl)
           (dir_le_trans hr.1 (dir_le_of_eq _ _ rfl rfl)), ?_⟩
         intro hne
         have := hr.2 (fun hs => hne ⟨by assumption, hs⟩)
         simp only [this]
         exact ⟨trivial, trivial⟩
       · refine ⟨dir_le_trans (c := _) (dir_le_of_eq dump _ rfl rfl)
           (dir_le_trans hr.1 (dir_le_of_eq _ _ rfl rfl)), ?_⟩
         intro hne
         have := hr.2 (fun hs => hne ⟨by assumption, hs⟩)
         simp only [this]
         exact ⟨trivial, trivial⟩)

theorem get_buf_short_take (l : List Nat) : get_buf_short (l.take 2) = get_buf_short l := by
  cases l with
  | nil => rfl
  | cons a t =>
    cases t with
    | nil => rfl
    | cons b t => simp [get_buf_short, get_buf_char]

theorem dir_le_after {d r c : File_buf_t} (h2 : dir_le r c)
    (h1 : r.actPeerIdx = d.actPeerIdx) (h : r.index = d.index) : dir_le d c :=
  dir_le_trans (dir_le_of_eq d r h1 h) h2

theorem Read_next_le (dump : File_buf_t) :
    dir_le dump (Read_next_mrt_entry dump).2 ∧
    (¬ next_is_peer_index dump →
      (Read_next_mrt_entry dump).2.index = dump.index ∧
      (Read_next_mrt_entry dump).2.actPeerIdx = dump.actPeerIdx) := by
  unfold Read_next_mrt_entry
  split
  · exact ⟨dir_le_refl _, fun _ => ⟨rfl, rfl⟩⟩
  · dsimp only
    split_ifs with h1 h2 h3
    · refine ⟨dir_le_after (read_record_body_le _ _).1 rfl rfl, fun _ => ?_⟩
      refine (read_record_body_le _ _).2 ?_
      intro hh
      have h13 := hh.1
      simp only at h13 h2
      rw [h2] at h13
      simp [MRT_TYPE_BGP4MP_ET, MRT_TYPE_TABLE_DUMP_V2] at h13
    · exact ⟨dir_le_refl _, fun _ => ⟨rfl, rfl⟩⟩
    · refine ⟨dir_le_after (read_record_body_le _ _).1 rfl rfl, fun hn => ?_⟩
      refine (read_record_body_le _ _).2 ?_
      intro hh
      apply hn
      simp only [cfr_read_n, get_buf_short_take, List.drop_drop] at hh
      exact hh
    · exact ⟨dir_le_refl _, fun _ => ⟨rfl, rfl⟩⟩

theorem dir_inv_of_le {d r : File_buf_t} (hd : dir_inv d) (h : dir_le d r) : dir_inv r := by
  obtain ⟨a1, a2, a3, a4⟩ := h
  intro i hi
  by_cases h1 : i < d.actPeerIdx
  · rw [a2 i h1]
    exact ⟨fun _ => by omega, fun _ => (hd i hi).mpr h1⟩
  · by_cases h2 : i < r.actPeerIdx
    · exact ⟨fun _ => h2, fun _ => a4 i (by omega) h2 hi⟩
    · rw [a3 i (by omega)]
      exact ⟨fun h => absurd ((hd i hi).mp h) h1, fun h => absurd h h2⟩

theorem read_records_le (dump : File_buf_t) (n : Nat) :
    ∀ m, dir_le (read_records n dump) (read_records (n + m) dump) := by
  intro m
  induction m with
  | zero => exact dir_le_refl _
  | succ m ih => exact dir_le_trans ih (Read_next_le _).1

/-- C12.  After any number `n` of calls of `Read_next_mrt_entry` on a file:
the populated directory entries (those holding an address text) are exactly the
entries below `min actPeerIdx 256`, an initial segment; a call writes only at
indices from the old `actPeerIdx` up to the new one, so the entries are filled
in increasing index order; an entry below `actPeerIdx` is the same after any
number `m` of further calls; and a call that does not start on a
PEER_INDEX_TABLE record leaves the whole directory and its counter as they
are. -/

theorem peer_directory_invariant (bytes : List Nat) (n : Nat) :
    (∀ i, i < 256 →
      (((read_records n (File_buf_create bytes)).index i).addr ≠ [] ↔
        i < min (read_records n (File_buf_create bytes)).actPeerIdx 256)) ∧
    (∀ i, (read_records (n + 1) (File_buf_create bytes)).index i
        ≠ (read_records n (File_buf_create bytes)).index i →
      (read_records n (File_buf_create bytes)).actPeerIdx ≤ i ∧
      i < (read_records (n + 1) (File_buf_create bytes)).actPeerIdx) ∧
    (∀ m i, i < (read_records n (File_buf_create bytes)).actPeerIdx →
      (read_records (n + m) (File_buf_create bytes)).index i
        = (read_records n (File_buf_create bytes)).index i) ∧
    (¬ next_is_peer_index (read_records n (File_buf_create bytes)) →
      (read_records (n + 1) (File_buf_create bytes)).index
        = (read_records n (File_buf_create bytes)).index ∧
      (read_records (n + 1) (File_buf_create bytes)).actPeerIdx
        = (read_records n (File_buf_create bytes)).actPeerIdx) := by
  have h0 : dir_inv (File_buf_create bytes) := by
    intro i _
    simp [File_buf_create, rib_peer_index_zero]
  have hinv : dir_inv (read_records n (File_buf_create bytes)) := by
    have := read_records_le (File_buf_create bytes) 0 n
    rw [Nat.zero_add] at this
    exact dir_inv_of_le h0 this
  refine ⟨?_, ?_, ?_, ?_⟩
  · intro i hi
    rw [hinv i hi]
    omega
  · intro i hne
    obtain ⟨a1, a2, a3, a4⟩ := read_records_le (File_buf_create bytes) n 1
    by_contra hc
    apply hne
    by_cases h1 : i < (read_records n (File_buf_create bytes)).actPeerIdx
    · exact a2 i h1
    · exact a3 i (by omega)
  · intro m i hi
    exact (read_records_le (File_buf_create bytes) n m).2.1 i hi
  · intro h
    exact (Read_next_le _).2 h

theorem process_prefix_ret (buffer : List Nat) (af : AddrFamily) (text : List Char) (ret : Nat)
    (h : process_prefix buffer af = some (text, ret)) :
    ret = 1 + (get_buf_char buffer + 7) / 8 := by
  unfold process_prefix at h
  dsimp only at h
  split_ifs at h
  split at h
  · cases h
  · cases h
    rfl

theorem rib_peer_entry_spec (buffer : List Nat) (d : File_buf_t) (max_len actOff : Nat)
    (e0 e1 : MRTentry) (actOff1 : Nat)
    (h : rib_peer_entry buffer d max_len actOff e0 = some (actOff1, e1)) :
    actOff1 = actOff + 2 + 4 + 2 + get_buf_short (buffer.drop (actOff + 2 + 4)) ∧
    e1.peer_asn = (d.index (get_buf_short (buffer.drop actOff))).asn ∧
    e1.peerAddr = (d.index (get_buf_short (buffer.drop actOff))).addr.take 32 ∧
    e1.time = e0.time ∧ e1.time_ms = e0.time_ms ∧ e1.entryType = e0.entryType ∧
    e1.entrySubType = e0.entrySubType ∧ e0.pfxNLRI <+: e1.pfxNLRI := by
  unfold rib_peer_entry at h
  dsimp only at h
  split_ifs at h with h1 h2 h3 h4 h5 h6
  cases h
  have hk := attributes_keeps _ _ _ (not_not.mp h5)
  have hh := (hdr_eq_iff _ _).mp hk.1
  exact ⟨rfl, hh.2.2.2.2.1, hh.2.2.2.2.2.2.1, hh.2.2.2.2.2.2.2.1, hh.2.2.2.2.2.2.2.2, hh.1,
    hh.2.1, hk.2.1⟩

theorem entry_offset_from_shift (buffer : List Nat) (start : Nat) : ∀ k,
    entry_offset_from buffer
      (start + 2 + 4 + 2 + get_buf_short (buffer.drop (start + 2 + 4))) k
      = entry_offset_from buffer start (k + 1) := by
  intro k
  induction k with
  | zero => rfl
  | succ k ih =>
    rw [entry_offset_from, ih]
    rfl

theorem scenario_d_decodes :
    process_bgp_rib_entry scenario_d_rib_body scenario_d_dumper scenario_d_entry 31
      = some (scenario_d_parent, [scenario_d_sibling]) := by decide

/-- C13 does not hold of the code: on `long_address_file` the directory entry
0 holds the address text of 39 characters and the ASN 65000, and the record
emitted for the RIB entry carries the ASN 65000 but only the 32 first
characters of the address text. -/
theorem rib_peer_address_truncated :
    ((read_records 1 (File_buf_create long_address_file)).index 0).addr
      = "1111:2222:3333:4444:5555:6666:7777:8888".toList ∧
    ((read_records 1 (File_buf_create long_address_file)).index 0).asn = 65000 ∧
    (Read_next_mrt_entry (read_records 1 (File_buf_create long_address_file))).1.map
        (fun e => (e.peer_asn, e.peerAddr, e.pfxNLRI))
      = some (65000, "1111:2222:3333:4444:5555:6666:77".toList, ["2001:db8::/32".toList]) := by
  decide

/-! ## The properties at sample inputs -/

/-- Scenario A of the spec decodes to the expected record. -/
theorem scenario_a_decodes :
    process_classic_message scenario_a_body scenario_a_entry 39 = some scenario_a_record := by
  decide

/-- C15 at scenario A of the spec, which is accepted. -/
theorem classic_message_marker_and_length_witness :
    (∀ k, k < 16 →
      get_buf_char (scenario_a_body.drop
        (peer_block_len scenario_a_body scenario_a_entry.entrySubType + k)) = 255) ∧
    peer_block_len scenario_a_body scenario_a_entry.entrySubType ≤ 39 ∧
    get_buf_short (scenario_a_body.drop
        (peer_block_len scenario_a_body scenario_a_entry.entrySubType + 16))
      = 39 - peer_block_len scenario_a_body scenario_a_entry.entrySubType :=
  classic_message_marker_and_length scenario_a_body scenario_a_entry scenario_a_record 39
    (Or.inr (Or.inl rfl)) (by decide)

/-- C16 at scenario A of the spec (subtype 4): the peer ASN is the 32-bit value
at offset 0 and the address family the 16-bit value at offset 10. -/
theorem classic_message_peer_asn_witness :
    scenario_a_record.peer_asn
        = 16777216 * get_buf_char scenario_a_body + 65536 * get_buf_char (scenario_a_body.drop 1)
          + 256 * get_buf_char (scenario_a_body.drop 2) + get_buf_char (scenario_a_body.drop 3) ∧
      scenario_a_record.afi = get_buf_short (scenario_a_body.drop 10) :=
  (classic_message_peer_asn scenario_a_body scenario_a_entry 39).2.1 (Or.inl rfl)
    scenario_a_record (by decide)

/-- C17 at scenario F of the spec. -/
theorem state_change_accepted_witness :
    ∃ e, process_classic_message scenario_f_body scenario_f_entry 24 = some e ∧
      e.bgpType = BGP_TYPE_STATE_CHANGE ∧ e.pfxNLRI = [] ∧ e.pfxWithdraw = [] ∧
      e.asPath = scenario_f_entry.asPath ∧ e.communities = scenario_f_entry.communities ∧
      e.origin = scenario_f_entry.origin ∧ e.nextHop = scenario_f_entry.nextHop :=
  state_change_accepted scenario_f_body scenario_f_entry 24 (Or.inr rfl) (Or.inl (by decide))
    (by decide)

theorem drop_add_eq (l : List Nat) (o k : Nat) : l.drop (o + k) = (l.drop o).drop k := by
  rw [List.drop_drop, Nat.add_comm]

theorem get_buf_char_cons (x : Nat) (l : List Nat) : get_buf_char (x :: l) = x % 256 := rfl

theorem get_buf_short_enc16 (v : Nat) (t : List Nat) (hv : v < 65536) :
    get_buf_short (enc16 v ++ t) = v := by
  simp only [enc16, get_buf_short, get_buf_char, List.cons_append, List.nil_append,
    List.getD_cons_zero, List.drop_succ_cons, List.drop_zero]
  omega

theorem get_buf_int_enc32 (v : Nat) (t : List Nat) (hv : v < 4294967296) :
    get_buf_int (enc32 v ++ t) = v := by
  simp only [enc32, get_buf_int, get_buf_char, List.cons_append, List.nil_append,
    List.getD_cons_zero, List.drop_succ_cons, List.drop_zero]
  omega

theorem communities_text_one (p : Nat × Nat) :
    communities_text [p] = fmt_u p.1 ++ ':' :: fmt_u p.2 := by
  simp [communities_text, List.intercalate]

theorem communities_text_cons (p q : Nat × Nat) (rest : List (Nat × Nat)) :
    communities_text (p :: q :: rest)
      = (fmt_u p.1 ++ ':' :: fmt_u p.2 ++ [' ']) ++ communities_text (q :: rest) := by
  simp [communities_text, List.intercalate]

theorem take_written (dst : List Char) (c : Nat) (t : List Char) (hc : c ≤ dst.length) :
    (dst.take c ++ t).take (c + t.length) = dst.take c ++ t := by
  apply List.take_of_length_le
  simp only [List.length_append, List.length_take]
  omega

theorem communities_written_written (st : AttrState) (o1 o2 : Nat) (t1 t2 : List Char)
    (hc : st.comActStrlen ≤ st.entry.communities.length) :
    communities_written (communities_written st o1 t1) o2 t2
      = communities_written st o2 (t1 ++ t2) := by
  simp only [communities_written, take_written _ _ _ hc, List.length_append, Nat.add_assoc,
    List.append_assoc]

theorem snprintf_fits (dst : List Char) (off size : Nat) (s : List Char)
    (h : s.length + 1 ≤ size) : snprintf dst off size s = (dst.take off ++ s, s.length) := by
  have hs : s.take (size - 1) = s := List.take_of_length_le (by omega)
  unfold snprintf
  rw [if_neg (by omega), hs]

theorem communities_step (buffer : List Nat) (allAttrLen attrLen fuel p : Nat) (st : AttrState)
    (a v : Nat) (rest : List Nat) (ha : a < 65536) (hv : v < 65536)
    (hbuf : buffer.drop st.actOff = enc16 a ++ enc16 v ++ rest)
    (hp : p < attrLen) (hoff : st.actOff + 4 ≤ allAttrLen)
    (hlt : st.comActStrlen + (community_text a v (p + 2 + 2) attrLen).length < MAX_ATTR) :
    communities_loop buffer allAttrLen attrLen (fuel + 1) p st
      = communities_loop buffer allAttrLen attrLen fuel (p + 2 + 2)
          (communities_written st (st.actOff + 2 + 2) (community_text a v (p + 2 + 2) attrLen)) := by
  have h1 : get_buf_short (buffer.drop st.actOff) = a := by
    rw [hbuf, List.append_assoc]; exact get_buf_short_enc16 a _ ha
  have h2 : get_buf_short (buffer.drop (st.actOff + 2)) = v := by
    rw [drop_add_eq, hbuf]
    exact get_buf_short_enc16 v _ hv
  rw [communities_loop]
  dsimp only
  rw [if_pos hp, if_neg (by omega), if_neg (by omega), h1, h2,
    snprintf_fits _ _ _ _ (by unfold MAX_ATTR at hlt ⊢; omega)]
  dsimp only
  rw [if_neg (by omega)]
  rfl

theorem communities_step_fail (buffer : List Nat) (allAttrLen attrLen fuel p : Nat)
    (st : AttrState) (a v : Nat) (rest : List Nat) (ha : a < 65536) (hv : v < 65536)
    (hbuf : buffer.drop st.actOff = enc16 a ++ enc16 v ++ rest)
    (hp : p < attrLen) (hoff : st.actOff + 4 ≤ allAttrLen)
    (hge : MAX_ATTR ≤ st.comActStrlen + (community_text a v (p + 2 + 2) attrLen).length) :
    ∃ e, communities_loop buffer allAttrLen attrLen (fuel + 1) p st = Flow.ret (-1) e := by
  have h1 : get_buf_short (buffer.drop st.actOff) = a := by
    rw [hbuf, List.append_assoc]; exact get_buf_short_enc16 a _ ha
  have h2 : get_buf_short (buffer.drop (st.actOff + 2)) = v := by
    rw [drop_add_eq, hbuf]
    exact get_buf_short_enc16 v _ hv
  rw [communities_loop]
  dsimp only
  rw [if_pos hp, if_neg (by omega), if_neg (by omega), h1, h2]
  rw [if_pos (by simp only [snprintf]; omega)]
  exact ⟨_, rfl⟩

theorem communities_loop_done (buffer : List Nat) (allAttrLen attrLen fuel p : Nat)
    (st : AttrState) (hp : ¬ p < attrLen) :
    communities_loop buffer allAttrLen attrLen fuel p st = Flow.next st := by
  cases fuel <;> rw [communities_loop] <;> simp only [if_neg hp]

theorem community_text_last (a v p : Nat) :
    community_text a v p p = communities_text [(a, v)] := by
  rw [communities_text_one]
  simp [community_text]

theorem community_text_more (a v p attrLen : Nat) (h : p ≠ attrLen) :
    community_text a v p attrLen = fmt_u a ++ ':' :: fmt_u v ++ [' '] := by
  simp [community_text, h]

theorem communities_loop_spec (buffer : List Nat) (allAttrLen attrLen : Nat) :
    ∀ (pairs : List (Nat × Nat)) (fuel p : Nat) (st : AttrState) (rest : List Nat),
      pairs ≠ [] →
      (∀ q ∈ pairs, q.1 < 65536 ∧ q.2 < 65536) →
      buffer.drop st.actOff = encode_communities pairs ++ rest →
      attrLen = p + 4 * pairs.length →
      st.actOff + 4 * pairs.length ≤ allAttrLen →
      pairs.length ≤ fuel →
      st.comActStrlen ≤ st.entry.communities.length →
      (st.comActStrlen + (communities_text pairs).length < MAX_ATTR →
        communities_loop buffer allAttrLen attrLen fuel p st
          = Flow.next (communities_written st (st.actOff + 4 * pairs.length)
              (communities_text pairs))) ∧
      (MAX_ATTR ≤ st.comActStrlen + (communities_text pairs).length →
        ∃ e, communities_loop buffer allAttrLen attrLen fuel p st = Flow.ret (-1) e) := by
  intro pairs
  induction pairs with
  | nil => intro _ _ _ _ h; exact absurd rfl h
  | cons q pairs ih =>
    intro fuel p st rest _ hb hbuf hlen hoff hfuel hc
    obtain ⟨a, v⟩ := q
    have hq := hb (a, v) (List.mem_cons_self _ _)
    simp only [List.length_cons] at hlen hoff hfuel
    cases fuel with
    | zero => omega
    | succ fuel =>
      simp only [encode_communities, List.append_assoc] at hbuf
      have hbuf1 : buffer.drop st.actOff = enc16 a ++ enc16 v ++ (encode_communities pairs ++ rest) := by
        rw [hbuf, List.append_assoc]
      cases pairs with
      | nil =>
        have hp4 : p + 2 + 2 = attrLen := by simp at hlen; omega
        constructor
        · intro hlt
          rw [communities_step buffer allAttrLen attrLen fuel p st a v _ hq.1 hq.2 hbuf1
            (by omega) (by omega) (by rw [hp4, community_text_last]; exact hlt)]
          rw [communities_loop_done _ _ _ _ _ _ (by omega), hp4, community_text_last]
          rfl
        · intro hge
          exact communities_step_fail buffer allAttrLen attrLen fuel p st a v _ hq.1 hq.2 hbuf1
            (by omega) (by omega) (by rw [hp4, community_text_last]; exact hge)
      | cons q2 pairs2 =>
        have hne : p + 2 + 2 ≠ attrLen := by simp only [List.length_cons] at hlen; omega
        have hchunk := community_text_more a v (p + 2 + 2) attrLen hne
        rw [communities_text_cons]
        simp only [List.length_append] at *
        by_cases hstep : st.comActStrlen + (fmt_u a ++ ':' :: fmt_u v ++ [' ']).length < MAX_ATTR
        · have hs := communities_step buffer allAttrLen attrLen fuel p st a v _ hq.1 hq.2 hbuf1
            (by omega) (by omega) (by rw [hchunk]; exact hstep)
          rw [hchunk] at hs
          have ih2 := ih fuel (p + 2 + 2)
            (communities_written st (st.actOff + 2 + 2) (fmt_u a ++ ':' :: fmt_u v ++ [' ']))
            rest (List.cons_ne_nil _ _)
            (fun q hq => hb q (List.mem_cons_of_mem _ hq))
            (by
              show buffer.drop (st.actOff + 2 + 2) = _
              rw [Nat.add_assoc, drop_add_eq, hbuf1]
              rfl)
            (by simp only [List.length_cons] at hlen ⊢; omega)
            (by
              show st.actOff + 2 + 2 + _ ≤ _
              simp only [List.length_cons] at hoff ⊢; omega)
            (by simp only [List.length_cons] at hfuel ⊢; omega)
            (by
              show st.comActStrlen + _ ≤ (st.entry.communities.take st.comActStrlen ++ _).length
              simp only [List.length_append, List.length_take]
              omega)
          rw [hs]
          constructor
          · intro hlt
            rw [ih2.1 (by
              show st.comActStrlen + _ + _ < _
              simp only [List.length_append] at hlt ⊢
              omega)]
            rw [communities_written_written _ _ _ _ _ hc]
            have ho : (communities_written st (st.actOff + 2 + 2)
                (fmt_u a ++ ':' :: fmt_u v ++ [' '])).actOff + 4 * (q2 :: pairs2).length
                = st.actOff + 4 * ((a, v) :: q2 :: pairs2).length := by
              show st.actOff + 2 + 2 + _ = _
              simp only [List.length_cons]
              omega
            rw [ho]
          · intro hge
            exact ih2.2 (by
              show _ ≤ st.comActStrlen + _ + _
              simp only [List.length_append] at hge ⊢
              omega)
        · constructor
          · intro hlt
            exfalso
            simp only [List.length_append] at hlt hstep
            omega
          · intro _
            exact communities_step_fail buffer allAttrLen attrLen fuel p st a v _ hq.1 hq.2 hbuf1
              (by omega) (by omega) (by rw [hchunk]; omega)

theorem attr_body_header (flags type len : Nat) (value : List Nat) (allAttrLen : Nat)
    (entry : MRTentry) (hflags : flags < 256) (htype : type < 256) (hlen : len ≤ 4096)
    (hshort : flags &&& 16 = 0 → len < 256)
    (hall : (attr_header flags type len).length ≤ allAttrLen) :
    attr_body (attr_header flags type len ++ value) allAttrLen
        { actOff := 0, actAllAttrLen := 0, aspActStrLen := 0, comActStrlen := 0, entry := entry }
      = attr_value (attr_header flags type len ++ value) allAttrLen type len
          { actOff := (attr_header flags type len).length,
            actAllAttrLen := (attr_header flags type len).length,
            aspActStrLen := 0, comActStrlen := 0, entry := entry } := by
  unfold attr_body
  by_cases hx : flags &&& 16 = 0
  · have hl := hshort hx
    simp only [attr_header, hx, ne_eq, not_true_eq_false, if_false] at hall ⊢
    simp only [List.length_cons, List.length_nil] at hall
    simp only [List.cons_append, List.nil_append, List.drop_zero, get_buf_char_cons,
      Nat.mod_eq_of_lt hflags, hx, Nat.zero_add, List.drop_succ_cons, Nat.mod_eq_of_lt htype,
      Nat.mod_eq_of_lt hl, List.length_cons, List.length_nil]
    rw [if_neg (by omega), if_neg (by omega), if_neg (by simp), if_neg (by omega)]
  · have hl : len < 65536 := by omega
    simp only [attr_header, hx, ne_eq, not_false_eq_true, if_true] at hall ⊢
    simp only [enc16, List.length_cons, List.length_nil, List.cons_append, List.nil_append] at hall
    have hs : get_buf_short (len / 256 :: len % 256 :: value) = len :=
      get_buf_short_enc16 len value hl
    simp only [enc16, List.cons_append, List.nil_append, List.drop_zero, get_buf_char_cons,
      Nat.mod_eq_of_lt hflags, hx, Nat.zero_add, List.drop_succ_cons, Nat.mod_eq_of_lt htype,
      List.length_cons, List.length_nil, hs]
    rw [if_neg (by omega), if_neg (by omega), if_pos (by simp), if_neg (by omega)]

theorem single_attribute_next (flags type len : Nat) (value : List Nat) (entry : MRTentry)
    (st1 : AttrState) (hflags : flags < 256) (htype : type < 256) (hlen : len ≤ 4096)
    (hshort : flags &&& 16 = 0 → len < 256)
    (hsw : attr_switch (attr_header flags type len ++ value)
        ((attr_header flags type len).length + len) type len
        { actOff := (attr_header flags type len).length,
          actAllAttrLen := (attr_header flags type len).length,
          aspActStrLen := 0, comActStrlen := 0, entry := entry } = Flow.next st1)
    (hact : st1.actAllAttrLen = (attr_header flags type len).length) :
    process_bgp_attributes (attr_header flags type len ++ value) entry
        ((attr_header flags type len).length + len) = ((st1.actOff : Int), st1.entry) := by
  have hhl : 3 ≤ (attr_header flags type len).length ∧ (attr_header flags type len).length ≤ 4 := by
    unfold attr_header enc16
    split_ifs <;> simp
  unfold process_bgp_attributes
  obtain ⟨n, hn⟩ : ∃ n, (attr_header flags type len).length + len = n + 1 :=
    ⟨(attr_header flags type len).length + len - 1, by omega⟩
  rw [show attr_loop (attr_header flags type len ++ value)
        ((attr_header flags type len).length + len)
        ((attr_header flags type len).length + len) =
      attr_loop (attr_header flags type len ++ value)
        ((attr_header flags type len).length + len) (n + 1) by rw [hn]]
  rw [attr_loop]
  simp only
  rw [if_pos (by omega),
    attr_body_header flags type len value _ entry hflags htype hlen hshort (by omega)]
  unfold attr_value
  rw [if_neg (by omega), hsw]
  simp only
  have hdone : ∀ (st : AttrState),
      ¬ st.actAllAttrLen < (attr_header flags type len).length + len →
      attr_loop (attr_header flags type len ++ value)
        ((attr_header flags type len).length + len) n st = Flow.next st := by
    intro st hst
    cases n <;> rw [attr_loop] <;> simp only [if_neg hst]
  rw [hdone _ (by simp only [hact]; omega)]

theorem single_attribute_ret (flags type len : Nat) (value : List Nat) (entry : MRTentry)
    (c : Int) (e : MRTentry) (hflags : flags < 256) (htype : type < 256) (hlen : len ≤ 4096)
    (hshort : flags &&& 16 = 0 → len < 256)
    (hsw : attr_switch (attr_header flags type len ++ value)
        ((attr_header flags type len).length + len) type len
        { actOff := (attr_header flags type len).length,
          actAllAttrLen := (attr_header flags type len).length,
          aspActStrLen := 0, comActStrlen := 0, entry := entry } = Flow.ret c e) :
    process_bgp_attributes (attr_header flags type len ++ value) entry
        ((attr_header flags type len).length + len) = (c, e) := by
  have hhl : 3 ≤ (attr_header flags type len).length ∧ (attr_header flags type len).length ≤ 4 := by
    unfold attr_header enc16
    split_ifs <;> simp
  unfold process_bgp_attributes
  obtain ⟨n, hn⟩ : ∃ n, (attr_header flags type len).length + len = n + 1 :=
    ⟨(attr_header flags type len).length + len - 1, by omega⟩
  rw [show attr_loop (attr_header flags type len ++ value)
        ((attr_header flags type len).length + len)
        ((attr_header flags type len).length + len) =
      attr_loop (attr_header flags type len ++ value)
        ((attr_header flags type len).length + len) (n + 1) by rw [hn]]
  rw [attr_loop]
  simp only
  rw [if_pos (by omega),
    attr_body_header flags type len value _ entry hflags htype hlen hshort (by omega)]
  unfold attr_value
  rw [if_neg (by omega), hsw]

/-- C20.  An attribute block made of one COMMUNITIES attribute (type 8) with
`k >= 1` communities, that is `4k` bytes: when the text of the communities
(`ASN:VALUE` in decimal, joined by single spaces, no trailing space) is shorter
than 4096 characters, `process_bgp_attributes` returns the length of the block
and `communities` is that text; when the text reaches 4096 characters, it
returns -1, so that the callers reject the block. -/
theorem communities_rendering (flags : Nat) (pairs : List (Nat × Nat)) (entry : MRTentry)
    (hflags : flags < 256) (hk : pairs ≠ [])
    (hb : ∀ q ∈ pairs, q.1 < 65536 ∧ q.2 < 65536)
    (hlen : 4 * pairs.length ≤ 4096)
    (hshort : flags &&& 16 = 0 → 4 * pairs.length < 256) :
    ((communities_text pairs).length < 4096 →
      process_bgp_attributes
          (attr_header flags 8 (4 * pairs.length) ++ encode_communities pairs) entry
          ((attr_header flags 8 (4 * pairs.length)).length + 4 * pairs.length)
        = ((((attr_header flags 8 (4 * pairs.length)).length + 4 * pairs.length : Nat) : Int),
            { entry with communities := communities_text pairs })) ∧
    (4096 ≤ (communities_text pairs).length →
      (process_bgp_attributes
          (attr_header flags 8 (4 * pairs.length) ++ encode_communities pairs) entry
          ((attr_header flags 8 (4 * pairs.length)).length + 4 * pairs.length)).1 = -1) := by
  have hspec := communities_loop_spec
    (attr_header flags 8 (4 * pairs.length) ++ encode_communities pairs)
    ((attr_header flags 8 (4 * pairs.length)).length + 4 * pairs.length) (4 * pairs.length)
    pairs (4 * pairs.length) 0
    { actOff := (attr_header flags 8 (4 * pairs.length)).length,
      actAllAttrLen := (attr_header flags 8 (4 * pairs.length)).length,
      aspActStrLen := 0, comActStrlen := 0, entry := entry } [] hk hb
    (by simp) (by omega) (le_refl _) (by omega) (Nat.zero_le _)
  have hsw : attr_switch (attr_header flags 8 (4 * pairs.length) ++ encode_communities pairs)
      ((attr_header flags 8 (4 * pairs.length)).length + 4 * pairs.length) 8 (4 * pairs.length)
      { actOff := (attr_header flags 8 (4 * pairs.length)).length,
        actAllAttrLen := (attr_header flags 8 (4 * pairs.length)).length,
        aspActStrLen := 0, comActStrlen := 0, entry := entry }
      = communities_loop (attr_header flags 8 (4 * pairs.length) ++ encode_communities pairs)
          ((attr_header flags 8 (4 * pairs.length)).length + 4 * pairs.length)
          (4 * pairs.length) (4 * pairs.length) 0
          { actOff := (attr_header flags 8 (4 * pairs.length)).length,
            actAllAttrLen := (attr_header flags 8 (4 * pairs.length)).length,
            aspActStrLen := 0, comActStrlen := 0, entry := entry } := by
    unfold attr_switch
    simp only [BGP_UPDATE_ATTR_ORIGIN, BGP_UPDATE_ATTR_AS_PATH, BGP_UPDATE_NLRI_COMMUNITIES]
    rw [if_neg (by decide), if_neg (by decide), if_pos trivial]
  constructor
  · intro hlt
    have h1 := hspec.1 (by simp only [MAX_ATTR]; omega)
    rw [← hsw] at h1
    rw [single_attribute_next flags 8 (4 * pairs.length) _ entry _ hflags (by decide) hlen hshort
      h1 rfl]
    simp [communities_written]
  · intro hge
    obtain ⟨e, he⟩ := hspec.2 (by simp only [MAX_ATTR]; omega)
    rw [← hsw] at he
    rw [single_attribute_ret flags 8 (4 * pairs.length) _ entry _ e hflags (by decide) hlen hshort
      he]

/-! ## AS_PATH attributes -/

theorem asn_width_pos (sub : Nat) : 0 < asn_width sub := by
  unfold asn_width; split_ifs <;> decide

theorem encode_asn_length (sub a : Nat) : (encode_asn sub a).length = asn_width sub := by
  unfold encode_asn asn_width enc16 enc32; split_ifs <;> rfl

theorem read_asn_enc (buffer : List Nat) (sub allAttrLen o p a : Nat) (rest : List Nat)
    (hbuf : buffer.drop o = encode_asn sub a ++ rest) (ha : asn_fits sub a)
    (hoff : o + asn_width sub ≤ allAttrLen) :
    read_asn buffer sub allAttrLen o p = some (a, o + asn_width sub, p + asn_width sub) := by
  unfold read_asn
  unfold encode_asn at hbuf
  unfold asn_fits at ha
  unfold asn_width at hoff ⊢
  split_ifs at hbuf ha hoff ⊢ with h
  · omega
  · rw [hbuf, get_buf_short_enc16 a rest ha]
  · omega
  · rw [hbuf, get_buf_int_enc32 a rest ha]

theorem as_path_written_written (st : AttrState) (o1 o2 : Nat) (t1 t2 : List Char)
    (hc : st.aspActStrLen ≤ st.entry.asPath.length) :
    as_path_written (as_path_written st o1 t1) o2 t2 = as_path_written st o2 (t1 ++ t2) := by
  unfold as_path_written
  by_cases h1 : t1 = [] <;> by_cases h2 : t2 = []
  · simp [h1, h2]
  · simp [h1, h2]
  · simp [h1, h2]
  · simp [h1, h2, take_written _ _ _ hc, Nat.add_assoc]

theorem write_as_path_fits (st : AttrState) (o size : Nat) (s : List Char) (hs : s ≠ [])
    (h : s.length + 1 ≤ size) :
    write_as_path { st with actOff := o } size s = as_path_written st o s := by
  unfold write_as_path as_path_written
  rw [if_neg hs]
  simp only [snprintf_fits _ _ _ _ h]

theorem as_path_written_len (st : AttrState) (o : Nat) (t : List Char) :
    (as_path_written st o t).aspActStrLen = st.aspActStrLen + t.length := by
  unfold as_path_written
  split_ifs with h
  · simp [h]
  · rfl

theorem as_path_written_ok (st : AttrState) (o : Nat) (t : List Char)
    (hc : st.aspActStrLen ≤ st.entry.asPath.length) :
    (as_path_written st o t).aspActStrLen ≤ (as_path_written st o t).entry.asPath.length := by
  unfold as_path_written
  split_ifs with h
  · exact hc
  · simp only [List.length_append, List.length_take]
    omega

theorem as_path_written_off (st : AttrState) (o : Nat) (t : List Char) :
    (as_path_written st o t).actOff = o := by
  unfold as_path_written
  split_ifs <;> rfl

theorem as_path_written_sub (st : AttrState) (o : Nat) (t : List Char) :
    (as_path_written st o t).entry.entrySubType = st.entry.entrySubType := by
  unfold as_path_written
  split_ifs <;> rfl

theorem seq_text_ne_nil (a p attrLen : Nat) : seq_text a p attrLen ≠ [] := by
  unfold seq_text
  split_ifs
  · exact fmt_u_ne_nil a
  · simp

theorem as_path_seq_step (buffer : List Nat) (allAttrLen attrLen n p sub a : Nat)
    (st : AttrState) (rest : List Nat) (hsub : st.entry.entrySubType = sub)
    (hbuf : buffer.drop st.actOff = encode_asn sub a ++ rest) (ha : asn_fits sub a)
    (hoff : st.actOff + asn_width sub ≤ allAttrLen)
    (hlt : st.aspActStrLen + (seq_text a (p + asn_width sub) attrLen).length < MAX_SEND_BUFF) :
    as_path_seq buffer allAttrLen attrLen (n + 1) p st
      = as_path_seq buffer allAttrLen attrLen n (p + asn_width sub)
          (as_path_written st (st.actOff + asn_width sub)
            (seq_text a (p + asn_width sub) attrLen)) := by
  rw [as_path_seq, hsub, read_asn_enc buffer sub allAttrLen st.actOff p a rest hbuf ha hoff]
  simp only
  rw [write_as_path_fits st _ _ _ (seq_text_ne_nil _ _ _)
    (by unfold MAX_SEND_BUFF at hlt; unfold MAX_ATTR; omega)]
  rw [if_neg (by rw [as_path_written_len]; omega)]

theorem as_path_seq_step_fail (buffer : List Nat) (allAttrLen attrLen n p sub a : Nat)
    (st : AttrState) (rest : List Nat) (hsub : st.entry.entrySubType = sub)
    (hbuf : buffer.drop st.actOff = encode_asn sub a ++ rest) (ha : asn_fits sub a)
    (hoff : st.actOff + asn_width sub ≤ allAttrLen)
    (hge : MAX_SEND_BUFF ≤ st.aspActStrLen + (seq_text a (p + asn_width sub) attrLen).length) :
    ∃ e, as_path_seq buffer allAttrLen attrLen (n + 1) p st = Flow.ret 0 e := by
  rw [as_path_seq, hsub, read_asn_enc buffer sub allAttrLen st.actOff p a rest hbuf ha hoff]
  simp only
  rw [if_pos (by simp only [write_as_path, snprintf]; omega)]
  exact ⟨_, rfl⟩

theorem as_path_seq_spec (buffer : List Nat) (allAttrLen attrLen sub : Nat) :
    ∀ (asns : List Nat) (p : Nat) (st : AttrState) (rest : List Nat) (tailBytes : Nat),
      st.entry.entrySubType = sub →
      (∀ a ∈ asns, asn_fits sub a) →
      buffer.drop st.actOff = encode_asns sub asns ++ rest →
      attrLen = p + asn_width sub * asns.length + tailBytes →
      st.actOff + asn_width sub * asns.length ≤ allAttrLen →
      st.aspActStrLen ≤ st.entry.asPath.length →
      st.aspActStrLen < MAX_SEND_BUFF →
      (st.aspActStrLen + (seq_chunks asns (decide (tailBytes = 0))).length < MAX_SEND_BUFF →
        as_path_seq buffer allAttrLen attrLen asns.length p st
          = Flow.next (p + asn_width sub * asns.length,
              as_path_written st (st.actOff + asn_width sub * asns.length)
                (seq_chunks asns (decide (tailBytes = 0))))) ∧
      (MAX_SEND_BUFF ≤ st.aspActStrLen + (seq_chunks asns (decide (tailBytes = 0))).length →
        ∃ e, as_path_seq buffer allAttrLen attrLen asns.length p st = Flow.ret 0 e) := by
  intro asns
  induction asns with
  | nil =>
    intro p st rest tailBytes _ _ _ _ _ _ hlt
    constructor
    · intro _
      rw [List.length_nil, as_path_seq]
      simp [seq_chunks, as_path_written]
    · intro hge
      simp only [seq_chunks, List.length_nil] at hge
      omega
  | cons a asns ih =>
    intro p st rest tailBytes hsub hfit hbuf hlen hoff hc hlt0
    have hw := asn_width_pos sub
    have ha := hfit a (List.mem_cons_self _ _)
    simp only [List.length_cons, Nat.mul_add, Nat.mul_one] at hlen hoff ⊢
    simp only [encode_asns, List.append_assoc] at hbuf
    have hchunk : seq_text a (p + asn_width sub) attrLen ++ seq_chunks asns (decide (tailBytes = 0))
        = seq_chunks (a :: asns) (decide (tailBytes = 0)) := by
      cases asns with
      | nil =>
        simp only [seq_chunks, seq_text, List.append_nil, List.length_nil, Nat.mul_zero,
          Nat.add_zero, decide_eq_true_eq] at hlen ⊢
        by_cases ht : tailBytes = 0
        · rw [if_pos (by omega), if_pos ht]
        · rw [if_neg (by omega), if_neg ht]
      | cons b asns =>
        simp only [List.length_cons] at hlen
        have : p + asn_width sub ≠ attrLen := by
          have := Nat.mul_le_mul_left (asn_width sub) (Nat.zero_le asns.length)
          nlinarith
        simp only [seq_chunks, seq_text, if_neg this]
    by_cases hstep : st.aspActStrLen + (seq_text a (p + asn_width sub) attrLen).length
        < MAX_SEND_BUFF
    · rw [as_path_seq_step buffer allAttrLen attrLen asns.length p sub a st _ hsub hbuf ha
        (by omega) hstep]
      have ih2 := ih (p + asn_width sub)
        (as_path_written st (st.actOff + asn_width sub) (seq_text a (p + asn_width sub) attrLen))
        rest tailBytes
        (by rw [as_path_written_sub]; exact hsub)
        (fun b hb => hfit b (List.mem_cons_of_mem _ hb))
        (by
          rw [as_path_written_off, drop_add_eq, hbuf, ← encode_asn_length sub a,
            List.drop_left])
        (by omega)
        (by rw [as_path_written_off]; omega)
        (as_path_written_ok _ _ _ hc)
        (by rw [as_path_written_len]; exact hstep)
      rw [as_path_written_len, as_path_written_off, as_path_written_written _ _ _ _ _ hc,
        hchunk] at ih2
      have hlenc : (seq_chunks (a :: asns) (decide (tailBytes = 0))).length
          = (seq_text a (p + asn_width sub) attrLen).length
            + (seq_chunks asns (decide (tailBytes = 0))).length := by
        rw [← hchunk, List.length_append]
      constructor
      · intro hlt
        rw [ih2.1 (by omega)]
        have e1 : p + asn_width sub + asn_width sub * asns.length
            = p + (asn_width sub * asns.length + asn_width sub) := by omega
        have e2 : st.actOff + asn_width sub + asn_width sub * asns.length
            = st.actOff + (asn_width sub * asns.length + asn_width sub) := by omega
        rw [e1, e2]
      · intro hge
        exact ih2.2 (by omega)
    · constructor
      · intro hlt
        rw [← hchunk, List.length_append] at hlt
        omega
      · intro _
        exact as_path_seq_step_fail buffer allAttrLen attrLen asns.length p sub a st _ hsub hbuf
          ha (by omega) (by omega)

theorem write_as_path_fits_at (st : AttrState) (size : Nat) (s : List Char) (hs : s ≠ [])
    (h : s.length + 1 ≤ size) :
    write_as_path st size s = as_path_written st st.actOff s :=
  write_as_path_fits st st.actOff size s hs h

theorem as_path_set_spec (buffer : List Nat) (allAttrLen segLen sub : Nat) :
    ∀ (asns : List Nat) (i p : Nat) (st : AttrState) (rest : List Nat),
      st.entry.entrySubType = sub →
      (∀ a ∈ asns, asn_fits sub a) →
      buffer.drop st.actOff = encode_asns sub asns ++ rest →
      i + asns.length = segLen →
      st.actOff + asn_width sub * asns.length ≤ allAttrLen →
      st.aspActStrLen ≤ st.entry.asPath.length →
      st.aspActStrLen < MAX_SEND_BUFF →
      (st.aspActStrLen + (set_items asns).length < MAX_SEND_BUFF →
        as_path_set buffer allAttrLen segLen asns.length i p st
          = Flow.next (p + asn_width sub * asns.length,
              as_path_written st (st.actOff + asn_width sub * asns.length) (set_items asns))) ∧
      (MAX_SEND_BUFF ≤ st.aspActStrLen + (set_items asns).length →
        ∃ e, as_path_set buffer allAttrLen segLen asns.length i p st = Flow.ret 0 e) := by
  intro asns
  induction asns with
  | nil =>
    intro i p st rest _ _ _ _ _ _ hlt
    constructor
    · intro _
      rw [List.length_nil, as_path_set]
      simp [set_items, as_path_written]
    · intro hge
      simp only [set_items, List.length_nil] at hge
      omega
  | cons a asns ih =>
    intro i p st rest hsub hfit hbuf hseg hoff hc hlt0
    have hw := asn_width_pos sub
    have ha := hfit a (List.mem_cons_self _ _)
    have hne := fmt_u_ne_nil a
    simp only [List.length_cons, Nat.mul_add, Nat.mul_one] at hseg hoff ⊢
    simp only [encode_asns, List.append_assoc] at hbuf
    rw [as_path_set, hsub,
      read_asn_enc buffer sub allAttrLen st.actOff p a _ hbuf ha (by omega)]
    simp only
    by_cases h1 : st.aspActStrLen + (fmt_u a).length < MAX_SEND_BUFF
    · rw [write_as_path_fits st _ _ _ hne (by unfold MAX_SEND_BUFF at h1 ⊢; omega)]
      rw [if_neg (by rw [as_path_written_len]; omega)]
      have hbuf2 : buffer.drop (st.actOff + asn_width sub) = encode_asns sub asns ++ rest := by
        rw [drop_add_eq, hbuf, ← encode_asn_length sub a, List.drop_left]
      have e1 : p + asn_width sub + asn_width sub * asns.length
          = p + (asn_width sub * asns.length + asn_width sub) := by omega
      have e2 : st.actOff + asn_width sub + asn_width sub * asns.length
          = st.actOff + (asn_width sub * asns.length + asn_width sub) := by omega
      cases asns with
      | nil =>
        rw [if_neg (by simp only [List.length_nil] at hseg; omega)]
        have ih2 := ih (i + 1) (p + asn_width sub)
          (as_path_written st (st.actOff + asn_width sub) (fmt_u a)) rest
          (by rw [as_path_written_sub]; exact hsub)
          (fun b hb => hfit b (List.mem_cons_of_mem _ hb))
          (by rw [as_path_written_off]; exact hbuf2)
          (by simp only [List.length_nil] at hseg ⊢; omega)
          (by rw [as_path_written_off]; simp only [List.length_nil] at hoff ⊢; omega)
          (as_path_written_ok _ _ _ hc)
          (by rw [as_path_written_len]; exact h1)
        rw [as_path_written_len, as_path_written_off, as_path_written_written _ _ _ _ _ hc] at ih2
        simp only [set_items, List.append_nil, List.length_nil, Nat.mul_zero, Nat.add_zero,
          Nat.zero_add] at ih2 ⊢
        exact ⟨fun _ => ih2.1 h1, fun hge => absurd h1 (by omega)⟩
      | cons b asns =>
        rw [if_pos (by simp only [List.length_cons] at hseg; omega)]
        by_cases h2 : st.aspActStrLen + (fmt_u a).length + 1 < MAX_SEND_BUFF
        · rw [write_as_path_fits_at _ _ _ (List.cons_ne_nil _ _)
            (by
              rw [as_path_written_len]
              simp only [List.length_cons, List.length_nil]
              unfold MAX_SEND_BUFF at h2 ⊢
              omega)]
          rw [as_path_written_off, as_path_written_written _ _ _ _ _ hc]
          rw [if_neg (by
            rw [as_path_written_len]
            simp only [List.length_append, List.length_cons, List.length_nil]
            omega)]
          have ih2 := ih (i + 1) (p + asn_width sub)
            (as_path_written st (st.actOff + asn_width sub) (fmt_u a ++ [',']))
            rest
            (by rw [as_path_written_sub]; exact hsub)
            (fun b hb => hfit b (List.mem_cons_of_mem _ hb))
            (by rw [as_path_written_off]; exact hbuf2)
            (by omega)
            (by rw [as_path_written_off]; omega)
            (as_path_written_ok _ _ _ hc)
            (by
              rw [as_path_written_len]
              simp only [List.length_append, List.length_cons, List.length_nil]
              omega)
          rw [as_path_written_len, as_path_written_off, as_path_written_written _ _ _ _ _ hc,
            e1, e2] at ih2
          have htext : fmt_u a ++ [','] ++ set_items (b :: asns) = set_items (a :: b :: asns) := rfl
          rw [htext] at ih2
          have hl : (set_items (a :: b :: asns)).length
              = (fmt_u a).length + 1 + (set_items (b :: asns)).length := by
            rw [← htext]
            simp only [List.length_append, List.length_cons, List.length_nil]
          have hl2 : (fmt_u a ++ [',']).length = (fmt_u a).length + 1 := by simp
          rw [hl2] at ih2
          exact ⟨fun hlt => ih2.1 (by omega), fun hge => ih2.2 (by omega)⟩
        · rw [if_pos (by
            simp only [write_as_path, snprintf, List.length_cons, List.length_nil]
            rw [as_path_written_len]
            omega)]
          have hl : (set_items (a :: b :: asns)).length
              = (fmt_u a).length + 1 + (set_items (b :: asns)).length := by
            show (fmt_u a ++ [','] ++ set_items (b :: asns)).length = _
            simp only [List.length_append, List.length_cons, List.length_nil]
          exact ⟨fun hlt => by omega, fun _ => ⟨_, rfl⟩⟩
    · rw [if_pos (by simp only [write_as_path, snprintf]; omega)]
      have hl : (fmt_u a).length ≤ (set_items (a :: asns)).length := by
        cases asns with
        | nil => simp [set_items]
        | cons b asns =>
          show _ ≤ (fmt_u a ++ [','] ++ set_items (b :: asns)).length
          simp only [List.length_append]
          omega
      exact ⟨fun hlt => by omega, fun _ => ⟨_, rfl⟩⟩

theorem as_path_written_at (st : AttrState) (o1 o : Nat) (t : List Char) :
    as_path_written { st with actOff := o1 } o t = as_path_written st o t := by
  unfold as_path_written
  split_ifs <;> rfl

theorem as_path_loop_done (buffer : List Nat) (allAttrLen attrLen fuel p : Nat)
    (st : AttrState) (hp : ¬ p < attrLen) :
    as_path_loop buffer allAttrLen attrLen fuel p st = Flow.next st := by
  cases fuel <;> rw [as_path_loop] <;> simp only [if_neg hp]

theorem as_path_bytes_eq_zero (sub : Nat) (segs : List (Nat × List Nat)) :
    decide (as_path_bytes sub segs = 0) = segs.isEmpty := by
  cases segs with
  | nil => rfl
  | cons seg segs =>
    simp only [as_path_bytes, List.isEmpty_cons, decide_eq_false_iff_not]
    omega

theorem encode_asns_length (sub : Nat) (asns : List Nat) :
    (encode_asns sub asns).length = asn_width sub * asns.length := by
  induction asns with
  | nil => rfl
  | cons a asns ih =>
    simp only [encode_asns, List.length_append, encode_asn_length, ih, List.length_cons]
    ring

theorem as_path_loop_spec (buffer : List Nat) (allAttrLen attrLen sub : Nat) :
    ∀ (segs : List (Nat × List Nat)) (fuel p : Nat) (st : AttrState) (rest : List Nat),
      st.entry.entrySubType = sub →
      (∀ seg ∈ segs, segment_ok sub seg) →
      buffer.drop st.actOff = encode_as_path sub segs ++ rest →
      attrLen = p + as_path_bytes sub segs →
      st.actOff + as_path_bytes sub segs ≤ allAttrLen →
      segs.length ≤ fuel →
      st.aspActStrLen ≤ st.entry.asPath.length →
      st.aspActStrLen < MAX_SEND_BUFF →
      (st.aspActStrLen + (as_path_text segs).length < MAX_SEND_BUFF →
        as_path_loop buffer allAttrLen attrLen fuel p st
          = Flow.next (as_path_written st (st.actOff + as_path_bytes sub segs)
              (as_path_text segs))) ∧
      (MAX_SEND_BUFF ≤ st.aspActStrLen + (as_path_text segs).length →
        ∃ e, as_path_loop buffer allAttrLen attrLen fuel p st = Flow.ret 0 e) := by
  intro segs
  induction segs with
  | nil =>
    intro fuel p st rest _ _ _ hlen _ _ _ hlt
    simp only [as_path_bytes, Nat.add_zero] at hlen ⊢
    constructor
    · intro _
      rw [as_path_loop_done _ _ _ _ _ _ (by omega)]
      simp [as_path_text, as_path_written]
    · intro hge
      simp only [as_path_text, List.length_nil] at hge
      omega
  | cons seg segs ih =>
    intro fuel p st rest hsub hok hbuf hlen hoff hfuel hc hlt0
    obtain ⟨t, asns⟩ := seg
    have hseg := hok (t, asns) (List.mem_cons_self _ _)
    obtain ⟨ht, hcount, hfit⟩ := hseg
    simp only at ht hcount hfit
    have hw := asn_width_pos sub
    simp only [as_path_bytes, List.length_cons] at hlen hoff hfuel ⊢
    cases fuel with
    | zero => omega
    | succ fuel =>
      have hb0 : buffer.drop st.actOff
          = t :: asns.length :: (encode_asns sub asns ++ (encode_as_path sub segs ++ rest)) := by
        rw [hbuf]
        simp [encode_as_path, encode_segment]
      have hb1 : get_buf_char (buffer.drop st.actOff) = t := by
        rw [hb0, get_buf_char_cons]
        rcases ht with ht | ht <;> rw [ht] <;> rfl
      have hb2 : get_buf_char (buffer.drop (st.actOff + 1)) = asns.length := by
        rw [drop_add_eq, hb0]
        simp only [List.drop_succ_cons, List.drop_zero, get_buf_char_cons]
        exact Nat.mod_eq_of_lt hcount
      have hb3 : buffer.drop (st.actOff + 1 + 1)
          = encode_asns sub asns ++ (encode_as_path sub segs ++ rest) := by
        rw [Nat.add_assoc, drop_add_eq, hb0]
        rfl
      have hb4 : buffer.drop (st.actOff + 1 + 1 + asn_width sub * asns.length)
          = encode_as_path sub segs ++ rest := by
        rw [drop_add_eq, hb3, ← encode_asns_length sub asns, List.drop_left]
      have ihs : ∀ (text : List Char),
          st.aspActStrLen + text.length < MAX_SEND_BUFF →
          (st.aspActStrLen + text.length + (as_path_text segs).length < MAX_SEND_BUFF →
            as_path_loop buffer allAttrLen attrLen fuel (p + 2 + asn_width sub * asns.length)
                (as_path_written st (st.actOff + 1 + 1 + asn_width sub * asns.length) text)
              = Flow.next (as_path_written st
                  (st.actOff + (2 + asn_width sub * asns.length + as_path_bytes sub segs))
                  (text ++ as_path_text segs))) ∧
          (MAX_SEND_BUFF ≤ st.aspActStrLen + text.length + (as_path_text segs).length →
            ∃ e, as_path_loop buffer allAttrLen attrLen fuel (p + 2 + asn_width sub * asns.length)
                (as_path_written st (st.actOff + 1 + 1 + asn_width sub * asns.length) text)
              = Flow.ret 0 e) := by
        intro text htext
        have ih2 := ih fuel (p + 2 + asn_width sub * asns.length)
          (as_path_written st (st.actOff + 1 + 1 + asn_width sub * asns.length) text) rest
          (by rw [as_path_written_sub]; exact hsub)
          (fun s hs => hok s (List.mem_cons_of_mem _ hs))
          (by rw [as_path_written_off]; exact hb4)
          (by omega)
          (by rw [as_path_written_off]; omega)
          (by omega)
          (as_path_written_ok _ _ _ hc)
          (by rw [as_path_written_len]; exact htext)
        rw [as_path_written_len, as_path_written_off, as_path_written_written _ _ _ _ _ hc] at ih2
        have e1 : st.actOff + 1 + 1 + asn_width sub * asns.length + as_path_bytes sub segs
            = st.actOff + (2 + asn_width sub * asns.length + as_path_bytes sub segs) := by omega
        rw [e1] at ih2
        exact ih2
      rw [as_path_loop]
      simp only [hb1, hb2]
      rw [if_pos (by omega), if_neg (by omega), if_neg (by omega)]
      rcases ht with ht | ht
      · -- AS_SEQUENCE
        subst ht
        rw [if_pos rfl]
        have hseq := as_path_seq_spec buffer allAttrLen attrLen sub asns (p + 2)
          { st with actOff := st.actOff + 1 + 1 } (encode_as_path sub segs ++ rest)
          (as_path_bytes sub segs) hsub hfit hb3 (by omega) (by simp only; omega) hc hlt0
        simp only [as_path_written_at, as_path_bytes_eq_zero] at hseq
        have htxt : as_path_text ((BGP_UPDATE_AS_PATH_SEQ, asns) :: segs)
            = seq_chunks asns segs.isEmpty ++ as_path_text segs := by
          simp [as_path_text, segment_text]
        rw [htxt, List.length_append]
        by_cases hs : st.aspActStrLen + (seq_chunks asns segs.isEmpty).length < MAX_SEND_BUFF
        · rw [hseq.1 hs]
          simp only
          have := ihs (seq_chunks asns segs.isEmpty) hs
          exact ⟨fun hlt => this.1 (by omega), fun hge => this.2 (by omega)⟩
        · obtain ⟨e, he⟩ := hseq.2 (by omega)
          rw [he]
          exact ⟨fun hlt => by omega, fun _ => ⟨e, rfl⟩⟩
      · -- AS_SET
        subst ht
        rw [if_neg (by decide), if_pos rfl]
        have htxt : as_path_text ((BGP_UPDATE_AS_PATH_SET, asns) :: segs)
            = ['{'] ++ set_items asns ++ ['}'] ++ as_path_text segs := by
          simp [as_path_text, segment_text, BGP_UPDATE_AS_PATH_SET, BGP_UPDATE_AS_PATH_SEQ]
        rw [htxt]
        simp only [List.length_append, List.length_cons, List.length_nil]
        by_cases h1 : st.aspActStrLen + 1 < MAX_SEND_BUFF
        · rw [write_as_path_fits st _ _ _ (List.cons_ne_nil _ _)
            (by
              simp only [List.length_cons, List.length_nil]
              unfold MAX_SEND_BUFF at h1
              unfold MAX_ATTR
              omega)]
          rw [if_neg (by
            rw [as_path_written_len]
            simp only [List.length_cons, List.length_nil]
            omega)]
          have hset := as_path_set_spec buffer allAttrLen asns.length sub asns 0 (p + 2)
            (as_path_written st (st.actOff + 1 + 1) ['{']) (encode_as_path sub segs ++ rest)
            (by rw [as_path_written_sub]; exact hsub) hfit
            (by rw [as_path_written_off]; exact hb3) (by omega)
            (by rw [as_path_written_off]; omega)
            (as_path_written_ok _ _ _ hc)
            (by
              rw [as_path_written_len]
              simp only [List.length_cons, List.length_nil]
              omega)
          rw [as_path_written_len, as_path_written_off,
            as_path_written_written _ _ _ _ _ hc] at hset
          simp only [List.length_cons, List.length_nil] at hset
          by_cases h2 : st.aspActStrLen + (0 + 1) + (set_items asns).length < MAX_SEND_BUFF
          · rw [hset.1 h2]
            simp only
            by_cases h3 : st.aspActStrLen + (0 + 1) + (set_items asns).length + 1 < MAX_SEND_BUFF
            · rw [write_as_path_fits_at _ _ _ (List.cons_ne_nil _ _)
                (by
                  rw [as_path_written_len]
                  simp only [List.length_append, List.length_cons, List.length_nil]
                  unfold MAX_SEND_BUFF at h3 ⊢
                  omega)]
              rw [as_path_written_off, as_path_written_written _ _ _ _ _ hc]
              rw [if_neg (by
                rw [as_path_written_len]
                simp only [List.length_append, List.length_cons, List.length_nil]
                omega)]
              have := ihs (['{'] ++ set_items asns ++ ['}']) (by
                simp only [List.length_append, List.length_cons, List.length_nil]
                omega)
              simp only [List.length_append, List.length_cons, List.length_nil] at this
              exact ⟨fun hlt => this.1 (by omega), fun hge => this.2 (by omega)⟩
            · rw [if_pos (by
                simp only [write_as_path, snprintf, List.length_cons, List.length_nil]
                rw [as_path_written_len]
                simp only [List.length_append, List.length_cons, List.length_nil]
                omega)]
              exact ⟨fun hlt => by omega, fun _ => ⟨_, rfl⟩⟩
          · obtain ⟨e, he⟩ := hset.2 (by omega)
            rw [he]
            exact ⟨fun hlt => by omega, fun _ => ⟨e, rfl⟩⟩
        · rw [if_pos (by
            simp only [write_as_path, snprintf, List.length_cons, List.length_nil]
            omega)]
          exact ⟨fun hlt => by omega, fun _ => ⟨_, rfl⟩⟩

theorem as_path_written_all (st : AttrState) (o : Nat) (t : List Char) :
    (as_path_written st o t).actAllAttrLen = st.actAllAttrLen := by
  unfold as_path_written
  split_ifs <;> rfl

theorem length_le_as_path_bytes (sub : Nat) (segs : List (Nat × List Nat)) :
    segs.length ≤ as_path_bytes sub segs := by
  induction segs with
  | nil => exact Nat.le_refl _
  | cons seg segs ih =>
    simp only [List.length_cons, as_path_bytes]
    omega

theorem encode_as_path_length (sub : Nat) (segs : List (Nat × List Nat)) :
    (encode_as_path sub segs).length = as_path_bytes sub segs := by
  induction segs with
  | nil => rfl
  | cons seg segs ih =>
    simp only [encode_as_path, encode_segment, List.length_append, encode_asns_length, ih,
      as_path_bytes, List.length_cons, List.length_nil]

theorem as_path_attribute_spec (flags : Nat) (segs : List (Nat × List Nat)) (entry : MRTentry)
    (hflags : flags < 256)
    (hok : ∀ seg ∈ segs, segment_ok entry.entrySubType seg)
    (hlen : as_path_bytes entry.entrySubType segs ≤ 4096)
    (hshort : flags &&& 16 = 0 → as_path_bytes entry.entrySubType segs < 256) :
    ((as_path_text segs).length < MAX_SEND_BUFF →
      process_bgp_attributes (as_path_block flags entry.entrySubType segs) entry
          (as_path_block flags entry.entrySubType segs).length
        = ((((as_path_block flags entry.entrySubType segs).length : Nat) : Int),
            if as_path_text segs = [] then entry
            else { entry with asPath := as_path_text segs })) ∧
    (MAX_SEND_BUFF ≤ (as_path_text segs).length →
      (process_bgp_attributes (as_path_block flags entry.entrySubType segs) entry
          (as_path_block flags entry.entrySubType segs).length).1 = 0) := by
  have hbl : (as_path_block flags entry.entrySubType segs).length
      = (attr_header flags 2 (as_path_bytes entry.entrySubType segs)).length
        + as_path_bytes entry.entrySubType segs := by
    unfold as_path_block
    rw [List.length_append, encode_as_path_length]
  rw [hbl]
  unfold as_path_block
  have hspec := as_path_loop_spec
    (attr_header flags 2 (as_path_bytes entry.entrySubType segs)
      ++ encode_as_path entry.entrySubType segs)
    ((attr_header flags 2 (as_path_bytes entry.entrySubType segs)).length
      + as_path_bytes entry.entrySubType segs)
    (as_path_bytes entry.entrySubType segs) entry.entrySubType segs
    (as_path_bytes entry.entrySubType segs) 0
    { actOff := (attr_header flags 2 (as_path_bytes entry.entrySubType segs)).length,
      actAllAttrLen := (attr_header flags 2 (as_path_bytes entry.entrySubType segs)).length,
      aspActStrLen := 0, comActStrlen := 0, entry := entry } [] rfl hok
    (by simp) (by omega) (le_refl _) (length_le_as_path_bytes _ _) (Nat.zero_le _)
    (by simp only [MAX_SEND_BUFF]; omega)
  have hsw : attr_switch
      (attr_header flags 2 (as_path_bytes entry.entrySubType segs)
        ++ encode_as_path entry.entrySubType segs)
      ((attr_header flags 2 (as_path_bytes entry.entrySubType segs)).length
        + as_path_bytes entry.entrySubType segs) 2 (as_path_bytes entry.entrySubType segs)
      { actOff := (attr_header flags 2 (as_path_bytes entry.entrySubType segs)).length,
        actAllAttrLen := (attr_header flags 2 (as_path_bytes entry.entrySubType segs)).length,
        aspActStrLen := 0, comActStrlen := 0, entry := entry }
      = as_path_loop
          (attr_header flags 2 (as_path_bytes entry.entrySubType segs)
            ++ encode_as_path entry.entrySubType segs)
          ((attr_header flags 2 (as_path_bytes entry.entrySubType segs)).length
            + as_path_bytes entry.entrySubType segs)
          (as_path_bytes entry.entrySubType segs) (as_path_bytes entry.entrySubType segs) 0
          { actOff := (attr_header flags 2 (as_path_bytes entry.entrySubType segs)).length,
            actAllAttrLen := (attr_header flags 2 (as_path_bytes entry.entrySubType segs)).length,
            aspActStrLen := 0, comActStrlen := 0, entry := entry } := by
    unfold attr_switch
    simp only [BGP_UPDATE_ATTR_ORIGIN, BGP_UPDATE_ATTR_AS_PATH]
    rw [if_neg (by decide), if_pos trivial]
  constructor
  · intro hlt
    have h1 := hspec.1 (by simp only [Nat.zero_add]; exact hlt)
    rw [← hsw] at h1
    rw [single_attribute_next flags 2 _ _ entry _ hflags (by decide) hlen hshort h1
      (by rw [as_path_written_all])]
    rw [as_path_written_off]
    congr 1
    unfold as_path_written
    split_ifs with he
    · rfl
    · simp
  · intro hge
    obtain ⟨e, he⟩ := hspec.2 (by simp only [Nat.zero_add]; exact hge)
    rw [← hsw] at he
    rw [single_attribute_ret flags 2 _ _ entry _ e hflags (by decide) hlen hshort he]

theorem asn_width_le (sub : Nat) : asn_width sub ≤ 4 := by
  unfold asn_width; split_ifs <;> decide

theorem seq_chunks_intercalate (asns : List Nat) :
    seq_chunks asns true = List.intercalate [' '] (asns.map fmt_u) := by
  induction asns with
  | nil => rfl
  | cons a rest ih =>
    cases rest with
    | nil => simp [seq_chunks, List.intercalate]
    | cons b rest =>
      rw [seq_chunks, ih]
      simp [List.intercalate, List.intersperse]

theorem set_items_intercalate (asns : List Nat) :
    set_items asns = List.intercalate [','] (asns.map fmt_u) := by
  induction asns with
  | nil => rfl
  | cons a rest ih =>
    cases rest with
    | nil => simp [set_items, List.intercalate]
    | cons b rest =>
      rw [set_items, ih]
      simp [List.intercalate, List.intersperse]

theorem as_path_text_seq (asns : List Nat) :
    as_path_text [(BGP_UPDATE_AS_PATH_SEQ, asns)] = List.intercalate [' '] (asns.map fmt_u) := by
  simp [as_path_text, segment_text, seq_chunks_intercalate]

theorem as_path_text_set (asns : List Nat) :
    as_path_text [(BGP_UPDATE_AS_PATH_SET, asns)]
      = '{' :: (List.intercalate [','] (asns.map fmt_u) ++ ['}']) := by
  simp [as_path_text, segment_text, set_items_intercalate, BGP_UPDATE_AS_PATH_SET,
    BGP_UPDATE_AS_PATH_SEQ]

theorem seq_chunks_ne_nil (asns : List Nat) (last : Bool) (hn : asns ≠ []) :
    seq_chunks asns last ≠ [] := by
  cases asns with
  | nil => exact absurd rfl hn
  | cons a rest =>
    cases rest with
    | nil =>
      rw [seq_chunks]
      split_ifs
      · exact fmt_u_ne_nil a
      · simp
    | cons b rest =>
      rw [seq_chunks]
      simp

/-- **C18.** An AS_PATH attribute made of a single segment of `n ≥ 1` ASNs,
each encoded on `asn_width` bytes (2 for the subtypes BGP4MP_MESSAGE and
BGP4MP_MESSAGE_LOCAL, 4 for every other subtype).  Whenever
`process_bgp_attributes` accepts the block, `asPath` is the ASNs in unsigned
decimal joined by single spaces for an AS_SEQUENCE and `{`, the ASNs joined by
commas, `}` for an AS_SET; and the block is accepted, with nothing else of the
entry changed, when that text is shorter than 2048 characters. -/
theorem as_path_single_segment (flags : Nat) (asns : List Nat) (entry : MRTentry)
    (hflags : flags < 256) (hn : asns ≠ []) (hcount : asns.length < 256)
    (hfit : ∀ a ∈ asns, asn_fits entry.entrySubType a)
    (hshort : flags &&& 16 = 0 → 2 + asn_width entry.entrySubType * asns.length < 256) :
    (asn_width entry.entrySubType
        = if entry.entrySubType = 1 ∨ entry.entrySubType = 6 then 2 else 4) ∧
    (∀ segType, (encode_as_path entry.entrySubType [(segType, asns)]).length
        = 2 + asn_width entry.entrySubType * asns.length) ∧
    ((seq_path_text asns).length < 2048 →
      process_bgp_attributes
          (as_path_block flags entry.entrySubType [(BGP_UPDATE_AS_PATH_SEQ, asns)]) entry
          (as_path_block flags entry.entrySubType [(BGP_UPDATE_AS_PATH_SEQ, asns)]).length
        = ((((as_path_block flags entry.entrySubType
                [(BGP_UPDATE_AS_PATH_SEQ, asns)]).length : Nat) : Int),
            { entry with asPath := seq_path_text asns })) ∧
    ((process_bgp_attributes
          (as_path_block flags entry.entrySubType [(BGP_UPDATE_AS_PATH_SEQ, asns)]) entry
          (as_path_block flags entry.entrySubType [(BGP_UPDATE_AS_PATH_SEQ, asns)]).length).1
        = (((as_path_block flags entry.entrySubType
                [(BGP_UPDATE_AS_PATH_SEQ, asns)]).length : Nat) : Int) →
      (process_bgp_attributes
          (as_path_block flags entry.entrySubType [(BGP_UPDATE_AS_PATH_SEQ, asns)]) entry
          (as_path_block flags entry.entrySubType [(BGP_UPDATE_AS_PATH_SEQ, asns)]).length).2.asPath
        = seq_path_text asns) ∧
    ((set_path_text asns).length < 2048 →
      process_bgp_attributes
          (as_path_block flags entry.entrySubType [(BGP_UPDATE_AS_PATH_SET, asns)]) entry
          (as_path_block flags entry.entrySubType [(BGP_UPDATE_AS_PATH_SET, asns)]).length
        = ((((as_path_block flags entry.entrySubType
                [(BGP_UPDATE_AS_PATH_SET, asns)]).length : Nat) : Int),
            { entry with asPath := set_path_text asns })) ∧
    ((process_bgp_attributes
          (as_path_block flags entry.entrySubType [(BGP_UPDATE_AS_PATH_SET, asns)]) entry
          (as_path_block flags entry.entrySubType [(BGP_UPDATE_AS_PATH_SET, asns)]).length).1
        = (((as_path_block flags entry.entrySubType
                [(BGP_UPDATE_AS_PATH_SET, asns)]).length : Nat) : Int) →
      (process_bgp_attributes
          (as_path_block flags entry.entrySubType [(BGP_UPDATE_AS_PATH_SET, asns)]) entry
          (as_path_block flags entry.entrySubType [(BGP_UPDATE_AS_PATH_SET, asns)]).length).2.asPath
        = set_path_text asns) := by
  have hw := asn_width_le entry.entrySubType
  have hmul : asn_width entry.entrySubType * asns.length ≤ 4 * 255 :=
    Nat.mul_le_mul hw (by omega)
  have hseqt : as_path_text [(BGP_UPDATE_AS_PATH_SEQ, asns)] = seq_path_text asns :=
    as_path_text_seq asns
  have hsett : as_path_text [(BGP_UPDATE_AS_PATH_SET, asns)] = set_path_text asns :=
    as_path_text_set asns
  have hseqn : as_path_text [(BGP_UPDATE_AS_PATH_SEQ, asns)] ≠ [] := by
    simp only [as_path_text, segment_text, if_true, List.append_nil, List.isEmpty_nil]
    exact seq_chunks_ne_nil asns true hn
  have hsetn : as_path_text [(BGP_UPDATE_AS_PATH_SET, asns)] ≠ [] := by
    rw [as_path_text_set]; simp
  have hpos : ∀ t, (0 : Int) < (((as_path_block flags entry.entrySubType [(t, asns)]).length
      : Nat) : Int) := by
    intro t
    unfold as_path_block
    rw [List.length_append, encode_as_path_length]
    simp only [as_path_bytes]
    omega
  have hseq := as_path_attribute_spec flags [(BGP_UPDATE_AS_PATH_SEQ, asns)] entry hflags
    (by
      intro seg hseg
      rw [List.mem_singleton] at hseg
      subst hseg
      exact ⟨Or.inl rfl, hcount, hfit⟩)
    (by simp only [as_path_bytes]; omega)
    (by intro h; simp only [as_path_bytes]; have := hshort h; omega)
  have hset := as_path_attribute_spec flags [(BGP_UPDATE_AS_PATH_SET, asns)] entry hflags
    (by
      intro seg hseg
      rw [List.mem_singleton] at hseg
      subst hseg
      exact ⟨Or.inr rfl, hcount, hfit⟩)
    (by simp only [as_path_bytes]; omega)
    (by intro h; simp only [as_path_bytes]; have := hshort h; omega)
  rw [if_neg hseqn, hseqt] at hseq
  rw [if_neg hsetn, hsett] at hset
  refine ⟨?_, ?_, hseq.1, ?_, hset.1, ?_⟩
  · unfold asn_width
    simp only [MRT_SUBTYPE_BGP4MP_MESSAGE, MRT_SUBTYPE_BGP4MP_MESSAGE_LOCAL]
  · intro t
    rw [encode_as_path_length]
    simp only [as_path_bytes, Nat.add_zero]
  · intro h
    by_cases hlt : (seq_path_text asns).length < MAX_SEND_BUFF
    · rw [hseq.1 hlt]
    · have h0 := hseq.2 (by omega)
      rw [h0] at h
      have := hpos BGP_UPDATE_AS_PATH_SEQ
      omega
  · intro h
    by_cases hlt : (set_path_text asns).length < MAX_SEND_BUFF
    · rw [hset.1 hlt]
    · have h0 := hset.2 (by omega)
      rw [h0] at h
      have := hpos BGP_UPDATE_AS_PATH_SET
      omega

/-- **C19 (amended).** The AS_PATH text is capped at `MAX_SEND_BUFF` = 2048
characters, not at the 4096 bytes of the buffer.  For an AS_PATH attribute of at
most 4096 bytes made of AS_SEQUENCE and AS_SET segments: when the rendered text
is shorter than 2048 characters the block is accepted and `asPath` holds the
whole text; when the text has 2048 characters or more `process_bgp_attributes`
returns 0. -/
theorem as_path_cap (flags : Nat) (segs : List (Nat × List Nat)) (entry : MRTentry)
    (hflags : flags < 256)
    (hok : ∀ seg ∈ segs, segment_ok entry.entrySubType seg)
    (hlen : as_path_bytes entry.entrySubType segs ≤ 4096)
    (hshort : flags &&& 16 = 0 → as_path_bytes entry.entrySubType segs < 256) :
    ((as_path_text segs).length < 2048 →
      process_bgp_attributes (as_path_block flags entry.entrySubType segs) entry
          (as_path_block flags entry.entrySubType segs).length
        = ((((as_path_block flags entry.entrySubType segs).length : Nat) : Int),
            if as_path_text segs = [] then entry
            else { entry with asPath := as_path_text segs })) ∧
    (2048 ≤ (as_path_text segs).length →
      (process_bgp_attributes (as_path_block flags entry.entrySubType segs) entry
          (as_path_block flags entry.entrySubType segs).length).1 = 0) :=
  as_path_attribute_spec flags segs entry hflags hok hlen hshort

theorem segment_ok_replicate (sub t n a : Nat) (ht : t = BGP_UPDATE_AS_PATH_SEQ ∨
    t = BGP_UPDATE_AS_PATH_SET) (hn : n < 256) (ha : asn_fits sub a) :
    ∀ seg ∈ [(t, List.replicate n a)], segment_ok sub seg := by
  intro seg hseg
  rw [List.mem_singleton] at hseg
  subst hseg
  refine ⟨ht, by simpa using hn, ?_⟩
  intro b hb
  rw [List.eq_of_mem_replicate hb]
  exact ha

/-- The amended C19 at an AS_PATH of two segments, in a record of subtype
BGP4MP_MESSAGE_AS4. -/
theorem as_path_cap_witness :
    process_bgp_attributes (as_path_block 64 4 as_path_example)
        { MRTentry_new with entrySubType := 4 } 23
      = (23, { MRTentry_new with
               entrySubType := 4, asPath := "65000 65001 {64512,64513}".toList }) :=
  ((as_path_cap 64 as_path_example { MRTentry_new with entrySubType := 4 } (by decide)
    (by decide) (by decide) (by decide)).1 (by decide)).trans (by decide)

theorem seq_chunks_replicate_length (a n : Nat) :
    (seq_chunks (List.replicate (n + 1) a) true).length + 1 = (n + 1) * ((fmt_u a).length + 1) := by
  induction n with
  | zero => simp [seq_chunks]
  | succ n ih =>
    rw [List.replicate_succ, List.replicate_succ, seq_chunks, ← List.replicate_succ,
      List.length_append, List.length_append, List.length_singleton]
    rw [Nat.add_assoc, ih]
    ring

theorem long_as_path_length :
    (seq_path_text (List.replicate 200 4294967295)).length = 2199 := by
  have h := seq_chunks_replicate_length 4294967295 199
  have h10 : (fmt_u 4294967295).length = 10 := by decide
  rw [h10] at h
  have he : seq_path_text (List.replicate 200 4294967295)
      = seq_chunks (List.replicate (199 + 1) 4294967295) true :=
    (seq_chunks_intercalate _).symm
  rw [he]
  omega

theorem as_path_bytes_single (sub t : Nat) (asns : List Nat) :
    as_path_bytes sub [(t, asns)] = 2 + asn_width sub * asns.length := by
  simp only [as_path_bytes, Nat.add_zero]

theorem long_as_path_bytes : as_path_bytes 4 long_as_path = 802 := by
  unfold long_as_path
  rw [as_path_bytes_single, List.length_replicate]
  rfl

/-- **C19, counterexample.** An AS_PATH attribute of 802 bytes whose rendering
has 2199 characters, fewer than 4096, is rejected: `process_bgp_attributes`
returns 0. -/
theorem as_path_cap_counterexample :
    as_path_bytes 4 long_as_path = 802 ∧
    as_path_text long_as_path = seq_path_text (List.replicate 200 4294967295) ∧
    (seq_path_text (List.replicate 200 4294967295)).length = 2199 ∧
    (process_bgp_attributes (as_path_block 80 4 long_as_path)
        { MRTentry_new with entrySubType := 4 }
        (as_path_block 80 4 long_as_path).length).1 = 0 :=
  ⟨long_as_path_bytes, as_path_text_seq _, long_as_path_length,
    (as_path_attribute_spec 80 long_as_path { MRTentry_new with entrySubType := 4 } (by decide)
      (segment_ok_replicate 4 _ 200 4294967295 (Or.inl rfl) (by decide) (by decide))
      (le_of_eq_of_le long_as_path_bytes (by decide)) (fun h => absurd h (by decide))).2
      (le_of_le_of_eq (by decide) ((congrArg List.length (as_path_text_seq _)).trans
        long_as_path_length).symm)⟩

/-- C18 at the AS_PATH `65000 65001` of scenario B of the spec (subtype
BGP4MP_MESSAGE_AS4, four-byte ASNs). -/
theorem as_path_single_segment_witness :
    seq_path_text [65000, 65001] = "65000 65001".toList ∧
    process_bgp_attributes (as_path_block 64 4 [(BGP_UPDATE_AS_PATH_SEQ, [65000, 65001])])
        { MRTentry_new with entrySubType := 4 }
        (as_path_block 64 4 [(BGP_UPDATE_AS_PATH_SEQ, [65000, 65001])]).length
      = ((((as_path_block 64 4 [(BGP_UPDATE_AS_PATH_SEQ, [65000, 65001])]).length : Nat) : Int),
          { MRTentry_new with entrySubType := 4, asPath := seq_path_text [65000, 65001] }) :=
  ⟨by decide,
    (as_path_single_segment 64 [65000, 65001] { MRTentry_new with entrySubType := 4 } (by decide)
      (by decide) (by decide) (by decide) (by decide)).2.2.1 (by decide)⟩

/-- C20 at the communities `65000:1 65001:2`. -/
theorem communities_rendering_witness :
    communities_text [(65000, 1), (65001, 2)] = "65000:1 65001:2".toList ∧
    process_bgp_attributes (attr_header 192 8 8 ++ encode_communities [(65000, 1), (65001, 2)])
        MRTentry_new ((attr_header 192 8 8).length + 8)
      = ((((attr_header 192 8 8).length + 8 : Nat) : Int),
          { MRTentry_new with communities := communities_text [(65000, 1), (65001, 2)] }) :=
  ⟨by decide,
    (communities_rendering 192 [(65000, 1), (65001, 2)] MRTentry_new (by decide) (by decide)
      (by decide) (by decide) (by decide)).1 (by decide)⟩

/-! ## Reading records from the byte source -/

theorem rib_index_loop_stream (buffer : List Nat) (max_len : Nat) :
    ∀ (n actOff : Nat) (dumper : File_buf_t),
      stream_fields (rib_index_loop buffer max_len n actOff dumper).2 = stream_fields dumper := by
  intro n
  induction n with
  | zero => intro actOff dumper; rfl
  | succ n ih =>
    intro actOff dumper
    rw [rib_index_loop]
    simp only
    split_ifs
    all_goals first
      | rfl
      | (rw [ih]; rfl)
      | (split <;> first | rfl | (rw [ih]; rfl))

theorem process_bgp_rib_stream (buffer : List Nat) (dumper : File_buf_t) (entry : MRTentry)
    (max_len : Nat) :
    stream_fields (process_bgp_rib buffer dumper entry max_len).2 = stream_fields dumper := by
  unfold process_bgp_rib process_bgp_rib_index
  simp only
  split_ifs
  all_goals first
    | rfl
    | exact rib_index_loop_stream _ _ _ _ _

theorem mrt_header_length (time entryType entrySubType time_ms len : Nat) :
    (mrt_header time entryType entrySubType time_ms len).length
      = if entryType = MRT_TYPE_BGP4MP_ET then 16 else 12 := by
  unfold mrt_header
  split_ifs <;> rfl

theorem Read_next_header (dump : File_buf_t) (time entryType entrySubType time_ms len : Nat)
    (tail : List Nat) (hp : no_pending dump)
    (htime : time < 4294967296) (htype : entryType < 65536) (hsub : entrySubType < 65536)
    (hms : time_ms < 4294967296) (hlen : len + 4 < 4294967296)
    (hf : dump.f = mrt_header time entryType entrySubType time_ms len ++ tail) :
    Read_next_mrt_entry dump
      = read_record_body { dump with f := tail }
          (record_entry time entryType entrySubType time_ms len) := by
  have e1 : get_buf_short (enc16 entryType ++ []) = entryType :=
    get_buf_short_enc16 _ _ htype
  have e2 : get_buf_short (enc16 entrySubType ++ []) = entrySubType :=
    get_buf_short_enc16 _ _ hsub
  have e3 : get_buf_int (enc32 time ++ []) = time := get_buf_int_enc32 _ _ htime
  have e4 : get_buf_int (enc32 (len + 4) ++ []) = len + 4 :=
    get_buf_int_enc32 _ _ hlen
  have e4b : get_buf_int (enc32 len ++ []) = len :=
    get_buf_int_enc32 _ _ (by omega)
  have e5 : get_buf_int (enc32 time_ms ++ []) = time_ms := get_buf_int_enc32 _ _ hms
  have e6 : (len + 4 + 4294967292) % 4294967296 = len := by omega
  simp only [List.append_nil] at e1 e2 e3 e4 e4b e5
  unfold Read_next_mrt_entry
  split
  · rename_i e nxt l hact
    exact absurd (hp _ _ hact) (by simp)
  · simp only [hf, mrt_header, cfr_read_n]
    by_cases hET : entryType = MRT_TYPE_BGP4MP_ET
    · subst hET
      rw [if_pos rfl]
      simp [enc32, enc16] at e1 e2 e3 e4 e5 ⊢
      simp only [e1, e2, e3, e4, e5, e6, if_true, record_entry]
    · rw [if_neg hET]
      simp [enc32, enc16] at e1 e2 e3 e4b ⊢
      simp only [e1, e2, e3, e4b, hET, if_false, record_entry]

theorem Read_next_short_header (dump : File_buf_t) (hp : no_pending dump)
    (hlen : dump.f.length < 12) :
    Read_next_mrt_entry dump = (none, { dump with f := [], eof := 1, actEntry := none }) := by
  unfold Read_next_mrt_entry
  split
  · rename_i e nxt l hact
    exact absurd (hp _ _ hact) (by simp)
  · simp only [cfr_read_n, List.length_take, List.length_drop, List.drop_drop]
    rw [if_neg (by omega)]
    rw [List.drop_eq_nil_of_le (by omega)]

theorem Read_next_short_et (dump : File_buf_t) (time entryType entrySubType len : Nat)
    (tail : List Nat) (hp : no_pending dump)
    (htype : entryType = MRT_TYPE_BGP4MP_ET) (ht : tail.length < 4)
    (hf : dump.f = enc32 time ++ (enc16 entryType ++ (enc16 entrySubType ++ (enc32 len ++ tail)))) :
    Read_next_mrt_entry dump = (none, { dump with f := [], eof := 1, actEntry := none }) := by
  subst htype
  have e1 : get_buf_short (enc16 MRT_TYPE_BGP4MP_ET ++ []) = MRT_TYPE_BGP4MP_ET :=
    get_buf_short_enc16 _ _ (by decide)
  simp only [List.append_nil] at e1
  unfold Read_next_mrt_entry
  split
  · rename_i e nxt l hact
    exact absurd (hp _ _ hact) (by simp)
  · simp only [hf, cfr_read_n]
    simp [enc32, enc16] at e1 ⊢
    rw [if_pos e1, if_neg (by omega)]
    simp
    omega

theorem read_record_body_short (dump : File_buf_t) (entry : MRTentry)
    (h : entry.entryLength = 0 ∨ dump.f.length < entry.entryLength) :
    (read_record_body dump entry).1 = none ∧ (read_record_body dump entry).2.eof = 1 ∧
    (read_record_body dump entry).2.actEntry = none ∧
    (read_record_body dump entry).2.parsed = dump.parsed + 1 ∧
    (read_record_body dump entry).2.parsed_ok = dump.parsed_ok ∧
    (entry.entryLength ≠ 0 → (read_record_body dump entry).2.f = []) ∧
    (entry.entryLength = 0 → (read_record_body dump entry).2.f = dump.f) := by
  unfold read_record_body
  by_cases h0 : entry.entryLength = 0
  · simp [h0]
  · have hlt : dump.f.length < entry.entryLength := by
      rcases h with h | h
      · exact absurd h h0
      · exact h
    simp only [cfr_read_n, List.length_take]
    rw [if_neg h0, if_pos (by omega)]
    refine ⟨rfl, rfl, rfl, rfl, rfl, ?_, fun h => absurd h h0⟩
    intro _
    exact List.drop_eq_nil_of_le (by omega)

theorem cfr_read_n_append (body rest : List Nat) :
    cfr_read_n (body ++ rest) body.length = (body, rest) := by
  simp [cfr_read_n]

/-- **C24 does not hold of the code.** A record whose MRT type is not 13, 16
or 17, whose declared length is not 0 and whose body is completely available:
`Read_next_mrt_entry` consumes the header and the whole body and leaves `eof`
as it is, but it returns the record as it stands after the header and adds one
to `parsed_ok` as well as to `parsed`.  The `default` arm of the `switch` on
the type leaves `ok` at 1. -/
theorem unsupported_type_returned (dump : File_buf_t) (time entryType entrySubType : Nat)
    (body rest : List Nat) (hp : no_pending dump)
    (htime : time < 4294967296) (htype : entryType < 65536) (hsub : entrySubType < 65536)
    (hlen : body.length + 4 < 4294967296)
    (hty : entryType ≠ MRT_TYPE_TABLE_DUMP_V2 ∧ entryType ≠ MRT_TYPE_BGP4MP ∧
      entryType ≠ MRT_TYPE_BGP4MP_ET)
    (hbody : body ≠ [])
    (hf : dump.f = mrt_record time entryType entrySubType 0 body ++ rest) :
    Read_next_mrt_entry dump
      = (some (record_entry time entryType entrySubType 0 body.length),
          { dump with
            f := rest, parsed := dump.parsed + 1, parsed_ok := dump.parsed_ok + 1,
            actEntry := some (record_entry time entryType entrySubType 0 body.length, []) }) := by
  rw [Read_next_header dump time entryType entrySubType 0 body.length (body ++ rest) hp htime
    htype hsub (by decide) hlen (by rw [hf, mrt_record, List.append_assoc])]
  unfold read_record_body
  have hne : body.length ≠ 0 := fun h => hbody (List.length_eq_zero.mp h)
  simp only [record_entry, cfr_read_n_append]
  rw [if_neg hne, if_neg (by simp)]
  simp only [hty.1, hty.2.1, hty.2.2, or_self, if_false]

/-- C24 at a file that starts with a two-byte record of type 99: the call
returns a record of type 99. -/
theorem unsupported_type_returned_witness :
    Read_next_mrt_entry (File_buf_create unsupported_then_good_file)
      = (some (record_entry 1 99 0 0 2),
          { File_buf_create unsupported_then_good_file with
            f := mrt_record 1 16 5 0 scenario_f_body, parsed := 1, parsed_ok := 1,
            actEntry := some (record_entry 1 99 0 0 2, []) }) :=
  unsupported_type_returned (File_buf_create unsupported_then_good_file) 1 99 0 [7, 7]
    (mrt_record 1 16 5 0 scenario_f_body) (by intro e l h; cases h) (by decide) (by decide)
    (by decide) (by decide) (by decide) (by decide) rfl

/-- A record of type 99 with declared length 0: `Read_next_mrt_entry` returns
no record and sets `eof`, although the record of scenario F follows in the
file. -/
theorem unsupported_empty_sets_eof :
    (Read_next_mrt_entry (File_buf_create unsupported_empty_file)).1 = none ∧
    (Read_next_mrt_entry (File_buf_create unsupported_empty_file)).2.eof = 1 ∧
    (Read_next_mrt_entry (File_buf_create unsupported_empty_file)).2.f
      = mrt_record 1 16 5 0 scenario_f_body := by
  decide

theorem Read_next_short_body (dump : File_buf_t) (time entryType entrySubType time_ms len : Nat)
    (tail : List Nat) (hp : no_pending dump)
    (htime : time < 4294967296) (htype : entryType < 65536) (hsub : entrySubType < 65536)
    (hms : time_ms < 4294967296) (hlen : len + 4 < 4294967296)
    (hf : dump.f = mrt_header time entryType entrySubType time_ms len ++ tail)
    (hshort : len = 0 ∨ tail.length < len) :
    (Read_next_mrt_entry dump).1 = none ∧ (Read_next_mrt_entry dump).2.eof = 1 ∧
    (Read_next_mrt_entry dump).2.actEntry = none ∧
    (len ≠ 0 → (Read_next_mrt_entry dump).2.f = []) ∧
    (len = 0 → (Read_next_mrt_entry dump).2.f = tail) := by
  rw [Read_next_header dump time entryType entrySubType time_ms len tail hp htime htype hsub hms
    hlen hf]
  have h := read_record_body_short { dump with f := tail }
    (record_entry time entryType entrySubType time_ms len) hshort
  exact ⟨h.1, h.2.1, h.2.2.1, h.2.2.2.2.2.1, h.2.2.2.2.2.2⟩

/-- **C25.** With no record pending in a chain, `Read_next_mrt_entry` returns
no record and sets `eof` to 1 when the byte source holds fewer than 12 bytes,
when a header is followed by fewer body bytes than it declares, and when the
declared body length is 0; in the first two cases nothing is left in the byte
source.  Hence a record cut at any byte `K` before its end is not emitted,
`eof` is set and the read ends at byte `K`. -/
theorem truncated_input_sets_eof (dump : File_buf_t) (hp : no_pending dump) :
    (dump.f.length < 12 →
      (Read_next_mrt_entry dump).1 = none ∧ (Read_next_mrt_entry dump).2.eof = 1 ∧
      (Read_next_mrt_entry dump).2.f = []) ∧
    (∀ time entryType entrySubType time_ms len tail,
      time < 4294967296 → entryType < 65536 → entrySubType < 65536 → time_ms < 4294967296 →
      len + 4 < 4294967296 →
      dump.f = mrt_header time entryType entrySubType time_ms len ++ tail →
      (tail.length < len →
        (Read_next_mrt_entry dump).1 = none ∧ (Read_next_mrt_entry dump).2.eof = 1 ∧
        (Read_next_mrt_entry dump).2.f = []) ∧
      (len = 0 →
        (Read_next_mrt_entry dump).1 = none ∧ (Read_next_mrt_entry dump).2.eof = 1)) ∧
    (∀ time entryType entrySubType time_ms body K,
      time < 4294967296 → entryType < 65536 → entrySubType < 65536 → time_ms < 4294967296 →
      body.length + 4 < 4294967296 →
      K < (mrt_record time entryType entrySubType time_ms body).length →
      dump.f = (mrt_record time entryType entrySubType time_ms body).take K →
      (Read_next_mrt_entry dump).1 = none ∧ (Read_next_mrt_entry dump).2.eof = 1 ∧
      (Read_next_mrt_entry dump).2.f = []) := by
  refine ⟨?_, ?_, ?_⟩
  · intro h
    rw [Read_next_short_header dump hp h]
    exact ⟨rfl, rfl, rfl⟩
  · intro time entryType entrySubType time_ms len tail htime htype hsub hms hlen hf
    constructor
    · intro hshort
      have h := Read_next_short_body dump time entryType entrySubType time_ms len tail hp htime
        htype hsub hms hlen hf (Or.inr hshort)
      exact ⟨h.1, h.2.1, h.2.2.2.1 (by omega)⟩
    · intro h0
      have h := Read_next_short_body dump time entryType entrySubType time_ms len tail hp htime
        htype hsub hms hlen hf (Or.inl h0)
      exact ⟨h.1, h.2.1⟩
  · intro time entryType entrySubType time_ms body K htime htype hsub hms hlen hK hf
    have hhl := mrt_header_length time entryType entrySubType time_ms body.length
    rw [mrt_record, List.length_append] at hK
    rw [mrt_record, List.take_append_eq_append_take] at hf
    by_cases h12 : K < 12
    · have hl : dump.f.length < 12 := by
        rw [hf, List.length_append, List.length_take, List.length_take]
        split_ifs at hhl <;> omega
      rw [Read_next_short_header dump hp hl]
      exact ⟨rfl, rfl, rfl⟩
    · by_cases hfull : (mrt_header time entryType entrySubType time_ms body.length).length ≤ K
      · rw [List.take_of_length_le hfull] at hf
        have h := Read_next_short_body dump time entryType entrySubType time_ms body.length _ hp
          htime htype hsub hms hlen hf (Or.inr (by rw [List.length_take]; omega))
        exact ⟨h.1, h.2.1, h.2.2.2.1 (by omega)⟩
      · have hET : entryType = MRT_TYPE_BGP4MP_ET := by
          by_contra hne
          rw [if_neg hne] at hhl
          omega
        rw [if_pos hET] at hhl
        have h0 : K - (mrt_header time entryType entrySubType time_ms body.length).length = 0 := by
          omega
        rw [h0, List.take_zero, List.append_nil] at hf
        have hsplit : List.take K (mrt_header time entryType entrySubType time_ms body.length)
            = enc32 time ++ (enc16 entryType ++ (enc16 entrySubType ++
                (enc32 (body.length + 4) ++ List.take (K - 12) (enc32 time_ms)))) := by
          unfold mrt_header
          rw [if_pos hET]
          obtain ⟨j, hj⟩ : ∃ j, K = j + 12 := ⟨K - 12, by omega⟩
          subst hj
          simp [enc32, enc16, List.take_succ_cons]
        rw [hsplit] at hf
        rw [Read_next_short_et dump time entryType entrySubType (body.length + 4) _ hp hET
          (by rw [List.length_take]; simp [enc32]; omega) hf]
        exact ⟨rfl, rfl, rfl⟩

/-- C25 at the record of scenario F cut after 20 bytes. -/
theorem truncated_input_sets_eof_witness :
    (Read_next_mrt_entry
        (File_buf_create ((mrt_record 1 16 5 0 scenario_f_body).take 20))).1 = none ∧
    (Read_next_mrt_entry
        (File_buf_create ((mrt_record 1 16 5 0 scenario_f_body).take 20))).2.eof = 1 ∧
    (Read_next_mrt_entry
        (File_buf_create ((mrt_record 1 16 5 0 scenario_f_body).take 20))).2.f = [] :=
  (truncated_input_sets_eof (File_buf_create ((mrt_record 1 16 5 0 scenario_f_body).take 20))
    (by intro e l h; cases h)).2.2 1 16 5 0 scenario_f_body 20 (by decide) (by decide) (by decide)
    (by decide) (by decide) (by decide) rfl

theorem Read_next_sibling (dump : File_buf_t) (e nxt : MRTentry) (rest : List MRTentry)
    (h : dump.actEntry = some (e, nxt :: rest)) :
    Read_next_mrt_entry dump = (some nxt, { dump with actEntry := some (nxt, rest) }) := by
  unfold Read_next_mrt_entry
  rw [h]

theorem read_records_siblings (dump : File_buf_t) :
    ∀ (chain : List MRTentry) (e : MRTentry), dump.actEntry = some (e, chain) →
      ∀ k, k < chain.length →
        ∃ r, chain[k]? = some r ∧
          Read_next_mrt_entry (read_records k dump)
            = (some r, { dump with actEntry := some (r, chain.drop (k + 1)) }) := by
  intro chain e h k
  induction k with
  | zero =>
    intro hk
    cases chain with
    | nil => simp at hk
    | cons nxt rest =>
      refine ⟨nxt, by simp, ?_⟩
      rw [read_records, Read_next_sibling dump e nxt rest h]
      simp
  | succ k ih =>
    intro hk
    obtain ⟨r0, hr0, hstep⟩ := ih (by omega)
    have hstate : read_records (k + 1) dump
        = { dump with actEntry := some (r0, chain.drop (k + 1)) } := by
      rw [read_records, hstep]
    have hr : chain[k + 1]? = some (chain[k + 1]) := List.getElem?_eq_getElem hk
    have hdrop : chain.drop (k + 1) = chain[k + 1] :: chain.drop (k + 1 + 1) :=
      List.drop_eq_getElem_cons hk
    refine ⟨chain[k + 1], hr, ?_⟩
    rw [hstate, Read_next_sibling _ r0 (chain[k + 1]) (chain.drop (k + 1 + 1))
      (by simp only; rw [hdrop])]

/-- **C26.** When `Read_next_mrt_entry` has returned the head `e` of a chain
and the records `chain` are linked after it, each of the next `chain.length`
calls returns the next record of the chain, in order, and changes nothing of
the file buffer but the position in the chain: the byte source, `parsed`,
`parsed_ok` and `eof` stay as they are.  After these calls no record is
pending, and the call that follows reads a header from the byte source. -/
theorem sibling_chain_replay (dump : File_buf_t) (e : MRTentry) (chain : List MRTentry)
    (h : dump.actEntry = some (e, chain)) :
    (∀ k, k < chain.length →
      ∃ r, chain[k]? = some r ∧
        Read_next_mrt_entry (read_records k dump)
          = (some r, { dump with actEntry := some (r, chain.drop (k + 1)) })) ∧
    (∀ k, k ≤ chain.length →
      (read_records k dump).f = dump.f ∧ (read_records k dump).parsed = dump.parsed ∧
      (read_records k dump).parsed_ok = dump.parsed_ok ∧
      (read_records k dump).eof = dump.eof) ∧
    no_pending (read_records chain.length dump) ∧
    (∀ time entryType entrySubType time_ms len tail,
      time < 4294967296 → entryType < 65536 → entrySubType < 65536 → time_ms < 4294967296 →
      len + 4 < 4294967296 →
      dump.f = mrt_header time entryType entrySubType time_ms len ++ tail →
      Read_next_mrt_entry (read_records chain.length dump)
        = read_record_body { read_records chain.length dump with f := tail }
            (record_entry time entryType entrySubType time_ms len)) := by
  have hstate : ∀ k, k ≤ chain.length →
      ∃ r, read_records k dump = { dump with actEntry := some (r, chain.drop k) } := by
    intro k hk
    cases k with
    | zero => exact ⟨e, by rw [read_records, List.drop_zero, ← h]⟩
    | succ k =>
      obtain ⟨r, _, hr⟩ := read_records_siblings dump chain e h k (by omega)
      exact ⟨r, by rw [read_records, hr]⟩
  have hnp : no_pending (read_records chain.length dump) := by
    obtain ⟨r, hr⟩ := hstate chain.length (le_refl _)
    intro e1 l hl
    rw [hr] at hl
    simp only [List.drop_length, Option.some.injEq, Prod.mk.injEq] at hl
    exact hl.2.symm
  refine ⟨read_records_siblings dump chain e h, ?_, hnp, ?_⟩
  · intro k hk
    obtain ⟨r, hr⟩ := hstate k hk
    rw [hr]
    exact ⟨rfl, rfl, rfl, rfl⟩
  · intro time entryType entrySubType time_ms len tail htime htype hsub hms hlen hf
    refine Read_next_header _ time entryType entrySubType time_ms len tail hnp htime htype hsub
      hms hlen ?_
    obtain ⟨r, hr⟩ := hstate chain.length (le_refl _)
    rw [hr]
    exact hf

/-! ## The printed line -/

theorem print_fold (pieces : List (List Char)) :
    ∀ buffer : List Char, buffer.length + pieces.flatten.length < MAX_BUFF_LEN →
      pieces.foldl print_step (some (buffer, buffer.length))
        = some (buffer ++ pieces.flatten, buffer.length + pieces.flatten.length) := by
  induction pieces with
  | nil => intro buffer _; simp
  | cons s rest ih =>
    intro buffer h
    rw [List.flatten_cons, List.length_append] at h
    rw [List.foldl_cons]
    have hstep : print_step (some (buffer, buffer.length)) s
        = some (buffer ++ s, (buffer ++ s).length) := by
      simp only [print_step, snprintf]
      rw [if_neg (by omega), if_neg (by omega), List.take_length,
        List.take_of_length_le (by omega), List.length_append]
    rw [hstep, ih (buffer ++ s) (by rw [List.length_append]; omega)]
    simp [List.append_assoc, Nat.add_assoc]

theorem print_list_join (l : List (List Char)) :
    (print_list l).flatten = List.intercalate [','] l := by
  induction l with
  | nil => rfl
  | cons p rest ih =>
    cases rest with
    | nil => simp [print_list, List.intercalate]
    | cons q rest =>
      rw [print_list, List.flatten_cons, ih]
      simp [List.intercalate, List.intersperse]

theorem print_tag_of (entry : MRTentry) (tag : Char) (h : tag_matches entry tag) :
    print_tag entry = [[tag, '|']] := by
  unfold print_tag
  rcases h with ⟨h1, h2⟩ | ⟨h1, h2⟩
  · rw [if_neg h1, h2]; rfl
  · rw [if_pos h1]
    rcases h2 with ⟨a, b⟩ | ⟨a, b⟩ | ⟨a, b⟩ | ⟨a, b⟩ | ⟨a, b⟩ <;> rw [a, b] <;> rfl

theorem print_pieces_join (entry : MRTentry) :
    (print_pieces entry).flatten
      = (print_tag entry).flatten ++ (fmt_d entry.time ++ '|' :: List.intercalate [','] entry.pfxNLRI ++
        '|' :: List.intercalate [','] entry.pfxWithdraw ++ '|' :: entry.origin ++
        '|' :: entry.nextHop ++ '|' :: entry.asPath ++ '|' :: entry.communities ++
        '|' :: fmt_d entry.peer_asn ++ '|' :: entry.peerAddr ++ ['\n']) := by
  unfold print_pieces
  simp only [List.flatten_append, print_list_join, List.flatten_cons, List.flatten_nil, List.append_nil,
    List.append_assoc, List.singleton_append, List.cons_append, List.nil_append]

/-- **C29 (amended).** For a record whose type is TABLE_DUMP_V2 (tag `R`) or
whose BGP message type is OPEN, UPDATE, NOTIFICATION, KEEPALIVE or the state
change mark (tags `O`, `U`, `N`, `K`, `S`), and whose line fits the buffer of
32768 bytes, `MRTentry_print` writes
`TAG|timestamp|announced_csv|withdrawn_csv|origin|next_hop|as_path|communities|peer_asn|peer_address`
and a line end, the lists joined by commas in stored order. -/
theorem print_line_form (entry : MRTentry) (tag : Char) (htag : tag_matches entry tag)
    (hfit : (print_line [tag] entry).length < MAX_BUFF_LEN) :
    MRTentry_print entry = some (print_line [tag] entry) := by
  have hj : (print_pieces entry).flatten = print_line [tag] entry := by
    rw [print_pieces_join, print_tag_of entry tag htag]
    simp [print_line]
  unfold MRTentry_print
  have h := print_fold (print_pieces entry) [] (by rw [hj]; simpa using hfit)
  rw [List.length_nil] at h
  rw [h, hj]
  rfl

/-- C29 (amended) at the record of scenario B. -/
theorem print_line_form_witness :
    MRTentry_print scenario_b_record
      = some "U|1|192.0.2.0/24||IGP|10.0.0.1|65000 65001||65000|10.0.0.1\n".toList :=
  (print_line_form scenario_b_record 'U' (Or.inr ⟨Or.inl rfl, Or.inr (Or.inl ⟨rfl, rfl⟩)⟩)
    (by decide)).trans (by decide)

/-- **C29, counterexample.** The files of scenario A with the BGP message
type 6, and with the type 0, in place of KEEPALIVE: `Read_next_mrt_entry`
returns a record, and the line printed for it starts with the timestamp; it
has no tag. -/
theorem print_line_form_counterexample :
    (∃ r, (Read_next_mrt_entry (File_buf_create type_6_file)).1 = some r ∧
      MRTentry_print r = some "1|||||||65000|10.0.0.1\n".toList) ∧
    (∃ r, (Read_next_mrt_entry (File_buf_create type_0_file)).1 = some r ∧
      MRTentry_print r = some "1|||||||65000|10.0.0.1\n".toList) :=
  ⟨⟨{ scenario_a_record with bgpType := 6 }, by decide, by decide⟩,
   ⟨{ scenario_a_record with bgpType := 0 }, by decide, by decide⟩⟩

/-- **C27 (amended).** The record of scenario A under a header that declares
the 39 bytes of its body (`00 00 00 27`) is read as a KEEPALIVE record from
peer 65000 at 10.0.0.1 with timestamp 1, and `MRTentry_print` renders it as
`K|1|||||||65000|10.0.0.1`: the origin field is empty. -/
theorem scenario_a_keepalive :
    (Read_next_mrt_entry (File_buf_create scenario_a_file_39)).1 = some scenario_a_record ∧
    scenario_a_record.bgpType = BGP_TYPE_KEEPALIVE ∧ scenario_a_record.peer_asn = 65000 ∧
    scenario_a_record.peerAddr = "10.0.0.1".toList ∧ scenario_a_record.time = 1 ∧
    MRTentry_print scenario_a_record = some "K|1|||||||65000|10.0.0.1\n".toList := by
  decide

/-- **C27, counterexample.** With the header of the spec, which declares 35
bytes for the body of 39 bytes, `Read_next_mrt_entry` returns no record; and
the line printed for the record read under the header `00 00 00 27` is not the
line with `UNKNOWN`. -/
theorem scenario_a_keepalive_counterexample :
    (Read_next_mrt_entry (File_buf_create scenario_a_file)).1 = none ∧
    MRTentry_print scenario_a_record ≠ some "K|1|||UNKNOWN||||65000|10.0.0.1\n".toList ∧
    MRTentry_print scenario_a_record ≠ some "K|1|||UNKNOWN||||65000|10.0.0.1".toList := by
  decide

/-- **C28 (amended).** The UPDATE of scenario B with the attribute length
`00 18` (the 24 bytes of its three attributes), in a BGP4MP_MESSAGE_AS4 record
from peer AS 65000 at 10.0.0.1 with timestamp 1, decodes with the announced
prefix 192.0.2.0/24, no withdrawn prefix, origin IGP, next hop 10.0.0.1,
AS path `65000 65001` and empty communities, and is rendered as
`U|1|192.0.2.0/24||IGP|10.0.0.1|65000 65001||65000|10.0.0.1`. -/
theorem scenario_b_update_decodes :
    (Read_next_mrt_entry (File_buf_create scenario_b_file_24)).1 = some scenario_b_record ∧
    scenario_b_record.pfxNLRI = ["192.0.2.0/24".toList] ∧ scenario_b_record.pfxWithdraw = [] ∧
    scenario_b_record.origin = "IGP".toList ∧ scenario_b_record.nextHop = "10.0.0.1".toList ∧
    scenario_b_record.asPath = "65000 65001".toList ∧ scenario_b_record.communities = [] ∧
    MRTentry_print scenario_b_record
      = some "U|1|192.0.2.0/24||IGP|10.0.0.1|65000 65001||65000|10.0.0.1\n".toList := by
  decide

/-- **C28, counterexample.** With the attribute length `00 14` of the spec
the attribute block ends inside the NEXT_HOP attribute: `process_bgp_attributes`
returns 0, `process_bgp_update` returns 0 and `Read_next_mrt_entry` returns no
record. -/
theorem scenario_b_update_counterexample :
    (process_bgp_attributes (scenario_b_update.drop 4)
      { MRTentry_new with entrySubType := 4 } 20).1 = 0 ∧
    process_bgp_update scenario_b_update { MRTentry_new with entrySubType := 4 } 32 = none ∧
    (Read_next_mrt_entry (File_buf_create scenario_b_file)).1 = none := by
  decide

/-! ## NEXT_HOP and MP_REACH_NLRI -/

theorem attr_switch_next_hop (buffer : List Nat) (allAttrLen attrLen : Nat) (st : AttrState) :
    attr_switch buffer allAttrLen 3 attrLen st = attr_next_hop buffer allAttrLen attrLen st := by
  unfold attr_switch
  simp only [BGP_UPDATE_ATTR_ORIGIN, BGP_UPDATE_ATTR_AS_PATH, BGP_UPDATE_NLRI_COMMUNITIES,
    BGP_UPDATE_ATTR_NEXT_HOP]
  rw [if_neg (by decide), if_neg (by decide), if_neg (by decide), if_pos trivial]

theorem attr_header_length (flags type len : Nat) :
    3 ≤ (attr_header flags type len).length ∧ (attr_header flags type len).length ≤ 4 := by
  unfold attr_header enc16
  split_ifs <;> simp

/-- **C21.** A NEXT_HOP attribute (type 3).  Whatever the block and the place
of the attribute in it, a declared length other than 4 makes the NEXT_HOP arm
execute `return 0`.  A block made of one NEXT_HOP attribute of length 4 is
accepted and `nextHop` becomes the dotted-decimal text of its four bytes; a
block made of one NEXT_HOP attribute of another length is rejected with the
value 0. -/
theorem next_hop_attribute (flags : Nat) (entry : MRTentry) (hflags : flags < 256) :
    (∀ buffer allAttrLen attrLen st, attrLen ≠ 4 →
      attr_switch buffer allAttrLen BGP_UPDATE_ATTR_NEXT_HOP attrLen st = Flow.ret 0 st.entry) ∧
    (∀ a b c d, a < 256 → b < 256 → c < 256 → d < 256 →
      process_bgp_attributes (attr_header flags 3 4 ++ [a, b, c, d]) entry
          ((attr_header flags 3 4).length + 4)
        = ((((attr_header flags 3 4).length + 4 : Nat) : Int),
            { entry with
              nextHop := fmt_u a ++ '.' :: fmt_u b ++ '.' :: fmt_u c ++ '.' :: fmt_u d })) ∧
    (∀ len value, len ≠ 4 → len ≤ 4096 → (flags &&& 16 = 0 → len < 256) →
      (process_bgp_attributes (attr_header flags 3 len ++ value) entry
          ((attr_header flags 3 len).length + len)).1 = 0) := by
  refine ⟨?_, ?_, ?_⟩
  · intro buffer allAttrLen attrLen st h
    show attr_switch buffer allAttrLen 3 attrLen st = _
    rw [attr_switch_next_hop]
    unfold attr_next_hop
    rw [if_pos h]
  · intro a b c d ha hb hc hd
    have hhl := attr_header_length flags 3 4
    have hsw : attr_switch (attr_header flags 3 4 ++ [a, b, c, d])
        ((attr_header flags 3 4).length + 4) 3 4
        { actOff := (attr_header flags 3 4).length,
          actAllAttrLen := (attr_header flags 3 4).length,
          aspActStrLen := 0, comActStrlen := 0, entry := entry }
        = Flow.next
          { actOff := (attr_header flags 3 4).length + 4,
            actAllAttrLen := (attr_header flags 3 4).length,
            aspActStrLen := 0, comActStrlen := 0,
            entry := { entry with
              nextHop := fmt_u a ++ '.' :: fmt_u b ++ '.' :: fmt_u c ++ '.' :: fmt_u d } } := by
      rw [attr_switch_next_hop]
      unfold attr_next_hop
      simp only [ne_eq, not_true_eq_false, if_false, inet_ntop, List.drop_left, inet_ntop4,
        get_buf_char_cons, List.drop_succ_cons, List.drop_zero, Nat.mod_eq_of_lt ha,
        Nat.mod_eq_of_lt hb, Nat.mod_eq_of_lt hc, Nat.mod_eq_of_lt hd]
      rw [if_neg (by omega)]
    rw [single_attribute_next flags 3 4 _ entry _ hflags (by decide) (by decide) (by intro; decide)
      hsw rfl]
  · intro len value hne hlen hshort
    have hsw : attr_switch (attr_header flags 3 len ++ value)
        ((attr_header flags 3 len).length + len) 3 len
        { actOff := (attr_header flags 3 len).length,
          actAllAttrLen := (attr_header flags 3 len).length,
          aspActStrLen := 0, comActStrlen := 0, entry := entry }
        = Flow.ret 0 entry := by
      rw [attr_switch_next_hop]
      unfold attr_next_hop
      rw [if_pos hne]
    rw [single_attribute_ret flags 3 len _ entry 0 entry hflags (by decide) hlen hshort hsw]

/-- C21 at the NEXT_HOP attribute of scenario B, `40 03 04 0A 00 00 01`. -/
theorem next_hop_attribute_witness :
    process_bgp_attributes [0x40, 3, 4, 10, 0, 0, 1] MRTentry_new 7
      = (7, { MRTentry_new with nextHop := "10.0.0.1".toList }) :=
  (next_hop_attribute 0x40 MRTentry_new (by decide)).2.1 10 0 0 1 (by decide) (by decide)
    (by decide) (by decide)

theorem fmt_u_length_le (n e : Nat) (h : n < 10 ^ e) (he : 0 < e) : (fmt_u n).length ≤ e :=
  Nat.toDigitsCore_length 10 (by decide) (n + 1) n e h he

theorem fmt_x_length_le (n e : Nat) (h : n < 16 ^ e) (he : 0 < e) : (fmt_x n).length ≤ e :=
  Nat.toDigitsCore_length 16 (by decide) (n + 1) n e h he

theorem inet_ntop4_length (src : List Nat) : (inet_ntop4 src).length ≤ 15 := by
  have h : ∀ l : List Nat, (fmt_u (get_buf_char l)).length ≤ 3 := fun l =>
    fmt_u_length_le _ 3 (lt_of_lt_of_le (get_buf_char_lt l) (by decide)) (by decide)
  have h0 := h src
  have h1 := h (src.drop 1)
  have h2 := h (src.drop 2)
  have h3 := h (src.drop 3)
  simp only [inet_ntop4, List.length_append, List.length_cons]
  omega

theorem ntop6_words_lt (n : Nat) : ∀ (src : List Nat) (i : Nat), (ntop6_words src n).getD i 0 < 65536 := by
  induction n with
  | zero => intro src i; simp [ntop6_words]
  | succ n ih =>
    intro src i
    rw [ntop6_words]
    cases i with
    | zero =>
      have h0 := get_buf_char_lt src
      have h1 := get_buf_char_lt (src.drop 1)
      simp only [List.getD_cons_zero]
      omega
    | succ i =>
      simp only [List.getD_cons_succ]
      exact ih _ _

theorem ntop6_emit_length (src words : List Nat) (best : Option (Nat × Nat))
    (hw : ∀ i, words.getD i 0 < 65536) :
    ∀ n i, (ntop6_emit src words best n i).length ≤ 5 * n + 11 := by
  intro n
  induction n with
  | zero => intro i; simp [ntop6_emit]
  | succ n ih =>
    intro i
    have hx : (fmt_x (words.getD i 0)).length ≤ 4 :=
      fmt_x_length_le _ 4 (by have := hw i; omega) (by decide)
    have h4 := inet_ntop4_length (src.drop 12)
    have hi := ih (i + 1)
    cases best with
    | none =>
      rw [ntop6_emit]
      simp only [List.length_append]
      split_ifs <;> simp only [List.length_cons, List.length_nil] <;> omega
    | some b =>
      rw [ntop6_emit]
      split_ifs <;>
        simp only [List.length_append, List.length_cons, List.length_nil, List.nil_append] <;> omega

theorem inet_ntop6_length (src : List Nat) : (inet_ntop6 src).length ≤ 52 := by
  unfold inet_ntop6
  have h := ntop6_emit_length src (ntop6_words src 8) (ntop6_best (ntop6_words src 8))
    (ntop6_words_lt 8 src) 8 0
  simp only [List.length_append]
  split
  · split_ifs <;> simp only [List.length_cons, List.length_nil] <;> omega
  · simp only [List.length_nil]; omega

theorem get_buf_n_append (b : List Nat) : ∀ rest : List Nat, (∀ x ∈ b, x < 256) →
    get_buf_n (b ++ rest) b.length = b := by
  induction b with
  | nil => intro rest _; rfl
  | cons x b ih =>
    intro rest hb
    rw [List.cons_append, List.length_cons, get_buf_n, get_buf_char_cons,
      Nat.mod_eq_of_lt (hb x (List.mem_cons_self _ _)), List.drop_succ_cons, List.drop_zero,
      ih rest (fun y hy => hb y (List.mem_cons_of_mem _ hy))]

theorem prefix_text_length (af : AddrFamily) (p : Nat × List Nat) (hp : p.1 ≤ 128) :
    (prefix_text af p).length ≤ 56 := by
  have hm : (fmt_u p.1).length ≤ 3 := fmt_u_length_le _ 3 (by norm_num; omega) (by decide)
  unfold prefix_text
  cases af with
  | AF_INET =>
    have h := inet_ntop4_length (p.2 ++ List.replicate (16 - p.2.length) 0)
    simp only [List.length_append, List.length_cons]
    omega
  | AF_INET6 =>
    have h := inet_ntop6_length (p.2 ++ List.replicate (16 - p.2.length) 0)
    simp only [List.length_append, List.length_cons]
    omega

theorem process_prefix_spec (af : AddrFamily) (p : Nat × List Nat) (rest : List Nat)
    (hp : prefix_ok 128 p) :
    process_prefix (encode_pfx p ++ rest) af = some (prefix_text af p, 1 + p.2.length) := by
  obtain ⟨hm, hl, hb⟩ := hp
  have htl := prefix_text_length af p hm
  unfold process_prefix
  simp only [encode_pfx, List.cons_append, get_buf_char_cons, List.drop_succ_cons,
    List.drop_zero]
  rw [Nat.mod_eq_of_lt (by omega), if_neg (by omega), ← hl, get_buf_n_append p.2 rest hb]
  cases af with
  | AF_INET =>
    simp only [inet_ntop, snprintf]
    rw [if_neg (by decide)]
    unfold prefix_text at htl ⊢
    simp only at htl ⊢
    rw [List.take_zero, List.nil_append, List.take_of_length_le (by omega)]
  | AF_INET6 =>
    simp only [inet_ntop, snprintf]
    rw [if_neg (by decide)]
    unfold prefix_text at htl ⊢
    simp only at htl ⊢
    rw [List.take_zero, List.nil_append, List.take_of_length_le (by omega)]

theorem encode_pfx_length (p : Nat × List Nat) : (encode_pfx p).length = 1 + p.2.length := by
  simp [encode_pfx, Nat.add_comm]

theorem mp_reach_loop_spec (buffer : List Nat) (allAttrLen attrLen : Nat) :
    ∀ (ps : List (Nat × List Nat)) (fuel p : Nat) (st : AttrState) (rest : List Nat),
      (∀ q ∈ ps, prefix_ok 128 q) →
      buffer.drop st.actOff = encode_prefixes ps ++ rest →
      attrLen = p + (encode_prefixes ps).length →
      st.actOff + (encode_prefixes ps).length ≤ allAttrLen →
      ps.length ≤ fuel →
      mp_reach_loop buffer allAttrLen attrLen fuel p st
        = Flow.next { st with
            actOff := st.actOff + (encode_prefixes ps).length,
            entry := { st.entry with
              pfxNLRI := st.entry.pfxNLRI ++ ps.map (prefix_text AddrFamily.AF_INET6) } } := by
  intro ps
  induction ps with
  | nil =>
    intro fuel p st rest _ _ hlen _ _
    simp only [encode_prefixes, List.length_nil, Nat.add_zero] at hlen
    cases fuel with
    | zero =>
      rw [mp_reach_loop, if_neg (by omega)]
      simp [encode_prefixes]
    | succ fuel =>
      rw [mp_reach_loop, if_neg (by omega)]
      simp [encode_prefixes]
  | cons q ps ih =>
    intro fuel p st rest hok hdrop hlen hall hfuel
    have hq := hok q (List.mem_cons_self _ _)
    have hql := encode_pfx_length q
    simp only [encode_prefixes, List.length_append] at hlen hall
    rw [encode_prefixes, List.append_assoc] at hdrop
    cases fuel with
    | zero => simp at hfuel
    | succ fuel =>
      rw [mp_reach_loop, if_pos (by omega), hdrop, process_prefix_spec _ q _ hq]
      simp only
      rw [if_neg (by omega)]
      rw [ih fuel (p + (1 + q.2.length))
        { st with
          actOff := st.actOff + (1 + q.2.length),
          entry := { st.entry with
            pfxNLRI := st.entry.pfxNLRI ++ [prefix_text AddrFamily.AF_INET6 q] } } rest
        (fun x hx => hok x (List.mem_cons_of_mem _ hx))
        (by
          show buffer.drop (st.actOff + (1 + q.2.length)) = _
          rw [drop_add_eq, hdrop, ← hql, List.drop_left])
        (by omega) (by simp only; omega) (by simpa using hfuel)]
      simp only [encode_prefixes, List.length_append, List.map_cons, List.append_assoc,
        List.singleton_append, hql, Nat.add_assoc]

theorem length_le_encode_prefixes (ps : List (Nat × List Nat)) :
    ps.length ≤ (encode_prefixes ps).length := by
  induction ps with
  | nil => exact Nat.le_refl _
  | cons p ps ih =>
    simp only [encode_prefixes, List.length_append, List.length_cons, encode_pfx]
    omega

theorem attr_mp_reach_short (buffer : List Nat) (allAttrLen attrLen : Nat) (st : AttrState)
    (nh : List Nat) (ps : List (Nat × List Nat)) (rest : List Nat)
    (hdrop : buffer.drop st.actOff = mp_reach_short nh ps ++ rest)
    (hnh : nh.length < 256) (hnz : nh.length ≠ 0) (hok : ∀ q ∈ ps, prefix_ok 128 q)
    (hlen : attrLen = (mp_reach_short nh ps).length)
    (hall : st.actOff + attrLen ≤ allAttrLen) :
    attr_mp_reach buffer allAttrLen attrLen st
      = Flow.next { st with
          actOff := st.actOff + attrLen,
          entry := { st.entry with
            nextHop := inet_ntop6 (nh ++ encode_prefixes ps ++ rest),
            pfxNLRI := st.entry.pfxNLRI ++ ps.map (prefix_text AddrFamily.AF_INET6) } } := by
  have hl : (mp_reach_short nh ps).length = 1 + nh.length + (encode_prefixes ps).length := by
    simp [mp_reach_short]; omega
  rw [hl] at hlen
  have hd0 : get_buf_char (buffer.drop st.actOff) = nh.length := by
    rw [hdrop]
    simp [mp_reach_short, get_buf_char, Nat.mod_eq_of_lt hnh]
  have hd1 : buffer.drop (st.actOff + 1) = nh ++ encode_prefixes ps ++ rest := by
    rw [drop_add_eq, hdrop]
    simp [mp_reach_short]
  have hd2 : buffer.drop (st.actOff + 1 + nh.length) = encode_prefixes ps ++ rest := by
    rw [drop_add_eq, hd1, List.append_assoc, List.drop_left]
  unfold attr_mp_reach
  rw [hd0, if_pos hnz]
  unfold mp_reach_tail
  simp only [hd0, hd1, inet_ntop]
  rw [if_neg (by omega), if_neg (by omega), if_pos trivial]
  rw [mp_reach_loop_spec buffer allAttrLen attrLen ps attrLen (1 + nh.length) _ rest hok hd2
    (by omega) (by simp only; omega)
    (le_trans (length_le_encode_prefixes ps) (by omega))]
  simp only [hlen]
  congr 2
  omega

theorem attr_switch_mp_reach (buffer : List Nat) (allAttrLen attrLen : Nat) (st : AttrState) :
    attr_switch buffer allAttrLen 14 attrLen st = attr_mp_reach buffer allAttrLen attrLen st := by
  unfold attr_switch
  simp only [BGP_UPDATE_ATTR_ORIGIN, BGP_UPDATE_ATTR_AS_PATH, BGP_UPDATE_NLRI_COMMUNITIES,
    BGP_UPDATE_ATTR_NEXT_HOP, BGP_UPDATE_ATTR_NLRI]
  rw [if_neg (by decide), if_neg (by decide), if_neg (by decide), if_neg (by decide),
    if_pos trivial]

theorem retag_state_actOff (ty ms : Nat) (st : AttrState) :
    (retag_state ty ms st).actOff = st.actOff := rfl

theorem retag_state_all (ty ms : Nat) (st : AttrState) :
    (retag_state ty ms st).actAllAttrLen = st.actAllAttrLen := rfl

theorem retag_state_asp (ty ms : Nat) (st : AttrState) :
    (retag_state ty ms st).aspActStrLen = st.aspActStrLen := rfl

theorem retag_state_com (ty ms : Nat) (st : AttrState) :
    (retag_state ty ms st).comActStrlen = st.comActStrlen := rfl

theorem retag_state_entry (ty ms : Nat) (st : AttrState) :
    (retag_state ty ms st).entry = retag ty ms st.entry := rfl

theorem retag_subtype (ty ms : Nat) (e : MRTentry) :
    (retag ty ms e).entrySubType = e.entrySubType := rfl

theorem retag_pfxNLRI (ty ms : Nat) (e : MRTentry) : (retag ty ms e).pfxNLRI = e.pfxNLRI := rfl

theorem retag_pfxWithdraw (ty ms : Nat) (e : MRTentry) :
    (retag ty ms e).pfxWithdraw = e.pfxWithdraw := rfl

theorem retag_asPath (ty ms : Nat) (e : MRTentry) : (retag ty ms e).asPath = e.asPath := rfl

theorem retag_communities (ty ms : Nat) (e : MRTentry) :
    (retag ty ms e).communities = e.communities := rfl

theorem retag_origin (ty ms : Nat) (e : MRTentry) : (retag ty ms e).origin = e.origin := rfl

theorem write_as_path_asp (st : AttrState) (size : Nat) (s : List Char) :
    (write_as_path st size s).aspActStrLen = st.aspActStrLen + s.length := rfl

theorem as_path_seq_retag (ty ms : Nat) (buffer : List Nat) (allAttrLen attrLen : Nat) :
    ∀ (n p : Nat) (st st1 : AttrState), st1 = retag_state ty ms st →
      as_path_seq buffer allAttrLen attrLen n p st1
        = retag_flow2 ty ms (as_path_seq buffer allAttrLen attrLen n p st) := by
  intro n
  induction n with
  | zero => intro p st st1 h; subst h; rfl
  | succ n ih =>
    intro p st st1 h
    subst h
    rw [as_path_seq, as_path_seq]
    simp only [retag_state_actOff, retag_state_asp, retag_state_entry, retag_subtype]
    cases read_asn buffer st.entry.entrySubType allAttrLen st.actOff p with
    | none => rfl
    | some r =>
      obtain ⟨asn, actOff, p1⟩ := r
      simp only
      split_ifs with h1 h2 h2
      · rfl
      · exact absurd h1 h2
      · exact absurd h2 h1
      · exact ih _ _ _ rfl

theorem as_path_set_retag (ty ms : Nat) (buffer : List Nat) (allAttrLen segLen : Nat) :
    ∀ (n i p : Nat) (st st1 : AttrState), st1 = retag_state ty ms st →
      as_path_set buffer allAttrLen segLen n i p st1
        = retag_flow2 ty ms (as_path_set buffer allAttrLen segLen n i p st) := by
  intro n
  induction n with
  | zero => intro i p st st1 h; subst h; rfl
  | succ n ih =>
    intro i p st st1 h
    subst h
    rw [as_path_set, as_path_set]
    simp only [retag_state_actOff, retag_state_asp, retag_state_entry, retag_subtype]
    cases read_asn buffer st.entry.entrySubType allAttrLen st.actOff p with
    | none => rfl
    | some r =>
      obtain ⟨asn, actOff, p1⟩ := r
      simp only [write_as_path_asp]
      split_ifs
      all_goals first
        | rfl
        | exact ih _ _ _ _ rfl

theorem as_path_loop_retag (ty ms : Nat) (buffer : List Nat) (allAttrLen attrLen : Nat) :
    ∀ (fuel p : Nat) (st st1 : AttrState), st1 = retag_state ty ms st →
      as_path_loop buffer allAttrLen attrLen fuel p st1
        = retag_flow ty ms (as_path_loop buffer allAttrLen attrLen fuel p st) := by
  intro fuel
  induction fuel with
  | zero =>
    intro p st st1 h
    subst h
    rw [as_path_loop, as_path_loop]
    split_ifs <;> rfl
  | succ fuel ih =>
    intro p st st1 h
    subst h
    rw [as_path_loop, as_path_loop]
    simp only [retag_state_actOff, retag_state_asp, retag_state_entry, retag_subtype,
      write_as_path_asp]
    split_ifs
    all_goals first
      | rfl
      | exact ih _ _ _ rfl
      | (generalize hA : as_path_seq _ _ _ _ _ _ = rA
         generalize hB : as_path_seq _ _ _ _ _ _ = rB
         have key : rA = retag_flow2 ty ms rB := by
           rw [← hA, ← hB]; exact as_path_seq_retag _ _ _ _ _ _ _ _ _ rfl
         subst key
         cases rB with
         | ret c e => rfl
         | next r =>
           obtain ⟨p1, s1⟩ := r
           exact ih _ _ _ rfl)
      | (generalize hA : as_path_set _ _ _ _ _ _ _ = rA
         generalize hB : as_path_set _ _ _ _ _ _ _ = rB
         have key : rA = retag_flow2 ty ms rB := by
           rw [← hA, ← hB]; exact as_path_set_retag _ _ _ _ _ _ _ _ _ _ rfl
         subst key
         cases rB with
         | ret c e => rfl
         | next r =>
           obtain ⟨p1, s1⟩ := r
           simp only [retag_flow2, write_as_path_asp, retag_state_asp]
           split_ifs
           · rfl
           · exact ih _ _ _ rfl)

theorem communities_loop_retag (ty ms : Nat) (buffer : List Nat) (allAttrLen attrLen : Nat) :
    ∀ (fuel p : Nat) (st st1 : AttrState), st1 = retag_state ty ms st →
      communities_loop buffer allAttrLen attrLen fuel p st1
        = retag_flow ty ms (communities_loop buffer allAttrLen attrLen fuel p st) := by
  intro fuel
  induction fuel with
  | zero =>
    intro p st st1 h
    subst h
    rw [communities_loop, communities_loop]
    split_ifs <;> rfl
  | succ fuel ih =>
    intro p st st1 h
    subst h
    rw [communities_loop, communities_loop]
    simp only [retag_state_actOff, retag_state_com, retag_state_entry, retag_communities]
    split_ifs
    all_goals first
      | rfl
      | exact ih _ _ _ rfl

theorem mp_reach_loop_retag (ty ms : Nat) (buffer : List Nat) (allAttrLen attrLen : Nat) :
    ∀ (fuel p : Nat) (st st1 : AttrState), st1 = retag_state ty ms st →
      mp_reach_loop buffer allAttrLen attrLen fuel p st1
        = retag_flow ty ms (mp_reach_loop buffer allAttrLen attrLen fuel p st) := by
  intro fuel
  induction fuel with
  | zero =>
    intro p st st1 h
    subst h
    rw [mp_reach_loop, mp_reach_loop]
    split_ifs <;> rfl
  | succ fuel ih =>
    intro p st st1 h
    subst h
    rw [mp_reach_loop, mp_reach_loop]
    simp only [retag_state_actOff, retag_state_entry, retag_pfxNLRI]
    cases process_prefix (List.drop st.actOff buffer) AddrFamily.AF_INET6 with
    | none => split_ifs <;> rfl
    | some r =>
      obtain ⟨text, ret⟩ := r
      simp only
      split_ifs
      all_goals first
        | rfl
        | exact ih _ _ _ rfl

theorem mp_unreach_loop_retag (ty ms : Nat) (buffer : List Nat) (allAttrLen attrLen : Nat) :
    ∀ (fuel p : Nat) (st st1 : AttrState), st1 = retag_state ty ms st →
      mp_unreach_loop buffer allAttrLen attrLen fuel p st1
        = retag_flow ty ms (mp_unreach_loop buffer allAttrLen attrLen fuel p st) := by
  intro fuel
  induction fuel with
  | zero =>
    intro p st st1 h
    subst h
    rw [mp_unreach_loop, mp_unreach_loop]
    split_ifs <;> rfl
  | succ fuel ih =>
    intro p st st1 h
    subst h
    rw [mp_unreach_loop, mp_unreach_loop]
    simp only [retag_state_actOff, retag_state_entry, retag_pfxWithdraw]
    cases process_prefix (List.drop st.actOff buffer) AddrFamily.AF_INET6 with
    | none => split_ifs <;> rfl
    | some r =>
      obtain ⟨text, ret⟩ := r
      simp only
      split_ifs
      all_goals first
        | rfl
        | exact ih _ _ _ rfl

theorem attr_origin_retag (ty ms : Nat) (buffer : List Nat) (allAttrLen attrLen : Nat)
    (st : AttrState) :
    attr_origin buffer allAttrLen attrLen (retag_state ty ms st)
      = retag_flow ty ms (attr_origin buffer allAttrLen attrLen st) := by
  unfold attr_origin
  simp only [retag_state_actOff, retag_state_entry, retag_origin]
  split_ifs <;> rfl

theorem attr_next_hop_retag (ty ms : Nat) (buffer : List Nat) (allAttrLen attrLen : Nat)
    (st : AttrState) :
    attr_next_hop buffer allAttrLen attrLen (retag_state ty ms st)
      = retag_flow ty ms (attr_next_hop buffer allAttrLen attrLen st) := by
  unfold attr_next_hop
  simp only [retag_state_actOff, retag_state_entry, inet_ntop]
  split_ifs <;> rfl

theorem mp_reach_tail_retag (ty ms : Nat) (buffer : List Nat) (allAttrLen attrLen : Nat)
    (c : Bool) (actOff1 : Nat) (st : AttrState) :
    mp_reach_tail buffer allAttrLen attrLen c actOff1 (retag_state ty ms st)
      = retag_flow ty ms (mp_reach_tail buffer allAttrLen attrLen c actOff1 st) := by
  unfold mp_reach_tail
  simp only [retag_state_actOff, retag_state_entry, inet_ntop]
  split_ifs
  all_goals first
    | rfl
    | exact mp_reach_loop_retag _ _ _ _ _ _ _ _ _ rfl

theorem attr_mp_reach_retag (ty ms : Nat) (buffer : List Nat) (allAttrLen attrLen : Nat)
    (st : AttrState) :
    attr_mp_reach buffer allAttrLen attrLen (retag_state ty ms st)
      = retag_flow ty ms (attr_mp_reach buffer allAttrLen attrLen st) := by
  unfold attr_mp_reach
  simp only [retag_state_actOff, retag_state_entry]
  split_ifs
  all_goals first
    | rfl
    | exact mp_reach_tail_retag _ _ _ _ _ _ _ _

theorem attr_mp_unreach_retag (ty ms : Nat) (buffer : List Nat) (allAttrLen attrLen : Nat)
    (st : AttrState) :
    attr_mp_unreach buffer allAttrLen attrLen (retag_state ty ms st)
      = retag_flow ty ms (attr_mp_unreach buffer allAttrLen attrLen st) := by
  unfold attr_mp_unreach
  simp only [retag_state_actOff, retag_state_entry]
  split_ifs
  all_goals first
    | rfl
    | exact mp_unreach_loop_retag _ _ _ _ _ _ _ _ _ rfl

theorem attr_switch_retag (ty ms : Nat) (buffer : List Nat) (allAttrLen attrType attrLen : Nat)
    (st : AttrState) :
    attr_switch buffer allAttrLen attrType attrLen (retag_state ty ms st)
      = retag_flow ty ms (attr_switch buffer allAttrLen attrType attrLen st) := by
  unfold attr_switch
  simp only [retag_state_actOff, retag_state_entry]
  split_ifs
  all_goals first
    | rfl
    | exact attr_origin_retag _ _ _ _ _ _
    | exact as_path_loop_retag _ _ _ _ _ _ _ _ _ rfl
    | exact communities_loop_retag _ _ _ _ _ _ _ _ _ rfl
    | exact attr_next_hop_retag _ _ _ _ _ _
    | exact attr_mp_reach_retag _ _ _ _ _ _
    | exact attr_mp_unreach_retag _ _ _ _ _ _

theorem attr_value_retag (ty ms : Nat) (buffer : List Nat) (allAttrLen attrType attrLen : Nat) :
    ∀ (st st1 : AttrState), st1 = retag_state ty ms st →
      attr_value buffer allAttrLen attrType attrLen st1
        = retag_flow ty ms (attr_value buffer allAttrLen attrType attrLen st) := by
  intro st st1 h
  subst h
  unfold attr_value
  rw [attr_switch_retag]
  simp only [retag_state_entry]
  split_ifs
  · rfl
  · cases attr_switch buffer allAttrLen attrType attrLen st <;> rfl

theorem attr_body_retag (ty ms : Nat) (buffer : List Nat) (allAttrLen : Nat) (st : AttrState) :
    attr_body buffer allAttrLen (retag_state ty ms st)
      = retag_flow ty ms (attr_body buffer allAttrLen st) := by
  unfold attr_body
  simp only [retag_state_actOff, retag_state_entry, retag_state_all]
  split_ifs
  all_goals first
    | rfl
    | exact attr_value_retag _ _ _ _ _ _ _ _ rfl

theorem attr_loop_retag (ty ms : Nat) (buffer : List Nat) (allAttrLen : Nat) :
    ∀ (fuel : Nat) (st : AttrState),
      attr_loop buffer allAttrLen fuel (retag_state ty ms st)
        = retag_flow ty ms (attr_loop buffer allAttrLen fuel st) := by
  intro fuel
  induction fuel with
  | zero =>
    intro st
    rw [attr_loop, attr_loop]
    simp only [retag_state_all]
    split_ifs <;> rfl
  | succ fuel ih =>
    intro st
    rw [attr_loop, attr_loop, attr_body_retag]
    simp only [retag_state_all]
    split_ifs
    · cases attr_body buffer allAttrLen st with
      | ret c e => rfl
      | next s1 => exact ih s1
    · rfl

theorem process_bgp_attributes_retag (ty ms : Nat) (buffer : List Nat) (entry : MRTentry)
    (allAttrLen : Nat) :
    process_bgp_attributes buffer (retag ty ms entry) allAttrLen
      = ((process_bgp_attributes buffer entry allAttrLen).1,
          retag ty ms (process_bgp_attributes buffer entry allAttrLen).2) := by
  unfold process_bgp_attributes
  have h := attr_loop_retag ty ms buffer allAttrLen allAttrLen
    { actOff := 0, actAllAttrLen := 0, aspActStrLen := 0, comActStrlen := 0, entry := entry }
  have e : retag_state ty ms
      { actOff := 0, actAllAttrLen := 0, aspActStrLen := 0, comActStrlen := 0, entry := entry }
      = { actOff := 0, actAllAttrLen := 0, aspActStrLen := 0, comActStrlen := 0,
          entry := retag ty ms entry } := rfl
  rw [e] at h
  rw [h]
  cases attr_loop buffer allAttrLen allAttrLen
    { actOff := 0, actAllAttrLen := 0, aspActStrLen := 0, comActStrlen := 0, entry := entry } <;> rfl

theorem withdraw_loop_retag (ty ms : Nat) (buffer : List Nat) (max_len withdrawLen : Nat) :
    ∀ (fuel actOff actWithLen : Nat) (e e1 : MRTentry), e1 = retag ty ms e →
      withdraw_loop buffer max_len withdrawLen fuel actOff actWithLen e1
        = (withdraw_loop buffer max_len withdrawLen fuel actOff actWithLen e).map
            (fun r => (r.1, retag ty ms r.2)) := by
  intro fuel
  induction fuel with
  | zero =>
    intro actOff actWithLen e e1 h
    subst h
    rw [withdraw_loop, withdraw_loop]
    split_ifs <;> rfl
  | succ fuel ih =>
    intro actOff actWithLen e e1 h
    subst h
    rw [withdraw_loop, withdraw_loop]
    simp only [retag_pfxWithdraw]
    cases process_prefix (List.drop actOff buffer) AddrFamily.AF_INET with
    | none =>
      split_ifs
      all_goals first
        | rfl
        | exact ih _ _ _ _ rfl
    | some r =>
      obtain ⟨text, ret⟩ := r
      simp only
      split_ifs
      all_goals first
        | rfl
        | exact ih _ _ _ _ rfl

theorem nlri_loop_retag (ty ms : Nat) (buffer : List Nat) (max_len : Nat) :
    ∀ (fuel actOff : Nat) (e e1 : MRTentry), e1 = retag ty ms e →
      nlri_loop buffer max_len fuel actOff e1
        = (nlri_loop buffer max_len fuel actOff e).map (retag ty ms) := by
  intro fuel
  induction fuel with
  | zero =>
    intro actOff e e1 h
    subst h
    rw [nlri_loop, nlri_loop]
    split_ifs <;> rfl
  | succ fuel ih =>
    intro actOff e e1 h
    subst h
    rw [nlri_loop, nlri_loop]
    simp only [retag_pfxNLRI]
    cases process_prefix (List.drop actOff buffer) AddrFamily.AF_INET with
    | none =>
      split_ifs
      all_goals first
        | rfl
        | exact ih _ _ _ rfl
    | some r =>
      obtain ⟨text, ret⟩ := r
      simp only
      split_ifs
      all_goals first
        | rfl
        | exact ih _ _ _ rfl

theorem process_bgp_update_retag (ty ms : Nat) (buffer : List Nat) (max_len : Nat) :
    ∀ (e e1 : MRTentry), e1 = retag ty ms e →
      process_bgp_update buffer e1 max_len
        = (process_bgp_update buffer e max_len).map (retag ty ms) := by
  intro e e1 h
  subst h
  unfold process_bgp_update
  simp only
  split_ifs
  · rfl
  · rw [withdraw_loop_retag ty ms buffer max_len _ _ _ _ e _ rfl]
    cases withdraw_loop buffer max_len (get_buf_short buffer) max_len 2 0 e with
    | none => rfl
    | some r =>
      obtain ⟨actOff, e2⟩ := r
      simp only [Option.map_some', process_bgp_attributes_retag]
      split_ifs
      all_goals first
        | rfl
        | exact nlri_loop_retag _ _ _ _ _ _ _ _ rfl

theorem classic_message_body_retag (ty ms : Nat) (buffer : List Nat) (max_len actOff : Nat) :
    ∀ (e e1 : MRTentry), e1 = retag ty ms e →
      classic_message_body buffer e1 max_len actOff
        = (classic_message_body buffer e max_len actOff).map (retag ty ms) := by
  intro e e1 h
  subst h
  unfold classic_message_body
  simp only [retag_subtype]
  split_ifs
  all_goals first
    | rfl
    | exact process_bgp_update_retag _ _ _ _ _ _ rfl

theorem process_classic_message_retag (ty ms : Nat) (buffer : List Nat) (entry : MRTentry)
    (max_len : Nat) :
    process_classic_message buffer (retag ty ms entry) max_len
      = (process_classic_message buffer entry max_len).map (retag ty ms) := by
  unfold process_classic_message classic_peer_asn
  simp only [retag_subtype]
  split_ifs
  all_goals first
    | rfl
    | (simp only
       unfold classic_peer_addr
       simp only [inet_ntop]
       split_ifs
       all_goals first
         | rfl
         | exact classic_message_body_retag _ _ _ _ _ _ _ rfl)

theorem read_record_body_retag (ms : Nat) (dump : File_buf_t) (entry : MRTentry)
    (h16 : entry.entryType = MRT_TYPE_BGP4MP) :
    read_record_body dump (retag MRT_TYPE_BGP4MP_ET ms entry)
      = retag_result MRT_TYPE_BGP4MP_ET ms (read_record_body dump entry) := by
  have e1 : (retag MRT_TYPE_BGP4MP_ET ms entry).entryLength = entry.entryLength := rfl
  have e2 : (retag MRT_TYPE_BGP4MP_ET ms entry).entryType = MRT_TYPE_BGP4MP_ET := rfl
  unfold read_record_body
  simp only [e1, e2, h16, process_classic_message_retag, true_or, or_true, if_true]
  split_ifs
  all_goals first
    | rfl
    | (cases process_classic_message (cfr_read_n dump.f entry.entryLength).1 entry
         entry.entryLength <;> rfl)

theorem record_entry_retag (time entrySubType ms len : Nat) :
    record_entry time MRT_TYPE_BGP4MP_ET entrySubType ms len
      = retag MRT_TYPE_BGP4MP_ET ms (record_entry time MRT_TYPE_BGP4MP entrySubType 0 len) := by
  simp [record_entry, retag, MRT_TYPE_BGP4MP_ET, MRT_TYPE_BGP4MP]

theorem rib_sibling_loop_time_ms (buffer : List Nat) (d : File_buf_t) (max_len : Nat)
    (entry : MRTentry) :
    ∀ (n actOff : Nat) (chain res : List MRTentry),
      rib_sibling_loop buffer d max_len entry n actOff chain = some res →
      (∀ r ∈ chain, r.time_ms = entry.time_ms) → ∀ r ∈ res, r.time_ms = entry.time_ms := by
  intro n
  induction n with
  | zero =>
    intro actOff chain res h hc
    rw [rib_sibling_loop] at h
    cases h
    exact hc
  | succ n ih =>
    intro actOff chain res h hc
    rw [rib_sibling_loop] at h
    split at h
    · cases h
    · rename_i actOff1 tmp hp
      have hs := rib_peer_entry_spec _ _ _ _ _ _ _ hp
      refine ih _ _ _ h ?_
      intro r hr
      rcases List.mem_append.mp hr with hr | hr
      · exact hc r hr
      · rw [List.mem_singleton] at hr
        rw [hr, hs.2.2.2.2.1]
        rfl

theorem process_bgp_rib_entry_time_ms (buffer : List Nat) (d : File_buf_t) (entry e : MRTentry)
    (chain : List MRTentry) (max_len : Nat)
    (h : process_bgp_rib_entry buffer d entry max_len = some (e, chain)) :
    e.time_ms = entry.time_ms ∧ ∀ r ∈ chain, r.time_ms = entry.time_ms := by
  unfold process_bgp_rib_entry at h
  split_ifs at h
  split at h
  · cases h
  · rename_i text ret hp
    simp only at h
    split_ifs at h
    split at h
    · cases h
    · rename_i actOff e2 hpe
      have hs := rib_peer_entry_spec _ _ _ _ _ _ _ hpe
      split at h
      · cases h
      · rename_i res hl
        cases h
        have he : e.time_ms = entry.time_ms := hs.2.2.2.2.1
        refine ⟨he, ?_⟩
        intro r hr
        rw [← he]
        exact rib_sibling_loop_time_ms _ _ _ _ _ _ _ _ hl (by simp) r hr

theorem process_classic_message_time_ms (buffer : List Nat) (entry e : MRTentry) (max_len : Nat)
    (h : process_classic_message buffer entry max_len = some e) :
    e.time_ms = entry.time_ms := by
  obtain ⟨asn, text, hb, _⟩ := classic_prefix_spec buffer entry e max_len h
  unfold classic_message_body at hb
  dsimp only at hb
  split_ifs at hb
  · cases hb; rfl
  · exact ((hdr_eq_iff _ _).mp (update_keeps _ _ _ _ hb).1).2.2.2.2.2.2.2.2
  · cases hb; rfl

theorem read_record_body_some (dump : File_buf_t) (entry e : MRTentry)
    (h : (read_record_body dump entry).1 = some e) :
    ((entry.entryType = MRT_TYPE_BGP4MP ∨ entry.entryType = MRT_TYPE_BGP4MP_ET) ∧
      process_classic_message (cfr_read_n dump.f entry.entryLength).1 entry entry.entryLength
        = some e ∧
      (read_record_body dump entry).2.actEntry = some (e, [])) ∨
    (entry.entryType = MRT_TYPE_TABLE_DUMP_V2 ∧
      ∃ chain,
        (process_bgp_rib (cfr_read_n dump.f entry.entryLength).1
          { dump with parsed := dump.parsed + 1, f := (cfr_read_n dump.f entry.entryLength).2 }
          entry entry.entryLength).1 = some (e, chain) ∧
        (read_record_body dump entry).2.actEntry = some (e, chain)) ∨
    (¬ (entry.entryType = MRT_TYPE_BGP4MP ∨ entry.entryType = MRT_TYPE_BGP4MP_ET) ∧
      entry.entryType ≠ MRT_TYPE_TABLE_DUMP_V2 ∧ e = entry ∧
      (read_record_body dump entry).2.actEntry = some (e, [])) := by
  unfold read_record_body at h ⊢
  simp only at h ⊢
  by_cases h1 : entry.entryLength = 0
  · rw [if_pos h1] at h; simp at h
  rw [if_neg h1] at h ⊢
  by_cases h2 : (cfr_read_n dump.f entry.entryLength).1.length ≠ entry.entryLength
  · rw [if_pos h2] at h; simp at h
  rw [if_neg h2] at h ⊢
  by_cases h4 : entry.entryType = MRT_TYPE_BGP4MP ∨ entry.entryType = MRT_TYPE_BGP4MP_ET
  · rw [if_pos h4] at h ⊢
    by_cases h3 : entry.entryLength ≥ 2147483648
    · rw [if_pos h3] at h; simp at h
    rw [if_neg h3] at h ⊢
    left
    cases hc : process_classic_message (cfr_read_n dump.f entry.entryLength).1 entry
        entry.entryLength with
    | none => simp [hc] at h
    | some e1 =>
      simp [hc] at h
      subst h
      exact ⟨h4, rfl, by simp [hc]⟩
  rw [if_neg h4] at h ⊢
  by_cases h5 : entry.entryType = MRT_TYPE_TABLE_DUMP_V2
  · rw [if_pos h5] at h ⊢
    by_cases h3 : entry.entryLength ≥ 2147483648
    · rw [if_pos h3] at h; simp at h
    rw [if_neg h3] at h ⊢
    right; left
    cases hc : (process_bgp_rib (cfr_read_n dump.f entry.entryLength).1
        { dump with parsed := dump.parsed + 1, f := (cfr_read_n dump.f entry.entryLength).2 }
        entry entry.entryLength).1 with
    | none => simp [hc] at h
    | some r =>
      obtain ⟨e1, chain⟩ := r
      simp [hc] at h
      subst h
      exact ⟨h5, chain, rfl, by simp [hc]⟩
  · rw [if_neg h5] at h ⊢
    right; right
    simp at h
    subst h
    exact ⟨h4, h5, rfl, rfl⟩

theorem read_record_body_time_ms (dump : File_buf_t) (entry e : MRTentry)
    (h : (read_record_body dump entry).1 = some e) :
    e.time_ms = entry.time_ms ∧
      ∀ e1 chain, (read_record_body dump entry).2.actEntry = some (e1, chain) →
        ∀ r ∈ chain, r.time_ms = entry.time_ms := by
  rcases read_record_body_some dump entry e h with
    ⟨_, hc, ha⟩ | ⟨_, chain, hr, ha⟩ | ⟨_, _, he, ha⟩
  · refine ⟨process_classic_message_time_ms _ _ _ _ hc, ?_⟩
    intro e1 chain hact r hr
    rw [ha] at hact
    cases hact
    simp at hr
  rotate_left
  · refine ⟨by rw [he], ?_⟩
    intro e1 chain hact r hr
    rw [ha] at hact
    cases hact
    simp at hr
  · have key : e.time_ms = entry.time_ms ∧ ∀ r ∈ chain, r.time_ms = entry.time_ms := by
      unfold process_bgp_rib at hr
      simp only at hr
      split_ifs at hr
      · cases hr
        exact ⟨rfl, by simp⟩
      · exact process_bgp_rib_entry_time_ms _ _ _ _ _ _ hr
    refine ⟨key.1, ?_⟩
    intro e1 chain1 hact r hr1
    rw [ha] at hact
    cases hact
    exact key.2 r hr1

/-- **C23.** A BGP4MP record (type 16) and the same record framed as
BGP4MP_ET (type 17, a microsecond field `ms` after the 12-byte header, the
length field larger by 4), read from the same file buffer state with no record
pending: `Read_next_mrt_entry` has the same outcome on both, and leaves the
same file buffer, except that the record returned for the second one (if any)
has `entryType` 17 and `time_ms = ms`.  And for every header whose type is not
BGP4MP_ET, the record returned, and every record linked after it, has
`time_ms = 0`. -/
theorem et_reframing (dump : File_buf_t) (time entrySubType ms : Nat) (body rest : List Nat)
    (hp : no_pending dump) (htime : time < 4294967296) (hsub : entrySubType < 65536)
    (hms : ms < 4294967296) (hlen : body.length + 4 < 4294967296) :
    Read_next_mrt_entry
        { dump with f := mrt_record time MRT_TYPE_BGP4MP_ET entrySubType ms body ++ rest }
      = retag_result MRT_TYPE_BGP4MP_ET ms
          (Read_next_mrt_entry
            { dump with f := mrt_record time MRT_TYPE_BGP4MP entrySubType 0 body ++ rest }) ∧
    (∀ entryType len tail e, entryType < 65536 → entryType ≠ MRT_TYPE_BGP4MP_ET →
      len + 4 < 4294967296 →
      (Read_next_mrt_entry
        { dump with f := mrt_header time entryType entrySubType 0 len ++ tail }).1 = some e →
      e.time_ms = 0 ∧
      ∀ e1 chain,
        (Read_next_mrt_entry
          { dump with f := mrt_header time entryType entrySubType 0 len ++ tail }).2.actEntry
          = some (e1, chain) → ∀ r ∈ chain, r.time_ms = 0) := by
  constructor
  · rw [Read_next_header
        { dump with f := mrt_record time MRT_TYPE_BGP4MP_ET entrySubType ms body ++ rest }
        time MRT_TYPE_BGP4MP_ET entrySubType ms body.length (body ++ rest) hp
        htime (by decide) hsub hms hlen (by simp only [mrt_record, List.append_assoc]),
      Read_next_header { dump with f := mrt_record time MRT_TYPE_BGP4MP entrySubType 0 body ++ rest }
        time MRT_TYPE_BGP4MP entrySubType 0 body.length (body ++ rest) hp
        htime (by decide) hsub (by decide) hlen (by simp only [mrt_record, List.append_assoc]),
      record_entry_retag]
    exact read_record_body_retag ms _ _ rfl
  · intro entryType len tail e htype hne hlen1 h
    rw [Read_next_header { dump with f := mrt_header time entryType entrySubType 0 len ++ tail }
        time entryType entrySubType 0 len tail hp htime htype hsub (by decide) hlen1 rfl] at h ⊢
    have hk := read_record_body_time_ms _ _ e h
    have h0 : (record_entry time entryType entrySubType 0 len).time_ms = 0 := by
      simp [record_entry]
    rw [h0] at hk
    exact hk

/-- C23 at scenario F: the record read from the BGP4MP_ET framing with the
microsecond field 1000000 is the record read from the BGP4MP framing, with
type 17 and `time_ms` 1000000. -/
theorem et_reframing_witness :
    Read_next_mrt_entry
        { File_buf_create [] with f := mrt_record 1 MRT_TYPE_BGP4MP_ET 5 1000000 scenario_f_body ++ [] }
      = retag_result MRT_TYPE_BGP4MP_ET 1000000
          (Read_next_mrt_entry
            { File_buf_create [] with f := mrt_record 1 MRT_TYPE_BGP4MP 5 0 scenario_f_body ++ [] }) :=
  (et_reframing (File_buf_create []) 1 5 1000000 scenario_f_body [] (by intro e l h; cases h)
    (by decide) (by decide) (by decide) (by decide)).1

/-- C26 at the chain of scenario D: the call after the head returns the
sibling and leaves an empty chain. -/
theorem sibling_chain_replay_witness :
    ∃ r, [scenario_d_sibling][0]? = some r ∧
      Read_next_mrt_entry (read_records 0 chain_dump)
        = (some r, { chain_dump with actEntry := some (r, [scenario_d_sibling].drop (0 + 1)) }) :=
  (sibling_chain_replay chain_dump scenario_d_parent [scenario_d_sibling] rfl).1 0 (by decide)

/-! ## Every attribute consumes its declared length -/

theorem write_as_path_actOff (st : AttrState) (size : Nat) (s : List Char) :
    (write_as_path st size s).actOff = st.actOff := rfl

theorem write_as_path_all (st : AttrState) (size : Nat) (s : List Char) :
    (write_as_path st size s).actAllAttrLen = st.actAllAttrLen := rfl

theorem read_asn_adv (buffer : List Nat) (sub allAttrLen actOff p asn actOff1 p1 : Nat)
    (h : read_asn buffer sub allAttrLen actOff p = some (asn, actOff1, p1)) :
    actOff1 + p = actOff + p1 ∧ actOff1 ≤ allAttrLen ∧ actOff < actOff1 := by
  unfold read_asn at h
  split_ifs at h <;> cases h <;> omega

theorem as_path_seq_adv (buffer : List Nat) (allAttrLen attrLen : Nat) :
    ∀ (n p : Nat) (st : AttrState) (r : Nat × AttrState),
      as_path_seq buffer allAttrLen attrLen n p st = Flow.next r → st.actOff ≤ allAttrLen →
      r.2.actAllAttrLen = st.actAllAttrLen ∧ r.2.actOff + p = st.actOff + r.1 ∧
        r.2.actOff ≤ allAttrLen := by
  intro n
  induction n with
  | zero =>
    intro p st r h hle
    rw [as_path_seq] at h
    cases h
    exact ⟨rfl, rfl, hle⟩
  | succ n ih =>
    intro p st r h hle
    rw [as_path_seq] at h
    split at h
    · cases h
    · rename_i asn actOff p1 hr
      have ha := read_asn_adv _ _ _ _ _ _ _ _ hr
      dsimp only at h
      split_ifs at h
      have hi := ih _ _ _ h (by rw [write_as_path_actOff]; exact ha.2.1)
      rw [write_as_path_actOff, write_as_path_all] at hi
      dsimp only at hi
      exact ⟨hi.1, by omega, hi.2.2⟩

theorem as_path_set_adv (buffer : List Nat) (allAttrLen segLen : Nat) :
    ∀ (n i p : Nat) (st : AttrState) (r : Nat × AttrState),
      as_path_set buffer allAttrLen segLen n i p st = Flow.next r → st.actOff ≤ allAttrLen →
      r.2.actAllAttrLen = st.actAllAttrLen ∧ r.2.actOff + p = st.actOff + r.1 ∧
        r.2.actOff ≤ allAttrLen := by
  intro n
  induction n with
  | zero =>
    intro i p st r h hle
    rw [as_path_set] at h
    cases h
    exact ⟨rfl, rfl, hle⟩
  | succ n ih =>
    intro i p st r h hle
    rw [as_path_set] at h
    split at h
    · cases h
    · rename_i asn actOff p1 hr
      have ha := read_asn_adv _ _ _ _ _ _ _ _ hr
      dsimp only at h
      split_ifs at h
      all_goals
        (have hi := ih _ _ _ _ h (by simp only [write_as_path_actOff]; exact ha.2.1)
         simp only [write_as_path_actOff, write_as_path_all] at hi
         exact ⟨hi.1, by omega, hi.2.2⟩)

theorem as_path_loop_adv (buffer : List Nat) (allAttrLen attrLen : Nat) :
    ∀ (fuel p : Nat) (st st1 : AttrState),
      as_path_loop buffer allAttrLen attrLen fuel p st = Flow.next st1 → st.actOff ≤ allAttrLen →
      st1.actAllAttrLen = st.actAllAttrLen ∧ st.actOff + attrLen ≤ st1.actOff + p ∧
        st1.actOff ≤ allAttrLen := by
  intro fuel
  induction fuel with
  | zero =>
    intro p st st1 h hle
    rw [as_path_loop] at h
    split_ifs at h
    cases h
    exact ⟨rfl, by omega, hle⟩
  | succ fuel ih =>
    intro p st st1 h hle
    rw [as_path_loop] at h
    dsimp only at h
    split_ifs at h
    · split at h
      · cases h
      · rename_i p1 st2 hseq
        have hs := as_path_seq_adv _ _ _ _ _ _ _ hseq (by dsimp only; omega)
        dsimp only at hs
        have hi := ih _ _ _ h hs.2.2
        exact ⟨hi.1.trans hs.1, by omega, hi.2.2⟩
    · split at h
      · cases h
      · rename_i p1 st2 hset
        have hs := as_path_set_adv _ _ _ _ _ _ _ _ hset
          (by simp only [write_as_path_actOff]; omega)
        simp only [write_as_path_actOff, write_as_path_all] at hs
        split_ifs at h
        have hi := ih _ _ _ h (by simp only [write_as_path_actOff]; exact hs.2.2)
        simp only [write_as_path_actOff, write_as_path_all] at hi
        exact ⟨hi.1.trans hs.1, by omega, hi.2.2⟩
    · have hi := ih _ _ _ h (by dsimp only; omega)
      dsimp only at hi
      exact ⟨hi.1, by omega, hi.2.2⟩
    · cases h
      exact ⟨rfl, by omega, hle⟩

theorem communities_loop_adv (buffer : List Nat) (allAttrLen attrLen : Nat) :
    ∀ (fuel p : Nat) (st st1 : AttrState),
      communities_loop buffer allAttrLen attrLen fuel p st = Flow.next st1 →
      st.actOff ≤ allAttrLen →
      st1.actAllAttrLen = st.actAllAttrLen ∧ st.actOff + attrLen ≤ st1.actOff + p ∧
        st1.actOff ≤ allAttrLen ∧ ∃ k, st1.actOff = st.actOff + 4 * k := by
  intro fuel
  induction fuel with
  | zero =>
    intro p st st1 h hle
    rw [communities_loop] at h
    split_ifs at h
    cases h
    exact ⟨rfl, by omega, hle, 0, rfl⟩
  | succ fuel ih =>
    intro p st st1 h hle
    rw [communities_loop] at h
    dsimp only at h
    split_ifs at h
    · have hi := ih _ _ _ h (by dsimp only; omega)
      dsimp only at hi
      obtain ⟨h1, h2, h3, k, hk⟩ := hi
      exact ⟨h1, by omega, h3, k + 1, by omega⟩
    · cases h
      exact ⟨rfl, by omega, hle, 0, rfl⟩

theorem mp_reach_loop_adv (buffer : List Nat) (allAttrLen attrLen : Nat) :
    ∀ (fuel p : Nat) (st st1 : AttrState),
      mp_reach_loop buffer allAttrLen attrLen fuel p st = Flow.next st1 →
      st.actOff ≤ allAttrLen →
      st1.actAllAttrLen = st.actAllAttrLen ∧ st.actOff + attrLen ≤ st1.actOff + p ∧
        st1.actOff ≤ allAttrLen := by
  intro fuel
  induction fuel with
  | zero =>
    intro p st st1 h hle
    rw [mp_reach_loop] at h
    split_ifs at h
    cases h
    exact ⟨rfl, by omega, hle⟩
  | succ fuel ih =>
    intro p st st1 h hle
    rw [mp_reach_loop] at h
    split_ifs at h
    · split at h
      · cases h
      · split_ifs at h
        have hi := ih _ _ _ h (by dsimp only; omega)
        dsimp only at hi
        exact ⟨hi.1, by omega, hi.2.2⟩
    · cases h
      exact ⟨rfl, by omega, hle⟩

theorem mp_unreach_loop_adv (buffer : List Nat) (allAttrLen attrLen : Nat) :
    ∀ (fuel p : Nat) (st st1 : AttrState),
      mp_unreach_loop buffer allAttrLen attrLen fuel p st = Flow.next st1 →
      st.actOff ≤ allAttrLen →
      st1.actAllAttrLen = st.actAllAttrLen ∧ st.actOff + attrLen ≤ st1.actOff + p ∧
        st1.actOff ≤ allAttrLen := by
  intro fuel
  induction fuel with
  | zero =>
    intro p st st1 h hle
    rw [mp_unreach_loop] at h
    split_ifs at h
    cases h
    exact ⟨rfl, by omega, hle⟩
  | succ fuel ih =>
    intro p st st1 h hle
    rw [mp_unreach_loop] at h
    split_ifs at h
    · split at h
      · cases h
      · split_ifs at h
        have hi := ih _ _ _ h (by dsimp only; omega)
        dsimp only at hi
        exact ⟨hi.1, by omega, hi.2.2⟩
    · cases h
      exact ⟨rfl, by omega, hle⟩

theorem mp_reach_tail_adv (buffer : List Nat) (allAttrLen attrLen : Nat) (c : Bool)
    (actOff1 : Nat) (st st1 : AttrState)
    (h : mp_reach_tail buffer allAttrLen attrLen c actOff1 st = Flow.next st1) :
    st1.actAllAttrLen = st.actAllAttrLen ∧ st1.actOff ≤ allAttrLen ∧
      (c = true → actOff1 + attrLen ≤ st1.actOff) ∧
      (c = false → actOff1 + attrLen ≤ st1.actOff + 3) := by
  unfold mp_reach_tail at h
  simp only [inet_ntop] at h
  split_ifs at h with h1 h2 h3 h4
  · have hi := mp_reach_loop_adv _ _ _ _ _ _ _ h (by dsimp only; omega)
    dsimp only at hi
    exact ⟨hi.1, hi.2.2, fun _ => by omega, fun hc => by rw [h3] at hc; cases hc⟩
  · have hi := mp_reach_loop_adv _ _ _ _ _ _ _ h (by dsimp only; omega)
    dsimp only at hi
    exact ⟨hi.1, hi.2.2, fun hc => absurd hc h3, fun _ => by omega⟩

theorem attr_switch_adv (buffer : List Nat) (allAttrLen attrType attrLen : Nat)
    (st st1 : AttrState)
    (h : attr_switch buffer allAttrLen attrType attrLen st = Flow.next st1)
    (hle : st.actOff ≤ allAttrLen) :
    advanced allAttrLen attrLen st st1 := by
  unfold attr_switch attr_origin attr_next_hop attr_mp_reach attr_mp_unreach at h
  simp only [inet_ntop] at h
  unfold advanced
  split_ifs at h
  all_goals first
    | (cases h; exact ⟨rfl, by dsimp only; omega, by dsimp only; omega⟩)
    | (have hi := as_path_loop_adv _ _ _ _ _ _ _ h hle
       exact ⟨hi.1, by omega, hi.2.2⟩)
    | (have hi := communities_loop_adv _ _ _ _ _ _ _ h hle
       exact ⟨hi.1, by omega, hi.2.2.1⟩)
    | (have hi := mp_reach_tail_adv _ _ _ _ _ _ _ h
       exact ⟨hi.1, hi.2.2.1 rfl, hi.2.1⟩)
    | (have hi := mp_reach_tail_adv _ _ _ _ _ _ _ h
       have h3 := hi.2.2.2 rfl
       exact ⟨hi.1, by omega, hi.2.1⟩)
    | (have hi := mp_unreach_loop_adv _ _ _ _ _ _ _ h (by dsimp only; omega)
       dsimp only at hi
       exact ⟨hi.1, by omega, hi.2.2⟩)

theorem attr_switch_communities (buffer : List Nat) (allAttrLen attrLen : Nat) (st : AttrState) :
    attr_switch buffer allAttrLen 8 attrLen st
      = communities_loop buffer allAttrLen attrLen attrLen 0 st := by
  unfold attr_switch
  simp only [BGP_UPDATE_ATTR_ORIGIN, BGP_UPDATE_ATTR_AS_PATH, BGP_UPDATE_NLRI_COMMUNITIES]
  rw [if_neg (by decide), if_neg (by decide), if_pos trivial]

theorem attr_body_adv (buffer : List Nat) (allAttrLen : Nat) (st st1 : AttrState)
    (h : attr_body buffer allAttrLen st = Flow.next st1)
    (hall : allAttrLen < 65536) (hinv : st.actAllAttrLen ≤ st.actOff) :
    st1.actAllAttrLen
        = st.actAllAttrLen + attr_header_at buffer st.actOff + attr_len_at buffer st.actOff ∧
      st.actOff + attr_header_at buffer st.actOff + attr_len_at buffer st.actOff ≤ st1.actOff ∧
      st1.actOff ≤ allAttrLen ∧
      (attr_type_at buffer st.actOff = 8 →
        ∃ k, st1.actOff = st.actOff + attr_header_at buffer st.actOff + 4 * k) := by
  unfold attr_body at h
  dsimp only at h
  unfold attr_value at h
  unfold attr_header_at attr_len_at attr_type_at
  split_ifs at h with h1 h2 h3 h4 h5 h6 h7
  · split at h
    · cases h
    · rename_i s2 hsw
      cases h
      have ha := attr_switch_adv _ _ _ _ _ _ hsw (by dsimp only; omega)
      unfold advanced at ha
      dsimp only at ha ⊢
      rw [if_pos h3, if_pos h3]
      refine ⟨by omega, by omega, ha.2.2, ?_⟩
      intro h8
      rw [h8, attr_switch_communities] at hsw
      obtain ⟨_, _, _, k, hk⟩ := communities_loop_adv _ _ _ _ _ _ _ hsw (by dsimp only; omega)
      exact ⟨k, by dsimp only at hk; omega⟩
  · split at h
    · cases h
    · rename_i s2 hsw
      cases h
      have ha := attr_switch_adv _ _ _ _ _ _ hsw (by dsimp only; omega)
      unfold advanced at ha
      dsimp only at ha ⊢
      rw [if_neg h3, if_neg h3]
      refine ⟨by omega, by omega, ha.2.2, ?_⟩
      intro h8
      rw [h8, attr_switch_communities] at hsw
      obtain ⟨_, _, _, k, hk⟩ := communities_loop_adv _ _ _ _ _ _ _ hsw (by dsimp only; omega)
      exact ⟨k, by dsimp only at hk; omega⟩

theorem attr_loop_exact (buffer : List Nat) (allAttrLen : Nat) (hall : allAttrLen < 65536) :
    ∀ (fuel : Nat) (st stf : AttrState),
      attr_loop buffer allAttrLen fuel st = Flow.next stf →
      st.actAllAttrLen ≤ st.actOff → st.actOff ≤ allAttrLen →
      st.actOff = st.actAllAttrLen ∧ stf.actOff = allAttrLen ∧
        ∀ s ∈ attr_steps buffer allAttrLen fuel st, step_exact buffer s := by
  intro fuel
  induction fuel with
  | zero =>
    intro st stf h hinv hle
    rw [attr_loop] at h
    split_ifs at h
    cases h
    exact ⟨by omega, by omega, by simp [attr_steps]⟩
  | succ fuel ih =>
    intro st stf h hinv hle
    rw [attr_loop] at h
    rw [attr_steps]
    split_ifs at h with hlt
    · rw [if_pos hlt]
      split at h
      · cases h
      · rename_i st1 hb
        try rw [hb]
        have ha := attr_body_adv _ _ _ _ hb hall hinv
        have hi := ih _ _ h (by omega) ha.2.2.1
        refine ⟨by omega, hi.2.1, ?_⟩
        intro s hs
        rcases List.mem_cons.mp hs with hs | hs
        · subst hs
          refine ⟨by dsimp only; omega, by dsimp only; omega, ?_⟩
          intro h8
          obtain ⟨k, hk⟩ := ha.2.2.2 h8
          dsimp only
          omega
        · exact hi.2.2 s hs
    · cases h
      rw [if_neg hlt]
      exact ⟨by omega, by omega, by simp⟩

/-- **C30.** When `process_bgp_attributes` succeeds on a block of
`allAttrLen` bytes (`0 < allAttrLen < 65536`, the range of the callers'
`uint16_t`), at least one attribute was decoded and every attribute decoded
consumed exactly its header plus its declared length; in particular every
COMMUNITIES attribute of the block has a length that is a multiple of 4.  So a
block with an attribute whose value is decoded past (or short of) its declared
length is rejected. -/
theorem attribute_accounting (buffer : List Nat) (entry : MRTentry) (allAttrLen : Nat)
    (hall : allAttrLen < 65536) (hpos : 0 < allAttrLen)
    (h : (process_bgp_attributes buffer entry allAttrLen).1 = (allAttrLen : Int)) :
    attr_steps buffer allAttrLen allAttrLen
        { actOff := 0, actAllAttrLen := 0, aspActStrLen := 0, comActStrlen := 0, entry := entry }
      ≠ [] ∧
    ∀ s ∈ attr_steps buffer allAttrLen allAttrLen
        { actOff := 0, actAllAttrLen := 0, aspActStrLen := 0, comActStrlen := 0, entry := entry },
      step_exact buffer s := by
  obtain ⟨stf, hl, _, _⟩ := attributes_success buffer entry allAttrLen h
  refine ⟨?_, (attr_loop_exact buffer allAttrLen hall _ _ _ hl (Nat.le_refl _)
    (Nat.zero_le _)).2.2⟩
  obtain ⟨n, hn⟩ : ∃ n, allAttrLen = n + 1 := ⟨allAttrLen - 1, by omega⟩
  rw [hn] at hl ⊢
  rw [attr_loop] at hl
  rw [attr_steps]
  rw [if_pos (by dsimp only; omega)] at hl ⊢
  split at hl
  · cases hl
  · rename_i st1 hb
    try rw [hb]
    exact List.cons_ne_nil _ _

/-- C30 at the attribute block of scenario B (ORIGIN, AS_PATH, NEXT_HOP; 24
bytes). -/
theorem attribute_accounting_witness :
    attr_steps scenario_b_attributes 24 24
        { actOff := 0, actAllAttrLen := 0, aspActStrLen := 0, comActStrlen := 0,
          entry := MRTentry_new }
      ≠ [] ∧
    ∀ s ∈ attr_steps scenario_b_attributes 24 24
        { actOff := 0, actAllAttrLen := 0, aspActStrLen := 0, comActStrlen := 0,
          entry := MRTentry_new },
      step_exact scenario_b_attributes s :=
  attribute_accounting scenario_b_attributes MRTentry_new 24 (by decide) (by decide) (by decide)

/-! ## The value returned by `process_bgp_attributes` -/

theorem as_path_seq_mono (buffer : List Nat) (allAttrLen attrLen : Nat) :
    ∀ (n p : Nat) (st : AttrState) (r : Nat × AttrState),
      as_path_seq buffer allAttrLen attrLen n p st = Flow.next r → p ≤ r.1 := by
  intro n
  induction n with
  | zero =>
    intro p st r h
    rw [as_path_seq] at h
    cases h
    exact Nat.le_refl _
  | succ n ih =>
    intro p st r h
    rw [as_path_seq] at h
    split at h
    · cases h
    · rename_i asn actOff p1 hr
      have ha := read_asn_adv _ _ _ _ _ _ _ _ hr
      dsimp only at h
      split_ifs at h
      have hi := ih _ _ _ h
      omega

theorem as_path_set_mono (buffer : List Nat) (allAttrLen segLen : Nat) :
    ∀ (n i p : Nat) (st : AttrState) (r : Nat × AttrState),
      as_path_set buffer allAttrLen segLen n i p st = Flow.next r → p ≤ r.1 := by
  intro n
  induction n with
  | zero =>
    intro i p st r h
    rw [as_path_set] at h
    cases h
    exact Nat.le_refl _
  | succ n ih =>
    intro i p st r h
    rw [as_path_set] at h
    split at h
    · cases h
    · rename_i asn actOff p1 hr
      have ha := read_asn_adv _ _ _ _ _ _ _ _ hr
      dsimp only at h
      split_ifs at h
      all_goals
        (have hi := ih _ _ _ _ h
         omega)

theorem as_path_loop_fuel (buffer : List Nat) (allAttrLen attrLen : Nat) :
    ∀ (fuel k p : Nat) (st : AttrState), attrLen ≤ p + 2 * fuel →
      as_path_loop buffer allAttrLen attrLen (fuel + k) p st
        = as_path_loop buffer allAttrLen attrLen fuel p st := by
  intro fuel
  induction fuel with
  | zero =>
    intro k p st hm
    cases k with
    | zero => rfl
    | succ k =>
      rw [Nat.zero_add, as_path_loop, as_path_loop, if_neg (by omega), if_neg (by omega)]
  | succ fuel ih =>
    intro k p st hm
    rw [Nat.add_right_comm, as_path_loop, as_path_loop]
    dsimp only
    split_ifs
    all_goals first
      | rfl
      | exact ih _ _ _ (by omega)
      | (cases hs : as_path_seq buffer allAttrLen attrLen
            (get_buf_char (buffer.drop (st.actOff + 1))) (p + 2)
            { st with actOff := st.actOff + 1 + 1 } with
         | ret c e => rfl
         | next r =>
           have hmono := as_path_seq_mono _ _ _ _ _ _ _ hs
           exact ih _ _ _ (by omega))
      | (split
         · rfl
         · rename_i p1 st2 hs
           have hmono := as_path_set_mono _ _ _ _ _ _ _ _ hs
           try dsimp only
           split_ifs
           · rfl
           · exact ih _ _ _ (by omega))

theorem communities_loop_fuel (buffer : List Nat) (allAttrLen attrLen : Nat) :
    ∀ (fuel k p : Nat) (st : AttrState), attrLen ≤ p + 4 * fuel →
      communities_loop buffer allAttrLen attrLen (fuel + k) p st
        = communities_loop buffer allAttrLen attrLen fuel p st := by
  intro fuel
  induction fuel with
  | zero =>
    intro k p st hm
    cases k with
    | zero => rfl
    | succ k =>
      rw [Nat.zero_add, communities_loop, communities_loop, if_neg (by omega), if_neg (by omega)]
  | succ fuel ih =>
    intro k p st hm
    rw [Nat.add_right_comm, communities_loop, communities_loop]
    dsimp only
    split_ifs
    all_goals first
      | rfl
      | exact ih _ _ _ (by omega)

theorem mp_reach_loop_fuel (buffer : List Nat) (allAttrLen attrLen : Nat) :
    ∀ (fuel k p : Nat) (st : AttrState), attrLen ≤ p + fuel →
      mp_reach_loop buffer allAttrLen attrLen (fuel + k) p st
        = mp_reach_loop buffer allAttrLen attrLen fuel p st := by
  intro fuel
  induction fuel with
  | zero =>
    intro k p st hm
    cases k with
    | zero => rfl
    | succ k =>
      rw [Nat.zero_add, mp_reach_loop, mp_reach_loop, if_neg (by omega), if_neg (by omega)]
  | succ fuel ih =>
    intro k p st hm
    rw [Nat.add_right_comm, mp_reach_loop, mp_reach_loop]
    split_ifs
    · cases hp : process_prefix (buffer.drop st.actOff) AddrFamily.AF_INET6 with
      | none => rfl
      | some r =>
        obtain ⟨text, ret⟩ := r
        have hr := process_prefix_ret _ _ _ _ hp
        dsimp only
        split_ifs
        · rfl
        · exact ih _ _ _ (by omega)
    · rfl

theorem mp_unreach_loop_fuel (buffer : List Nat) (allAttrLen attrLen : Nat) :
    ∀ (fuel k p : Nat) (st : AttrState), attrLen ≤ p + fuel →
      mp_unreach_loop buffer allAttrLen attrLen (fuel + k) p st
        = mp_unreach_loop buffer allAttrLen attrLen fuel p st := by
  intro fuel
  induction fuel with
  | zero =>
    intro k p st hm
    cases k with
    | zero => rfl
    | succ k =>
      rw [Nat.zero_add, mp_unreach_loop, mp_unreach_loop, if_neg (by omega), if_neg (by omega)]
  | succ fuel ih =>
    intro k p st hm
    rw [Nat.add_right_comm, mp_unreach_loop, mp_unreach_loop]
    split_ifs
    · cases hp : process_prefix (buffer.drop st.actOff) AddrFamily.AF_INET6 with
      | none => rfl
      | some r =>
        obtain ⟨text, ret⟩ := r
        have hr := process_prefix_ret _ _ _ _ hp
        dsimp only
        split_ifs
        · rfl
        · exact ih _ _ _ (by omega)
    · rfl

theorem attr_body_progress (buffer : List Nat) (allAttrLen : Nat) (st st1 : AttrState)
    (h : attr_body buffer allAttrLen st = Flow.next st1) :
    st.actOff + 3 ≤ st1.actOff ∧ st1.actOff ≤ allAttrLen := by
  unfold attr_body at h
  dsimp only at h
  unfold attr_value at h
  split_ifs at h
  all_goals
    (split at h
     · cases h
     · rename_i s2 hsw
       cases h
       have ha := attr_switch_adv _ _ _ _ _ _ hsw (by dsimp only; omega)
       unfold advanced at ha
       dsimp only at ha ⊢
       omega)

theorem attr_body_at_end (buffer : List Nat) (allAttrLen : Nat) (st : AttrState)
    (h : allAttrLen ≤ st.actOff) : attr_body buffer allAttrLen st = Flow.ret 0 st.entry := by
  unfold attr_body
  dsimp only
  rw [if_pos (by omega)]

theorem attr_loop_fuel (buffer : List Nat) (allAttrLen : Nat) :
    ∀ (fuel k : Nat) (st : AttrState), st.actOff ≤ allAttrLen →
      allAttrLen ≤ st.actOff + 3 * fuel →
      attr_loop buffer allAttrLen (fuel + k) st = attr_loop buffer allAttrLen fuel st := by
  intro fuel
  induction fuel with
  | zero =>
    intro k st hle hm
    cases k with
    | zero => rfl
    | succ k =>
      rw [Nat.zero_add, attr_loop, attr_loop, attr_body_at_end _ _ _ (by omega)]
  | succ fuel ih =>
    intro k st hle hm
    rw [Nat.add_right_comm, attr_loop, attr_loop]
    split_ifs
    · cases hb : attr_body buffer allAttrLen st with
      | ret c e => rfl
      | next st1 =>
        have hp := attr_body_progress _ _ _ _ hb
        exact ih k st1 hp.2 (by omega)
    · rfl

/-- **C1.** For every buffer, record and block length `allAttrLen` below
65536, `process_bgp_attributes` returns 0, -1 or exactly `allAttrLen`.  The
result does not depend on the bound put on the number of iterations of the
attribute loop: with any larger bound the loop gives the same outcome. -/
theorem attributes_return (buffer : List Nat) (entry : MRTentry) (allAttrLen : Nat)
    (hall : allAttrLen < 65536) :
    ((process_bgp_attributes buffer entry allAttrLen).1 = 0 ∨
      (process_bgp_attributes buffer entry allAttrLen).1 = -1 ∨
      (process_bgp_attributes buffer entry allAttrLen).1 = (allAttrLen : Int)) ∧
    ∀ k, attr_loop buffer allAttrLen (allAttrLen + k)
          { actOff := 0, actAllAttrLen := 0, aspActStrLen := 0, comActStrlen := 0, entry := entry }
      = attr_loop buffer allAttrLen allAttrLen
          { actOff := 0, actAllAttrLen := 0, aspActStrLen := 0, comActStrlen := 0,
            entry := entry } := by
  constructor
  · unfold process_bgp_attributes
    cases hl : attr_loop buffer allAttrLen allAttrLen
        { actOff := 0, actAllAttrLen := 0, aspActStrLen := 0, comActStrlen := 0,
          entry := entry } with
    | ret c e =>
      rcases attr_loop_code _ _ _ _ _ _ hl with hc | hc
      · exact Or.inl hc
      · exact Or.inr (Or.inl hc)
    | next stf =>
      have he := attr_loop_exact buffer allAttrLen hall _ _ _ hl (Nat.le_refl _) (Nat.zero_le _)
      right; right
      show ((stf.actOff : Nat) : Int) = _
      rw [he.2.1]
  · intro k
    exact attr_loop_fuel buffer allAttrLen allAttrLen k _ (Nat.zero_le _) (by dsimp only; omega)

/-- C1 at the attribute block of scenario B. -/
theorem attributes_return_witness :
    (process_bgp_attributes scenario_b_attributes MRTentry_new 24).1 = 0 ∨
    (process_bgp_attributes scenario_b_attributes MRTentry_new 24).1 = -1 ∨
    (process_bgp_attributes scenario_b_attributes MRTentry_new 24).1 = ((24 : Nat) : Int) :=
  (attributes_return scenario_b_attributes MRTentry_new 24 (by decide)).1

/-! ## The prefix lists of an UPDATE and the cap of 2048 -/

theorem prefix_ok_mono (m n : Nat) (p : Nat × List Nat) (h : prefix_ok m p) (hmn : m ≤ n) :
    prefix_ok n p :=
  ⟨Nat.le_trans h.1 hmn, h.2⟩

theorem encode_prefixes_replicate (p : Nat × List Nat) (n : Nat) :
    (encode_prefixes (List.replicate n p)).length = n * (1 + p.2.length) := by
  induction n with
  | zero => simp [encode_prefixes]
  | succ n ih =>
    rw [List.replicate_succ, encode_prefixes, List.length_append, ih, encode_pfx_length]
    ring

theorem withdraw_loop_stuck (buffer : List Nat) (max_len withdrawLen actWithLen : Nat)
    (entry : MRTentry) (hc : entry.pfxWithdraw.length ≥ MAX_NB_PREFIXES)
    (hw : actWithLen < withdrawLen) :
    ∀ (fuel actOff : Nat),
      withdraw_loop buffer max_len withdrawLen fuel actOff actWithLen entry = none := by
  intro fuel
  induction fuel with
  | zero =>
    intro actOff
    rw [withdraw_loop, if_pos hw]
  | succ fuel ih =>
    intro actOff
    rw [withdraw_loop, if_pos hw, if_pos hc]
    dsimp only
    split_ifs
    · rfl
    · rfl
    · exact ih _

theorem withdraw_loop_spec (buffer : List Nat) (max_len withdrawLen : Nat)
    (hwl : withdrawLen < 65536) :
    ∀ (ps : List (Nat × List Nat)) (fuel actOff actWithLen : Nat) (entry : MRTentry)
      (rest : List Nat),
      (∀ q ∈ ps, prefix_ok 128 q) →
      buffer.drop actOff = encode_prefixes ps ++ rest →
      withdrawLen = actWithLen + (encode_prefixes ps).length →
      actOff + (encode_prefixes ps).length ≤ max_len →
      entry.pfxWithdraw.length + ps.length ≤ MAX_NB_PREFIXES →
      ps.length ≤ fuel →
      withdraw_loop buffer max_len withdrawLen fuel actOff actWithLen entry
        = some (actOff + (encode_prefixes ps).length,
            { entry with
              pfxWithdraw := entry.pfxWithdraw ++ ps.map (prefix_text AddrFamily.AF_INET) }) := by
  intro ps
  induction ps with
  | nil =>
    intro fuel actOff actWithLen entry rest _ _ hlen _ _ _
    simp only [encode_prefixes, List.length_nil, Nat.add_zero] at hlen
    cases fuel with
    | zero =>
      rw [withdraw_loop, if_neg (by omega)]
      simp [encode_prefixes]
    | succ fuel =>
      rw [withdraw_loop, if_neg (by omega)]
      simp [encode_prefixes]
  | cons q ps ih =>
    intro fuel actOff actWithLen entry rest hok hdrop hlen hmax hcnt hfuel
    have hq := hok q (List.mem_cons_self _ _)
    have hql := encode_pfx_length q
    simp only [encode_prefixes, List.length_append] at hlen hmax
    simp only [List.length_cons] at hcnt hfuel
    rw [encode_prefixes, List.append_assoc] at hdrop
    cases fuel with
    | zero => omega
    | succ fuel =>
      rw [withdraw_loop, if_pos (by omega), if_neg (by omega), hdrop,
        process_prefix_spec _ q _ hq]
      simp only
      rw [if_neg (by omega), Nat.mod_eq_of_lt (by omega)]
      rw [ih fuel (actOff + (1 + q.2.length)) (actWithLen + (1 + q.2.length))
        { entry with
          pfxWithdraw := entry.pfxWithdraw ++ [prefix_text AddrFamily.AF_INET q] } rest
        (fun x hx => hok x (List.mem_cons_of_mem _ hx))
        (by rw [drop_add_eq, hdrop, ← hql, List.drop_left])
        (by omega) (by omega) (by simp only [List.length_append, List.length_singleton]; omega)
        (by omega)]
      simp only [encode_prefixes, List.length_append, List.map_cons, List.append_assoc,
        List.singleton_append, hql, Nat.add_assoc]

theorem withdraw_loop_over (buffer : List Nat) (max_len withdrawLen : Nat)
    (hwl : withdrawLen < 65536) :
    ∀ (ps : List (Nat × List Nat)) (fuel actOff actWithLen : Nat) (entry : MRTentry)
      (rest : List Nat),
      (∀ q ∈ ps, prefix_ok 128 q) →
      buffer.drop actOff = encode_prefixes ps ++ rest →
      withdrawLen = actWithLen + (encode_prefixes ps).length →
      entry.pfxWithdraw.length ≤ MAX_NB_PREFIXES →
      MAX_NB_PREFIXES < entry.pfxWithdraw.length + ps.length →
      withdraw_loop buffer max_len withdrawLen fuel actOff actWithLen entry = none := by
  intro ps
  induction ps with
  | nil =>
    intro fuel actOff actWithLen entry rest _ _ _ h1 h2
    simp only [List.length_nil] at h2
    omega
  | cons q ps ih =>
    intro fuel actOff actWithLen entry rest hok hdrop hlen hcnt hover
    have hq := hok q (List.mem_cons_self _ _)
    have hql := encode_pfx_length q
    simp only [encode_prefixes, List.length_append] at hlen
    simp only [List.length_cons] at hover
    rw [encode_prefixes, List.append_assoc] at hdrop
    by_cases hfull : entry.pfxWithdraw.length ≥ MAX_NB_PREFIXES
    · exact withdraw_loop_stuck _ _ _ _ _ hfull (by omega) _ _
    · cases fuel with
      | zero => rw [withdraw_loop, if_pos (by omega)]
      | succ fuel =>
        rw [withdraw_loop, if_pos (by omega), if_neg hfull, hdrop,
          process_prefix_spec _ q _ hq]
        simp only
        split_ifs
        · rfl
        · rw [Nat.mod_eq_of_lt (by omega)]
          exact ih fuel _ _ _ rest
            (fun x hx => hok x (List.mem_cons_of_mem _ hx))
            (by rw [drop_add_eq, hdrop, ← hql, List.drop_left])
            (by omega)
            (by simp only [List.length_append, List.length_singleton]; omega)
            (by simp only [List.length_append, List.length_singleton]; omega)

theorem nlri_loop_spec (buffer : List Nat) (max_len : Nat) :
    ∀ (ps : List (Nat × List Nat)) (fuel actOff : Nat) (entry : MRTentry),
      (∀ q ∈ ps, prefix_ok 128 q) →
      buffer.drop actOff = encode_prefixes ps →
      actOff + (encode_prefixes ps).length = max_len →
      ps.length ≤ fuel →
      nlri_loop buffer max_len fuel actOff entry
        = some { entry with
            pfxNLRI := entry.pfxNLRI ++
              (ps.take (MAX_NB_PREFIXES - entry.pfxNLRI.length)).map
                (prefix_text AddrFamily.AF_INET) } := by
  intro ps
  induction ps with
  | nil =>
    intro fuel actOff entry _ _ hlen _
    simp only [encode_prefixes, List.length_nil, Nat.add_zero] at hlen
    cases fuel with
    | zero =>
      rw [nlri_loop, if_neg (by omega)]
      simp
    | succ fuel =>
      rw [nlri_loop, if_neg (by omega)]
      simp
  | cons q ps ih =>
    intro fuel actOff entry hok hdrop hlen hfuel
    have hq := hok q (List.mem_cons_self _ _)
    have hql := encode_pfx_length q
    simp only [encode_prefixes, List.length_append] at hlen
    simp only [List.length_cons] at hfuel
    rw [encode_prefixes] at hdrop
    have hnext : buffer.drop (actOff + (1 + q.2.length)) = encode_prefixes ps := by
      rw [drop_add_eq, hdrop, ← hql, List.drop_left]
    cases fuel with
    | zero => omega
    | succ fuel =>
      rw [nlri_loop, if_pos (by omega)]
      by_cases hfull : entry.pfxNLRI.length ≥ MAX_NB_PREFIXES
      · rw [if_pos hfull]
        have hb : get_buf_char (buffer.drop actOff) = q.1 := by
          rw [hdrop, encode_pfx, List.cons_append, get_buf_char_cons]
          exact Nat.mod_eq_of_lt (by have := hq.1; omega)
        simp only [hb]
        have h2 := hq.2.1
        rw [if_neg (by have := hq.1; omega), if_neg (by omega)]
        have hnext2 : buffer.drop (actOff + ((q.1 + 7) / 8 + 1)) = encode_prefixes ps := by
          rw [← h2, Nat.add_comm q.2.length 1]; exact hnext
        rw [ih fuel _ entry (fun x hx => hok x (List.mem_cons_of_mem _ hx)) hnext2
          (by omega) (by omega)]
        have hz : MAX_NB_PREFIXES - entry.pfxNLRI.length = 0 := by omega
        rw [hz, List.take_zero, List.take_zero]
      · rw [if_neg hfull, hdrop, process_prefix_spec _ q _ hq]
        simp only
        rw [if_neg (by omega)]
        rw [ih fuel _ _ (fun x hx => hok x (List.mem_cons_of_mem _ hx)) hnext
          (by omega) (by omega)]
        have hs : MAX_NB_PREFIXES - entry.pfxNLRI.length
            = (MAX_NB_PREFIXES - (entry.pfxNLRI.length + 1)) + 1 := by omega
        simp only [List.length_append, List.length_singleton]
        rw [hs, List.take_succ_cons, List.map_cons]
        simp

theorem update_body_length (ws : List (Nat × List Nat)) (attrs : List Nat)
    (ns : List (Nat × List Nat)) :
    (update_body ws attrs ns).length
      = 2 + (encode_prefixes ws).length + 2 + attrs.length + (encode_prefixes ns).length := by
  simp only [update_body, enc16, List.length_append, List.length_cons, List.length_nil]
  omega

theorem update_body_drop (ws : List (Nat × List Nat)) (attrs : List Nat)
    (ns : List (Nat × List Nat)) :
    (update_body ws attrs ns).drop 2
      = encode_prefixes ws ++ (enc16 attrs.length ++ (attrs ++ encode_prefixes ns)) := by
  simp [update_body, enc16]

theorem update_body_spec (ws ns : List (Nat × List Nat)) (attrs : List Nat) (entry : MRTentry)
    (hws : ∀ p ∈ ws, prefix_ok 128 p)
    (hwn : entry.pfxWithdraw.length + ws.length ≤ MAX_NB_PREFIXES)
    (hwl : (encode_prefixes ws).length < 65536)
    (hns : ∀ p ∈ ns, prefix_ok 128 p)
    (hal : attrs.length < 65536)
    (hattr : (process_bgp_attributes (attrs ++ encode_prefixes ns)
        { entry with
          pfxWithdraw := entry.pfxWithdraw ++ ws.map (prefix_text AddrFamily.AF_INET) }
        attrs.length).1 = (attrs.length : Int)) :
    process_bgp_update (update_body ws attrs ns) entry (update_body ws attrs ns).length
      = some { (process_bgp_attributes (attrs ++ encode_prefixes ns)
          { entry with
            pfxWithdraw := entry.pfxWithdraw ++ ws.map (prefix_text AddrFamily.AF_INET) }
          attrs.length).2 with
          pfxNLRI := (process_bgp_attributes (attrs ++ encode_prefixes ns)
              { entry with
                pfxWithdraw := entry.pfxWithdraw ++ ws.map (prefix_text AddrFamily.AF_INET) }
              attrs.length).2.pfxNLRI ++
            (ns.take (MAX_NB_PREFIXES - (process_bgp_attributes (attrs ++ encode_prefixes ns)
              { entry with
                pfxWithdraw := entry.pfxWithdraw ++ ws.map (prefix_text AddrFamily.AF_INET) }
              attrs.length).2.pfxNLRI.length)).map (prefix_text AddrFamily.AF_INET) } := by
  have hlen := update_body_length ws attrs ns
  have hd2 := update_body_drop ws attrs ns
  have hs1 : get_buf_short (update_body ws attrs ns) = (encode_prefixes ws).length :=
    get_buf_short_enc16 _ _ hwl
  have hd3 : (update_body ws attrs ns).drop (2 + (encode_prefixes ws).length)
      = enc16 attrs.length ++ (attrs ++ encode_prefixes ns) := by
    rw [drop_add_eq, hd2, List.drop_left]
  have hd4 : (update_body ws attrs ns).drop (2 + (encode_prefixes ws).length + 2)
      = attrs ++ encode_prefixes ns := by
    rw [drop_add_eq, hd3]
    simp [enc16]
  have hd5 : (update_body ws attrs ns).drop (2 + (encode_prefixes ws).length + 2 + attrs.length)
      = encode_prefixes ns := by
    rw [drop_add_eq, hd4, List.drop_left]
  have hfw := length_le_encode_prefixes ws
  have hfn := length_le_encode_prefixes ns
  unfold process_bgp_update
  simp only [hs1]
  rw [if_neg (by omega)]
  rw [withdraw_loop_spec _ _ _ hwl ws _ 2 0 entry _ hws hd2 (by omega) (by omega) hwn (by omega)]
  simp only [hd3, hd4, get_buf_short_enc16 _ _ hal]
  rw [if_neg (by omega), if_neg (by rw [hattr]; exact fun h => h rfl)]
  exact nlri_loop_spec _ _ ns _ _ _ hns hd5 (by omega) (by omega)

theorem as_path_seq_nlri (buffer : List Nat) (allAttrLen attrLen : Nat) :
    ∀ (n p : Nat) (st : AttrState) (r : Nat × AttrState),
      as_path_seq buffer allAttrLen attrLen n p st = Flow.next r →
      r.2.entry.pfxNLRI = st.entry.pfxNLRI := by
  intro n
  induction n with
  | zero =>
    intro p st r h
    rw [as_path_seq] at h
    cases h
    rfl
  | succ n ih =>
    intro p st r h
    rw [as_path_seq] at h
    split at h
    · cases h
    · dsimp only at h
      split_ifs at h
      have hi := ih _ _ _ h
      exact hi

theorem as_path_set_nlri (buffer : List Nat) (allAttrLen segLen : Nat) :
    ∀ (n i p : Nat) (st : AttrState) (r : Nat × AttrState),
      as_path_set buffer allAttrLen segLen n i p st = Flow.next r →
      r.2.entry.pfxNLRI = st.entry.pfxNLRI := by
  intro n
  induction n with
  | zero =>
    intro i p st r h
    rw [as_path_set] at h
    cases h
    rfl
  | succ n ih =>
    intro i p st r h
    rw [as_path_set] at h
    split at h
    · cases h
    · dsimp only at h
      split_ifs at h
      all_goals
        (have hi := ih _ _ _ _ h
         exact hi)

theorem as_path_loop_nlri (buffer : List Nat) (allAttrLen attrLen : Nat) :
    ∀ (fuel p : Nat) (st st1 : AttrState),
      as_path_loop buffer allAttrLen attrLen fuel p st = Flow.next st1 →
      st1.entry.pfxNLRI = st.entry.pfxNLRI := by
  intro fuel
  induction fuel with
  | zero =>
    intro p st st1 h
    rw [as_path_loop] at h
    split_ifs at h
    cases h
    rfl
  | succ fuel ih =>
    intro p st st1 h
    rw [as_path_loop] at h
    dsimp only at h
    split_ifs at h
    · split at h
      · cases h
      · rename_i p1 st2 hseq
        have hs := as_path_seq_nlri _ _ _ _ _ _ _ hseq
        have hi := ih _ _ _ h
        exact hi.trans hs
    · split at h
      · cases h
      · rename_i p1 st2 hset
        have hs := as_path_set_nlri _ _ _ _ _ _ _ _ hset
        split_ifs at h
        have hi := ih _ _ _ h
        exact hi.trans hs
    · have hi := ih _ _ _ h
      exact hi
    · cases h
      rfl

theorem communities_loop_nlri (buffer : List Nat) (allAttrLen attrLen : Nat) :
    ∀ (fuel p : Nat) (st st1 : AttrState),
      communities_loop buffer allAttrLen attrLen fuel p st = Flow.next st1 →
      st1.entry.pfxNLRI = st.entry.pfxNLRI := by
  intro fuel
  induction fuel with
  | zero =>
    intro p st st1 h
    rw [communities_loop] at h
    split_ifs at h
    cases h
    rfl
  | succ fuel ih =>
    intro p st st1 h
    rw [communities_loop] at h
    dsimp only at h
    split_ifs at h
    · have hi := ih _ _ _ h
      exact hi
    · cases h
      rfl

theorem mp_unreach_loop_nlri (buffer : List Nat) (allAttrLen attrLen : Nat) :
    ∀ (fuel p : Nat) (st st1 : AttrState),
      mp_unreach_loop buffer allAttrLen attrLen fuel p st = Flow.next st1 →
      st1.entry.pfxNLRI = st.entry.pfxNLRI := by
  intro fuel
  induction fuel with
  | zero =>
    intro p st st1 h
    rw [mp_unreach_loop] at h
    split_ifs at h
    cases h
    rfl
  | succ fuel ih =>
    intro p st st1 h
    rw [mp_unreach_loop] at h
    split_ifs at h
    · split at h
      · cases h
      · split_ifs at h
        have hi := ih _ _ _ h
        exact hi
    · cases h
      rfl

theorem attr_switch_nlri (buffer : List Nat) (allAttrLen attrType attrLen : Nat)
    (st st1 : AttrState)
    (h : attr_switch buffer allAttrLen attrType attrLen st = Flow.next st1)
    (ht : attrType ≠ BGP_UPDATE_ATTR_NLRI) :
    st1.entry.pfxNLRI = st.entry.pfxNLRI := by
  unfold attr_switch attr_origin attr_next_hop attr_mp_unreach at h
  simp only [inet_ntop] at h
  split_ifs at h
  all_goals first
    | (cases h; rfl)
    | exact as_path_loop_nlri _ _ _ _ _ _ _ h
    | exact communities_loop_nlri _ _ _ _ _ _ _ h
    | (have hi := mp_unreach_loop_nlri _ _ _ _ _ _ _ h
       exact hi)

theorem attr_body_nlri (buffer : List Nat) (allAttrLen : Nat) (st st1 : AttrState)
    (h : attr_body buffer allAttrLen st = Flow.next st1)
    (ht : attr_type_at buffer st.actOff ≠ BGP_UPDATE_ATTR_NLRI) :
    st1.entry.pfxNLRI = st.entry.pfxNLRI := by
  unfold attr_body at h
  dsimp only at h
  unfold attr_value at h
  unfold attr_type_at at ht
  split_ifs at h
  all_goals
    (split at h
     · cases h
     · rename_i s2 hsw
       cases h
       have hi := attr_switch_nlri _ _ _ _ _ _ hsw ht
       exact hi)

theorem attr_loop_nlri (buffer : List Nat) (allAttrLen : Nat) :
    ∀ (fuel : Nat) (st stf : AttrState),
      attr_loop buffer allAttrLen fuel st = Flow.next stf →
      (∀ s ∈ attr_steps buffer allAttrLen fuel st,
        attr_type_at buffer s.1.actOff ≠ BGP_UPDATE_ATTR_NLRI) →
      stf.entry.pfxNLRI = st.entry.pfxNLRI := by
  intro fuel
  induction fuel with
  | zero =>
    intro st stf h _
    rw [attr_loop] at h
    split_ifs at h
    cases h
    rfl
  | succ fuel ih =>
    intro st stf h hs
    rw [attr_loop] at h
    rw [attr_steps] at hs
    split_ifs at h hs
    · cases hb : attr_body buffer allAttrLen st with
      | ret c e => rw [hb] at h; cases h
      | next st1 =>
        rw [hb] at h hs
        dsimp only at h hs
        have h1 := attr_body_nlri _ _ _ _ hb (hs (st, st1) (List.mem_cons_self _ _))
        exact (ih _ _ h (fun s hm => hs s (List.mem_cons_of_mem _ hm))).trans h1
    · cases h
      rfl

theorem mp_reach_short_block (flags : Nat) (entry : MRTentry) (nh : List Nat)
    (ps : List (Nat × List Nat)) (hflags : flags < 256) (hnh : nh.length < 256)
    (hnz : nh.length ≠ 0) (hok : ∀ q ∈ ps, prefix_ok 128 q)
    (hlen : (mp_reach_short nh ps).length ≤ 4096)
    (hshort : flags &&& 16 = 0 → (mp_reach_short nh ps).length < 256) :
    process_bgp_attributes
        (attr_header flags 14 (mp_reach_short nh ps).length ++ mp_reach_short nh ps) entry
        ((attr_header flags 14 (mp_reach_short nh ps).length).length
          + (mp_reach_short nh ps).length)
      = ((((attr_header flags 14 (mp_reach_short nh ps).length).length
            + (mp_reach_short nh ps).length : Nat) : Int),
          { entry with
            nextHop := inet_ntop6 (nh ++ encode_prefixes ps),
            pfxNLRI := entry.pfxNLRI ++ ps.map (prefix_text AddrFamily.AF_INET6) }) := by
  have hsw := attr_mp_reach_short
    (attr_header flags 14 (mp_reach_short nh ps).length ++ mp_reach_short nh ps)
    ((attr_header flags 14 (mp_reach_short nh ps).length).length
      + (mp_reach_short nh ps).length)
    (mp_reach_short nh ps).length
    { actOff := (attr_header flags 14 (mp_reach_short nh ps).length).length,
      actAllAttrLen := (attr_header flags 14 (mp_reach_short nh ps).length).length,
      aspActStrLen := 0, comActStrlen := 0, entry := entry }
    nh ps [] (by simp) hnh hnz hok rfl (le_refl _)
  rw [← attr_switch_mp_reach] at hsw
  rw [single_attribute_next flags 14 _ _ entry _ hflags (by decide) hlen hshort hsw rfl]
  simp

/-- **C2 does not hold of the code.** `process_bgp_update` is called on a
body of 8 bytes with `max_len` = 4: the withdrawn length is 0 and the declared
attribute length is 4, while no byte is left below `max_len` after the
attribute length field.  The call returns 1, and the origin written to the
record follows the byte at offset 7, which lies beyond `max_len`: the
attribute block is decoded against its own declared length only, and the
offset after it is not compared to `max_len`. -/
theorem update_reads_past_max_len :
    process_bgp_update (short_update 0) MRTentry_new 4
      = some { MRTentry_new with origin := "IGP".toList } ∧
    process_bgp_update (short_update 1) MRTentry_new 4
      = some { MRTentry_new with origin := "EGP".toList } := by
  constructor <;> decide

/-- **C4 does not hold of the code.** For an UPDATE body whose withdrawn
section holds more than 2048 well-formed IPv4 prefixes that fill
`withdraw_len` exactly, `process_bgp_update` returns 0, whatever the attribute
block, the announced prefixes and `max_len`: the branch that skips a prefix
once 2048 are stored leaves `actWithLen` as it is, so the loop over the
withdrawn section never comes to its end. -/
theorem withdraw_cap_rejects (ws ns : List (Nat × List Nat)) (attrs : List Nat)
    (entry : MRTentry) (max_len : Nat)
    (hws : ∀ p ∈ ws, prefix_ok 32 p) (hn : MAX_NB_PREFIXES < ws.length)
    (hwl : (encode_prefixes ws).length < 65536) (he : entry.pfxWithdraw = []) :
    process_bgp_update (update_body ws attrs ns) entry max_len = none := by
  have hs1 : get_buf_short (update_body ws attrs ns) = (encode_prefixes ws).length :=
    get_buf_short_enc16 _ _ hwl
  unfold process_bgp_update
  simp only [hs1]
  split_ifs
  · rfl
  · rw [withdraw_loop_over _ _ _ hwl ws _ 2 0 entry _
      (fun p hp => prefix_ok_mono 32 128 p (hws p hp) (by decide))
      (update_body_drop ws attrs ns) (by omega)
      (by rw [he]; simp [MAX_NB_PREFIXES]) (by rw [he]; simpa using hn)]

/-- C4 at a withdrawn section of 2049 prefixes `0.0.0.0/0`, with no attribute
and no announced prefix, and `max_len` the length of the body. -/
theorem withdraw_cap_rejects_witness :
    process_bgp_update (update_body (List.replicate 2049 default_route) [] []) MRTentry_new 2053
      = none :=
  withdraw_cap_rejects (List.replicate 2049 default_route) [] [] MRTentry_new 2053
    (fun p hp => by rw [List.eq_of_mem_replicate hp]; decide)
    (by rw [List.length_replicate]; decide)
    (by rw [encode_prefixes_replicate]; decide) rfl

theorem update_body_withdraw_over (ws ns : List (Nat × List Nat)) (attrs : List Nat)
    (entry : MRTentry) (max_len : Nat)
    (hws : ∀ p ∈ ws, prefix_ok 32 p) (hn : MAX_NB_PREFIXES < ws.length)
    (hwl : (encode_prefixes ws).length < 65536) (he : entry.pfxWithdraw = []) :
    process_bgp_update (update_body ws attrs ns) entry max_len = none := by
  have hs1 : get_buf_short (update_body ws attrs ns) = (encode_prefixes ws).length :=
    get_buf_short_enc16 _ _ hwl
  unfold process_bgp_update
  simp only [hs1]
  split_ifs
  · rfl
  · rw [withdraw_loop_over _ _ _ hwl ws _ 2 0 entry _
      (fun p hp => prefix_ok_mono 32 128 p (hws p hp) (by decide))
      (update_body_drop ws attrs ns) (by omega)
      (by rw [he]; simp [MAX_NB_PREFIXES]) (by rw [he]; simpa using hn)]

/-- **C5 (amended).** An UPDATE body with a well-formed withdrawn section of
at most 2048 prefixes, an attribute block that the attribute decoder accepts,
that holds no MP_REACH_NLRI attribute and that leaves at most 2048 withdrawn
prefixes in the record, and more than 2048 well-formed IPv4 prefixes that fill
the rest of the body: `process_bgp_update` returns 1, and the announced
prefixes of the record are the texts of the first 2048 of them, in the order
of the wire. -/
theorem nlri_cap (ws ns : List (Nat × List Nat)) (attrs : List Nat) (entry : MRTentry)
    (hws : ∀ p ∈ ws, prefix_ok 32 p) (hwn : ws.length ≤ MAX_NB_PREFIXES)
    (hwl : (encode_prefixes ws).length < 65536)
    (hns : ∀ p ∈ ns, prefix_ok 32 p) (hn : MAX_NB_PREFIXES < ns.length)
    (hal : attrs.length < 65536)
    (he : entry.pfxWithdraw = [] ∧ entry.pfxNLRI = [])
    (hattr : (process_bgp_attributes (attrs ++ encode_prefixes ns)
        { entry with pfxWithdraw := ws.map (prefix_text AddrFamily.AF_INET) }
        attrs.length).1 = (attrs.length : Int))
    (_hun : (process_bgp_attributes (attrs ++ encode_prefixes ns)
        { entry with pfxWithdraw := ws.map (prefix_text AddrFamily.AF_INET) }
        attrs.length).2.pfxWithdraw.length ≤ MAX_NB_PREFIXES)
    (hmp : ∀ s ∈ attr_steps (attrs ++ encode_prefixes ns) attrs.length attrs.length
        { actOff := 0, actAllAttrLen := 0, aspActStrLen := 0, comActStrlen := 0,
          entry := { entry with pfxWithdraw := ws.map (prefix_text AddrFamily.AF_INET) } },
        attr_type_at (attrs ++ encode_prefixes ns) s.1.actOff ≠ BGP_UPDATE_ATTR_NLRI) :
    ∃ e, process_bgp_update (update_body ws attrs ns) entry (update_body ws attrs ns).length
        = some e ∧
      e.pfxNLRI = (ns.take MAX_NB_PREFIXES).map (prefix_text AddrFamily.AF_INET) ∧
      e.pfxNLRI.length = MAX_NB_PREFIXES := by
  obtain ⟨hew, hen⟩ := he
  have hent : { entry with
      pfxWithdraw := entry.pfxWithdraw ++ ws.map (prefix_text AddrFamily.AF_INET) }
      = { entry with pfxWithdraw := ws.map (prefix_text AddrFamily.AF_INET) } := by
    rw [hew, List.nil_append]
  have hspec := update_body_spec ws ns attrs entry
    (fun p hp => prefix_ok_mono 32 128 p (hws p hp) (by decide))
    (by rw [hew]; simpa using hwn) hwl
    (fun p hp => prefix_ok_mono 32 128 p (hns p hp) (by decide)) hal
    (by rw [hent]; exact hattr)
  rw [hent] at hspec
  obtain ⟨st, hloop, _, hres⟩ := attributes_success _ _ _ hattr
  have hkeep := attr_loop_nlri _ _ _ _ _ hloop hmp
  dsimp only at hkeep
  rw [hen] at hkeep
  rw [hres, hkeep] at hspec
  refine ⟨_, hspec, ?_, ?_⟩
  · simp
  · simp only [List.nil_append, List.length_nil, Nat.sub_zero, List.length_map,
      List.length_take]
    omega

/-- The amended C5 at the attribute block of scenario B followed by 2049
prefixes `0.0.0.0/0`: 2048 of them are in the record. -/
theorem nlri_cap_witness :
    ∃ e, process_bgp_update
          (update_body [] scenario_b_attributes (List.replicate 2049 default_route))
          MRTentry_new
          (update_body [] scenario_b_attributes (List.replicate 2049 default_route)).length
        = some e ∧
      e.pfxNLRI = ((List.replicate 2049 default_route).take MAX_NB_PREFIXES).map
        (prefix_text AddrFamily.AF_INET) ∧
      e.pfxNLRI.length = MAX_NB_PREFIXES :=
  nlri_cap [] (List.replicate 2049 default_route) scenario_b_attributes MRTentry_new
    (fun p hp => by cases hp) (by decide) (by decide)
    (fun p hp => by rw [List.eq_of_mem_replicate hp]; decide)
    (by rw [List.length_replicate]; decide) (by decide) ⟨rfl, rfl⟩
    (by decide) (by decide) (by decide)

/-- **C5, counterexample.** An UPDATE body with a withdrawn section of 2049
well-formed prefixes `0.0.0.0/0`, the attribute block of scenario B, which
has no MP_REACH_NLRI attribute, and 2049 well-formed prefixes `0.0.0.0/0`
that fill the rest of the body: `process_bgp_update` returns 0. -/
theorem nlri_cap_counterexample :
    (∀ p ∈ List.replicate 2049 default_route, prefix_ok 32 p) ∧
    MAX_NB_PREFIXES < (List.replicate 2049 default_route).length ∧
    (process_bgp_attributes scenario_b_attributes MRTentry_new 24).1 = 24 ∧
    process_bgp_update
        (update_body (List.replicate 2049 default_route) scenario_b_attributes
          (List.replicate 2049 default_route))
        MRTentry_new
        (update_body (List.replicate 2049 default_route) scenario_b_attributes
          (List.replicate 2049 default_route)).length
      = none :=
  ⟨fun p hp => by rw [List.eq_of_mem_replicate hp]; decide,
   by rw [List.length_replicate]; decide,
   by decide,
   update_body_withdraw_over (List.replicate 2049 default_route)
     (List.replicate 2049 default_route) scenario_b_attributes MRTentry_new _
     (fun p hp => by rw [List.eq_of_mem_replicate hp]; decide)
     (by rw [List.length_replicate]; decide)
     (by rw [encode_prefixes_replicate]; decide) rfl⟩

theorem entry_withdraw_eta (entry : MRTentry) :
    { entry with pfxWithdraw := entry.pfxWithdraw ++ [] } = entry := by
  cases entry
  simp

theorem mp_reach_short_length (nh : List Nat) (ps : List (Nat × List Nat)) :
    (mp_reach_short nh ps).length = 1 + nh.length + (encode_prefixes ps).length := by
  simp only [mp_reach_short, List.length_cons, List.length_append]
  omega

/-- **C6 does not hold of the code.** An UPDATE body whose attribute block is
one MP_REACH_NLRI attribute (in the shortened form) with more than 2048
well-formed IPv6 prefixes, with no withdrawn and no announced IPv4 prefix: the
body is decoded with success and the record holds more than 2048 announced
prefixes.  The loop over the prefixes of MP_REACH_NLRI stores every prefix and
does not compare the count with `MAX_NB_PREFIXES`. -/
theorem mp_reach_exceeds_cap (flags : Nat) (entry : MRTentry) (nh : List Nat)
    (ps : List (Nat × List Nat)) (hflags : flags < 256) (hnh : nh.length < 256)
    (hnz : nh.length ≠ 0) (hok : ∀ q ∈ ps, prefix_ok 128 q)
    (hlen : (mp_reach_short nh ps).length ≤ 4096)
    (hshort : flags &&& 16 = 0 → (mp_reach_short nh ps).length < 256)
    (hn : MAX_NB_PREFIXES < ps.length) (he : entry.pfxWithdraw = []) :
    ∃ e, process_bgp_update
          (update_body []
            (attr_header flags 14 (mp_reach_short nh ps).length ++ mp_reach_short nh ps) [])
          entry
          (update_body []
            (attr_header flags 14 (mp_reach_short nh ps).length ++ mp_reach_short nh ps)
            []).length
        = some e ∧
      MAX_NB_PREFIXES < e.pfxNLRI.length := by
  have hblock := mp_reach_short_block flags entry nh ps hflags hnh hnz hok hlen hshort
  rw [← List.length_append] at hblock
  have hh := attr_header_length flags 14 (mp_reach_short nh ps).length
  have hspec := update_body_spec [] []
    (attr_header flags 14 (mp_reach_short nh ps).length ++ mp_reach_short nh ps) entry
    (fun p hp => by cases hp) (by rw [he]; simp) (by simp [encode_prefixes])
    (fun p hp => by cases hp)
    (by rw [List.length_append]; omega)
    (by
      simp only [encode_prefixes, List.append_nil, List.map_nil, entry_withdraw_eta]
      rw [hblock])
  simp only [encode_prefixes, List.append_nil, List.map_nil, entry_withdraw_eta] at hspec
  rw [hblock] at hspec
  refine ⟨_, hspec, ?_⟩
  simp only [List.take_nil, List.map_nil, List.append_nil, List.length_append, List.length_map]
  omega

/-- C6 at an MP_REACH_NLRI attribute with the next hop 2001:db8::1 and 2049
prefixes `::/0`: the record holds more than 2048 announced prefixes. -/
theorem mp_reach_exceeds_cap_witness :
    ∃ e, process_bgp_update
          (update_body []
            (attr_header 0x90 14
                (mp_reach_short sample_next_hop (List.replicate 2049 default_route)).length
              ++ mp_reach_short sample_next_hop (List.replicate 2049 default_route)) [])
          MRTentry_new
          (update_body []
            (attr_header 0x90 14
                (mp_reach_short sample_next_hop (List.replicate 2049 default_route)).length
              ++ mp_reach_short sample_next_hop (List.replicate 2049 default_route))
            []).length
        = some e ∧
      MAX_NB_PREFIXES < e.pfxNLRI.length :=
  mp_reach_exceeds_cap 0x90 MRTentry_new sample_next_hop (List.replicate 2049 default_route)
    (by decide) (by decide) (by decide)
    (fun p hp => by rw [List.eq_of_mem_replicate hp]; decide)
    (by rw [mp_reach_short_length, encode_prefixes_replicate]; decide)
    (fun h => absurd h (by decide))
    (by rw [List.length_replicate]; decide) rfl

/-! ## `process_prefix` on encoded prefixes -/

theorem inet_ntop4_padding (b : List Nat) (hb : b.length ≤ 4) :
    inet_ntop4 (b ++ List.replicate (16 - b.length) 0)
      = inet_ntop4 (b ++ List.replicate (4 - b.length) 0) := by
  rcases b with _ | ⟨b0, _ | ⟨b1, _ | ⟨b2, _ | ⟨b3, _ | ⟨b4, t⟩⟩⟩⟩⟩
  · rfl
  · rfl
  · rfl
  · rfl
  · rfl
  · simp at hb

/-- **C9 (amended).** `process_prefix` fails exactly when the mask-length
byte is greater than 128, whatever the address family: for IPv4 a mask length
from 33 to 128 is accepted. -/
theorem process_prefix_fails_iff (buffer : List Nat) (af : AddrFamily) :
    process_prefix buffer af = none ↔ 128 < get_buf_char buffer := by
  unfold process_prefix
  dsimp only
  constructor
  · intro h
    by_contra hn
    rw [if_neg hn] at h
    cases af <;> simp [inet_ntop] at h
  · intro h
    rw [if_pos h]

/-- **C9, counterexample.** With the address family IPv4 and the mask-length
byte 33, `process_prefix` returns 6, the number of bytes consumed, and writes
`10.1.2.3/33`. -/
theorem process_prefix_ipv4_mask_33 :
    process_prefix [33, 10, 1, 2, 3, 4] AddrFamily.AF_INET = some ("10.1.2.3/33".toList, 6) := by
  decide

/-- **C10.** For a mask length `m` valid for the address family and `b` made
of `ceil(m/8)` bytes, `process_prefix` applied to `m` followed by `b` (and by
any further bytes) returns `1 + ceil(m/8)` and writes the text of the address
obtained by zero-padding `b` to 4 or 16 bytes, then `/` and `m` in decimal. -/
theorem prefix_decoding (af : AddrFamily) (m : Nat) (b rest : List Nat)
    (hm : m ≤ max_mask af) (hb : b.length = (m + 7) / 8) (hbytes : ∀ x ∈ b, x < 256) :
    process_prefix (m :: b ++ rest) af
      = some (address_text af (address_bytes af b) ++ '/' :: fmt_u m, 1 + (m + 7) / 8) := by
  have hm128 : m ≤ 128 := by
    cases af
    · exact Nat.le_trans hm (by decide)
    · exact hm
  have h := process_prefix_spec af (m, b) rest ⟨hm128, hb, hbytes⟩
  simp only [encode_pfx, List.cons_append] at h
  rw [List.cons_append, h, ← hb]
  cases af with
  | AF_INET =>
    have hb4 : b.length ≤ 4 := by
      have : m ≤ 32 := hm
      omega
    simp only [prefix_text, address_text, address_bytes, inet_ntop4_padding b hb4]
  | AF_INET6 => simp only [prefix_text, address_text, address_bytes]

/-- C10 at the IPv4 prefix `18 C0 00 02` of scenario B: 192.0.2.0/24, four
bytes consumed. -/
theorem prefix_decoding_witness :
    process_prefix (24 :: [192, 0, 2] ++ []) AddrFamily.AF_INET
      = some (address_text AddrFamily.AF_INET (address_bytes AddrFamily.AF_INET [192, 0, 2])
          ++ '/' :: fmt_u 24, 1 + (24 + 7) / 8) :=
  prefix_decoding AddrFamily.AF_INET 24 [192, 0, 2] [] (by decide) (by decide) (by decide)

theorem prefix_decoding_text :
    address_text AddrFamily.AF_INET (address_bytes AddrFamily.AF_INET [192, 0, 2])
      ++ '/' :: fmt_u 24 = "192.0.2.0/24".toList := by
  decide

/-! ## The final read offset -/

theorem nlri_loop_end_spec (buffer : List Nat) (max_len : Nat) :
    ∀ (fuel actOff : Nat) (entry e : MRTentry),
      nlri_loop buffer max_len fuel actOff entry = some e →
      ∃ off, nlri_loop_end buffer max_len fuel actOff entry = some off ∧ max_len ≤ off ∧
        (actOff ≤ max_len → off = max_len) := by
  intro fuel
  induction fuel with
  | zero =>
    intro actOff entry e h
    rw [nlri_loop] at h
    rw [nlri_loop_end]
    split_ifs at h ⊢
    exact ⟨actOff, rfl, by omega, fun _ => by omega⟩
  | succ fuel ih =>
    intro actOff entry e h
    rw [nlri_loop] at h
    rw [nlri_loop_end]
    dsimp only at h ⊢
    split_ifs at h ⊢
    · obtain ⟨off, h1, h2, h3⟩ := ih _ _ _ h
      exact ⟨off, h1, h2, fun _ => h3 (by omega)⟩
    · split at h
      · cases h
      · rename_i text ret hp
        try rw [hp]
        try dsimp only at h ⊢
        split_ifs at h ⊢
        obtain ⟨off, h1, h2, h3⟩ := ih _ _ _ h
        exact ⟨off, h1, h2, fun _ => h3 (by omega)⟩
    · exact ⟨actOff, rfl, by omega, fun _ => by omega⟩

theorem rib_peer_entry_le (buffer : List Nat) (d : File_buf_t) (max_len actOff a : Nat)
    (e e1 : MRTentry) (h : rib_peer_entry buffer d max_len actOff e = some (a, e1)) :
    a ≤ max_len := by
  unfold rib_peer_entry at h
  dsimp only at h
  split_ifs at h
  cases h
  omega

theorem rib_sibling_loop_end_spec (buffer : List Nat) (d : File_buf_t) (max_len : Nat)
    (entry : MRTentry) :
    ∀ (n actOff : Nat) (chain res : List MRTentry),
      rib_sibling_loop buffer d max_len entry n actOff chain = some res →
      actOff ≤ max_len →
      ∃ off, rib_sibling_loop_end buffer d max_len entry n actOff = some off ∧
        off ≤ max_len := by
  intro n
  induction n with
  | zero =>
    intro actOff chain res _ hle
    exact ⟨actOff, rfl, hle⟩
  | succ n ih =>
    intro actOff chain res h hle
    rw [rib_sibling_loop] at h
    rw [rib_sibling_loop_end]
    cases hp : rib_peer_entry buffer d max_len actOff (MRTentry_copy_for_ribs entry) with
    | none => simp [hp] at h
    | some r =>
      obtain ⟨a, e1⟩ := r
      rw [hp] at h
      dsimp only at h ⊢
      exact ih _ _ _ h (rib_peer_entry_le _ _ _ _ _ _ _ hp)

theorem process_bgp_rib_entry_end_spec (buffer : List Nat) (d : File_buf_t) (entry : MRTentry)
    (max_len : Nat) (r : MRTentry × List MRTentry)
    (h : process_bgp_rib_entry buffer d entry max_len = some r) :
    ∃ off, process_bgp_rib_entry_end buffer d entry max_len = some off ∧ off ≤ max_len := by
  unfold process_bgp_rib_entry at h
  unfold process_bgp_rib_entry_end
  split_ifs at h ⊢
  cases hp : process_prefix (buffer.drop 4) (rib_family entry.entrySubType) with
  | none => simp [hp] at h
  | some t =>
    obtain ⟨text, ret⟩ := t
    rw [hp] at h
    dsimp only at h ⊢
    split_ifs at h ⊢
    cases hq : rib_peer_entry buffer d max_len (4 + ret + 2)
        { entry with pfxNLRI := entry.pfxNLRI ++ [text] } with
    | none => simp [hq] at h
    | some t2 =>
      obtain ⟨a, e2⟩ := t2
      rw [hq] at h
      dsimp only at h ⊢
      cases hs : rib_sibling_loop buffer d max_len e2
          (get_buf_short (buffer.drop (4 + ret)) - 1) a [] with
      | none => simp [hs] at h
      | some chain =>
        exact rib_sibling_loop_end_spec _ _ _ _ _ _ _ _ hs (rib_peer_entry_le _ _ _ _ _ _ _ hq)

theorem process_bgp_update_end_eq (buffer : List Nat) (entry e : MRTentry) (max_len : Nat)
    (h : process_bgp_update buffer entry max_len = some e) :
    ∃ a off, process_bgp_update_attr_end buffer entry max_len = some a ∧
      process_bgp_update_end buffer entry max_len = some off ∧ max_len ≤ off ∧
      (a ≤ max_len → off = max_len) := by
  unfold process_bgp_update at h
  unfold process_bgp_update_end process_bgp_update_attr_end
  dsimp only at h ⊢
  split_ifs at h ⊢
  split at h
  · cases h
  · rename_i actOff entry1 hw
    try rw [hw]
    try dsimp only at h ⊢
    split_ifs at h ⊢
    obtain ⟨off, h1, h2, h3⟩ := nlri_loop_end_spec _ _ _ _ _ _ h
    exact ⟨_, off, rfl, h1, h2, h3⟩

theorem classic_message_body_end_eq (buffer : List Nat) (entry e : MRTentry)
    (max_len actOff : Nat)
    (h : classic_message_body buffer entry max_len actOff = some e) :
    ∃ off, classic_message_body_end buffer entry max_len actOff = some off ∧
      (e.bgpType ≠ BGP_TYPE_UPDATE → off ≤ max_len) ∧
      (e.bgpType = BGP_TYPE_UPDATE → max_len ≤ off ∧
        ∃ a, classic_message_body_attr_end buffer entry max_len actOff = some a ∧
          (a ≤ max_len → off = max_len)) := by
  unfold classic_message_body at h
  unfold classic_message_body_end classic_message_body_attr_end
  dsimp only at h ⊢
  split_ifs at h ⊢ with h1 h2 h3 h4 h5 h6 h7 h8 h9
  · cases h
    exact ⟨_, rfl, fun _ => by omega,
      fun hu => by simp [BGP_TYPE_STATE_CHANGE, BGP_TYPE_UPDATE] at hu⟩
  · have hb := ((hdr_eq_iff _ _).mp (update_keeps _ _ _ _ h).1).2.2.2.1
    obtain ⟨a, o, ha, ho, hle, heq⟩ := process_bgp_update_end_eq _ _ _ _ h
    rw [ho, ha]
    refine ⟨actOff + 16 + 2 + 1 + o, rfl, fun hn => absurd hb hn, fun _ => ⟨?_, ?_⟩⟩
    · omega
    · refine ⟨actOff + 16 + 2 + 1 + a, rfl, fun hle2 => ?_⟩
      have := heq (by omega)
      omega
  · cases h
    exact ⟨_, rfl, fun _ => by omega, fun hu => absurd hu (by assumption)⟩

theorem process_classic_message_end_eq (buffer : List Nat) (entry e : MRTentry)
    (max_len : Nat) (h : process_classic_message buffer entry max_len = some e) :
    ∃ off, process_classic_message_end buffer entry max_len = some off ∧
      (e.bgpType ≠ BGP_TYPE_UPDATE → off ≤ max_len) ∧
      (e.bgpType = BGP_TYPE_UPDATE → max_len ≤ off ∧
        ∃ a, process_classic_message_attr_end buffer entry max_len = some a ∧
          (a ≤ max_len → off = max_len)) := by
  unfold process_classic_message at h
  unfold process_classic_message_end process_classic_message_attr_end
  cases ha : classic_peer_asn buffer entry max_len with
  | none => simp [ha] at h
  | some r =>
    obtain ⟨actOff, e1⟩ := r
    rw [ha] at h
    dsimp only at h ⊢
    cases hb : classic_peer_addr buffer e1 max_len actOff with
    | none => simp [hb] at h
    | some r2 =>
      obtain ⟨actOff1, e2⟩ := r2
      rw [hb] at h
      dsimp only at h ⊢
      exact classic_message_body_end_eq _ _ _ _ _ h

theorem rib_index_loop_end_spec (buffer : List Nat) (max_len : Nat) :
    ∀ (n actOff : Nat) (d : File_buf_t), (rib_index_loop buffer max_len n actOff d).1 = true →
      actOff ≤ max_len →
      ∃ off, rib_index_loop_end buffer max_len n actOff d = some off ∧ off ≤ max_len := by
  intro n
  induction n with
  | zero =>
    intro actOff d _ hle
    exact ⟨actOff, rfl, hle⟩
  | succ n ih =>
    intro actOff d
    rw [rib_index_loop, rib_index_loop_end]
    dsimp only
    obtain ⟨text, ht, -⟩ := inet_ntop_some (peer_family (get_buf_char (List.drop actOff buffer)))
      (List.drop (actOff + 1 + 4) buffer)
    simp only [ht]
    split_ifs
    all_goals first
      | (intro h; simp only [Bool.false_eq_true] at h)
      | (intro h _; exact ih _ _ h (by omega))

theorem process_bgp_rib_index_end_spec (buffer : List Nat) (d : File_buf_t) (max_len : Nat)
    (h : (process_bgp_rib_index buffer d max_len).1 = true) :
    ∃ off, process_bgp_rib_index_end buffer d max_len = some off ∧ off ≤ max_len := by
  unfold process_bgp_rib_index at h
  unfold process_bgp_rib_index_end
  dsimp only at h ⊢
  split_ifs at h ⊢
  all_goals first
    | (simp only [Bool.false_eq_true] at h)
    | exact rib_index_loop_end_spec _ _ _ _ _ h (by omega)

theorem process_bgp_rib_end_spec (buffer : List Nat) (d : File_buf_t) (entry : MRTentry)
    (max_len : Nat) (r : MRTentry × List MRTentry)
    (h : (process_bgp_rib buffer d entry max_len).1 = some r) :
    ∃ off, process_bgp_rib_end buffer d entry max_len = some off ∧ off ≤ max_len := by
  unfold process_bgp_rib at h
  unfold process_bgp_rib_end
  split_ifs at h ⊢
  · dsimp only at h
    cases hi : (process_bgp_rib_index buffer d max_len).1 with
    | false => rw [hi] at h; simp at h
    | true => exact process_bgp_rib_index_end_spec _ _ _ hi
  · exact process_bgp_rib_entry_end_spec _ _ _ _ _ h

/-- **C3 (amended).** When `process_classic_message` decodes a body of
`max_len` bytes with success, its final read offset is at most `max_len` when
the body holds a state change or a BGP message other than UPDATE; when the
body holds an UPDATE, no byte of the body is left unconsumed, and the final
read offset is `max_len` when the declared attribute block ends within the
body.  When `process_bgp_rib` decodes a body of `max_len` bytes with success,
PEER_INDEX_TABLE or RIB entry, its final read offset is at most `max_len`. -/
theorem final_read_offset (buffer : List Nat) (dumper : File_buf_t) (entry : MRTentry)
    (max_len : Nat) :
    (∀ e, process_classic_message buffer entry max_len = some e →
      ∃ off, process_classic_message_end buffer entry max_len = some off ∧
        (e.bgpType ≠ BGP_TYPE_UPDATE → off ≤ max_len) ∧
        (e.bgpType = BGP_TYPE_UPDATE → max_len ≤ off ∧
          ∃ a, process_classic_message_attr_end buffer entry max_len = some a ∧
            (a ≤ max_len → off = max_len))) ∧
    (∀ r, (process_bgp_rib buffer dumper entry max_len).1 = some r →
      ∃ off, process_bgp_rib_end buffer dumper entry max_len = some off ∧ off ≤ max_len) :=
  ⟨fun e h => process_classic_message_end_eq buffer entry e max_len h,
   fun r h => process_bgp_rib_end_spec buffer dumper entry max_len r h⟩

/-- The amended C3 at scenario B with the attribute length 24: the UPDATE
body of 71 bytes is read up to offset 71, and its attribute block ends at
offset 67. -/
theorem final_read_offset_witness :
    process_classic_message (as4_update_body scenario_b_update_24) scenario_a_entry 71
        = some { scenario_b_record with entryLength := 39 } ∧
      process_classic_message_attr_end (as4_update_body scenario_b_update_24)
        scenario_a_entry 71 = some 67 ∧
      ∃ off, process_classic_message_end (as4_update_body scenario_b_update_24)
          scenario_a_entry 71 = some off ∧
        (({ scenario_b_record with entryLength := 39 } : MRTentry).bgpType ≠ BGP_TYPE_UPDATE →
          off ≤ 71) ∧
        (({ scenario_b_record with entryLength := 39 } : MRTentry).bgpType = BGP_TYPE_UPDATE →
          71 ≤ off ∧
          ∃ a, process_classic_message_attr_end (as4_update_body scenario_b_update_24)
              scenario_a_entry 71 = some a ∧ (a ≤ 71 → off = 71)) :=
  ⟨by decide, by decide,
   (final_read_offset (as4_update_body scenario_b_update_24) scenario_d_dumper
      scenario_a_entry 71).1 { scenario_b_record with entryLength := 39 } (by decide)⟩

/-- **C3, counterexample.** Four bodies that are decoded with success and
whose last bytes are not consumed.  A body of 49 bytes with an OPEN message:
the final read offset is 39, the ten bytes of the OPEN message are not read.
The state change of scenario F followed by one byte (25 bytes): the final read
offset is 24.  The PEER_INDEX_TABLE of scenario D followed by one byte (45
bytes): the final read offset is 44.  The RIB entry of scenario D followed by
one byte (32 bytes): the final read offset is 31. -/
theorem final_read_offset_counterexample :
    (process_classic_message open_message_body scenario_a_entry 49).isSome = true ∧
    process_classic_message_end open_message_body scenario_a_entry 49 = some 39 ∧
    (process_classic_message (scenario_f_body ++ [0]) scenario_f_entry 25).isSome = true ∧
    process_classic_message_end (scenario_f_body ++ [0]) scenario_f_entry 25 = some 24 ∧
    ((process_bgp_rib (scenario_d_table_body ++ [0]) (File_buf_create []) table_entry 45).1).isSome
      = true ∧
    process_bgp_rib_end (scenario_d_table_body ++ [0]) (File_buf_create []) table_entry 45
      = some 44 ∧
    ((process_bgp_rib (scenario_d_rib_body ++ [0]) scenario_d_dumper scenario_d_entry 32).1).isSome
      = true ∧
    process_bgp_rib_end (scenario_d_rib_body ++ [0]) scenario_d_dumper scenario_d_entry 32
      = some 31 := by
  decide

/-! ## After a record that is not decoded -/

/-- **C7 (amended).** When the body decoder fails on a record body that has
been read completely, `Read_next_mrt_entry` returns no record, adds one to
`parsed`, and leaves `parsed_ok` and `eof` as they are; the file buffer is at
the first byte of the record that follows, with no record pending. -/
theorem decoder_failure_keeps_eof (dump : File_buf_t)
    (time entryType entrySubType time_ms : Nat) (body rest : List Nat) (hp : no_pending dump)
    (htime : time < 4294967296) (htype : entryType < 65536) (hsub : entrySubType < 65536)
    (hms : time_ms < 4294967296) (hlen : body.length + 4 < 4294967296) (hbody : body ≠ [])
    (hf : dump.f = mrt_record time entryType entrySubType time_ms body ++ rest)
    (hfail : ((entryType = MRT_TYPE_BGP4MP ∨ entryType = MRT_TYPE_BGP4MP_ET) ∧
        process_classic_message body
          (record_entry time entryType entrySubType time_ms body.length) body.length = none) ∨
      (entryType = MRT_TYPE_TABLE_DUMP_V2 ∧
        (process_bgp_rib body { dump with f := rest, parsed := dump.parsed + 1 }
          (record_entry time entryType entrySubType time_ms body.length) body.length).1
          = none)) :
    (Read_next_mrt_entry dump).1 = none ∧
    stream_fields (Read_next_mrt_entry dump).2
      = (rest, dump.eof, dump.parsed + 1, dump.parsed_ok, none) := by
  rw [Read_next_header dump time entryType entrySubType time_ms body.length (body ++ rest) hp
    htime htype hsub hms hlen (by rw [hf, mrt_record, List.append_assoc])]
  have hne : body.length ≠ 0 := fun h => hbody (List.length_eq_zero.mp h)
  have hety : (record_entry time entryType entrySubType time_ms body.length).entryType
      = entryType := rfl
  have helen : (record_entry time entryType entrySubType time_ms body.length).entryLength
      = body.length := rfl
  unfold read_record_body
  simp only [hety, helen, cfr_read_n_append]
  rw [if_neg hne, if_neg (by simp)]
  rcases hfail with ⟨hty, hc⟩ | ⟨hty, hr⟩
  · rw [if_pos hty]
    split_ifs
    · exact ⟨rfl, rfl⟩
    · rw [hc]
      exact ⟨rfl, rfl⟩
  · have hn : ¬ (entryType = MRT_TYPE_BGP4MP ∨ entryType = MRT_TYPE_BGP4MP_ET) := by
      rw [hty]; decide
    rw [if_neg hn, if_pos hty]
    split_ifs
    · exact ⟨rfl, rfl⟩
    · have hs := process_bgp_rib_stream body { dump with f := rest, parsed := dump.parsed + 1 }
        (record_entry time entryType entrySubType time_ms body.length) body.length
      rw [hr]
      simp only [stream_fields, Prod.mk.injEq] at hs ⊢
      exact ⟨trivial, hs.1, hs.2.1, hs.2.2.1, hs.2.2.2.1, trivial⟩

/-- The amended C7 at a BGP4MP record of the unknown subtype 9. -/
theorem decoder_failure_keeps_eof_witness :
    (Read_next_mrt_entry (File_buf_create bad_then_good_file)).1 = none ∧
    stream_fields (Read_next_mrt_entry (File_buf_create bad_then_good_file)).2
      = (mrt_record 1 16 5 0 scenario_f_body, (File_buf_create bad_then_good_file).eof,
          (File_buf_create bad_then_good_file).parsed + 1,
          (File_buf_create bad_then_good_file).parsed_ok, none) :=
  decoder_failure_keeps_eof (File_buf_create bad_then_good_file) 1 16 9 0 [0]
    (mrt_record 1 16 5 0 scenario_f_body) (by intro e l h; cases h) (by decide) (by decide)
    (by decide) (by decide) (by decide) (by decide) rfl (Or.inl ⟨Or.inl rfl, by decide⟩)

/-- **C7, counterexample.** On a file whose first record has a body that
`process_classic_message` rejects, the first call returns no record and leaves
`eof` at 0; the second call returns the record that follows. -/
theorem decoder_failure_counterexample :
    (Read_next_mrt_entry (File_buf_create bad_then_good_file)).1 = none ∧
    (Read_next_mrt_entry (File_buf_create bad_then_good_file)).2.eof = 0 ∧
    (Read_next_mrt_entry (Read_next_mrt_entry (File_buf_create bad_then_good_file)).2).1
      = some scenario_f_record := by
  decide

theorem Read_next_exhausted (dump : File_buf_t) (hp : no_pending dump) (hf : dump.f = []) :
    Read_next_mrt_entry dump = (none, { dump with eof := 1, actEntry := none }) := by
  have hshape : Read_next_mrt_entry dump
      = (none, { dump with f := [], eof := 1, actEntry := none }) := by
    unfold Read_next_mrt_entry
    cases ha : dump.actEntry with
    | none => simp [hf, cfr_read_n]
    | some p =>
      obtain ⟨e, l⟩ := p
      have hl := hp e l ha
      subst hl
      simp [hf, cfr_read_n]
  rw [hshape, ← hf]

/-- **C8 (amended).** Once the byte source is exhausted and no record is
pending, which is the state a call leaves when it sets `eof` for an incomplete
header or an incomplete body, every later call of `Read_next_mrt_entry`
returns no record and leaves `eof` at 1. -/
theorem exhausted_stream_stays_ended (dump : File_buf_t) (hp : no_pending dump)
    (hf : dump.f = []) (n : Nat) :
    (Read_next_mrt_entry (read_records n dump)).1 = none ∧
    (read_records (n + 1) dump).eof = 1 ∧ (read_records (n + 1) dump).f = [] := by
  have key : ∀ k, no_pending (read_records k dump) ∧ (read_records k dump).f = [] := by
    intro k
    induction k with
    | zero => exact ⟨hp, hf⟩
    | succ k ih =>
      rw [read_records, Read_next_exhausted _ ih.1 ih.2]
      exact ⟨fun e l h => (by cases h), ih.2⟩
  have hk := key n
  rw [read_records, Read_next_exhausted _ hk.1 hk.2]
  exact ⟨rfl, rfl, hk.2⟩

/-- The amended C8 at the record of scenario F cut after 20 bytes, once the
first call has set `eof`: the third call after it returns no record. -/
theorem exhausted_stream_stays_ended_witness :
    (Read_next_mrt_entry (read_records 2
      (Read_next_mrt_entry
        (File_buf_create ((mrt_record 1 16 5 0 scenario_f_body).take 20))).2)).1 = none ∧
    (read_records (2 + 1)
      (Read_next_mrt_entry
        (File_buf_create ((mrt_record 1 16 5 0 scenario_f_body).take 20))).2).eof = 1 ∧
    (read_records (2 + 1)
      (Read_next_mrt_entry
        (File_buf_create ((mrt_record 1 16 5 0 scenario_f_body).take 20))).2).f = [] :=
  exhausted_stream_stays_ended
    (Read_next_mrt_entry (File_buf_create ((mrt_record 1 16 5 0 scenario_f_body).take 20))).2
    (fun e l h => by
      have h2 : (Read_next_mrt_entry
          (File_buf_create ((mrt_record 1 16 5 0 scenario_f_body).take 20))).2.actEntry
          = none := by decide
      rw [h2] at h
      cases h)
    (by decide) 2

/-- **C8, counterexample.** On a file that starts with a header declaring a
body of length 0, the first call sets `eof` to 1 and returns no record; the
call after it reads on and returns the record that follows. -/
theorem eof_not_final_counterexample :
    (Read_next_mrt_entry (File_buf_create empty_then_good_file)).1 = none ∧
    (Read_next_mrt_entry (File_buf_create empty_then_good_file)).2.eof = 1 ∧
    (Read_next_mrt_entry (Read_next_mrt_entry (File_buf_create empty_then_good_file)).2).1
      = some scenario_f_record := by
  decide

/-! ## Several segments, attributes of other types, and the signed fields of the line -/

theorem seq_chunks_gap (asns : List Nat) :
    seq_chunks asns false = seq_chunks asns true ++ (if asns ≠ [] then [' '] else []) := by
  induction asns with
  | nil => rfl
  | cons a rest ih =>
    cases rest with
    | nil => simp [seq_chunks]
    | cons b rest =>
      rw [seq_chunks, seq_chunks, ih]
      simp

theorem segment_text_alone (seg : Nat × List Nat) : segment_text seg true = segment_alone seg := by
  unfold segment_text segment_alone seq_path_text set_path_text
  split_ifs
  · exact seq_chunks_intercalate seg.2
  · rw [set_items_intercalate]
    rfl

theorem segment_text_gap (seg : Nat × List Nat) :
    segment_text seg false = segment_alone seg ++ segment_gap seg := by
  rw [← segment_text_alone]
  unfold segment_text segment_gap
  by_cases h : seg.1 = BGP_UPDATE_AS_PATH_SEQ
  · rw [if_pos h, if_pos h, seq_chunks_gap]
    by_cases hn : seg.2 = []
    · simp [hn]
    · simp [hn, h]
  · rw [if_neg h, if_neg h, if_neg (fun hc => h hc.1), List.append_nil]

theorem as_path_text_joined (segs : List (Nat × List Nat)) :
    as_path_text segs = joined_segments segs := by
  induction segs with
  | nil => rfl
  | cons seg rest ih =>
    cases rest with
    | nil =>
      simp only [as_path_text, joined_segments, List.isEmpty_nil, List.append_nil]
      exact segment_text_alone seg
    | cons next rest =>
      rw [as_path_text, joined_segments, ih]
      simp only [List.isEmpty_cons]
      rw [segment_text_gap]

/-- **C32 (amended).** For an AS_PATH attribute made of AS_SEQUENCE and AS_SET
segments whose rendering is not empty and shorter than 2048 characters,
`asPath` is the concatenation of the renderings of the segments, with one space
after every AS_SEQUENCE segment that holds an ASN and is followed by another
segment, and nothing after an AS_SET. -/
theorem as_path_segments_joined (flags : Nat) (segs : List (Nat × List Nat)) (entry : MRTentry)
    (hflags : flags < 256)
    (hok : ∀ seg ∈ segs, segment_ok entry.entrySubType seg)
    (hlen : as_path_bytes entry.entrySubType segs ≤ 4096)
    (hshort : flags &&& 16 = 0 → as_path_bytes entry.entrySubType segs < 256)
    (hne : joined_segments segs ≠ [])
    (hcap : (joined_segments segs).length < 2048) :
    process_bgp_attributes (as_path_block flags entry.entrySubType segs) entry
        (as_path_block flags entry.entrySubType segs).length
      = ((((as_path_block flags entry.entrySubType segs).length : Nat) : Int),
          { entry with asPath := joined_segments segs }) := by
  have h := (as_path_attribute_spec flags segs entry hflags hok hlen hshort).1
    (by rw [as_path_text_joined]; exact hcap)
  rw [as_path_text_joined, if_neg hne] at h
  exact h

/-- The amended C32 at the example of the specification, in a record of
subtype BGP4MP_MESSAGE_AS4: the rendering is `1 2 {3,4}`. -/
theorem as_path_segments_joined_witness :
    process_bgp_attributes (as_path_block 64 4 seq_then_set)
        { MRTentry_new with entrySubType := 4 } (as_path_block 64 4 seq_then_set).length
      = ((((as_path_block 64 4 seq_then_set).length : Nat) : Int),
          { MRTentry_new with entrySubType := 4, asPath := "1 2 {3,4}".toList }) :=
  (as_path_segments_joined 64 seq_then_set { MRTentry_new with entrySubType := 4 } (by decide)
    (by decide) (by decide) (by decide) (by decide) (by decide)).trans (by decide)

/-- **C32, counterexample.** The AS_SEQUENCE `1 2` followed by the AS_SET
`{3,4}` is accepted and rendered with a space between the two segments, not as
`1 2{3,4}`. -/
theorem as_path_segments_counterexample :
    (process_bgp_attributes (as_path_block 64 4 seq_then_set)
        { MRTentry_new with entrySubType := 4 } (as_path_block 64 4 seq_then_set).length).1
      = (((as_path_block 64 4 seq_then_set).length : Nat) : Int) ∧
    (process_bgp_attributes (as_path_block 64 4 seq_then_set)
        { MRTentry_new with entrySubType := 4 } (as_path_block 64 4 seq_then_set).length).2.asPath
      = "1 2 {3,4}".toList ∧
    (process_bgp_attributes (as_path_block 64 4 seq_then_set)
        { MRTentry_new with entrySubType := 4 } (as_path_block 64 4 seq_then_set).length).2.asPath
      ≠ "1 2{3,4}".toList := by
  decide

theorem attr_body_too_long (buffer : List Nat) (allAttrLen : Nat) (st : AttrState)
    (h : 4096 < attr_len_at buffer st.actOff) :
    ∃ e, attr_body buffer allAttrLen st = Flow.ret 0 e := by
  unfold attr_len_at at h
  unfold attr_body attr_value
  dsimp only
  split_ifs at h ⊢
  all_goals exact ⟨_, rfl⟩

/-- **C35.** An attribute whose type is none of 1, 2, 3, 8, 14 and 15 and
whose declared length is at most 4096: wherever it stands in a block, the
decoder moves the read offset by the declared length and leaves the record as
it is; a block made of such an attribute is accepted with the record unchanged.
An attribute of any type whose declared length exceeds 4096 makes the decoder
return 0. -/
theorem unknown_attribute_skipped (flags type : Nat) (entry : MRTentry) (hflags : flags < 256)
    (htype : type < 256)
    (hunk : type ≠ 1 ∧ type ≠ 2 ∧ type ≠ 3 ∧ type ≠ 8 ∧ type ≠ 14 ∧ type ≠ 15) :
    (∀ buffer allAttrLen attrLen st, attrLen ≤ 4096 → st.actOff + attrLen ≤ allAttrLen →
      attr_value buffer allAttrLen type attrLen st
        = Flow.next { st with
            actOff := st.actOff + attrLen,
            actAllAttrLen := (st.actAllAttrLen + attrLen) % 65536 }) ∧
    (∀ len value, len ≤ 4096 → (flags &&& 16 = 0 → len < 256) →
      process_bgp_attributes (attr_header flags type len ++ value) entry
          ((attr_header flags type len).length + len)
        = ((((attr_header flags type len).length + len : Nat) : Int), entry)) ∧
    (∀ t buffer allAttrLen attrLen st, 4096 < attrLen →
      attr_value buffer allAttrLen t attrLen st = Flow.ret 0 st.entry) ∧
    (∀ buffer allAttrLen st, 4096 < attr_len_at buffer st.actOff →
      ∃ e, attr_body buffer allAttrLen st = Flow.ret 0 e) ∧
    (∀ buffer allAttrLen, 0 < allAttrLen → 4096 < attr_len_at buffer 0 →
      (process_bgp_attributes buffer entry allAttrLen).1 = 0) := by
  obtain ⟨h1, h2, h3, h8, h14, h15⟩ := hunk
  have hsw : ∀ buffer allAttrLen attrLen st, st.actOff + attrLen ≤ allAttrLen →
      attr_switch buffer allAttrLen type attrLen st
        = Flow.next { st with actOff := st.actOff + attrLen } := by
    intro buffer allAttrLen attrLen st hle
    unfold attr_switch
    simp only [BGP_UPDATE_ATTR_ORIGIN, BGP_UPDATE_ATTR_AS_PATH, BGP_UPDATE_NLRI_COMMUNITIES,
      BGP_UPDATE_ATTR_NEXT_HOP, BGP_UPDATE_ATTR_NLRI, BGP_UPDATE_NLRI_UNREACH]
    rw [if_neg h1, if_neg h2, if_neg h8, if_neg h3, if_neg h14, if_neg h15, if_neg (by omega)]
  refine ⟨?_, ?_, ?_, ?_, ?_⟩
  · intro buffer allAttrLen attrLen st hlen hle
    unfold attr_value
    rw [if_neg (by omega), hsw _ _ _ _ hle]
  · intro len value hlen hshort
    have hs := hsw (attr_header flags type len ++ value)
      ((attr_header flags type len).length + len) len
      { actOff := (attr_header flags type len).length,
        actAllAttrLen := (attr_header flags type len).length,
        aspActStrLen := 0, comActStrlen := 0, entry := entry } (Nat.le_refl _)
    rw [single_attribute_next flags type len value entry _ hflags htype hlen hshort hs rfl]
  · intro t buffer allAttrLen attrLen st hlen
    unfold attr_value
    rw [if_pos hlen]
  · intro buffer allAttrLen st h
    exact attr_body_too_long buffer allAttrLen st h
  · intro buffer allAttrLen hpos h
    obtain ⟨e, he⟩ := attr_body_too_long buffer allAttrLen
      { actOff := 0, actAllAttrLen := 0, aspActStrLen := 0, comActStrlen := 0, entry := entry } h
    unfold process_bgp_attributes
    cases allAttrLen with
    | zero => omega
    | succ n =>
      rw [attr_loop, if_pos (by dsimp only; omega), he]

/-- C35 at an attribute of type 16 (extended communities) with 8 bytes of
value, in a block of its own: the block is accepted and the record is
unchanged. -/
theorem unknown_attribute_skipped_witness :
    process_bgp_attributes (attr_header 0xC0 16 8 ++ [0, 2, 0xFD, 0xE8, 0, 0, 0, 1])
        scenario_b_record ((attr_header 0xC0 16 8).length + 8)
      = ((((attr_header 0xC0 16 8).length + 8 : Nat) : Int), scenario_b_record) :=
  (unknown_attribute_skipped 0xC0 16 scenario_b_record (by decide) (by decide)
    (by decide)).2.1 8 [0, 2, 0xFD, 0xE8, 0, 0, 0, 1] (by decide) (by decide)

theorem fmt_d_signed (n : Nat) (h : n < 4294967296) : fmt_d n = int_decimal (to_int32 n) := by
  unfold fmt_d to_int32 int_decimal
  by_cases hn : n < 2147483648
  · rw [if_pos hn, if_pos hn, if_neg (by omega)]
    rfl
  · rw [if_neg hn, if_neg hn, if_pos (by omega)]
    have : ((n : Int) - 4294967296).natAbs = 4294967296 - n := by omega
    rw [this]

theorem as_path_one_asn (flags a : Nat) (r : MRTentry) (hflags : flags < 256)
    (hfit : asn_fits r.entrySubType a) (ha : a < 4294967296) :
    process_bgp_attributes (as_path_block flags r.entrySubType [(BGP_UPDATE_AS_PATH_SEQ, [a])]) r
        (as_path_block flags r.entrySubType [(BGP_UPDATE_AS_PATH_SEQ, [a])]).length
      = ((((as_path_block flags r.entrySubType [(BGP_UPDATE_AS_PATH_SEQ, [a])]).length : Nat)
            : Int),
          { r with asPath := Nat.toDigits 10 a }) := by
  have hw := asn_width_le r.entrySubType
  have htext : as_path_text [(BGP_UPDATE_AS_PATH_SEQ, [a])] = fmt_u a := by
    rw [as_path_text_seq]
    simp [List.intercalate]
  have hl := fmt_u_length_le a 10 (by omega) (by decide)
  have h := (as_path_attribute_spec flags [(BGP_UPDATE_AS_PATH_SEQ, [a])] r hflags
    (fun seg hs => by
      rw [List.mem_singleton] at hs
      subst hs
      exact ⟨Or.inl rfl, by simp, fun x hx => by
        rw [List.mem_singleton] at hx
        subst hx
        exact hfit⟩)
    (by simp only [as_path_bytes, List.length_singleton]; omega)
    (fun _ => by simp only [as_path_bytes, List.length_singleton]; omega)).1
    (by rw [htext]; simp only [MAX_SEND_BUFF]; omega)
  rw [htext, if_neg (fmt_u_ne_nil a)] at h
  exact h

/-- **C38.** `MRTentry_print` writes the timestamp and the peer ASN as the
decimal text of the 32-bit field read as a signed integer: for a peer ASN of
`2^31` or more the field of the line is a minus sign followed by `2^32 - a`.
The same ASN in an AS_PATH (an AS_SEQUENCE of that one ASN, in a record whose
subtype has four-byte ASNs) is rendered as the unsigned decimal. -/
theorem print_signed_fields (entry : MRTentry) (tag : Char) (htag : tag_matches entry tag)
    (hfit : (print_line [tag] entry).length < MAX_BUFF_LEN)
    (ht : entry.time < 4294967296) (hp : entry.peer_asn < 4294967296) :
    MRTentry_print entry
      = some ([tag] ++ '|' :: int_decimal (to_int32 entry.time) ++
          '|' :: List.intercalate [','] entry.pfxNLRI ++
          '|' :: List.intercalate [','] entry.pfxWithdraw ++ '|' :: entry.origin ++
          '|' :: entry.nextHop ++ '|' :: entry.asPath ++ '|' :: entry.communities ++
          '|' :: int_decimal (to_int32 entry.peer_asn) ++ '|' :: entry.peerAddr ++ ['\n']) ∧
    (2147483648 ≤ entry.peer_asn →
      int_decimal (to_int32 entry.peer_asn)
        = '-' :: Nat.toDigits 10 (4294967296 - entry.peer_asn)) ∧
    (∀ flags r, flags < 256 → asn_fits r.entrySubType entry.peer_asn →
      process_bgp_attributes
          (as_path_block flags r.entrySubType [(BGP_UPDATE_AS_PATH_SEQ, [entry.peer_asn])]) r
          (as_path_block flags r.entrySubType
            [(BGP_UPDATE_AS_PATH_SEQ, [entry.peer_asn])]).length
        = ((((as_path_block flags r.entrySubType
                [(BGP_UPDATE_AS_PATH_SEQ, [entry.peer_asn])]).length : Nat) : Int),
            { r with asPath := Nat.toDigits 10 entry.peer_asn })) := by
  refine ⟨?_, ?_, ?_⟩
  · have hj : (print_pieces entry).flatten = print_line [tag] entry := by
      rw [print_pieces_join, print_tag_of entry tag htag]
      simp [print_line]
    unfold MRTentry_print
    have h := print_fold (print_pieces entry) [] (by rw [hj]; simpa using hfit)
    rw [List.length_nil] at h
    rw [h, hj, ← fmt_d_signed _ ht, ← fmt_d_signed _ hp]
    rfl
  · intro h
    rw [← fmt_d_signed _ hp]
    unfold fmt_d
    rw [if_neg (by omega)]
  · intro flags r hflags hfit2
    exact as_path_one_asn flags entry.peer_asn r hflags hfit2 hp

/-- C38 at the record of scenario B with the peer ASN 4200000000: the line
ends with the peer ASN field `-94967296`, and an AS_PATH with that ASN is
rendered `4200000000`. -/
theorem print_signed_fields_witness :
    MRTentry_print { scenario_b_record with peer_asn := 4200000000 }
      = some "U|1|192.0.2.0/24||IGP|10.0.0.1|65000 65001||-94967296|10.0.0.1\n".toList ∧
    process_bgp_attributes (as_path_block 64 4 [(BGP_UPDATE_AS_PATH_SEQ, [4200000000])])
        scenario_b_record
        (as_path_block 64 4 [(BGP_UPDATE_AS_PATH_SEQ, [4200000000])]).length
      = ((((as_path_block 64 4 [(BGP_UPDATE_AS_PATH_SEQ, [4200000000])]).length : Nat) : Int),
          { scenario_b_record with asPath := "4200000000".toList }) :=
  ⟨((print_signed_fields { scenario_b_record with peer_asn := 4200000000 } 'U'
      (Or.inr ⟨Or.inl rfl, Or.inr (Or.inl ⟨rfl, rfl⟩)⟩) (by decide) (by decide)
      (by decide)).1).trans (by decide),
   ((print_signed_fields { scenario_b_record with peer_asn := 4200000000 } 'U'
      (Or.inr ⟨Or.inl rfl, Or.inr (Or.inl ⟨rfl, rfl⟩)⟩) (by decide) (by decide)
      (by decide)).2.2 64 scenario_b_record (by decide) (by decide)).trans (by decide)⟩

/-! ## The withdrawn section, and the end of the loops -/

theorem process_prefix_mask_le (buffer : List Nat) (af : AddrFamily) (r : List Char × Nat)
    (h : process_prefix buffer af = some r) : get_buf_char buffer ≤ 128 := by
  unfold process_prefix at h
  dsimp only at h
  split_ifs at h with h1
  omega

theorem withdraw_loop_bytes (buffer : List Nat) (max_len withdrawLen : Nat) :
    ∀ (fuel actOff actWithLen : Nat) (entry : MRTentry) (a : Nat) (e1 : MRTentry),
      withdraw_loop buffer max_len withdrawLen fuel actOff actWithLen entry = some (a, e1) →
      actWithLen + 17 * (MAX_NB_PREFIXES - entry.pfxWithdraw.length) < 65536 →
      ∃ w, a = actOff + w ∧ withdrawLen ≤ actWithLen + w ∧
        (actWithLen < withdrawLen → actWithLen + w ≤ withdrawLen + 16) ∧
        (withdrawLen ≤ actWithLen → w = 0) := by
  intro fuel
  induction fuel with
  | zero =>
    intro actOff actWithLen entry a e1 h _
    rw [withdraw_loop] at h
    split_ifs at h with hc
    cases h
    exact ⟨0, rfl, by omega, fun hlt => absurd hlt hc, fun _ => rfl⟩
  | succ fuel ih =>
    intro actOff actWithLen entry a e1 h hinv
    rw [withdraw_loop] at h
    by_cases hc : actWithLen < withdrawLen
    · rw [if_pos hc] at h
      by_cases hfull : entry.pfxWithdraw.length ≥ MAX_NB_PREFIXES
      · rw [if_pos hfull] at h
        dsimp only at h
        split_ifs at h
        rw [withdraw_loop_stuck _ _ _ _ _ hfull hc] at h
        cases h
      · rw [if_neg hfull] at h
        cases hp : process_prefix (buffer.drop actOff) AddrFamily.AF_INET with
        | none => rw [hp] at h; cases h
        | some r =>
          obtain ⟨text, parsedLen⟩ := r
          have hret := process_prefix_ret _ _ _ _ hp
          have hmask := process_prefix_mask_le _ _ _ hp
          rw [hp] at h
          dsimp only at h
          split_ifs at h
          have hno : (actWithLen + parsedLen) % 65536 = actWithLen + parsedLen := by
            apply Nat.mod_eq_of_lt
            simp only [MAX_NB_PREFIXES] at hinv hfull
            omega
          rw [hno] at h
          obtain ⟨w, hw1, hw2, hw3, hw4⟩ := ih _ _ _ _ _ h (by
            simp only [List.length_append, List.length_singleton, MAX_NB_PREFIXES] at hinv hfull ⊢
            omega)
          refine ⟨parsedLen + w, by omega, by omega, fun _ => ?_, fun hle => by omega⟩
          by_cases hlt : actWithLen + parsedLen < withdrawLen
          · have := hw3 hlt
            omega
          · have := hw4 (by omega)
            omega
    · rw [if_neg hc] at h
      cases h
      exact ⟨0, rfl, by omega, fun hlt => absurd hlt hc, fun _ => rfl⟩

/-- **C31 (amended).** Whenever `process_bgp_update` succeeds, the withdrawn
prefixes it decoded occupy `w` bytes with `withdraw_len <= w <= withdraw_len +
16` (and `w` = 0 when `withdraw_len` is 0): the last prefix may run past the
declared length.  The attribute length is read right after them, at offset
`2 + w` of the UPDATE body, and the attributes at offset `2 + w + 2`. -/
theorem withdrawn_section_bytes (buffer : List Nat) (entry e : MRTentry) (max_len : Nat)
    (h : process_bgp_update buffer entry max_len = some e) :
    ∃ w e1,
      withdraw_loop buffer max_len (get_buf_short buffer) max_len 2 0 entry = some (2 + w, e1) ∧
      get_buf_short buffer ≤ w ∧ w ≤ get_buf_short buffer + 16 ∧
      (get_buf_short buffer = 0 → w = 0) ∧
      (process_bgp_attributes (buffer.drop (2 + w + 2)) e1
          (get_buf_short (buffer.drop (2 + w)))).1
        = (get_buf_short (buffer.drop (2 + w)) : Int) := by
  unfold process_bgp_update at h
  dsimp only at h
  split_ifs at h
  cases hw : withdraw_loop buffer max_len (get_buf_short buffer) max_len 2 0 entry with
  | none => rw [hw] at h; cases h
  | some r =>
    obtain ⟨a, e1⟩ := r
    rw [hw] at h
    dsimp only at h
    split_ifs at h with h2 h3
    obtain ⟨w, hw1, hw2, hw3, hw4⟩ := withdraw_loop_bytes _ _ _ _ _ _ _ _ _ hw (by
      simp only [MAX_NB_PREFIXES]
      omega)
    subst hw1
    refine ⟨w, e1, rfl, by omega, ?_, fun hz => hw4 (by omega), not_not.mp h3⟩
    by_cases hz : get_buf_short buffer = 0
    · have := hw4 (by omega)
      omega
    · have := hw3 (by omega)
      omega

/-- The amended C31 at the UPDATE of scenario B, whose withdrawn length is
0. -/
theorem withdrawn_section_bytes_witness :
    ∃ w e1,
      withdraw_loop scenario_b_update_24 32 (get_buf_short scenario_b_update_24) 32 2 0
        MRTentry_new = some (2 + w, e1) ∧
      get_buf_short scenario_b_update_24 ≤ w ∧ w ≤ get_buf_short scenario_b_update_24 + 16 ∧
      (get_buf_short scenario_b_update_24 = 0 → w = 0) ∧
      (process_bgp_attributes (scenario_b_update_24.drop (2 + w + 2)) e1
          (get_buf_short (scenario_b_update_24.drop (2 + w)))).1
        = (get_buf_short (scenario_b_update_24.drop (2 + w)) : Int) :=
  withdrawn_section_bytes scenario_b_update_24 MRTentry_new
    { MRTentry_new with
      pfxNLRI := ["192.0.2.0/24".toList], origin := "IGP".toList,
      nextHop := "10.0.0.1".toList, asPath := "65000 65001".toList } 32 (by decide)

/-- **C31, counterexample.** An UPDATE body with `withdraw_len` = 1 whose
withdrawn section starts with a prefix of 4 bytes: `process_bgp_update`
succeeds, the withdrawn prefix occupies 4 bytes, and the attribute length is
read at offset 6, not at offset 3. -/
theorem withdrawn_section_counterexample :
    get_buf_short overlong_withdraw_update = 1 ∧
    process_bgp_update overlong_withdraw_update MRTentry_new 8
      = some { MRTentry_new with pfxWithdraw := ["192.0.2.0/24".toList] } ∧
    withdraw_loop overlong_withdraw_update 8 1 8 2 0 MRTentry_new
      = some (6, { MRTentry_new with pfxWithdraw := ["192.0.2.0/24".toList] }) := by
  decide

theorem withdraw_loop_fuel (buffer : List Nat) (max_len withdrawLen : Nat) :
    ∀ (fuel k actOff actWithLen : Nat) (entry : MRTentry), max_len ≤ actOff + fuel →
      withdraw_loop buffer max_len withdrawLen (fuel + k) actOff actWithLen entry
        = withdraw_loop buffer max_len withdrawLen fuel actOff actWithLen entry := by
  intro fuel
  induction fuel with
  | zero =>
    intro k actOff actWithLen entry hm
    cases k with
    | zero => rfl
    | succ k =>
      rw [Nat.zero_add, withdraw_loop, withdraw_loop]
      by_cases h1 : actWithLen < withdrawLen
      · rw [if_pos h1, if_pos h1]
        by_cases h2 : entry.pfxWithdraw.length ≥ MAX_NB_PREFIXES
        · rw [if_pos h2]
          dsimp only
          split_ifs
          · rfl
          · rfl
          · omega
        · rw [if_neg h2]
          cases hp : process_prefix (buffer.drop actOff) AddrFamily.AF_INET with
          | none => rfl
          | some r =>
            obtain ⟨text, parsedLen⟩ := r
            have hret := process_prefix_ret _ _ _ _ hp
            dsimp only
            rw [if_pos (by omega)]
      · rw [if_neg h1, if_neg h1]
  | succ fuel ih =>
    intro k actOff actWithLen entry hm
    rw [Nat.add_right_comm, withdraw_loop, withdraw_loop]
    by_cases h1 : actWithLen < withdrawLen
    · rw [if_pos h1, if_pos h1]
      by_cases h2 : entry.pfxWithdraw.length ≥ MAX_NB_PREFIXES
      · rw [if_pos h2, if_pos h2]
        dsimp only
        split_ifs
        · rfl
        · rfl
        · exact ih _ _ _ _ (by omega)
      · rw [if_neg h2, if_neg h2]
        cases hp : process_prefix (buffer.drop actOff) AddrFamily.AF_INET with
        | none => rfl
        | some r =>
          obtain ⟨text, parsedLen⟩ := r
          have hret := process_prefix_ret _ _ _ _ hp
          dsimp only
          split_ifs
          · rfl
          · exact ih _ _ _ _ (by omega)
    · rw [if_neg h1, if_neg h1]

theorem nlri_loop_fuel (buffer : List Nat) (max_len : Nat) :
    ∀ (fuel k actOff : Nat) (entry : MRTentry), max_len ≤ actOff + fuel →
      nlri_loop buffer max_len (fuel + k) actOff entry
        = nlri_loop buffer max_len fuel actOff entry := by
  intro fuel
  induction fuel with
  | zero =>
    intro k actOff entry hm
    cases k with
    | zero => rfl
    | succ k =>
      rw [Nat.zero_add, nlri_loop, nlri_loop, if_neg (by omega), if_neg (by omega)]
  | succ fuel ih =>
    intro k actOff entry hm
    rw [Nat.add_right_comm, nlri_loop, nlri_loop]
    by_cases h1 : actOff < max_len
    · rw [if_pos h1, if_pos h1]
      by_cases h2 : entry.pfxNLRI.length ≥ MAX_NB_PREFIXES
      · rw [if_pos h2, if_pos h2]
        dsimp only
        split_ifs
        · rfl
        · rfl
        · exact ih _ _ _ (by omega)
      · rw [if_neg h2, if_neg h2]
        cases hp : process_prefix (buffer.drop actOff) AddrFamily.AF_INET with
        | none => rfl
        | some r =>
          obtain ⟨text, parsedLen⟩ := r
          have hret := process_prefix_ret _ _ _ _ hp
          dsimp only
          split_ifs
          · rfl
          · exact ih _ _ _ (by omega)
    · rw [if_neg h1, if_neg h1]

theorem withdraw_turn_progress (buffer : List Nat) (max_len withdrawLen : Nat)
    (s s1 : Nat × Nat × MRTentry)
    (h : withdraw_turn buffer max_len withdrawLen s = Turn.again s1) :
    s.1 < s1.1 ∧ s1.1 ≤ max_len ∧
      (s.2.2.pfxWithdraw.length ≥ MAX_NB_PREFIXES → s1.2.1 = s.2.1) := by
  unfold withdraw_turn at h
  split_ifs at h with h1 h2
  · dsimp only at h
    split_ifs at h
    cases h
    dsimp only
    exact ⟨by omega, by omega, fun _ => rfl⟩
  · cases hp : process_prefix (buffer.drop s.1) AddrFamily.AF_INET with
    | none => rw [hp] at h; cases h
    | some r =>
      obtain ⟨text, parsedLen⟩ := r
      have hret := process_prefix_ret _ _ _ _ hp
      rw [hp] at h
      dsimp only at h
      split_ifs at h
      cases h
      dsimp only
      exact ⟨by omega, by omega, fun hn => absurd hn h2⟩

theorem nlri_turn_progress (buffer : List Nat) (max_len : Nat) (s s1 : Nat × MRTentry)
    (h : nlri_turn buffer max_len s = Turn.again s1) : s.1 < s1.1 ∧ s1.1 ≤ max_len := by
  unfold nlri_turn at h
  split_ifs at h
  · dsimp only at h
    split_ifs at h
    cases h
    dsimp only
    omega
  · cases hp : process_prefix (buffer.drop s.1) AddrFamily.AF_INET with
    | none => rw [hp] at h; cases h
    | some r =>
      obtain ⟨text, parsedLen⟩ := r
      have hret := process_prefix_ret _ _ _ _ hp
      rw [hp] at h
      dsimp only at h
      split_ifs at h
      cases h
      dsimp only
      omega

theorem attr_turn_progress (buffer : List Nat) (allAttrLen : Nat) (st st1 : AttrState)
    (h : attr_turn buffer allAttrLen st = Turn.again st1) :
    st.actOff < st1.actOff ∧ st1.actOff ≤ allAttrLen := by
  unfold attr_turn at h
  split_ifs at h
  cases hb : attr_body buffer allAttrLen st with
  | ret c e => rw [hb] at h; cases h
  | next st2 =>
    rw [hb] at h
    cases h
    have hp := attr_body_progress _ _ _ _ hb
    omega

theorem as_path_turn_progress (buffer : List Nat) (allAttrLen attrLen : Nat)
    (s s1 : Nat × AttrState)
    (h : as_path_turn buffer allAttrLen attrLen s = Turn.again s1) :
    s.1 < attrLen ∧ s.1 < s1.1 ∧ s.2.actOff < s1.2.actOff ∧ s1.2.actOff ≤ allAttrLen := by
  unfold as_path_turn at h
  dsimp only at h
  split_ifs at h with h1 h2 h3
  · split at h
    · cases h
    · rename_i p1 st1 hs
      cases h
      have hm := as_path_seq_mono _ _ _ _ _ _ _ hs
      have ha := as_path_seq_adv _ _ _ _ _ _ _ hs (by dsimp only; omega)
      dsimp only at hm ha ⊢
      omega
  · split at h
    · cases h
    · rename_i p1 st2 hs
      have hm := as_path_set_mono _ _ _ _ _ _ _ _ hs
      have ha := as_path_set_adv _ _ _ _ _ _ _ _ hs
        (by rw [write_as_path_actOff]; dsimp only; omega)
      try dsimp only at h
      split_ifs at h
      cases h
      rw [write_as_path_actOff] at ha
      dsimp only at hm ha ⊢
      rw [write_as_path_actOff]
      omega
  · cases h
    try dsimp only
    omega

theorem communities_turn_progress (buffer : List Nat) (allAttrLen attrLen : Nat)
    (s s1 : Nat × AttrState)
    (h : communities_turn buffer allAttrLen attrLen s = Turn.again s1) :
    s.1 < attrLen ∧ s.1 < s1.1 ∧ s.2.actOff < s1.2.actOff ∧ s1.2.actOff ≤ allAttrLen := by
  unfold communities_turn at h
  dsimp only at h
  split_ifs at h
  cases h
  dsimp only
  omega

theorem mp_reach_turn_progress (buffer : List Nat) (allAttrLen attrLen : Nat)
    (s s1 : Nat × AttrState)
    (h : mp_reach_turn buffer allAttrLen attrLen s = Turn.again s1) :
    s.1 < attrLen ∧ s.1 < s1.1 ∧ s.2.actOff < s1.2.actOff ∧ s1.2.actOff ≤ allAttrLen := by
  unfold mp_reach_turn at h
  split_ifs at h
  cases hp : process_prefix (buffer.drop s.2.actOff) AddrFamily.AF_INET6 with
  | none => rw [hp] at h; cases h
  | some r =>
    obtain ⟨text, ret⟩ := r
    have hret := process_prefix_ret _ _ _ _ hp
    rw [hp] at h
    dsimp only at h
    split_ifs at h
    cases h
    dsimp only
    omega

theorem mp_unreach_turn_progress (buffer : List Nat) (allAttrLen attrLen : Nat)
    (s s1 : Nat × AttrState)
    (h : mp_unreach_turn buffer allAttrLen attrLen s = Turn.again s1) :
    s.1 < attrLen ∧ s.1 < s1.1 ∧ s.2.actOff < s1.2.actOff ∧ s1.2.actOff ≤ allAttrLen := by
  unfold mp_unreach_turn at h
  split_ifs at h
  cases hp : process_prefix (buffer.drop s.2.actOff) AddrFamily.AF_INET6 with
  | none => rw [hp] at h; cases h
  | some r =>
    obtain ⟨text, ret⟩ := r
    have hret := process_prefix_ret _ _ _ _ hp
    rw [hp] at h
    dsimp only at h
    split_ifs at h
    cases h
    dsimp only
    omega

theorem withdraw_loop_run (buffer : List Nat) (max_len withdrawLen : Nat) :
    ∀ (fuel actOff actWithLen : Nat) (entry : MRTentry), max_len ≤ actOff + fuel →
      run_loop (withdraw_turn buffer max_len withdrawLen) (fuel + 1) (actOff, actWithLen, entry) =
        some (withdraw_loop buffer max_len withdrawLen fuel actOff actWithLen entry) := by
  intro fuel
  induction fuel with
  | zero =>
    intro actOff actWithLen entry hm
    rw [run_loop, withdraw_loop]
    unfold withdraw_turn
    try dsimp only
    by_cases hc : actWithLen < withdrawLen
    · rw [if_pos hc, if_pos hc]
      by_cases hn : entry.pfxWithdraw.length ≥ MAX_NB_PREFIXES
      · rw [if_pos hn]
        split_ifs
        · rfl
        · rfl
        · omega
      · rw [if_neg hn]
        cases hp : process_prefix (buffer.drop actOff) AddrFamily.AF_INET with
        | none => rfl
        | some r =>
          obtain ⟨text, parsedLen⟩ := r
          have hret := process_prefix_ret _ _ _ _ hp
          try dsimp only
          rw [if_pos (by omega)]
    · rw [if_neg hc, if_neg hc]
  | succ fuel ih =>
    intro actOff actWithLen entry hm
    rw [run_loop, withdraw_loop]
    unfold withdraw_turn
    try dsimp only
    by_cases hc : actWithLen < withdrawLen
    · rw [if_pos hc, if_pos hc]
      by_cases hn : entry.pfxWithdraw.length ≥ MAX_NB_PREFIXES
      · rw [if_pos hn, if_pos hn]
        try dsimp only
        split_ifs
        · rfl
        · rfl
        · dsimp only
          exact ih _ _ _ (by omega)
      · rw [if_neg hn, if_neg hn]
        cases hp : process_prefix (buffer.drop actOff) AddrFamily.AF_INET with
        | none => rfl
        | some r =>
          obtain ⟨text, parsedLen⟩ := r
          have hret := process_prefix_ret _ _ _ _ hp
          try dsimp only
          split_ifs
          · rfl
          · dsimp only
            exact ih _ _ _ (by omega)
    · rw [if_neg hc, if_neg hc]

theorem nlri_loop_run (buffer : List Nat) (max_len : Nat) :
    ∀ (fuel actOff : Nat) (entry : MRTentry), max_len ≤ actOff + fuel →
      run_loop (nlri_turn buffer max_len) (fuel + 1) (actOff, entry) =
        some (nlri_loop buffer max_len fuel actOff entry) := by
  intro fuel
  induction fuel with
  | zero =>
    intro actOff entry hm
    rw [run_loop, nlri_loop]
    unfold nlri_turn
    try dsimp only
    rw [if_neg (by omega), if_neg (by omega)]
  | succ fuel ih =>
    intro actOff entry hm
    rw [run_loop, nlri_loop]
    unfold nlri_turn
    try dsimp only
    by_cases hc : actOff < max_len
    · rw [if_pos hc, if_pos hc]
      by_cases hn : entry.pfxNLRI.length ≥ MAX_NB_PREFIXES
      · rw [if_pos hn, if_pos hn]
        try dsimp only
        split_ifs
        · rfl
        · rfl
        · dsimp only
          exact ih _ _ (by omega)
      · rw [if_neg hn, if_neg hn]
        cases hp : process_prefix (buffer.drop actOff) AddrFamily.AF_INET with
        | none => rfl
        | some r =>
          obtain ⟨text, parsedLen⟩ := r
          have hret := process_prefix_ret _ _ _ _ hp
          try dsimp only
          split_ifs
          · rfl
          · dsimp only
            exact ih _ _ (by omega)
    · rw [if_neg hc, if_neg hc]

theorem attr_loop_run (buffer : List Nat) (allAttrLen : Nat) :
    ∀ (fuel : Nat) (st : AttrState), allAttrLen ≤ st.actOff + fuel →
      run_loop (attr_turn buffer allAttrLen) (fuel + 1) st =
        some (attr_loop buffer allAttrLen fuel st) := by
  intro fuel
  induction fuel with
  | zero =>
    intro st hm
    rw [run_loop, attr_loop]
    unfold attr_turn
    by_cases hc : st.actAllAttrLen < allAttrLen
    · rw [if_pos hc, if_pos hc, attr_body_at_end _ _ _ (by omega)]
    · rw [if_neg hc, if_neg hc]
  | succ fuel ih =>
    intro st hm
    rw [run_loop, attr_loop]
    unfold attr_turn
    by_cases hc : st.actAllAttrLen < allAttrLen
    · rw [if_pos hc, if_pos hc]
      cases hb : attr_body buffer allAttrLen st with
      | ret c e => rfl
      | next st1 =>
        have hp := attr_body_progress _ _ _ _ hb
        try dsimp only
        exact ih _ (by omega)
    · rw [if_neg hc, if_neg hc]

theorem as_path_loop_turn (buffer : List Nat) (allAttrLen attrLen fuel p : Nat)
    (st : AttrState) :
    as_path_loop buffer allAttrLen attrLen (fuel + 1) p st =
      match as_path_turn buffer allAttrLen attrLen (p, st) with
      | Turn.done r => r
      | Turn.again s1 => as_path_loop buffer allAttrLen attrLen fuel s1.1 s1.2 := by
  rw [as_path_loop]
  unfold as_path_turn
  dsimp only
  split_ifs
  · rfl
  · rfl
  · cases hs : as_path_seq buffer allAttrLen attrLen
        (get_buf_char (buffer.drop (st.actOff + 1))) (p + 2)
        { st with actOff := st.actOff + 1 + 1 } with
    | ret c e => rfl
    | next r => rfl
  · rfl
  · cases hs : as_path_set buffer allAttrLen
        (get_buf_char (buffer.drop (st.actOff + 1)))
        (get_buf_char (buffer.drop (st.actOff + 1))) 0 (p + 2)
        (write_as_path { st with actOff := st.actOff + 1 + 1 }
          (MAX_ATTR - ({ st with actOff := st.actOff + 1 + 1 } : AttrState).aspActStrLen)
          ['{']) with
    | ret c e => rfl
    | next r =>
      obtain ⟨p1, st2⟩ := r
      dsimp only
      split_ifs
      · rfl
      · rfl
  · rfl
  · rfl

theorem as_path_loop_run (buffer : List Nat) (allAttrLen attrLen : Nat) :
    ∀ (fuel p : Nat) (st : AttrState), attrLen ≤ p + fuel →
      run_loop (as_path_turn buffer allAttrLen attrLen) (fuel + 1) (p, st) =
        some (as_path_loop buffer allAttrLen attrLen fuel p st) := by
  intro fuel
  induction fuel with
  | zero =>
    intro p st hm
    rw [run_loop, as_path_loop]
    have ht : as_path_turn buffer allAttrLen attrLen (p, st) = Turn.done (Flow.next st) := by
      unfold as_path_turn
      dsimp only
      rw [if_neg (by omega)]
    rw [ht, if_neg (by omega)]
  | succ fuel ih =>
    intro p st hm
    rw [run_loop, as_path_loop_turn]
    cases ht : as_path_turn buffer allAttrLen attrLen (p, st) with
    | done r => rfl
    | again s1 =>
      obtain ⟨p1, st1⟩ := s1
      have hp := as_path_turn_progress _ _ _ _ _ ht
      dsimp only at hp ⊢
      exact ih _ _ (by omega)

theorem communities_loop_run (buffer : List Nat) (allAttrLen attrLen : Nat) :
    ∀ (fuel p : Nat) (st : AttrState), attrLen ≤ p + fuel →
      run_loop (communities_turn buffer allAttrLen attrLen) (fuel + 1) (p, st) =
        some (communities_loop buffer allAttrLen attrLen fuel p st) := by
  intro fuel
  induction fuel with
  | zero =>
    intro p st hm
    rw [run_loop, communities_loop]
    unfold communities_turn
    try dsimp only
    rw [if_neg (by omega), if_neg (by omega)]
  | succ fuel ih =>
    intro p st hm
    rw [run_loop, communities_loop]
    unfold communities_turn
    try dsimp only
    split_ifs
    · rfl
    · rfl
    · rfl
    · exact ih _ _ (by omega)
    · rfl

theorem mp_reach_loop_run (buffer : List Nat) (allAttrLen attrLen : Nat) :
    ∀ (fuel p : Nat) (st : AttrState), attrLen ≤ p + fuel →
      run_loop (mp_reach_turn buffer allAttrLen attrLen) (fuel + 1) (p, st) =
        some (mp_reach_loop buffer allAttrLen attrLen fuel p st) := by
  intro fuel
  induction fuel with
  | zero =>
    intro p st hm
    rw [run_loop, mp_reach_loop]
    unfold mp_reach_turn
    try dsimp only
    rw [if_neg (by omega), if_neg (by omega)]
  | succ fuel ih =>
    intro p st hm
    rw [run_loop, mp_reach_loop]
    unfold mp_reach_turn
    try dsimp only
    by_cases hc : p < attrLen
    · rw [if_pos hc, if_pos hc]
      cases hp : process_prefix (buffer.drop st.actOff) AddrFamily.AF_INET6 with
      | none => rfl
      | some r =>
        obtain ⟨text, ret⟩ := r
        have hret := process_prefix_ret _ _ _ _ hp
        try dsimp only
        split_ifs
        · rfl
        · dsimp only
          exact ih _ _ (by omega)
    · rw [if_neg hc, if_neg hc]

theorem mp_unreach_loop_run (buffer : List Nat) (allAttrLen attrLen : Nat) :
    ∀ (fuel p : Nat) (st : AttrState), attrLen ≤ p + fuel →
      run_loop (mp_unreach_turn buffer allAttrLen attrLen) (fuel + 1) (p, st) =
        some (mp_unreach_loop buffer allAttrLen attrLen fuel p st) := by
  intro fuel
  induction fuel with
  | zero =>
    intro p st hm
    rw [run_loop, mp_unreach_loop]
    unfold mp_unreach_turn
    try dsimp only
    rw [if_neg (by omega), if_neg (by omega)]
  | succ fuel ih =>
    intro p st hm
    rw [run_loop, mp_unreach_loop]
    unfold mp_unreach_turn
    try dsimp only
    by_cases hc : p < attrLen
    · rw [if_pos hc, if_pos hc]
      cases hp : process_prefix (buffer.drop st.actOff) AddrFamily.AF_INET6 with
      | none => rfl
      | some r =>
        obtain ⟨text, ret⟩ := r
        have hret := process_prefix_ret _ _ _ _ hp
        try dsimp only
        split_ifs
        · rfl
        · dsimp only
          exact ih _ _ (by omega)
    · rw [if_neg hc, if_neg hc]

/-- **C37.** The loops of `process_bgp_update` and `process_bgp_attributes`
end on every input.  For the loop over the withdrawn section (the branch taken
above the cap included, which leaves `actWithLen` as it is), over the IPv4
NLRI, over the attributes, over the AS_PATH segments, over the communities and
over the prefixes of MP_REACH_NLRI and MP_UNREACH_NLRI: a turn that does not
leave the loop strictly increases the read offset, which stays at most the
enclosing limit (`max_len`, `allAttrLen`), and for the loops inside an
attribute strictly increases `parsedLen`, which was below `attrLen`; and the
loop, run turn after turn, is left within `limit + 1` turns (`attrLen + 1`
inside an attribute) with the result the embedding gives. -/
theorem decoders_terminate (buffer : List Nat) (limit attrLen : Nat) :
    (∀ withdrawLen s s1, withdraw_turn buffer limit withdrawLen s = Turn.again s1 →
      s.1 < s1.1 ∧ s1.1 ≤ limit ∧
        (s.2.2.pfxWithdraw.length ≥ MAX_NB_PREFIXES → s1.2.1 = s.2.1)) ∧
    (∀ withdrawLen actOff actWithLen entry,
      run_loop (withdraw_turn buffer limit withdrawLen) (limit + 1) (actOff, actWithLen, entry) =
        some (withdraw_loop buffer limit withdrawLen limit actOff actWithLen entry)) ∧
    (∀ s s1, nlri_turn buffer limit s = Turn.again s1 → s.1 < s1.1 ∧ s1.1 ≤ limit) ∧
    (∀ actOff entry,
      run_loop (nlri_turn buffer limit) (limit + 1) (actOff, entry) =
        some (nlri_loop buffer limit limit actOff entry)) ∧
    (∀ st st1, attr_turn buffer limit st = Turn.again st1 →
      st.actOff < st1.actOff ∧ st1.actOff ≤ limit) ∧
    (∀ st, run_loop (attr_turn buffer limit) (limit + 1) st =
      some (attr_loop buffer limit limit st)) ∧
    (∀ s s1, as_path_turn buffer limit attrLen s = Turn.again s1 →
      s.1 < attrLen ∧ s.1 < s1.1 ∧ s.2.actOff < s1.2.actOff ∧ s1.2.actOff ≤ limit) ∧
    (∀ p st, run_loop (as_path_turn buffer limit attrLen) (attrLen + 1) (p, st) =
      some (as_path_loop buffer limit attrLen attrLen p st)) ∧
    (∀ s s1, communities_turn buffer limit attrLen s = Turn.again s1 →
      s.1 < attrLen ∧ s.1 < s1.1 ∧ s.2.actOff < s1.2.actOff ∧ s1.2.actOff ≤ limit) ∧
    (∀ p st, run_loop (communities_turn buffer limit attrLen) (attrLen + 1) (p, st) =
      some (communities_loop buffer limit attrLen attrLen p st)) ∧
    (∀ s s1, mp_reach_turn buffer limit attrLen s = Turn.again s1 →
      s.1 < attrLen ∧ s.1 < s1.1 ∧ s.2.actOff < s1.2.actOff ∧ s1.2.actOff ≤ limit) ∧
    (∀ p st, run_loop (mp_reach_turn buffer limit attrLen) (attrLen + 1) (p, st) =
      some (mp_reach_loop buffer limit attrLen attrLen p st)) ∧
    (∀ s s1, mp_unreach_turn buffer limit attrLen s = Turn.again s1 →
      s.1 < attrLen ∧ s.1 < s1.1 ∧ s.2.actOff < s1.2.actOff ∧ s1.2.actOff ≤ limit) ∧
    (∀ p st, run_loop (mp_unreach_turn buffer limit attrLen) (attrLen + 1) (p, st) =
      some (mp_unreach_loop buffer limit attrLen attrLen p st)) :=
  ⟨fun _ s s1 h => withdraw_turn_progress _ _ _ s s1 h,
   fun _ _ _ _ => withdraw_loop_run _ _ _ _ _ _ _ (Nat.le_add_left _ _),
   fun s s1 h => nlri_turn_progress _ _ s s1 h,
   fun _ _ => nlri_loop_run _ _ _ _ _ (Nat.le_add_left _ _),
   fun st st1 h => attr_turn_progress _ _ st st1 h,
   fun _ => attr_loop_run _ _ _ _ (Nat.le_add_left _ _),
   fun s s1 h => as_path_turn_progress _ _ _ s s1 h,
   fun _ _ => as_path_loop_run _ _ _ _ _ _ (Nat.le_add_left _ _),
   fun s s1 h => communities_turn_progress _ _ _ s s1 h,
   fun _ _ => communities_loop_run _ _ _ _ _ _ (Nat.le_add_left _ _),
   fun s s1 h => mp_reach_turn_progress _ _ _ s s1 h,
   fun _ _ => mp_reach_loop_run _ _ _ _ _ _ (Nat.le_add_left _ _),
   fun s s1 h => mp_unreach_turn_progress _ _ _ s s1 h,
   fun _ _ => mp_unreach_loop_run _ _ _ _ _ _ (Nat.le_add_left _ _)⟩

/-- C37 at the withdrawn section of `overlong_withdraw_update`: the first
turn of the loop reads the prefix of 4 bytes at offset 2 and goes on from
offset 6. -/
theorem decoders_terminate_witness :
    withdraw_turn overlong_withdraw_update 8 1 (2, 0, MRTentry_new) =
        Turn.again (6, 4, { MRTentry_new with pfxWithdraw := ["192.0.2.0/24".toList] }) ∧
      (2 : Nat) < 6 ∧ (6 : Nat) ≤ 8 :=
  ⟨by decide,
   ((decoders_terminate overlong_withdraw_update 8 0).1 1 (2, 0, MRTentry_new)
      (6, 4, { MRTentry_new with pfxWithdraw := ["192.0.2.0/24".toList] }) (by decide)).1,
   ((decoders_terminate overlong_withdraw_update 8 0).1 1 (2, 0, MRTentry_new)
      (6, 4, { MRTentry_new with pfxWithdraw := ["192.0.2.0/24".toList] }) (by decide)).2.1⟩

/-! ## The per-peer entries of a RIB entry -/

theorem rib_peer_entry_index_lt (buffer : List Nat) (d : File_buf_t) (max_len actOff a : Nat)
    (e e1 : MRTentry) (h : rib_peer_entry buffer d max_len actOff e = some (a, e1)) :
    get_buf_short (buffer.drop actOff) < 256 := by
  unfold rib_peer_entry at h
  dsimp only at h
  split_ifs at h
  omega

theorem rib_sibling_loop_entries (buffer : List Nat) (d : File_buf_t) (max_len : Nat)
    (entry : MRTentry) :
    ∀ (n actOff : Nat) (chain res : List MRTentry),
      rib_sibling_loop buffer d max_len entry n actOff chain = some res →
      ∃ sibs, res = chain ++ sibs ∧ sibs.length = n ∧
        (∀ k r, sibs[k]? = some r →
          ∃ a, rib_peer_entry buffer d max_len (entry_offset_from buffer actOff k)
            (MRTentry_copy_for_ribs entry) = some (a, r)) ∧
        rib_sibling_loop_end buffer d max_len entry n actOff
          = some (entry_offset_from buffer actOff n) := by
  intro n
  induction n with
  | zero =>
    intro actOff chain res h
    rw [rib_sibling_loop] at h
    cases h
    exact ⟨[], by simp, rfl, fun k r hk => by simp at hk, rfl⟩
  | succ n ih =>
    intro actOff chain res h
    rw [rib_sibling_loop] at h
    rw [rib_sibling_loop_end]
    cases hp : rib_peer_entry buffer d max_len actOff (MRTentry_copy_for_ribs entry) with
    | none => rw [hp] at h; cases h
    | some t =>
      obtain ⟨actOff1, tmp⟩ := t
      rw [hp] at h
      dsimp only at h ⊢
      obtain ⟨sibs, hs, hl, hall, hend⟩ := ih _ _ _ h
      have hspec := rib_peer_entry_spec _ _ _ _ _ _ _ hp
      refine ⟨tmp :: sibs, by rw [hs]; simp, by simp [hl], ?_, ?_⟩
      · intro k r hk
        cases k with
        | zero =>
          simp only [List.getElem?_cons_zero, Option.some.injEq] at hk
          subst hk
          exact ⟨actOff1, hp⟩
        | succ k =>
          simp only [List.getElem?_cons_succ] at hk
          have := hall k r hk
          rw [hspec.1, entry_offset_from_shift] at this
          exact this
      · rw [hend, hspec.1, entry_offset_from_shift]

theorem process_bgp_rib_entry_records (buffer : List Nat) (d : File_buf_t) (entry e : MRTentry)
    (chain : List MRTentry) (max_len : Nat)
    (h : process_bgp_rib_entry buffer d entry max_len = some (e, chain)) :
    ∃ text, process_prefix (buffer.drop 4) (rib_family entry.entrySubType)
        = some (text, rib_prefix_len buffer) ∧
      (∃ a, rib_peer_entry buffer d max_len (rib_entry_offset buffer 0)
          { entry with pfxNLRI := entry.pfxNLRI ++ [text] } = some (a, e)) ∧
      chain.length = rib_entries_count buffer - 1 ∧
      (∀ k r, chain[k]? = some r →
        ∃ a, rib_peer_entry buffer d max_len (rib_entry_offset buffer (k + 1))
          (MRTentry_copy_for_ribs e) = some (a, r)) ∧
      process_bgp_rib_entry_end buffer d entry max_len
        = some (rib_entry_offset buffer (1 + (rib_entries_count buffer - 1))) := by
  unfold process_bgp_rib_entry at h
  unfold process_bgp_rib_entry_end
  split_ifs at h ⊢ with h1
  cases hp : process_prefix (buffer.drop 4) (rib_family entry.entrySubType) with
  | none => rw [hp] at h; cases h
  | some t =>
    obtain ⟨text, ret⟩ := t
    have hret : ret = rib_prefix_len buffer := process_prefix_ret _ _ _ _ hp
    subst hret
    rw [hp] at h
    dsimp only at h ⊢
    split_ifs at h ⊢ with h2 h3
    cases hpe : rib_peer_entry buffer d max_len (4 + rib_prefix_len buffer + 2)
        { entry with pfxNLRI := entry.pfxNLRI ++ [text] } with
    | none => rw [hpe] at h; cases h
    | some t2 =>
      obtain ⟨actOff, e2⟩ := t2
      rw [hpe] at h
      dsimp only at h ⊢
      cases hs : rib_sibling_loop buffer d max_len e2
          (get_buf_short (buffer.drop (4 + rib_prefix_len buffer)) - 1) actOff [] with
      | none => rw [hs] at h; cases h
      | some sibs =>
        rw [hs] at h
        cases h
        obtain ⟨sibs2, hs1, hs2, hs3, hs4⟩ := rib_sibling_loop_entries _ _ _ _ _ _ _ _ hs
        simp only [List.nil_append] at hs1
        subst hs1
        have hspec := rib_peer_entry_spec _ _ _ _ _ _ _ hpe
        have hoff : actOff = entry_offset_from buffer (4 + rib_prefix_len buffer + 2) 1 := by
          rw [hspec.1]
          rfl
        refine ⟨text, rfl, ⟨actOff, hpe⟩, hs2, ?_, ?_⟩
        · intro k r hk
          have := hs3 k r hk
          rw [hspec.1, entry_offset_from_shift] at this
          exact this
        · rw [hs4, hspec.1, entry_offset_from_shift, Nat.add_comm 1]
          rfl

theorem index_beyond_counter (bytes : List Nat) (n i : Nat)
    (h : (read_records n (File_buf_create bytes)).actPeerIdx ≤ i) :
    (read_records n (File_buf_create bytes)).index i = rib_peer_index_zero := by
  have hle := read_records_le (File_buf_create bytes) 0 n
  rw [Nat.zero_add] at hle
  exact hle.2.2.1 i h

theorem rib_peer_entry_plain (buffer : List Nat) (d : File_buf_t) (max_len actOff : Nat)
    (e0 : MRTentry) (hidx : get_buf_short (buffer.drop actOff) < 256)
    (hz : get_buf_short (buffer.drop (actOff + 2 + 4)) = 0)
    (hlen : actOff + 2 + 4 + 2 ≤ max_len) :
    rib_peer_entry buffer d max_len actOff e0
      = some (actOff + 2 + 4 + 2,
          { e0 with
            peer_asn := (d.index (get_buf_short (buffer.drop actOff))).asn,
            peerAddr := (d.index (get_buf_short (buffer.drop actOff))).addr.take 32 }) := by
  unfold rib_peer_entry
  dsimp only
  rw [hz, if_neg (by omega), if_neg (by omega), if_neg (by omega), if_neg (by omega)]
  unfold process_bgp_attributes
  rw [attr_loop]
  simp
  exact hlen

/-- **C36.** On a stream, a per-peer entry of a RIB entry whose peer index is
at or beyond the number of peers declared so far (and below 256, as every peer
index of a body that is decoded) gives a record with the peer ASN 0 and an
empty peer address.  The only test `process_bgp_rib_entry` makes on a peer
index is that it is below 256: a per-peer entry without attributes that lies
within the body is decoded for every peer index below 256, whatever the
directory holds. -/
theorem undeclared_peer_index (bytes : List Nat) (n : Nat) (buffer : List Nat)
    (entry : MRTentry) (max_len : Nat) :
    (∀ e chain,
      process_bgp_rib_entry buffer (read_records n (File_buf_create bytes)) entry max_len
        = some (e, chain) →
      ∀ k r, (e :: chain)[k]? = some r →
        (read_records n (File_buf_create bytes)).actPeerIdx ≤ rib_peer_index buffer k →
        rib_peer_index buffer k < 256 ∧ r.peer_asn = 0 ∧ r.peerAddr = []) ∧
    (∀ actOff e0, get_buf_short (buffer.drop actOff) < 256 →
      get_buf_short (buffer.drop (actOff + 2 + 4)) = 0 → actOff + 2 + 4 + 2 ≤ max_len →
      ∃ r, rib_peer_entry buffer (read_records n (File_buf_create bytes)) max_len actOff e0
        = some (actOff + 2 + 4 + 2, r)) := by
  constructor
  · intro e chain h
    obtain ⟨text, _, ⟨a, ha⟩, _, hsib, _⟩ := process_bgp_rib_entry_records _ _ _ _ _ _ h
    have key : ∀ (k a : Nat) (e0 r : MRTentry),
        rib_peer_entry buffer (read_records n (File_buf_create bytes)) max_len
          (rib_entry_offset buffer k) e0 = some (a, r) →
        (read_records n (File_buf_create bytes)).actPeerIdx ≤ rib_peer_index buffer k →
        rib_peer_index buffer k < 256 ∧ r.peer_asn = 0 ∧ r.peerAddr = [] := by
      intro k a e0 r hr hidx
      have hspec := rib_peer_entry_spec _ _ _ _ _ _ _ hr
      have hz := index_beyond_counter bytes n _ hidx
      unfold rib_peer_index at hz
      refine ⟨rib_peer_entry_index_lt _ _ _ _ _ _ _ hr, ?_, ?_⟩
      · rw [hspec.2.1, hz]
        rfl
      · rw [hspec.2.2.1, hz]
        rfl
    intro k r hk hidx
    cases k with
    | zero =>
      simp only [List.getElem?_cons_zero, Option.some.injEq] at hk
      subst hk
      exact key 0 a _ _ ha hidx
    | succ k =>
      simp only [List.getElem?_cons_succ] at hk
      obtain ⟨a2, hr⟩ := hsib k r hk
      exact key (k + 1) a2 _ _ hr hidx
  · intro actOff e0 hidx hz hlen
    exact ⟨_, rib_peer_entry_plain buffer _ max_len actOff e0 hidx hz hlen⟩

/-- C36 after a PEER_INDEX_TABLE that declares one peer: a RIB entry for the
peer index 5 is decoded with success, and the record has the peer ASN 0 and an
empty peer address. -/
theorem undeclared_peer_index_witness :
    (read_records 1 (File_buf_create one_peer_table_record)).actPeerIdx = 1 ∧
    process_bgp_rib_entry undeclared_peer_body
        (read_records 1 (File_buf_create one_peer_table_record)) scenario_d_entry 19
      = some ({ scenario_d_entry with pfxNLRI := ["2001:db8::/32".toList] }, []) ∧
    (rib_peer_index undeclared_peer_body 0 < 256 ∧
      ({ scenario_d_entry with pfxNLRI := ["2001:db8::/32".toList] } : MRTentry).peer_asn = 0 ∧
      ({ scenario_d_entry with pfxNLRI := ["2001:db8::/32".toList] } : MRTentry).peerAddr = []) :=
  ⟨by decide, by decide,
   (undeclared_peer_index one_peer_table_record 1 undeclared_peer_body scenario_d_entry 19).1
    { scenario_d_entry with pfxNLRI := ["2001:db8::/32".toList] } [] (by decide) 0
    { scenario_d_entry with pfxNLRI := ["2001:db8::/32".toList] } rfl (by decide)⟩

end MrtParser
